import Mathlib

/-!
# Table layout and rendering engine of go-console (`pkg/table`)

A shallow embedding of `pkg/table/table-render.go`.

Conventions of the embedding.

* A Go `string` is a list of code points (`Str`), so that
  `utf8.RuneCountInString` is `List.length` and `len(s) == 0` is `s = []`.
* A Go `int` is an `Int`; no quantity of the engine comes near the machine
  word size.
* A Go `map[int]V` used as a sparse, index-keyed container is a list of
  optional slots: slot `i` is `some v` when key `i` is bound.  Every such
  list denotes a map, `len(m)` is the number of bound slots, and the sorted
  keys are the bound positions in ascending order.
* Pointer mutation becomes explicit state passing: a method that mutates the
  renderer, the table or a row returns the updated value.
-/

namespace GoConsole

/-- Go strings, as lists of code points. -/
abbrev Str := List Char

/-! ## Data model (declared outside `table-render.go`) -/

/-- Modelled from the spec: the `PaddingType` enumeration of a cell
(`enum{Left,Right,Center,Default}`), declared with the table style. -/
inductive PaddingType where
  | PadDefault
  | PadLeft
  | PadRight
  | PadCenter
  deriving DecidableEq, Repr

/-- Modelled from the spec: the `TableCell` / `TableSeparator` pair behind
`TableCellInterface`.  A Separator is a distinguished variant of Cell, so it
answers `GetValue`, `GetColspan`, ... like any cell; `separator` records the
outcome of the type assertion `cell.(TableSeparatorInterface)`. -/
structure TableCell where
  value : Str
  colspan : Int
  rowspan : Int
  padType : PaddingType
  separator : Bool
  deriving DecidableEq, Repr

/-- Modelled from the spec: `NewTableCell(value)`, a plain cell with
colspan 1, rowspan 1 and the default padding. -/
def NewTableCell (value : Str) : TableCell :=
  { value := value, colspan := 1, rowspan := 1, padType := PaddingType.PadDefault,
    separator := false }

/-- Modelled from the spec: `NewTableSeparator()`, the Separator variant of a
cell, carrying no content. -/
def NewTableSeparator : TableCell :=
  { value := [], colspan := 1, rowspan := 1, padType := PaddingType.PadDefault,
    separator := true }

/-- Modelled from the spec: `TableCell.SetColspan`. -/
def TableCell.SetColspan (c : TableCell) (k : Int) : TableCell := { c with colspan := k }

/-- Modelled from the spec: `TableCell.SetValue`. -/
def TableCell.SetValue (c : TableCell) (v : Str) : TableCell := { c with value := v }

/-- Modelled from the spec: a `TableColumn`, a grid slot holding exactly one
Cell-or-Separator.  A column is never itself a Separator, so the assertion
`column.(TableSeparatorInterface)` of the source never succeeds. -/
structure TableColumn where
  cell : TableCell
  deriving DecidableEq, Repr

/-- Modelled from the spec: `NewTableColumn().SetCell(cell)`. -/
def NewTableColumn (cell : TableCell) : TableColumn := { cell := cell }

/-- Modelled from the spec: `MakeColumnFromString(s)`, a column holding a
plain cell of value `s`. -/
def MakeColumnFromString (s : Str) : TableColumn := NewTableColumn (NewTableCell s)

/-- Modelled from the spec: a `TableRow`, a sparse mapping from column index
to Column.  Slot `i` of `columns` is the column stored at index `i`; `none`
is a gap.  A row is never itself a Separator, so the assertion
`row.(TableSeparatorInterface)` of the source never succeeds. -/
structure TableRow where
  columns : List (Option TableColumn)
  deriving DecidableEq, Repr

/-- Modelled from the spec: `NewTableRow()`, the row with no column. -/
def NewTableRow : TableRow := { columns := [] }

/-- Modelled from the spec: `row.GetColumn(index)`; an absent lookup yields
`none` (Go `nil`) and does not fail. -/
def TableRow.GetColumn (row : TableRow) (index : Int) : Option TableColumn :=
  if index < 0 then none else (row.columns.get? index.toNat).join

/-- Bind slot `i` of a sparse list, padding with gaps when `i` is past the end. -/
def setSlot {α : Type} : List (Option α) → Nat → α → List (Option α)
  | [], 0, a => [some a]
  | [], i + 1, a => none :: setSlot [] i a
  | _ :: xs, 0, a => some a :: xs
  | x :: xs, i + 1, a => x :: setSlot xs i a

/-- Modelled from the spec: `row.SetColumn(index, column)`, binding `index`
and nothing else.  Indices are zero-based; a negative index binds nothing. -/
def TableRow.SetColumn (row : TableRow) (index : Int) (column : TableColumn) : TableRow :=
  if index < 0 then row else { columns := setSlot row.columns index.toNat column }

/-- Modelled from the spec: `row.GetColumns()`, the bound columns of the row
in ascending index order (only its size and its elements are used). -/
def TableRow.GetColumns (row : TableRow) : List TableColumn :=
  row.columns.filterMap id

/-- Bound positions of a sparse list, ascending, counted from `start`. -/
def boundKeys {α : Type} : List (Option α) → Nat → List Int
  | [], _ => []
  | none :: xs, start => boundKeys xs (start + 1)
  | some _ :: xs, start => (start : Int) :: boundKeys xs (start + 1)

/-- Modelled from the spec: `row.GetColumnsSortedKeys()`, the bound column
indices in ascending order. -/
def TableRow.GetColumnsSortedKeys (row : TableRow) : List Int :=
  boundKeys row.columns 0

/-- Modelled from the spec: `row.AddColumn(column)`, binding the index equal
to the number of columns stored so far. -/
def TableRow.AddColumn (row : TableRow) (column : TableColumn) : TableRow :=
  row.SetColumn (row.GetColumns.length : Int) column

/-- Modelled from the spec: a `TableData`, an ordered sequence of rows keyed
`0, 1, 2, ...` in order. -/
structure TableData where
  rows : List TableRow
  deriving DecidableEq, Repr

/-- Modelled from the spec: `NewTableData()`. -/
def NewTableData : TableData := { rows := [] }

/-- Modelled from the spec: `data.GetRowsAsList()`. -/
def TableData.GetRowsAsList (data : TableData) : List TableRow := data.rows

/-- Modelled from the spec: `data.GetRow(key)`, `none` when absent. -/
def TableData.GetRow (data : TableData) (key : Int) : Option TableRow :=
  if key < 0 then none else data.rows.get? key.toNat

/-- Modelled from the spec: `data.GetRowsSortedKeys()`. -/
def TableData.GetRowsSortedKeys (data : TableData) : List Int :=
  (List.range data.rows.length).map Int.ofNat

/-- Modelled from the spec: `data.AddRow(row)`, appending after the last row. -/
def TableData.AddRow (data : TableData) (row : TableRow) : TableData :=
  { rows := data.rows ++ [row] }

/-- Modelled from the spec: `MergeData(headers, rows)`, the header rows
followed by the body rows. -/
def MergeData (headers rows : TableData) : TableData :=
  { rows := headers.rows ++ rows.rows }

/-- Modelled from the spec: `helper.MaxInt`, the largest element of a slice
(0 for the empty slice, which no caller that matters here passes). -/
def MaxInt : List Int → Int
  | [] => 0
  | x :: xs => xs.foldl max x

/-- Modelled from the spec: `helper.RangeInt(a, b)`, the integers `a..b`
inclusive, empty when `b < a`. -/
def RangeInt (a b : Int) : List Int :=
  (List.range (b + 1 - a).toNat).map (fun (i : Nat) => a + (i : Int))

/-- The value a Go `int` holds for the mathematical result `x` of an
addition or subtraction: the 64-bit two's-complement wrap-around. -/
def wrapInt (x : Int) : Int :=
  (x + 9223372036854775808) % 18446744073709551616 - 9223372036854775808

/-- Modelled from the spec: `helper.Strlen`, the code-point length of a string. -/
def Strlen (s : Str) : Int := (s.length : Int)

/-! ## `fmt.Sprintf` with one string operand -/

/-- Scanner behind `Sprintf`: `used` tells whether the operand was consumed. -/
def sprintfAux (arg : Str) : Str → Bool → Str × Bool
  | [], used => ([], used)
  | '%' :: 's' :: rest, used =>
      let r := sprintfAux arg rest true
      ((if used then "%!s(MISSING)".toList else arg) ++ r.1, r.2)
  | '%' :: '%' :: rest, used =>
      let r := sprintfAux arg rest used
      ('%' :: r.1, r.2)
  | ['%'], used => ("%!(NOVERB)".toList, used)
  | c :: rest, used =>
      let r := sprintfAux arg rest used
      (c :: r.1, r.2)

/-- Go `fmt.Sprintf(format, arg)` for a string operand, on formats made of
literal text, `%%` and the `%s` verb (the formats a style carries): the first
`%s` is replaced by the operand, and an operand no verb consumed is reported
the way Go does. -/
def Sprintf (format arg : Str) : Str :=
  let r := sprintfAux arg format false
  if r.2 then r.1 else r.1 ++ "%!(EXTRA string=".toList ++ arg ++ ")".toList

/-! ## Style, formatter and renderer state -/

/-- Modelled from the spec: a `TableStyle` value object: the border
characters, the twelve crossing glyphs, the format strings and the default
padding. -/
structure TableStyle where
  horizontalOutsideBorderChar : Str
  horizontalInsideBorderChar : Str
  verticalOutsideBorderChar : Str
  verticalInsideBorderChar : Str
  crossingChar : Str
  crossingTopLeftChar : Str
  crossingTopMidChar : Str
  crossingTopRightChar : Str
  crossingMidRightChar : Str
  crossingBottomRightChar : Str
  crossingBottomMidChar : Str
  crossingBottomLeftChar : Str
  crossingMidLeftChar : Str
  crossingTopLeftBottomChar : Str
  crossingTopMidBottomChar : Str
  crossingTopRightBottomChar : Str
  cellHeaderFormat : Str
  cellRowFormat : Str
  cellRowContentFormat : Str
  borderFormat : Str
  paddingChar : Str
  padType : PaddingType
  deriving DecidableEq, Repr

/-- The decoration-aware text service reached through
`t.output.GetFormatter()`, an external collaborator: `strip` is
`helper.RemoveDecoration(formatter, ·)` and `findTags` is
`formatter.FindTagsInString`. -/
structure Formatter where
  strip : Str → Str
  findTags : Str → List (Nat × Str)

/-- Modelled from the spec: `helper.StrlenWithoutDecoration`, the code-point
length of the undecorated text. -/
def StrlenWithoutDecoration (f : Formatter) (s : Str) : Int := ((f.strip s).length : Int)

/-- Modelled from the spec: the `Table` handed to the renderer: header rows,
body rows, the two titles and the per-column padding overrides. -/
structure Table where
  headers : TableData
  rows : TableData
  headerTitle : Str
  footerTitle : Str
  columnsPadding : List (Int × PaddingType)

/-- Go `m[k]` on a `map[int]int`: the first binding of `k`, else 0. -/
def intMapGet (m : List (Int × Int)) (k : Int) : Int :=
  match m.find? (fun p => p.1 == k) with
  | some p => p.2
  | none => 0

/-- Go `m[k] = v` on a `map[int]int`. -/
def intMapSet (m : List (Int × Int)) (k v : Int) : List (Int × Int) :=
  (k, v) :: m.filter (fun p => !(p.1 == k))

/-- Modelled from the spec: `table.GetColumnPadding(column)`, the table-wide
padding of a column, `PadDefault` when none was set. -/
def Table.GetColumnPadding (c : Table) (column : Int) : PaddingType :=
  match c.columnsPadding.find? (fun p => p.1 == column) with
  | some p => p.2
  | none => PaddingType.PadDefault

/-- The `TableRender` struct.  `output` is the line sink, recorded as the
lines handed to `Writeln` so far, oldest first. -/
structure TableRender where
  content : Table
  output : List Str
  formatter : Formatter
  style : TableStyle
  columnsStyles : List (Int × TableStyle)
  columnsMinWidths : List (Int × Int)
  columnsMaxWidths : List (Int × Int)
  numberOfColumns : Int
  effectiveColumnWidths : List (Int × Int)

namespace TableRender

/-- `output.Writeln(message)` on the renderer's sink. -/
def Writeln (t : TableRender) (message : Str) : TableRender :=
  { t with output := t.output ++ [message] }

/-- `GetColumnStyle`: the column override when present, else the table style. -/
def GetColumnStyle (t : TableRender) (column : Int) : TableStyle :=
  match t.columnsStyles.find? (fun p => p.1 == column) with
  | some p => p.2
  | none => t.style

/-- `SetColumnMinWidth`. -/
def SetColumnMinWidth (t : TableRender) (column width : Int) : TableRender :=
  { t with columnsMinWidths := intMapSet t.columnsMinWidths column width }

/-- `GetColumnMinWidth`. -/
def GetColumnMinWidth (t : TableRender) (column : Int) : Int :=
  intMapGet t.columnsMinWidths column

/-- `SetColumnMaxWidth`. -/
def SetColumnMaxWidth (t : TableRender) (column width : Int) : TableRender :=
  { t with columnsMaxWidths := intMapSet t.columnsMaxWidths column width }

/-- `GetColumnMaxWidth`. -/
def GetColumnMaxWidth (t : TableRender) (column : Int) : Int :=
  intMapGet t.columnsMaxWidths column

/-- `setEffectiveColumnWidth`. -/
def setEffectiveColumnWidth (t : TableRender) (column width : Int) : TableRender :=
  { t with effectiveColumnWidths := intMapSet t.effectiveColumnWidths column width }

/-- `getEffectiveColumnWidth`. -/
def getEffectiveColumnWidth (t : TableRender) (column : Int) : Int :=
  intMapGet t.effectiveColumnWidths column

/-- `getNumberOfColumns(row)`: the number of stored columns plus
`colspan - 1` for each of them, in Go `int` arithmetic.  The guard
`column.(TableSeparatorInterface)` is asserted on the column, which is never
a Separator, so every stored column contributes, a Separator cell with its
own colspan. -/
def getNumberOfColumns (row : TableRow) : Int :=
  row.GetColumns.foldl
    (fun columns column => wrapInt (columns + wrapInt (column.cell.colspan - 1)))
    (row.GetColumns.length : Int)

/-- `calculateNumberOfColumns(data)`.  The guard `row.(TableSeparatorInterface)`
is asserted on the row, which is never a Separator, so no row is skipped. -/
def calculateNumberOfColumns (t : TableRender) (data : TableData) : TableRender :=
  if t.numberOfColumns != 0 then t
  else
    let columns := data.GetRowsAsList.foldl (fun columns row => columns ++ [getNumberOfColumns row]) [0]
    { t with numberOfColumns := MaxInt columns }

end TableRender

/-! ## Line renderer -/

/-- Ways a call of the model fails to return a value. -/
inductive Fault where
  /-- A Go run-time panic. -/
  | panic
  /-- The iteration budget given to a loop without a static bound ran out. -/
  | fuel
  deriving DecidableEq, Repr

/-- Computations that may panic or exhaust their iteration budget. -/
abbrev Run (α : Type) := Except Fault α

/-- Go `strings.Repeat(s, count)`: `count` copies of `s`; a negative count
panics. -/
def strRepeat (s : Str) (count : Int) : Run Str :=
  if count < 0 then throw Fault.panic else pure (List.replicate count.toNat s).flatten

/-- The `rowType` constants. -/
inductive rowType where
  | rowSimple
  | rowTop
  | rowDouble
  | rowBottom
  deriving DecidableEq, Repr

/-- The `columnType` constants. -/
inductive columnType where
  | columnInside
  | columnOutside
  deriving DecidableEq, Repr

/-- Filling used by `Pad`: `n` code points taken from the pad string repeated. -/
def padFill (padChar : Str) (n : Nat) : Str :=
  ((List.replicate n padChar).flatten).take n

/-- Modelled from the spec: `style.Pad(content, width, padChar, padType)`, the
pad routine of the style: content at least `width` code points long is
returned as is, shorter content is filled up to `width` code points with the
pad string, on the left for `PadLeft`, on both sides for `PadCenter` (the
odd one on the right) and on the right otherwise. -/
def TableStyle.Pad (_style : TableStyle) (content : Str) (width : Int) (padChar : Str)
    (padType : PaddingType) : Str :=
  let missing := (width - (content.length : Int)).toNat
  if missing = 0 ∨ padChar = [] then content
  else
    match padType with
    | PaddingType.PadLeft => padFill padChar missing ++ content
    | PaddingType.PadCenter =>
        padFill padChar (missing / 2) ++ content ++ padFill padChar (missing - missing / 2)
    | _ => content ++ padFill padChar missing

namespace TableRender

/-- First loop of `renderRowTitleSeparator`: copy the separator up to rune
index `separatorCropLeft`, then append the padded title and stop. -/
def titleHead (separatorCropLeft : Int) (paddedTitle : Str) : Str → Int → Str → Str
  | [], _, titleSeparator => titleSeparator
  | char :: rest, index, titleSeparator =>
      if index == separatorCropLeft then titleSeparator ++ paddedTitle
      else titleHead separatorCropLeft paddedTitle rest (index + 1) (titleSeparator ++ [char])

/-- Second loop of `renderRowTitleSeparator`: skip the runes of index below
`bound`, append the others. -/
def titleTail (bound : Int) : Str → Int → Str → Str
  | [], _, titleSeparator => titleSeparator
  | char :: rest, index, titleSeparator =>
      if index < bound then titleTail bound rest (index + 1) titleSeparator
      else titleTail bound rest (index + 1) (titleSeparator ++ [char])

/-- Horizontal character of a border line (`horizontalBorderChar` in
`getRowSeparator`): the outside one for top, bottom and double, the inside
one for simple. -/
def horizontalChar (style : TableStyle) : rowType → Str
  | rowType.rowTop => style.horizontalOutsideBorderChar
  | rowType.rowBottom => style.horizontalOutsideBorderChar
  | rowType.rowDouble => style.horizontalOutsideBorderChar
  | rowType.rowSimple => style.horizontalInsideBorderChar

/-- Left crossing glyph of a border line. -/
def crossingLeft (style : TableStyle) : rowType → Str
  | rowType.rowTop => style.crossingTopLeftChar
  | rowType.rowBottom => style.crossingBottomLeftChar
  | rowType.rowSimple => style.crossingMidLeftChar
  | rowType.rowDouble => style.crossingTopLeftBottomChar

/-- Right crossing glyph of a border line. -/
def crossingRight (style : TableStyle) : rowType → Str
  | rowType.rowTop => style.crossingTopRightChar
  | rowType.rowBottom => style.crossingBottomRightChar
  | rowType.rowSimple => style.crossingMidRightChar
  | rowType.rowDouble => style.crossingTopRightBottomChar

/-- Mid crossing glyph of a border line. -/
def crossingMid (style : TableStyle) : rowType → Str
  | rowType.rowTop => style.crossingTopMidChar
  | rowType.rowBottom => style.crossingBottomMidChar
  | rowType.rowSimple => style.crossingChar
  | rowType.rowDouble => style.crossingTopMidBottomChar

/-- `getRowSeparator(direction)`: the horizontal border line. -/
def getRowSeparator (t : TableRender) (direction : rowType) : Run Str :=
  let horizontalBorderChar := horizontalChar t.style direction
  let count := t.numberOfColumns
  if count == 0 then pure []
  else if horizontalBorderChar.length == 0 && t.style.crossingChar.length == 0 then pure []
  else do
    let markup ← (RangeInt 0 (count - 1)).foldlM
      (fun markup column => do
        let bar ← strRepeat horizontalBorderChar (t.getEffectiveColumnWidth column)
        if column == count - 1 then pure (markup ++ bar ++ crossingRight t.style direction)
        else pure (markup ++ bar ++ crossingMid t.style direction))
      (crossingLeft t.style direction)
    pure (Sprintf t.style.borderFormat markup)

/-- `renderRowSeparator(direction)`. -/
def renderRowSeparator (t : TableRender) (direction : rowType) : Run TableRender := do
  let separator ← t.getRowSeparator direction
  if separator.length == 0 then pure t else pure (t.Writeln separator)

/-- `renderRowTitleSeparator(title, direction)`. -/
def renderRowTitleSeparator (t : TableRender) (title : Str) (direction : rowType) :
    Run TableRender :=
  if title.length == 0 then t.renderRowSeparator direction
  else
    let count := t.numberOfColumns
    if count == 0 then pure t
    else
      let paddedTitle := Sprintf " %s ".toList title
      if t.style.horizontalOutsideBorderChar.length == 0 && t.style.crossingChar.length == 0 then
        pure (t.Writeln paddedTitle)
      else do
        let separator ← t.getRowSeparator direction
        let paddedTitleLength : Int := paddedTitle.length
        let separatorLength : Int := separator.length
        let separatorLengthCrop := separatorLength - paddedTitleLength
        let separatorCropLeft := Int.tdiv separatorLengthCrop 2
        let titleSeparator := titleHead separatorCropLeft paddedTitle separator 0 []
        let titleSeparator :=
          titleTail (separatorCropLeft + paddedTitleLength) separator 0 titleSeparator
        pure (t.Writeln titleSeparator)

/-- `renderColumnSeparator(direction)`. -/
def renderColumnSeparator (t : TableRender) (direction : columnType) : Str :=
  match direction with
  | columnType.columnOutside => Sprintf t.style.borderFormat t.style.verticalOutsideBorderChar
  | columnType.columnInside => Sprintf t.style.borderFormat t.style.verticalInsideBorderChar

/-- `getColumnSeparatorWidth()`. -/
def getColumnSeparatorWidth (t : TableRender) : Int :=
  ((Sprintf t.style.borderFormat t.style.verticalInsideBorderChar).length : Int)

/-- The cell `renderCell` works on: the stored one, or `NewTableCell("")` for
an absent column. -/
def cellAt (row : TableRow) (columnIndex : Int) : TableCell :=
  match row.GetColumn columnIndex with
  | none => NewTableCell []
  | some column => column.cell

/-- The local `width` of `renderCell` after the colspan loop: the effective
width of the column plus, for each further spanned column, the separator
width and that column's effective width. -/
def spannedWidth (t : TableRender) (cell : TableCell) (columnIndex : Int) : Int :=
  let width := t.getEffectiveColumnWidth columnIndex
  if cell.colspan > 1 then
    (RangeInt (columnIndex + 1) (columnIndex + cell.colspan - 1)).foldl
      (fun width nextColumn =>
        width + (t.getColumnSeparatorWidth + t.getEffectiveColumnWidth nextColumn))
      width
  else width

/-- The `width` argument `renderCell` hands to `style.Pad` for a cell that is
not a Separator. -/
def padWidth (t : TableRender) (cell : TableCell) (columnIndex : Int) : Int :=
  spannedWidth t cell columnIndex
    + (Strlen cell.value - StrlenWithoutDecoration t.formatter cell.value)

/-- `renderCell(row, columnIndex, cellFormat)`. -/
def renderCell (t : TableRender) (row : TableRow) (columnIndex : Int) (cellFormat : Str) :
    Run Str :=
  let cell := cellAt row columnIndex
  let style := t.GetColumnStyle columnIndex
  if cell.separator then do
    let bar ← strRepeat style.horizontalInsideBorderChar (spannedWidth t cell columnIndex)
    pure (Sprintf style.borderFormat bar)
  else
    let width := padWidth t cell columnIndex
    let content := Sprintf style.cellRowContentFormat cell.value
    let cellPad := cell.padType
    let cellPad :=
      if cellPad == PaddingType.PadDefault then t.content.GetColumnPadding columnIndex
      else cellPad
    let cellPad := if cellPad == PaddingType.PadDefault then style.padType else cellPad
    pure (Sprintf cellFormat (style.Pad content width style.paddingChar cellPad))

/-- The `for index := 0; index < t.numberOfColumns; { ... }` loop of
`renderRow`, from the given `index` and `rowContent`, with an iteration
budget (the index advances by the cell's colspan, which Go does not bound
below). -/
def renderRowLoop (t : TableRender) (row : TableRow) (cellFormat : Str) :
    Nat → Int → Str → Run Str
  | 0, index, rowContent =>
      if index < t.numberOfColumns then throw Fault.fuel else pure rowContent
  | fuel + 1, index, rowContent =>
      if index < t.numberOfColumns then
        match row.GetColumn index with
        | none => do
            let rendered ← t.renderCell row index cellFormat
            let separator :=
              if index == t.numberOfColumns - 1 then
                t.renderColumnSeparator columnType.columnOutside
              else t.renderColumnSeparator columnType.columnInside
            renderRowLoop t row cellFormat fuel (index + 1) (rowContent ++ rendered ++ separator)
        | some column =>
            let cell := column.cell
            if cell.separator then t.getRowSeparator rowType.rowSimple
            else do
              let rendered ← t.renderCell row index cellFormat
              let separator :=
                if index + (cell.colspan - 1) == t.numberOfColumns - 1 then
                  t.renderColumnSeparator columnType.columnOutside
                else t.renderColumnSeparator columnType.columnInside
              renderRowLoop t row cellFormat fuel (index + cell.colspan)
                (rowContent ++ rendered ++ separator)
      else pure rowContent

/-- `renderRow(row, cellFormat)`, with the iteration budget of its loop. -/
def renderRow (t : TableRender) (fuel : Nat) (row : TableRow) (cellFormat : Str) :
    Run TableRender :=
  if row.GetColumns.length == 0 then pure t
  else do
    let rowContent ←
      renderRowLoop t row cellFormat fuel 0 (t.renderColumnSeparator columnType.columnOutside)
    pure (t.Writeln rowContent)

end TableRender

/-! ## Layout engine -/

/-- Go `strings.ReplaceAll(s, old, new)` for a non-empty `old`, scanning `s`
from the left; `skip` counts the runes of a match still to be dropped. -/
def replaceAllAux (old new : Str) : Nat → Str → Str
  | _, [] => []
  | skip + 1, _ :: rest => replaceAllAux old new skip rest
  | 0, c :: rest =>
      if old.isPrefixOf (c :: rest) && old != [] then
        new ++ replaceAllAux old new (old.length - 1) rest
      else c :: replaceAllAux old new 0 rest

/-- Go `strings.ReplaceAll(s, old, new)` (for a non-empty `old`). -/
def replaceAll (s old new : Str) : Str := replaceAllAux old new 0 s

/-- Go `strings.Split(s, "\n")`. -/
def splitLines (s : Str) : List Str := s.splitOn '\n'

/-- The constant `"<fg=default;bg=default>\n</>"` that closes and reopens the
decoration around a line break. -/
def lineBreakMarkup : Str := "<fg=default;bg=default>\n</>".toList

/-- Go `m[k] = v` on an integer-keyed map kept as a key-ordered association
list. -/
def assocSet {β : Type} : List (Int × β) → Int → β → List (Int × β)
  | [], k, v => [(k, v)]
  | (k', v') :: rest, k, v =>
      if k < k' then (k, v) :: (k', v') :: rest
      else if k = k' then (k, v) :: rest
      else (k', v') :: assocSet rest k v

/-- Go `m[k]` with the comma-ok form on an integer-keyed map. -/
def assocGet {β : Type} (m : List (Int × β)) (k : Int) : Option β :=
  (m.find? (fun p => p.1 == k)).map Prod.snd

/-- Modelled from the spec: `helper.InsertNth(s, n, sep)`, which splits the
content at the width boundary: `sep` is inserted after every `n` code points
that are followed by more content.  `run` counts the code points since the
last boundary. -/
def insertNthAux (n : Int) (sep : Char) : Str → Int → Str
  | [], _ => []
  | [c], _ => [c]
  | c :: d :: rest, run =>
      if run + 1 == n then c :: sep :: insertNthAux n sep (d :: rest) 0
      else c :: insertNthAux n sep (d :: rest) (run + 1)

/-- Modelled from the spec: `helper.InsertNth(s, n, sep)`. -/
def InsertNth (s : Str) (n : Int) (sep : Char) : Str := insertNthAux n sep s 0

/-- The markers due at offset `pos` of the decorated original: the leading
markers whose position is at most `pos` are emitted, each moving the offset
past itself.  The result is the emitted text, the markers left and the new
offset. -/
def flushTags : List (Nat × Str) → Nat → Str × List (Nat × Str) × Nat
  | [], pos => ([], [], pos)
  | (p, tag) :: tags, pos =>
      if p ≤ pos then
        let r := flushTags tags (pos + tag.length)
        (tag ++ r.1, r.2.1, r.2.2)
      else ([], (p, tag) :: tags, pos)

/-- Walk of the wrapped undecorated text: before each rune that is not a
newline, the markers due at the current offset are emitted; the markers left
at the end are appended. -/
def insertTagsAux : Str → List (Nat × Str) → Nat → Str
  | [], tags, _ => (tags.map Prod.snd).flatten
  | c :: rest, tags, pos =>
      if c = '\n' then c :: insertTagsAux rest tags pos
      else
        let r := flushTags tags pos
        r.1 ++ c :: insertTagsAux rest r.2.1 (r.2.2 + 1)

/-- Modelled from the spec: `helper.InsertTagsIgnoringNewLines(raw, wrapped,
tags)`: the decoration markers found in the original value are re-inserted
into the wrapped undecorated text at their original character offsets,
positions that are now newlines being skipped. -/
def InsertTagsIgnoringNewLines (_raw wrapped : Str) (tags : List (Nat × Str)) : Str :=
  insertTagsAux wrapped tags 0

/-- Modelled from the spec: `helper.StrSplit(s, n)`, the chunks of `n` code
points of `s` in order (the last one may be shorter).  A chunk length below
1 is a fault; it arises only for a colspan below 1. -/
def StrSplit (s : Str) (n : Int) : Run (List Str) :=
  if n < 1 then throw Fault.panic else pure (s.toChunks n.toNat)

/-- Modelled from the spec: `helper.RowMapFill(start, count, row)`, the keys
`start .. start + count - 1`, each bound to an empty cell map. -/
def RowMapFill (start count : Int) : List (Int × List (Int × TableCell)) :=
  (RangeInt start (start + count - 1)).map (fun k => (k, []))

/-- Modelled from the spec: `helper.RowMapReplaceRecursive(filler, rows)`:
the bindings of `filler`, replaced key by key with those of `rows`. -/
def RowMapReplaceRecursive (filler rows : List (Int × List (Int × TableCell))) :
    List (Int × List (Int × TableCell)) :=
  rows.foldl (fun acc entry => assocSet acc entry.1 entry.2) filler

/-- Modelled from the spec: `MapCellSplice(cells, key, cell)`, the cell map
with `cell` inserted at position `key`. -/
def MapCellSplice (cells : List (Int × TableCell)) (key : Int) (cell : TableCell) :
    List (Int × TableCell) :=
  assocSet cells key cell

/-- Modelled from the spec: `MapRowSplice(rows, key, row)`, the rows with
`row` spliced in at position `key`, the following rows moving down. -/
def MapRowSplice (rows : List TableRow) (key : Int) (row : TableRow) : List TableRow :=
  rows.take key.toNat ++ row :: rows.drop key.toNat

/-- Replace the row stored under `key`, when there is one. -/
def TableData.setRow (data : TableData) (key : Int) (row : TableRow) : TableData :=
  if key < 0 then data else { rows := data.rows.set key.toNat row }

/-- The row `index` of the data with `f` applied to it (a mutation through
the row pointer). -/
def TableData.modifyRow (data : TableData) (key : Int) (f : TableRow → TableRow) : TableData :=
  match data.GetRow key with
  | some row => data.setRow key (f row)
  | none => data

/-- Modelled from the spec: `column.SetCell(cell)` through
`row.GetColumn(index)`: the cell of an existing column is replaced. -/
def TableRow.setCell (row : TableRow) (index : Int) (cell : TableCell) : TableRow :=
  match row.GetColumn index with
  | some _ => row.SetColumn index (NewTableColumn cell)
  | none => row

namespace TableRender

/-- `completeTableSeparator(data)`: for each column index from 1 up to the
column count and each row, a row whose column 0 holds a Separator gets a
fresh Separator at that index.  The rows are mutated in place; the mutated
data is returned. -/
def completeTableSeparator (t : TableRender) (data : TableData) : TableData :=
  (RangeInt 1 (t.numberOfColumns - 1)).foldl
    (fun data columnIndex =>
      data.GetRowsSortedKeys.foldl
        (fun data rowKey =>
          match data.GetRow rowKey with
          | none => data
          | some row =>
              match row.GetColumn 0 with
              | none => data
              | some firstColumn =>
                  if firstColumn.cell.separator then
                    data.setRow rowKey (row.SetColumn columnIndex (NewTableColumn NewTableSeparator))
                  else data)
        data)
    data

/-- The loop of `copyRow`.  `column` is the column object stored in the row:
its cell is first replaced by `NewTableCell("")`, and the colspan then read
through `column.GetCell()` for the second `SetCell` is the colspan of that
new cell.  The guard `column.(TableSeparatorInterface)` is asserted on the
column, which is never a Separator. -/
def blankRow (row : TableRow) : TableRow :=
  row.GetColumnsSortedKeys.foldl
    (fun (row : TableRow) columnIndex =>
      let row := row.setCell columnIndex (NewTableCell [])
      match row.GetColumn columnIndex with
      | none => row
      | some column =>
          row.setCell columnIndex ((NewTableCell []).SetColspan column.cell.colspan))
    row

/-- `copyRow(rows, line)`: the row at `line` is blanked in place and
returned; a missing row is a nil dereference. -/
def copyRow (rows : TableData) (line : Int) : Run (TableData × TableRow) :=
  match rows.GetRow line with
  | none => throw Fault.panic
  | some row => pure (rows.setRow line (blankRow row), blankRow row)

/-- The `for unmergedRowKey := range unmergedRows` loop inside the rowspan
branch of `fillNextRows`: the line of index `unmergedRowKey - line` is read
(an index outside `lines` panics) and stored as a cell at `columnIndex`; the
loop stops after the key `line + nbLines`.  Go leaves the order of a map
range open; the keys are taken in ascending order here. -/
def fillReserved (line nbLines columnIndex colspan : Int) (lines : List Str) :
    List (Int × List (Int × TableCell)) → List (Int × List (Int × TableCell)) →
    Run (List (Int × List (Int × TableCell)))
  | [], unmergedRows => pure unmergedRows
  | (unmergedRowKey, _) :: rest, unmergedRows =>
      let index := unmergedRowKey - line
      if index < 0 then throw Fault.panic
      else
        match lines.get? index.toNat with
        | none => throw Fault.panic
        | some text =>
            let value := if text != [] then text else []
            let cells := (assocGet unmergedRows unmergedRowKey).getD []
            let unmergedRows := assocSet unmergedRows unmergedRowKey
              (assocSet cells columnIndex ((NewTableCell value).SetColspan colspan))
            if nbLines == unmergedRowKey - line then pure unmergedRows
            else fillReserved line nbLines columnIndex colspan lines rest unmergedRows

/-- Body of the first loop of `fillNextRows` for the column `columnIndex` of
the row at `line`: a cell with rowspan above 1 whose value holds a line break
reserves the rows below. -/
def reserveRows (data : TableData) (line : Int) (row : TableRow)
    (state : TableData × List (Int × List (Int × TableCell))) (columnIndex : Int) :
    Run (TableData × List (Int × List (Int × TableCell))) :=
  match row.GetColumn columnIndex with
  | none => pure state
  | some column =>
      let cell := column.cell
      if cell.separator then pure state
      else if cell.rowspan > 1 then
        let nbLines := cell.rowspan - 1
        if '\n' ∈ cell.value then
          let lines := splitLines (replaceAll "\n".toList lineBreakMarkup cell.value)
          let grown : Bool := (lines.length : Int) > nbLines
          let nbLines := if grown then ((splitLines cell.value).length : Int) else nbLines
          let data :=
            if grown then
              data.modifyRow line (fun r =>
                r.setCell columnIndex ((NewTableCell (lines.headD [])).SetColspan cell.colspan))
            else data
          let lines := if grown then lines.tail else lines
          let filler := RowMapFill (line + 1) nbLines
          let unmergedRows := RowMapReplaceRecursive filler state.2
          do
            let unmergedRows ←
              fillReserved line nbLines columnIndex cell.colspan lines unmergedRows unmergedRows
            pure (data, unmergedRows)
        else pure state
      else pure state

/-- First loop of `fillNextRows`: for every cell of the row at `line` with
rowspan above 1 whose value holds a line break, reserve the rows below. -/
def fillNextRowsScan (data : TableData) (line : Int) (row : TableRow) :
    Run (TableData × List (Int × List (Int × TableCell))) :=
  row.GetColumnsSortedKeys.foldlM (reserveRows data line row) (data, [])

/-- Body of the `for unmergedRowKey, unmergedRow := range unmergedRows` loop
of `fillNextRows`: the reserved cells of `entry` are set into the row stored
under its key, or into the row `copyRow` returns, which is then spliced in at
the key.  `copyRow` returns the row object stored under the previous key, so
the reserved cells land in that row and the same row stands at both keys.
The state is the pair of the caller's data and the returned copy. -/
def placeReserved (t : TableRender) (state : TableData × TableData)
    (entry : Int × List (Int × TableCell)) : Run (TableData × TableData) :=
  let unmergedRowKey := entry.1
  let unmergedRow := entry.2
  let fits : Bool :=
    match state.2.GetRow unmergedRowKey with
    | some row => wrapInt (getNumberOfColumns row + getNumberOfColumns row) ≤ t.numberOfColumns
    | none => false
  if fits then
    let merge := fun (r : TableRow) =>
      unmergedRow.foldl
        (fun r keyed =>
          (MapCellSplice unmergedRow keyed.1 keyed.2).foldl
            (fun r placed => r.SetColumn placed.1 (NewTableColumn placed.2)) r)
        r
    pure (state.1.modifyRow unmergedRowKey merge, state.2.modifyRow unmergedRowKey merge)
  else do
    let copied ← copyRow state.2 (unmergedRowKey - 1)
    let place := fun (r : TableRow) =>
      unmergedRow.foldl
        (fun (r : TableRow) placed => r.SetColumn placed.1 (NewTableColumn placed.2)) r
    let row := place copied.2
    pure (state.1.modifyRow (unmergedRowKey - 1) (fun r => place (blankRow r)),
      { rows := MapRowSplice (copied.1.setRow (unmergedRowKey - 1) row).rows unmergedRowKey row })

/-- `fillNextRows(data, line)`.  The result is the pair of the caller's data
after the in-place mutations and the returned copy, which alone receives the
spliced rows. -/
def fillNextRows (t : TableRender) (data : TableData) (line : Int) :
    Run (TableData × TableData) :=
  match data.GetRow line with
  | none => throw Fault.panic
  | some row => do
      let scanned ← fillNextRowsScan data line row
      scanned.2.foldlM (placeReserved t) (scanned.1, scanned.1)

/-- `fillCells(row)`: the columns of the row, re-added one after the other
to a fresh row. -/
def fillCells (row : TableRow) : TableRow :=
  let newRow := row.GetColumnsSortedKeys.foldl
    (fun (newRow : TableRow) columnIndex =>
      match row.GetColumn columnIndex with
      | none => newRow
      | some column => newRow.AddColumn (NewTableColumn column.cell))
    NewTableRow
  if newRow.GetColumns.length > 0 then newRow else row

/-- The width threshold `maxWidth` of `buildTableRows` for a cell at
`columnIndex`, once the configured maximum width of the column is positive. -/
def wrapThreshold (t : TableRender) (cell : TableCell) (columnIndex : Int) : Int :=
  let maxWidth := t.GetColumnMaxWidth columnIndex
  if cell.colspan > 1 then
    (RangeInt 0 (cell.colspan - 1)).foldl
      (fun maxWidth i =>
        maxWidth + (t.GetColumnMaxWidth (columnIndex + i) + t.getColumnSeparatorWidth))
      (maxWidth + t.getColumnSeparatorWidth)
  else maxWidth

/-- The "managing column max width" block of `buildTableRows`: the cell with
its value re-wrapped when it is longer than the threshold. -/
def wrapCell (t : TableRender) (cell : TableCell) (columnIndex : Int) : TableCell :=
  if t.GetColumnMaxWidth columnIndex > 0 then
    let maxWidth := wrapThreshold t cell columnIndex
    let cellValue := cell.value
    let cellRawValue := t.formatter.strip cellValue
    let cellRawWidth : Int := cellRawValue.length
    if cellRawWidth > maxWidth then
      let newValue :=
        if cellValue == cellRawValue then InsertNth cellRawValue maxWidth '\n'
        else
          InsertTagsIgnoringNewLines cellRawValue (InsertNth cellRawValue maxWidth '\n')
            (t.formatter.findTags cellValue)
      cell.SetValue newValue
    else cell
  else cell

/-- The lines a cell value is cut into by `buildTableRows`:
`strings.Split(strings.ReplaceAll(value, "\n", "<fg=default;bg=default>\n</>"), "\n")`. -/
def cellLines (value : Str) : List Str :=
  splitLines (replaceAll value "\n".toList lineBreakMarkup)

/-- The per-column body of the first loop of `buildTableRows`, on the row
`rowKey`: wrap the cell, then cut a multi-line value into its first line
(kept in the row) and the further lines (collected in `unmergedRows` under
`rowKey`, line number and column). -/
def buildColumn (t : TableRender) (rowKey columnIndex : Int)
    (state : TableData × List (Int × List (Int × List (Int × TableCell)))) :
    TableData × List (Int × List (Int × List (Int × TableCell))) :=
  match (state.1.GetRow rowKey).bind (fun row => row.GetColumn columnIndex) with
  | none => state
  | some column =>
      let cell := wrapCell t column.cell columnIndex
      let data := state.1.modifyRow rowKey (fun r => r.setCell columnIndex cell)
      if '\n' ∈ cell.value then
        let lines := cellLines cell.value
        let newCell := fun (line : Str) =>
          if cell.separator then NewTableCell line
          else (NewTableCell line).SetColspan cell.colspan
        let data := data.modifyRow rowKey (fun r => r.setCell columnIndex (newCell (lines.headD [])))
        let unmergedRows := (lines.tail.enum).foldl
          (fun (unmergedRows : List (Int × List (Int × List (Int × TableCell)))) keyed =>
            let lineKey : Int := (keyed.1 : Int) + 1
            let byLine := (assocGet unmergedRows rowKey).getD []
            let byColumn := (assocGet byLine lineKey).getD []
            assocSet unmergedRows rowKey
              (assocSet byLine lineKey (assocSet byColumn columnIndex (newCell keyed.2))))
          state.2
        (data, unmergedRows)
      else (data, state.2)

/-- Body of the first loop of `buildTableRows` for the row `rowKey`: the
rows reserved by `fillNextRows`, then the per-column body over the columns
of the row. -/
def buildRow (t : TableRender)
    (state : TableData × List (Int × List (Int × List (Int × TableCell)))) (rowKey : Int) :
    Run (TableData × List (Int × List (Int × List (Int × TableCell)))) := do
  let filled ← t.fillNextRows state.1 rowKey
  let keys := match filled.1.GetRow rowKey with
    | some row => row.GetColumnsSortedKeys
    | none => []
  pure (keys.foldl (fun state columnIndex => buildColumn t rowKey columnIndex state)
    (filled.1, state.2))

/-- Body of the second loop of `buildTableRows` for the row `rowKey`: the
row, passed through `fillCells`, is added to the table rows, followed by one
new row per further line number collected for it. -/
def addExpanded (data : TableData)
    (unmergedRows : List (Int × List (Int × List (Int × TableCell))))
    (tableRows : TableData) (rowKey : Int) : TableData :=
  match data.GetRow rowKey with
  | none => tableRows
  | some row =>
      let tableRows := tableRows.AddRow (fillCells row)
      match assocGet unmergedRows rowKey with
      | none => tableRows
      | some byLine =>
          byLine.foldl
            (fun (tableRows : TableData) entry =>
              tableRows.AddRow
                (entry.2.foldl
                  (fun (newRow : TableRow) placed =>
                    newRow.SetColumn placed.1 (NewTableColumn placed.2))
                  NewTableRow))
            tableRows

/-- `buildTableRows(data)`.  The result is the pair of the caller's data
after the in-place mutations and the returned, expanded table rows. -/
def buildTableRows (t : TableRender) (data : TableData) : Run (TableData × TableData) := do
  let built ← data.GetRowsSortedKeys.foldlM (buildRow t) (data, [])
  let data := built.1
  let unmergedRows := built.2
  let tableRows := data.GetRowsSortedKeys.foldl (addExpanded data unmergedRows) NewTableData
  pure (data, tableRows)

/-- `getCellWidth(row, columnIndex)`. -/
def getCellWidth (t : TableRender) (rows : TableRow) (columnIndex : Int) : Int :=
  let cellWidth :=
    match rows.GetColumn columnIndex with
    | some column => StrlenWithoutDecoration t.formatter column.cell.value
    | none => 0
  if cellWidth > t.GetColumnMinWidth columnIndex then cellWidth
  else t.GetColumnMinWidth columnIndex

/-- Body of the inner `for _, i := range row.GetColumnsSortedKeys()` loop of
`calculateColumnsWidth`: a cell with text that is not a Separator is
replaced by plain columns holding the even chunks of its undecorated text,
of `ceil(length / colspan)` code points each, stored from index `i` on.  A
colspan below 1 makes that chunk length infinite, zero or negative; the
model faults there. -/
def splitSpan (t : TableRender) (row : TableRow) (i : Int) : Run TableRow :=
  match row.GetColumn i with
  | none => pure row
  | some column =>
      let cell := column.cell
      if cell.separator then pure row
      else
        let textContent := t.formatter.strip cell.value
        let textLenght : Int := textContent.length
        if textLenght > 0 then
          if cell.colspan < 1 then throw Fault.panic
          else
            match StrSplit textContent ((textLenght + cell.colspan - 1) / cell.colspan) with
            | .error fault => throw fault
            | .ok contentColumns =>
                pure (contentColumns.enum.foldl
                  (fun (row : TableRow) keyed =>
                    row.SetColumn (i + (keyed.1 : Int)) (MakeColumnFromString keyed.2))
                  row)
        else pure row

/-- The inner `for _, i := range row.GetColumnsSortedKeys()` loop of
`calculateColumnsWidth`, over the keys the row has when the loop starts. -/
def splitSpans (t : TableRender) (row : TableRow) : Run TableRow :=
  row.GetColumnsSortedKeys.foldlM (splitSpan t) row

/-- Body of the `for _, rowKey := range data.GetRowsSortedKeys()` loop of
`calculateColumnsWidth` for the column `columnIndex`: the row is split in
place and its cell width at `columnIndex` is appended to `lengths`. -/
def measureRow (t : TableRender) (columnIndex : Int) (acc : TableData × List Int)
    (rowKey : Int) : Run (TableData × List Int) :=
  match acc.1.GetRow rowKey with
  | none => pure acc
  | some row =>
      match splitSpans t row with
      | .error fault => throw fault
      | .ok row => pure (acc.1.setRow rowKey row, acc.2 ++ [getCellWidth t row columnIndex])

/-- Body of the `for columnIndex := 0; columnIndex < t.numberOfColumns`
loop of `calculateColumnsWidth`. -/
def measureColumn (state : TableRender × TableData) (columnIndex : Int) :
    Run (TableRender × TableData) :=
  match state.2.GetRowsSortedKeys.foldlM (measureRow state.1 columnIndex) (state.2, []) with
  | .error fault => throw fault
  | .ok scanned =>
      pure (state.1.setEffectiveColumnWidth columnIndex
          (wrapInt
            (wrapInt (MaxInt scanned.2 + (state.1.style.cellRowContentFormat.length : Int)) - 2)),
        scanned.1)

/-- `calculateColumnsWidth(data)`.  The rows of `data` are mutated in place;
the result is the renderer with its effective widths and the mutated data. -/
def calculateColumnsWidth (t : TableRender) (data : TableData) :
    Run (TableRender × TableData) :=
  (RangeInt 0 (t.numberOfColumns - 1)).foldlM measureColumn (t, data)

/-- `cleanup()`. -/
def cleanup (t : TableRender) : TableRender :=
  { t with effectiveColumnWidths := [], numberOfColumns := 0 }

end TableRender

namespace TableRender

/-- `Render()`, with the iteration budget handed to each `renderRow`.
`MergeData` shares the rows of the table, which the layout stages mutate in
place, so the merged data is re-read from the mutated header and body rows
and the table of the renderer is updated with them. -/
def Render (t : TableRender) (fuel : Nat) : Run TableRender := do
  let headerCount := t.content.headers.rows.length
  let mergedData := MergeData t.content.headers t.content.rows
  let t := t.calculateNumberOfColumns mergedData
  let mergedData := t.completeTableSeparator mergedData
  let rows : TableData := { rows := mergedData.rows.drop headerCount }
  let headers : TableData := { rows := mergedData.rows.take headerCount }
  let builtRows ← t.buildTableRows rows
  let rowsData := builtRows.2
  let builtHeaders ← t.buildTableRows headers
  let headersData := builtHeaders.2
  let measured ← t.calculateColumnsWidth (MergeData builtHeaders.1 builtRows.1)
  let t : TableRender :=
    { measured.1 with
      content :=
        { measured.1.content with
          headers := { rows := measured.2.rows.take headerCount }
          rows := { rows := measured.2.rows.drop headerCount } } }
  let t ← t.renderRowTitleSeparator t.content.headerTitle rowType.rowTop
  let t ←
    if headersData.rows.length > 0 then
      headersData.GetRowsSortedKeys.foldlM
        (fun (t : TableRender) index =>
          match headersData.GetRow index with
          | none => throw Fault.panic
          | some header => do
              let t ← t.renderRow fuel header t.style.cellHeaderFormat
              if rowsData.rows.length != 0 then t.renderRowSeparator rowType.rowDouble
              else t.renderRowTitleSeparator t.content.footerTitle rowType.rowBottom)
        t
    else pure t
  let t ← rowsData.GetRowsSortedKeys.foldlM
    (fun (t : TableRender) index =>
      match rowsData.GetRow index with
      | none => throw Fault.panic
      | some row => t.renderRow fuel row t.style.cellRowFormat)
    t
  let t ←
    if rowsData.rows.length > 0 then
      t.renderRowTitleSeparator t.content.footerTitle rowType.rowBottom
    else pure t
  pure t.cleanup

end TableRender

/-! ## Sample values -/

/-- A formatter for text without decoration: nothing to strip, no marker. -/
def plainFormatter : Formatter := { strip := fun s => s, findTags := fun _ => [] }

/-- A style with one-character ASCII borders (`-`, `|`, `+`), the cell
content format `" %s "` and right padding with blanks. -/
def asciiStyle : TableStyle :=
  { horizontalOutsideBorderChar := ['-'], horizontalInsideBorderChar := ['-'],
    verticalOutsideBorderChar := ['|'], verticalInsideBorderChar := ['|'],
    crossingChar := ['+'], crossingTopLeftChar := ['+'], crossingTopMidChar := ['+'],
    crossingTopRightChar := ['+'], crossingMidRightChar := ['+'],
    crossingBottomRightChar := ['+'], crossingBottomMidChar := ['+'],
    crossingBottomLeftChar := ['+'], crossingMidLeftChar := ['+'],
    crossingTopLeftBottomChar := ['+'], crossingTopMidBottomChar := ['+'],
    crossingTopRightBottomChar := ['+'],
    cellHeaderFormat := ['%', 's'], cellRowFormat := ['%', 's'],
    cellRowContentFormat := [' ', '%', 's', ' '], borderFormat := ['%', 's'],
    paddingChar := [' '], padType := PaddingType.PadRight }

/-- A table made of the given header and body rows, without titles. -/
def tableOf (headers body : List TableRow) : Table :=
  { headers := { rows := headers }, rows := { rows := body }, headerTitle := [],
    footerTitle := [], columnsPadding := [] }

/-- A fresh renderer over `content`: the given style, no width constraint, no
line written, no transient state. -/
def renderOf (style : TableStyle) (content : Table) : TableRender :=
  { content := content, output := [], formatter := plainFormatter, style := style,
    columnsStyles := [], columnsMinWidths := [], columnsMaxWidths := [],
    numberOfColumns := 0, effectiveColumnWidths := [] }

/-- A row storing plain cells of the given values at indices `0, 1, ...`. -/
def rowOf (values : List Str) : TableRow :=
  { columns := values.map (fun v => some (NewTableColumn (NewTableCell v))) }

/-! ## Column count: specification side -/

/-- The occupied-slot count of a row as the specification words it: the
number of columns stored in the row plus the sum of `colspan - 1` over the
row's cells. -/
def occupiedSlots (row : TableRow) : Int :=
  (row.GetColumns.length : Int) + (row.GetColumns.map (fun column => column.cell.colspan - 1)).sum

/-- The number `n` is the maximum of the list `l`, and 0 when `l` is empty. -/
def IsMaxOrZero (n : Int) (l : List Int) : Prop :=
  (l = [] → n = 0) ∧ (l ≠ [] → n ∈ l ∧ ∀ x ∈ l, x ≤ n)

/-! ## Cell width: specification side -/

/-- The pad width of a cell at column `c` as the specification words it: the
effective width of `c`, plus the separator width and the effective width of
each of the `colspan - 1` further columns the cell spans, plus the decorated
length of the value minus its undecorated length. -/
def specPadWidth (t : TableRender) (cell : TableCell) (c : Int) : Int :=
  t.getEffectiveColumnWidth c
    + ((List.range (cell.colspan - 1).toNat).map
        (fun (j : Nat) => t.getColumnSeparatorWidth + t.getEffectiveColumnWidth (c + 1 + (j : Int)))).sum
    + (Strlen cell.value - StrlenWithoutDecoration t.formatter cell.value)

/-- A renderer over an empty table with the given effective widths and the
ASCII style. -/
def measuredRender (columnCount : Int) (widths : List (Int × Int)) : TableRender :=
  { renderOf asciiStyle (tableOf [] []) with
    numberOfColumns := columnCount, effectiveColumnWidths := widths }

/-- A row with a gap at index 0 and one colspan-2 cell at index 1. -/
def spanningRow : TableRow :=
  { columns := [none, some (NewTableColumn ((NewTableCell "Divine Comedy / Dante".toList).SetColspan 2))] }

/-- A row with a gap at index 0 and one plain cell at index 1. -/
def sparseRow : TableRow :=
  { columns := [none, some (NewTableColumn (NewTableCell ['x']))] }

/-- A row whose first cell has the largest colspan a Go `int` holds, followed
by one plain cell: its occupied-slot count is 2^63. -/
def hugeSpanRow : TableRow :=
  { columns := [some (NewTableColumn ((NewTableCell ['a']).SetColspan 9223372036854775807)),
                some (NewTableColumn (NewTableCell ['b']))] }

/-- A row with one colspan-2 cell at index 0, a gap at index 1 and one plain
cell at index 2. -/
def spanThenCellRow : TableRow :=
  { columns := [some (NewTableColumn ((NewTableCell ['a']).SetColspan 2)), none,
                some (NewTableColumn (NewTableCell ['b']))] }

/-! ## Separator propagation: specification side -/

/-- What one pass of `completeTableSeparator` at `columnIndex` does to a
single row: a row led by a Separator gets a Separator at `columnIndex`. -/
def sepStep (columnIndex : Int) (row : TableRow) : TableRow :=
  match row.GetColumn 0 with
  | none => row
  | some firstColumn =>
      if firstColumn.cell.separator then row.SetColumn columnIndex (NewTableColumn NewTableSeparator)
      else row


/-- A row holding a Separator at column 0 and a plain cell at column 1. -/
def separatorLedRow : TableRow :=
  { columns := [some (NewTableColumn NewTableSeparator), some (NewTableColumn (NewTableCell ['x']))] }

/-! ## Border lines: specification side -/

/-- The part of a border line that belongs to one column: the horizontal
character repeated over the column's effective width, then the right
crossing glyph after the last column and the mid crossing glyph otherwise. -/
def borderPiece (t : TableRender) (direction : rowType) (column : Int) : Str :=
  (List.replicate (t.getEffectiveColumnWidth column).toNat (TableRender.horizontalChar t.style direction)).flatten
    ++ (if column = t.numberOfColumns - 1 then TableRender.crossingRight t.style direction
        else TableRender.crossingMid t.style direction)

/-- The border line of a direction, built left to right: left crossing glyph,
the piece of each column, the whole wrapped in the border format. -/
def borderLine (t : TableRender) (direction : rowType) : Str :=
  Sprintf t.style.borderFormat
    (TableRender.crossingLeft t.style direction
      ++ ((RangeInt 0 (t.numberOfColumns - 1)).map (borderPiece t direction)).flatten)

/-! ## Column widths: specification side and sample values -/

/-- Every stored cell has colspan at least 1. -/
def SpansOK (row : TableRow) : Prop :=
  ∀ j column, row.GetColumn j = some column → 1 ≤ column.cell.colspan


/-- A renderer over an empty table with the given style, column count and
configured minimum widths. -/
def constrainedRender (style : TableStyle) (columnCount : Int) (minWidths : List (Int × Int)) :
    TableRender :=
  { renderOf style (tableOf [] []) with
    numberOfColumns := columnCount, columnsMinWidths := minWidths }

/-- The ASCII style with an empty cell content format. -/
def formatlessStyle : TableStyle := { asciiStyle with cellRowContentFormat := [] }

/-- A header of two cells over two body rows, the first of which holds a
rowspan-3 cell of value `A\nB\nC` next to a single-line cell. -/
def rowspanTable : Table :=
  tableOf [rowOf [['H', '1'], ['H', '2']]]
    [{ columns :=
        [some (NewTableColumn { NewTableCell "A\nB\nC".toList with rowspan := 3 }),
         some (NewTableColumn (NewTableCell ['x']))] },
     rowOf [['y'], ['z']]]

/-! ## Line width: specification side -/

/-- The printable width of a rendered line as the specification words it:
2 for the outside borders, the effective widths of the columns, and one
vertical separator between neighbouring columns. -/
def lineWidth (t : TableRender) : Int :=
  2 + ((List.range t.numberOfColumns.toNat).map
        (fun (c : Nat) => t.getEffectiveColumnWidth (c : Int))).sum
    + (t.numberOfColumns - 1) * t.getColumnSeparatorWidth

/-- Width of `k` neighbouring columns from `i` on, each with one inside
separator after it. -/
def widthFrom (t : TableRender) : Int → Nat → Int
  | _, 0 => 0
  | i, k + 1 => (t.getEffectiveColumnWidth i + t.getColumnSeparatorWidth) + widthFrom t (i + 1) k

/-- The borders of the style are regular: the border format is `%s`, the
outside vertical character and, in every direction, the horizontal
character and the left and right crossing glyphs are one code point wide,
and the mid crossing glyph is as wide as the column separator. -/
def RegularBorders (t : TableRender) : Prop :=
  t.style.borderFormat = ['%', 's']
    ∧ t.style.verticalOutsideBorderChar.length = 1
    ∧ ∀ direction : rowType,
        (TableRender.horizontalChar t.style direction).length = 1
          ∧ (TableRender.crossingLeft t.style direction).length = 1
          ∧ (TableRender.crossingRight t.style direction).length = 1
          ∧ ((TableRender.crossingMid t.style direction).length : Int) = t.getColumnSeparatorWidth

/-- The row fits the measured columns: every stored cell is an undecorated
cell that is not a Separator, spans at least one column, ends within the
column count and has formatted content no longer than the columns it spans;
an empty cell fits in every column the row leaves free; the pad strings are
not empty. -/
def RowFits (t : TableRender) (row : TableRow) : Prop :=
  (∀ i column, row.GetColumn i = some column →
      column.cell.separator = false ∧ 1 ≤ column.cell.colspan
        ∧ i + column.cell.colspan ≤ t.numberOfColumns
        ∧ StrlenWithoutDecoration t.formatter column.cell.value = Strlen column.cell.value
        ∧ ((Sprintf (t.GetColumnStyle i).cellRowContentFormat column.cell.value).length : Int)
            ≤ TableRender.spannedWidth t column.cell i
        ∧ (t.GetColumnStyle i).paddingChar ≠ [])
    ∧ (∀ i, 0 ≤ i → i < t.numberOfColumns → row.GetColumn i = none →
        StrlenWithoutDecoration t.formatter [] = 0
          ∧ ((Sprintf (t.GetColumnStyle i).cellRowContentFormat []).length : Int)
              ≤ t.getEffectiveColumnWidth i
          ∧ (t.GetColumnStyle i).paddingChar ≠ [])

/-- A table of one header row `a` under the header title `Tabl`. -/
def longTitleTable : Table :=
  { tableOf [rowOf [['a']]] [] with headerTitle := "Tabl".toList }

/-! ## Wrapping: specification side -/

/-- The marker closing the decoration at the end of a line. -/
def closeMarkup : Str := "<fg=default;bg=default>".toList

/-- The marker reopening the decoration at the start of the next line. -/
def reopenMarkup : Str := "</>".toList

/-- The line segments as cells carry them: every segment but the first
starts with the reopening marker, every segment but the last ends with the
closing marker. -/
def markSegments : Bool → List Str → List Str
  | _, [] => []
  | first, [s] => [(if first then [] else reopenMarkup) ++ s]
  | first, s :: next :: rest =>
      ((if first then [] else reopenMarkup) ++ s ++ closeMarkup)
        :: markSegments false (next :: rest)

/-- A renderer over an empty table with the ASCII style and the given
configured maximum widths. -/
def wrappingRender (maxWidths : List (Int × Int)) : TableRender :=
  { renderOf asciiStyle (tableOf [] []) with columnsMaxWidths := maxWidths }

/-! ## Configuration setters taking a whole map -/

/-- `SetColumnsMinWidths(widths)`: the minimum widths are reset, then every
binding of `widths` is stored with `SetColumnMinWidth`. -/
def TableRender.SetColumnsMinWidths (t : TableRender) (widths : List (Int × Int)) : TableRender :=
  widths.foldl (fun (t : TableRender) binding => t.SetColumnMinWidth binding.1 binding.2)
    { t with columnsMinWidths := [] }

/-- `SetColumnsMaxWidths(widths)`: the maximum widths are reset, then every
binding of `widths` is stored with `SetColumnMinWidth`, as the source has it. -/
def TableRender.SetColumnsMaxWidths (t : TableRender) (widths : List (Int × Int)) : TableRender :=
  widths.foldl (fun (t : TableRender) binding => t.SetColumnMinWidth binding.1 binding.2)
    { t with columnsMaxWidths := [] }

/-- `SetContent(content)`. -/
def TableRender.SetContent (t : TableRender) (content : Table) : TableRender :=
  { t with content := content }

/-! ## Wrap threshold: specification side -/

/-- The width threshold of a spanning cell as the specification words it: the
configured maximum widths of the columns `c .. c + k - 1` plus `k - 1`
column separators. -/
def specWrapThreshold (t : TableRender) (cell : TableCell) (c : Int) : Int :=
  ((List.range cell.colspan.toNat).map (fun (j : Nat) => t.GetColumnMaxWidth (c + (j : Int)))).sum
    + (cell.colspan - 1) * t.getColumnSeparatorWidth

/-! ## Style registry (`table-style-list.go`) -/

/-- Modelled from the spec: `style.SetHorizontalBorderChar(c)`, setting the
outside and the inside horizontal border character. -/
def TableStyle.SetHorizontalBorderChar (style : TableStyle) (c : Str) : TableStyle :=
  { style with horizontalOutsideBorderChar := c, horizontalInsideBorderChar := c }

/-- Modelled from the spec: `style.SetHorizontalOutsideBorderChar(c)`. -/
def TableStyle.SetHorizontalOutsideBorderChar (style : TableStyle) (c : Str) : TableStyle :=
  { style with horizontalOutsideBorderChar := c }

/-- Modelled from the spec: `style.SetHorizontalInsideBorderChar(c)`. -/
def TableStyle.SetHorizontalInsideBorderChar (style : TableStyle) (c : Str) : TableStyle :=
  { style with horizontalInsideBorderChar := c }

/-- Modelled from the spec: `style.SetVerticalBorderChar(c)`, setting the
outside and the inside vertical border character. -/
def TableStyle.SetVerticalBorderChar (style : TableStyle) (c : Str) : TableStyle :=
  { style with verticalOutsideBorderChar := c, verticalInsideBorderChar := c }

/-- Modelled from the spec: `style.SetVerticalOutsideBorderChar(c)`. -/
def TableStyle.SetVerticalOutsideBorderChar (style : TableStyle) (c : Str) : TableStyle :=
  { style with verticalOutsideBorderChar := c }

/-- Modelled from the spec: `style.SetVerticalInsideBorderChar(c)`. -/
def TableStyle.SetVerticalInsideBorderChar (style : TableStyle) (c : Str) : TableStyle :=
  { style with verticalInsideBorderChar := c }

/-- Modelled from the spec: `style.SetCrossingChars(cross, topLeft, topMid,
topRight, midRight, bottomRight, bottomMid, bottomLeft, midLeft,
topLeftBottom, topMidBottom, topRightBottom)`, setting the twelve crossing
glyphs. -/
def TableStyle.SetCrossingChars (style : TableStyle)
    (cross topLeft topMid topRight midRight bottomRight bottomMid bottomLeft midLeft
      topLeftBottom topMidBottom topRightBottom : Str) : TableStyle :=
  { style with
    crossingChar := cross, crossingTopLeftChar := topLeft, crossingTopMidChar := topMid,
    crossingTopRightChar := topRight, crossingMidRightChar := midRight,
    crossingBottomRightChar := bottomRight, crossingBottomMidChar := bottomMid,
    crossingBottomLeftChar := bottomLeft, crossingMidLeftChar := midLeft,
    crossingTopLeftBottomChar := topLeftBottom, crossingTopMidBottomChar := topMidBottom,
    crossingTopRightBottomChar := topRightBottom }

/-- Modelled from the spec: `style.SetCrossingChar(c)`, setting every crossing
glyph to `c`. -/
def TableStyle.SetCrossingChar (style : TableStyle) (c : Str) : TableStyle :=
  style.SetCrossingChars c c c c c c c c c c c c

/-- Modelled from the spec: `style.SetCellRowContentFormat(format)`. -/
def TableStyle.SetCellRowContentFormat (style : TableStyle) (format : Str) : TableStyle :=
  { style with cellRowContentFormat := format }

/-- Modelled from the spec: `style.SetCellHeaderFormat(format)`. -/
def TableStyle.SetCellHeaderFormat (style : TableStyle) (format : Str) : TableStyle :=
  { style with cellHeaderFormat := format }

/-- The value of the package variable `Styles` once it is not `nil`: a
`map[string]TableStyleInterface`, kept as an association list in which the
first binding of a name is the current one. -/
abbrev StyleMap := List (Str × TableStyle)

/-- Go `m[name]` with the comma-ok form on the style map. -/
def styleMapGet (m : StyleMap) (name : Str) : Option TableStyle :=
  (m.find? (fun binding => binding.1 == name)).map Prod.snd

/-- Go `m[name] = style` on the style map. -/
def styleMapSet (m : StyleMap) (name : Str) (style : TableStyle) : StyleMap :=
  (name, style) :: m.filter (fun binding => !(binding.1 == name))

/-- `initStyles()`: the map of the six built-in styles.  `newTableStyle` is
the value `NewTableStyle()` returns, which is declared outside the source
at hand. -/
def initStyles (newTableStyle : TableStyle) : StyleMap :=
  let borderless :=
    ((newTableStyle.SetHorizontalBorderChar ['=']).SetVerticalBorderChar [' ']).SetCrossingChar [' ']
  let compact :=
    (((newTableStyle.SetHorizontalBorderChar []).SetVerticalBorderChar [' ']).SetCrossingChar
      []).SetCellRowContentFormat ['%', 's']
  let styleGuide :=
    (((newTableStyle.SetHorizontalBorderChar ['-']).SetVerticalBorderChar [' ']).SetCrossingChar
      [' ']).SetCellHeaderFormat ['%', 's']
  let box :=
    ((newTableStyle.SetHorizontalBorderChar ['─']).SetVerticalBorderChar ['│']).SetCrossingChars
      ['┼'] ['┌'] ['┬'] ['┐'] ['┤'] ['┘'] ['┴'] ['└'] ['├'] ['├'] ['┼'] ['┤']
  let boxDouble :=
    ((((newTableStyle.SetHorizontalOutsideBorderChar ['═']).SetHorizontalInsideBorderChar
      ['─']).SetVerticalOutsideBorderChar ['║']).SetVerticalInsideBorderChar ['│']).SetCrossingChars
      ['┼'] ['╔'] ['╤'] ['╗'] ['╢'] ['╝'] ['╧'] ['╚'] ['╟'] ['╠'] ['╪'] ['╣']
  let styles : StyleMap := []
  let styles := styleMapSet styles "default".toList newTableStyle
  let styles := styleMapSet styles "borderless".toList borderless
  let styles := styleMapSet styles "compact".toList compact
  let styles := styleMapSet styles "style-guide".toList styleGuide
  let styles := styleMapSet styles "box".toList box
  styleMapSet styles "box-double".toList boxDouble

/-- The style map in force for a value of `Styles`: the lazily built map of
built-ins when `Styles` is still `nil`. -/
def ensureStyles (newTableStyle : TableStyle) (styles : Option StyleMap) : StyleMap :=
  match styles with
  | none => initStyles newTableStyle
  | some m => m

/-- `SetStyleDefinition(name, style)` on the package variable `Styles`
(`none` is `nil`); the result is the new value of `Styles`. -/
def SetStyleDefinition (newTableStyle : TableStyle) (styles : Option StyleMap) (name : Str)
    (style : TableStyle) : Option StyleMap :=
  some (styleMapSet (ensureStyles newTableStyle styles) name style)

/-- `GetStyleDefinition(name)` on the package variable `Styles`: the style
returned, or the panic, and the value of `Styles` afterwards. -/
def GetStyleDefinition (newTableStyle : TableStyle) (styles : Option StyleMap) (name : Str) :
    Run TableStyle × Option StyleMap :=
  let m := ensureStyles newTableStyle styles
  (match styleMapGet m name with
    | none => throw Fault.panic
    | some style => pure style,
   some m)

/-- A call made on the registry. -/
inductive RegistryCall where
  | set (name : Str) (style : TableStyle)
  | get (name : Str)

/-- The value of `Styles` after a sequence of registry calls. -/
def runCalls (newTableStyle : TableStyle) : Option StyleMap → List RegistryCall → Option StyleMap
  | styles, [] => styles
  | styles, RegistryCall.set name style :: rest =>
      runCalls newTableStyle (SetStyleDefinition newTableStyle styles name style) rest
  | styles, RegistryCall.get name :: rest =>
      runCalls newTableStyle (GetStyleDefinition newTableStyle styles name).2 rest

/-- The names of the six built-in styles. -/
def builtinNames : List Str :=
  ["default".toList, "borderless".toList, "compact".toList, "style-guide".toList,
    "box".toList, "box-double".toList]

/-- The style last passed to `SetStyleDefinition` under `name` in a sequence
of calls, `start` when there is none. -/
def lastSet (name : Str) : List RegistryCall → Option TableStyle → Option TableStyle
  | [], start => start
  | RegistryCall.set n style :: rest, start =>
      lastSet name rest (if n = name then some style else start)
  | RegistryCall.get _ :: rest, start => lastSet name rest start

/-- The names passed to `SetStyleDefinition` in a sequence of calls. -/
def namesSet : List RegistryCall → List Str
  | [] => []
  | RegistryCall.set n _ :: rest => n :: namesSet rest
  | RegistryCall.get _ :: rest => namesSet rest

/-! ## Borders and titles: specification side -/

/-- The style has no border: both horizontal border characters and all
twelve crossing glyphs are empty. -/
def Borderless (style : TableStyle) : Prop :=
  style.horizontalOutsideBorderChar = [] ∧ style.horizontalInsideBorderChar = []
    ∧ style.crossingChar = [] ∧ style.crossingTopLeftChar = [] ∧ style.crossingTopMidChar = []
    ∧ style.crossingTopRightChar = [] ∧ style.crossingMidRightChar = []
    ∧ style.crossingBottomRightChar = [] ∧ style.crossingBottomMidChar = []
    ∧ style.crossingBottomLeftChar = [] ∧ style.crossingMidLeftChar = []
    ∧ style.crossingTopLeftBottomChar = [] ∧ style.crossingTopMidBottomChar = []
    ∧ style.crossingTopRightBottomChar = []

/-- The compact built-in style over the ASCII style: no horizontal border
character, no crossing glyph, a blank as vertical border. -/
def compactStyle : TableStyle :=
  (((asciiStyle.SetHorizontalBorderChar []).SetVerticalBorderChar [' ']).SetCrossingChar
    []).SetCellRowContentFormat ['%', 's']

/-- The title as it is spliced into a border line: one blank on each side. -/
def paddedTitle (title : Str) : Str := ' ' :: title ++ [' ']

/-- The plain border line with the padded title spliced in at the offset
`floor((line length - padded title length) / 2)`: the line up to the offset,
the padded title, and the line from the end of the title on. -/
def splicedLine (line title : Str) : Str :=
  line.take ((line.length - (paddedTitle title).length) / 2)
    ++ paddedTitle title
    ++ line.drop ((line.length - (paddedTitle title).length) / 2 + (paddedTitle title).length)

/-- A renderer over an empty table with the given style, column count and
effective widths. -/
def styledRender (style : TableStyle) (columnCount : Int) (widths : List (Int × Int)) :
    TableRender :=
  { measuredRender columnCount widths with style := style }

/-! ## Effective widths: specification side -/

/-- The undecorated code-point length of the cell a row stores at column
`c`, 0 when the row stores none there. -/
def observedWidth (f : Formatter) (row : TableRow) (c : Int) : Int :=
  match row.GetColumn c with
  | some column => StrlenWithoutDecoration f column.cell.value
  | none => 0

/-! ## Render: the written lines, specification side -/

namespace TableRender

/-- The renderer after `lines` have been written to its output, in order. -/
def writeLines (t : TableRender) (lines : List Str) : TableRender :=
  { t with output := t.output ++ lines }

/-- The lines a border of the given kind contributes: the border line of the
style, none when that line is empty. -/
def separatorLines (t : TableRender) (direction : rowType) : Run (List Str) := do
  let separator ← t.getRowSeparator direction
  pure (if separator.length == 0 then [] else [separator])

/-- The lines a border carrying `title` contributes. -/
def titleLines (t : TableRender) (title : Str) (direction : rowType) : Run (List Str) :=
  if title.length == 0 then t.separatorLines direction
  else if t.numberOfColumns == 0 then pure []
  else
    let paddedTitle := Sprintf " %s ".toList title
    if t.style.horizontalOutsideBorderChar.length == 0 && t.style.crossingChar.length == 0 then
      pure [paddedTitle]
    else do
      let separator ← t.getRowSeparator direction
      let paddedTitleLength : Int := paddedTitle.length
      let separatorLength : Int := separator.length
      let separatorCropLeft := Int.tdiv (separatorLength - paddedTitleLength) 2
      pure [titleTail (separatorCropLeft + paddedTitleLength) separator 0
        (titleHead separatorCropLeft paddedTitle separator 0 [])]

/-- The lines a row contributes: its row line, none for a row storing no
column. -/
def rowLines (t : TableRender) (fuel : Nat) (row : TableRow) (cellFormat : Str) :
    Run (List Str) :=
  if row.GetColumns.length == 0 then pure []
  else do
    let rowContent ←
      renderRowLoop t row cellFormat fuel 0 (t.renderColumnSeparator columnType.columnOutside)
    pure [rowContent]

end TableRender

/-- The concatenation of the lines `f` gives for each element of a list, in
list order; the first failure is the result. -/
def collectLines {α : Type} (f : α → Run (List Str)) : List α → Run (List Str)
  | [] => pure []
  | a :: rest => do
      let first ← f a
      let others ← collectLines f rest
      pure (first ++ others)

/-- The row of `data` stored under `index`; a missing row is a nil
dereference. -/
def rowAt (data : TableData) (index : Int) : Run TableRow :=
  match data.GetRow index with
  | none => throw Fault.panic
  | some row => pure row

/-- The layout stage of `Render`: everything before the first line is
written. It gives the renderer with the column count, the effective widths and
the laid-out table, the expanded header data and the expanded body data. -/
def layoutStage (t : TableRender) : Run (TableRender × TableData × TableData) := do
  let headerCount := t.content.headers.rows.length
  let mergedData := MergeData t.content.headers t.content.rows
  let t := t.calculateNumberOfColumns mergedData
  let mergedData := t.completeTableSeparator mergedData
  let rows : TableData := { rows := mergedData.rows.drop headerCount }
  let headers : TableData := { rows := mergedData.rows.take headerCount }
  let builtRows ← t.buildTableRows rows
  let builtHeaders ← t.buildTableRows headers
  let measured ← t.calculateColumnsWidth (MergeData builtHeaders.1 builtRows.1)
  let t : TableRender :=
    { measured.1 with
      content :=
        { measured.1.content with
          headers := { rows := measured.2.rows.take headerCount }
          rows := { rows := measured.2.rows.drop headerCount } } }
  pure (t, builtHeaders.2, builtRows.2)

/-- The lines one header row contributes: its row line, then the double
separator when there is a body row, else the bottom border with the footer
title. -/
def headerLines (t : TableRender) (fuel : Nat) (headersData rowsData : TableData)
    (index : Int) : Run (List Str) := do
  let header ← rowAt headersData index
  let line ← t.rowLines fuel header t.style.cellHeaderFormat
  let border ←
    if rowsData.rows.length != 0 then t.separatorLines rowType.rowDouble
    else t.titleLines t.content.footerTitle rowType.rowBottom
  pure (line ++ border)

/-- The lines one body row contributes: its row line. -/
def bodyLines (t : TableRender) (fuel : Nat) (rowsData : TableData) (index : Int) :
    Run (List Str) := do
  let row ← rowAt rowsData index
  t.rowLines fuel row t.style.cellRowFormat

/-- The sequence of lines of a laid-out table: the top border with the header
title, the lines of each header row in ascending key order, the lines of each
body row in ascending key order, and the bottom border with the footer title
exactly when there is a body row. -/
def emitLines (t : TableRender) (fuel : Nat) (headersData rowsData : TableData) :
    Run (List Str) := do
  let top ← t.titleLines t.content.headerTitle rowType.rowTop
  let head ← collectLines (headerLines t fuel headersData rowsData) headersData.GetRowsSortedKeys
  let body ← collectLines (bodyLines t fuel rowsData) rowsData.GetRowsSortedKeys
  let bottom ←
    if rowsData.rows.length > 0 then t.titleLines t.content.footerTitle rowType.rowBottom
    else pure []
  pure (top ++ head ++ body ++ bottom)

/-- A table without header whose body is a row storing no column followed by
the row `a`. -/
def columnlessRowTable : Table := tableOf [] [NewTableRow, rowOf [['a']]]

/-- A table with the header row `h` and the body rows `a`, a row storing no
column, and `b`. -/
def mixedRowsTable : Table :=
  tableOf [rowOf [['h']]] [rowOf [['a']], NewTableRow, rowOf [['b']]]

/-! ## Repeated rendering: sample values -/

/-- Removal of the decoration markers of a text, a marker being a run from
`<` to the next `>`; `inside` tells whether the scan is within a marker. -/
def stripMarkers : Str → Bool → Str
  | [], _ => []
  | c :: rest, true => if c = '>' then stripMarkers rest false else stripMarkers rest true
  | c :: rest, false => if c = '<' then stripMarkers rest true else c :: stripMarkers rest false

/-- A text service that strips the markers `<...>` and reports no tag. -/
def markerFormatter : Formatter :=
  { strip := fun s => stripMarkers s false, findTags := fun _ => [] }

/-- A renderer with the ASCII style and the marker-stripping text service
over a body of the single cell `a\nb`. -/
def twoLineRender : TableRender :=
  { renderOf asciiStyle (tableOf [] [rowOf ["a\nb".toList]]) with formatter := markerFormatter }

/-- A renderer with the ASCII style over a body of a row holding the cell
`abcd` with colspan 2 and the row `x`, `y`. -/
def spanRender : TableRender :=
  renderOf asciiStyle
    (tableOf []
      [{ columns := [some (NewTableColumn ((NewTableCell "abcd".toList).SetColspan 2))] },
        rowOf [['x'], ['y']]])

/-! ## Reserved rows: specification side -/

/-- The occupied columns of a reserved row as the specification counts them:
the number of its cells plus the sum of `colspan - 1` over them. -/
def reservedSlots (cells : List (Int × TableCell)) : Int :=
  (cells.length : Int) + (cells.map (fun placed => placed.2.colspan - 1)).sum

/-- The test the specification gives for merging a reserved row into the row
`existing`: both rows together occupy at most `numberOfColumns` columns. -/
def mergeFits (t : TableRender) (existing : TableRow) (cells : List (Int × TableCell)) : Bool :=
  occupiedSlots existing + reservedSlots cells ≤ t.numberOfColumns

/-- A body whose first row holds a rowspan-2 cell of value `A\nB` next to the
cell `x` and whose second row holds the single cell `y`: the row reserved for
the line `B` and the existing second row occupy 1 + 1 of the 2 columns. -/
def rowspanMergeTable : Table :=
  tableOf []
    [{ columns :=
        [some (NewTableColumn { NewTableCell "A\nB".toList with rowspan := 2 }),
         some (NewTableColumn (NewTableCell ['x']))] },
     rowOf [['y']]]

/-- The same body with the full second row `y`, `z`: the row reserved for the
line `B` and the existing second row occupy 1 + 2 of the 2 columns. -/
def rowspanSpliceTable : Table :=
  tableOf []
    [{ columns :=
        [some (NewTableColumn { NewTableCell "A\nB".toList with rowspan := 2 }),
         some (NewTableColumn (NewTableCell ['x']))] },
     rowOf [['y'], ['z']]]

/-! ## Row expansion: specification side -/

namespace TableRender

/-- The cell `buildTableRows` makes of one line of `cell`: a plain cell
holding the line, with the colspan of `cell` unless `cell` is a Separator. -/
def lineCell (cell : TableCell) (line : Str) : TableCell :=
  if cell.separator then NewTableCell line else (NewTableCell line).SetColspan cell.colspan

/-- The cell left at column `c` of the source row: the wrapped cell, or the
cell of its first line when the wrapped value holds a line break. -/
def firstCell (t : TableRender) (cell : TableCell) (c : Int) : TableCell :=
  let wrapped := wrapCell t cell c
  if '\n' ∈ wrapped.value then lineCell wrapped ((cellLines wrapped.value).headD []) else wrapped

/-- The slots of a row, counted from `start`, each stored cell replaced by
its `firstCell`. -/
def firstSlots (t : TableRender) (slots : List (Option TableColumn)) (start : Nat) :
    List (Option TableColumn) :=
  (slots.enumFrom start).map
    (fun p => p.2.map (fun column => NewTableColumn (firstCell t column.cell (p.1 : Int))))

/-- The source row after the first loop of `buildTableRows`: every stored
cell replaced by its `firstCell`, at the same index. -/
def firstLines (t : TableRender) (row : TableRow) : TableRow :=
  { columns := firstSlots t row.columns 0 }

/-- The further lines of the cell at column `c`, entered into the map from
line number to the cells of that line. -/
def addLines (t : TableRender) (c : Int) (cell : TableCell)
    (byLine : List (Int × List (Int × TableCell))) : List (Int × List (Int × TableCell)) :=
  let wrapped := wrapCell t cell c
  if '\n' ∈ wrapped.value then
    ((cellLines wrapped.value).tail.enum).foldl
      (fun (byLine : List (Int × List (Int × TableCell))) keyed =>
        assocSet byLine ((keyed.1 : Int) + 1)
          (assocSet ((assocGet byLine ((keyed.1 : Int) + 1)).getD []) c (lineCell wrapped keyed.2)))
      byLine
  else byLine

/-- The further lines of the cells stored in slots counted from `start`. -/
def furtherSlots (t : TableRender) (slots : List (Option TableColumn)) (start : Nat)
    (byLine : List (Int × List (Int × TableCell))) : List (Int × List (Int × TableCell)) :=
  (slots.enumFrom start).foldl
    (fun byLine p =>
      match p.2 with
      | none => byLine
      | some column => addLines t (p.1 : Int) column.cell byLine)
    byLine

/-- The further lines of all the cells of a row, by line number. -/
def furtherLines (t : TableRender) (row : TableRow) : List (Int × List (Int × TableCell)) :=
  furtherSlots t row.columns 0 []

/-- The synthetic row holding the given cells at the given columns. -/
def syntheticRow (cells : List (Int × TableCell)) : TableRow :=
  cells.foldl (fun (newRow : TableRow) placed => newRow.SetColumn placed.1 (NewTableColumn placed.2))
    NewTableRow

/-- The rows `buildTableRows` returns for one source row: the row of the
first lines, passed through `fillCells`, then one synthetic row per further
line number. -/
def expandRow (t : TableRender) (row : TableRow) : List TableRow :=
  fillCells (firstLines t row) :: (furtherLines t row).map (fun entry => syntheticRow entry.2)

/-- The column a synthetic row is to hold at index `c` for the line number
`j` of the source row, as the specification words it: when the row stores at
`c` a cell whose wrapped value has a line break and a line `j`, a plain cell
holding that line with the colspan of the source cell (1 for a Separator). -/
def lineColumn (t : TableRender) (row : TableRow) (c : Int) (j : Nat) : Option TableColumn :=
  (row.GetColumn c).bind (fun column =>
    let wrapped := wrapCell t column.cell c
    if '\n' ∈ wrapped.value then
      ((cellLines wrapped.value).get? j).map (fun line => NewTableColumn (lineCell column.cell line))
    else none)

/-- The number `m` of the specification: the largest number of
newline-separated lines of the wrapped value of any cell of the row, 1 for a
row without cells. -/
def lineCount (t : TableRender) (row : TableRow) : Nat :=
  (row.columns.enum.filterMap
      (fun p => p.2.map (fun column => (splitLines (wrapCell t column.cell (p.1 : Int)).value).length))
    ).foldl max 1

end TableRender

/-- A row with a gap at index 0 and the cell `a\nb` at index 1. -/
def sparseTwoLineRow : TableRow :=
  { columns := [none, some (NewTableColumn (NewTableCell "a\nb".toList))] }

namespace TableRender

/-- The map of further lines once the cells at the columns below `s` and the
first `q` further lines of the cell at column `s` have been entered, `M`
being the number of line numbers bound: the keys are `1, 2, ..., M`, the
cells of an entry sit at columns entered so far, and the synthetic row of the
line number `j` holds at each such column the `lineColumn` of that line. -/
def Collected (t : TableRender) (row : TableRow) (s q M : Nat)
    (byLine : List (Int × List (Int × TableCell))) : Prop :=
  byLine.length = M
    ∧ byLine.map Prod.fst = (List.range byLine.length).map (fun (i : Nat) => 1 + (i : Int))
    ∧ (∀ (j : Int) (inner : List (Int × TableCell)), assocGet byLine j = some inner →
        ∀ p ∈ inner, p.1 < (if j ≤ (q : Int) then (s : Int) + 1 else (s : Int)))
    ∧ ∀ (j : Nat), 1 ≤ j → ∀ c : Int,
        (syntheticRow ((assocGet byLine (j : Int)).getD [])).GetColumn c
          = if c < (s : Int) ∨ (c = (s : Int) ∧ j ≤ q) then lineColumn t row c j else none

end TableRender

/-- A separator row as the specification words it: a row whose column 0
holds a Separator. -/
def separatorRow (row : TableRow) : Bool :=
  match row.GetColumn 0 with
  | some column => column.cell.separator
  | none => false

/-- The column count as the specification words it: the maximum, over the
rows that are not separator rows, of the occupied-slot count, and 0 when
there is no such row. -/
def specColumnCount (rows : List TableRow) : Int :=
  ((rows.filter (fun row => !separatorRow row)).map occupiedSlots).foldl max 0

/-- A row holding a Separator at column 0 and nothing else. -/
def separatorOnlyRow : TableRow :=
  { columns := [some (NewTableColumn NewTableSeparator)] }

/-- A row holding a Separator at column 0 and plain cells at columns 1 and 2. -/
def separatorLedWideRow : TableRow :=
  { columns := [some (NewTableColumn NewTableSeparator), some (NewTableColumn (NewTableCell ['x'])),
      some (NewTableColumn (NewTableCell ['y']))] }

/-! ## Effective widths with the pre-split: specification side -/

/-- Chunk `p` of the even chunks `calculateColumnsWidth` cuts the undecorated
text of a cell into: with `n` the length of the text and `k` the colspan, the
`ceil(n / k)` code points from position `p * ceil(n / k)` on; empty past the
end of the text. -/
def spanChunk (f : Formatter) (column : TableColumn) (p : Nat) : Str :=
  let text := f.strip column.cell.value
  let size := (((text.length : Int) + column.cell.colspan - 1) / column.cell.colspan).toNat
  (text.drop (p * size)).take size

/-- The length a cell stored at index `i` counts with at the column index
`c`. A cell with undecorated text that is not a Separator counts at the index
`i + p` with the length of its chunk `p`; a Separator and a cell without
undecorated text count at `i` alone, with the length of their undecorated
text. -/
def countedLength (f : Formatter) (column : TableColumn) (i c : Int) : Int :=
  if column.cell.separator = true ∨ f.strip column.cell.value = [] then
    if c = i then StrlenWithoutDecoration f column.cell.value else 0
  else if c < i then 0
  else ((spanChunk f column (c - i).toNat).length : Int)

/-- The undecorated length observed at the column index `c` of a row: the
largest length a cell of the row counts with at `c`, 0 when none does. -/
def observedSpanWidth (f : Formatter) (row : TableRow) (c : Int) : Int :=
  (row.GetColumnsSortedKeys.map (fun i =>
      match row.GetColumn i with
      | some column => countedLength f column i c
      | none => 0)).foldl max 0

/-- Every stored cell is a Separator, has no undecorated text, or is a
colspan-1 cell of undecorated text. -/
def Settled (f : Formatter) (row : TableRow) : Prop :=
  ∀ j column, row.GetColumn j = some column →
    column.cell.separator = true ∨ f.strip column.cell.value = []
      ∨ (column.cell.colspan = 1 ∧ f.strip column.cell.value = column.cell.value)

/-- The plain column the pre-split of `calculateColumnsWidth` stores at index
`j` for the cell the row stores at index `i`: the chunk `j - i` of that cell,
when the cell has undecorated text, is no Separator and the chunk is not
empty. -/
def chunkAt (f : Formatter) (row : TableRow) (i j : Int) : Option TableColumn :=
  match row.GetColumn i with
  | some column =>
      if column.cell.separator = true ∨ f.strip column.cell.value = [] then none
      else if j < i then none
      else if spanChunk f column (j - i).toNat = [] then none
      else some (MakeColumnFromString (spanChunk f column (j - i).toNat))
  | none => none

/-- The ASCII style with the bare cell content format `%s`. -/
def bareStyle : TableStyle := { asciiStyle with cellRowContentFormat := ['%', 's'] }

/-- A row holding the single cell `abcdef` with colspan 2. -/
def spanSixRow : TableRow :=
  { columns := [some (NewTableColumn ((NewTableCell "abcdef".toList).SetColspan 2))] }

/-- A row holding the cell `abcdef` with colspan 2 at index 0 and, within its
span, the cell `uvwxyz` at index 1. -/
def overlapRow : TableRow :=
  { columns := [some (NewTableColumn ((NewTableCell "abcdef".toList).SetColspan 2)),
                some (NewTableColumn (NewTableCell "uvwxyz".toList))] }

/-- A text service whose stripping removes the first code point of a text,
so that stripping a stripped text shortens it again. -/
def dropFirstFormatter : Formatter := { strip := fun s => s.drop 1, findTags := fun _ => [] }

/-! ## Sample renderers and styles -/

/-- A renderer with the ASCII style and the marker-stripping text service
over a body of the single row with a gap at index 0 and the cell `a\nb` at
index 1. -/
def sparseTwoLineRender : TableRender :=
  { renderOf asciiStyle (tableOf [] [sparseTwoLineRow]) with formatter := markerFormatter }

/-- The same renderer with the header row `h`, `k` over that body. -/
def headedSparseTwoLineRender : TableRender :=
  { renderOf asciiStyle (tableOf [rowOf [['h'], ['k']]] [sparseTwoLineRow]) with
    formatter := markerFormatter }

/-- A renderer with the ASCII style and the marker-stripping text service
over a body of the single cell `a\nbbbbbb`. -/
def longSecondLineRender : TableRender :=
  { renderOf asciiStyle (tableOf [] [rowOf ["a\nbbbbbb".toList]]) with
    formatter := markerFormatter }

/-- A style whose sixteen border glyphs are pairwise different, with the
formats of the ASCII style. -/
def glyphStyle : TableStyle :=
  { asciiStyle with
    horizontalOutsideBorderChar := ['=']
    horizontalInsideBorderChar := ['-']
    verticalOutsideBorderChar := ['|']
    verticalInsideBorderChar := [':']
    crossingChar := ['+']
    crossingTopLeftChar := ['a']
    crossingTopMidChar := ['b']
    crossingTopRightChar := ['c']
    crossingMidRightChar := ['d']
    crossingBottomRightChar := ['e']
    crossingBottomMidChar := ['f']
    crossingBottomLeftChar := ['g']
    crossingMidLeftChar := ['h']
    crossingTopLeftBottomChar := ['i']
    crossingTopMidBottomChar := ['j']
    crossingTopRightBottomChar := ['k'] }

/-! ## Wrapped lines: specification side -/

/-- The text `out` is the text `raw` with markers woven in: every code point
of `raw` is kept, in order, and texts of the set `marks` stand before, between
and after them. -/
inductive Woven (marks : Str → Prop) : Str → Str → Prop
  | nil : Woven marks [] []
  | char (c : Char) {raw out : Str} : Woven marks raw out → Woven marks (c :: raw) (c :: out)
  | mark (m : Str) {raw out : Str} : marks m → Woven marks raw out → Woven marks raw (m ++ out)

/-- The markers `buildTableRows` may put into the lines of the cell `value`:
the marker closing the decoration at the end of a line, the marker reopening
it at the start of the next, and the markers the text service finds in
`value`. -/
def lineMarks (f : Formatter) (value : Str) (m : Str) : Prop :=
  m = closeMarkup ∨ m = reopenMarkup ∨ m ∈ (f.findTags value).map Prod.snd

/-- A renderer over an empty table with the ASCII style, the marker-stripping
text service and maximum width 3 on column 0. -/
def markerWrappingRender : TableRender :=
  { wrappingRender [(0, 3)] with formatter := markerFormatter }

/-! ## Proofs -/

theorem foldl_snoc_map {α β : Type} (f : α → β) (l : List α) (init : List β) :
    l.foldl (fun acc a => acc ++ [f a]) init = init ++ l.map f := by
  induction l generalizing init with
  | nil => simp
  | cons a l ih => simp [ih]

theorem foldl_add_eq_sum {α : Type} (f : α → Int) (l : List α) (init : Int) :
    l.foldl (fun acc a => acc + f a) init = init + (l.map f).sum := by
  induction l generalizing init with
  | nil => simp
  | cons a l ih => simp [ih, add_assoc]

theorem foldl_max_ge_init (l : List Int) (a : Int) : a ≤ l.foldl max a := by
  induction l generalizing a with
  | nil => simp
  | cons x l ih => exact le_trans (le_max_left a x) (ih (max a x))

theorem foldl_max_ge_mem (l : List Int) (a : Int) : ∀ x ∈ l, x ≤ l.foldl max a := by
  induction l generalizing a with
  | nil => simp
  | cons y l ih =>
    intro x hx
    rcases List.mem_cons.mp hx with rfl | hx
    · exact le_trans (le_max_right a x) (foldl_max_ge_init l (max a x))
    · exact ih (max a y) x hx

theorem foldl_max_mem (l : List Int) (a : Int) : l.foldl max a = a ∨ l.foldl max a ∈ l := by
  induction l generalizing a with
  | nil => simp
  | cons y l ih =>
    rcases ih (max a y) with h | h
    · rcases max_choice a y with h2 | h2
      · left; rw [List.foldl_cons, h, h2]
      · right; rw [List.foldl_cons, h, h2]; exact List.mem_cons_self _ _
    · right; exact List.mem_cons_of_mem _ h

theorem wrapInt_of_range (x : Int) (h1 : -9223372036854775808 ≤ x) (h2 : x < 9223372036854775808) :
    wrapInt x = x := by
  unfold wrapInt
  omega

theorem wrapInt_range (x : Int) :
    -9223372036854775808 ≤ wrapInt x ∧ wrapInt x < 9223372036854775808 := by
  unfold wrapInt
  omega

theorem foldl_wrap_add_eq_sum {α : Type} (f : α → Int) :
    ∀ (l : List α) (init : Int), 0 ≤ init → (∀ a ∈ l, 0 ≤ f a) →
      init + (l.map f).sum < 9223372036854775808 →
      l.foldl (fun acc a => wrapInt (acc + wrapInt (f a))) init = init + (l.map f).sum := by
  intro l
  induction l with
  | nil => intro init _ _ _; simp
  | cons a rest ih =>
      intro init h0 hf hb
      have hrest : 0 ≤ (rest.map f).sum :=
        List.sum_nonneg (fun x hx => by
          obtain ⟨c, hc, rfl⟩ := List.mem_map.mp hx
          exact hf c (List.mem_cons_of_mem _ hc))
      have ha := hf a (List.mem_cons_self _ _)
      simp only [List.map_cons, List.sum_cons] at hb
      have h1 : wrapInt (f a) = f a := wrapInt_of_range _ (by omega) (by omega)
      have h2 : wrapInt (init + f a) = init + f a := wrapInt_of_range _ (by omega) (by omega)
      simp only [List.foldl_cons, h1, h2, List.map_cons, List.sum_cons]
      rw [ih (init + f a) (by omega) (fun x hx => hf x (List.mem_cons_of_mem _ hx)) (by omega)]
      ring

theorem getNumberOfColumns_eq_occupiedSlots (row : TableRow)
    (hspan : ∀ column ∈ row.GetColumns, 1 ≤ column.cell.colspan)
    (hbound : occupiedSlots row < 9223372036854775808) :
    TableRender.getNumberOfColumns row = occupiedSlots row := by
  unfold TableRender.getNumberOfColumns occupiedSlots
  exact foldl_wrap_add_eq_sum (fun column : TableColumn => column.cell.colspan - 1) _ _
    (by omega) (fun column hc => by have := hspan column hc; show 0 ≤ column.cell.colspan - 1; omega)
    hbound

/-- Starting from 0, the column count is the largest count `getNumberOfColumns`
gives for any row of the data, no row being skipped, and 0 without rows. -/
theorem calculateNumberOfColumns_val (t : TableRender) (data : TableData)
    (h0 : t.numberOfColumns = 0) :
    (t.calculateNumberOfColumns data).numberOfColumns
      = (data.rows.map TableRender.getNumberOfColumns).foldl max 0 := by
  unfold TableRender.calculateNumberOfColumns
  simp only [h0, bne_self_eq_false, Bool.false_eq_true, if_false, TableData.GetRowsAsList]
  rw [foldl_snoc_map]
  simp [MaxInt]

theorem calculateNumberOfColumns_val_spec (t : TableRender) (data : TableData)
    (h0 : t.numberOfColumns = 0)
    (hspan : ∀ row ∈ data.rows, ∀ column ∈ row.GetColumns, 1 ≤ column.cell.colspan)
    (hbound : ∀ row ∈ data.rows, occupiedSlots row < 9223372036854775808) :
    (t.calculateNumberOfColumns data).numberOfColumns
      = (data.rows.map occupiedSlots).foldl max 0 := by
  rw [calculateNumberOfColumns_val t data h0]
  have : data.rows.map TableRender.getNumberOfColumns = data.rows.map occupiedSlots :=
    List.map_congr_left (fun r hr => getNumberOfColumns_eq_occupiedSlots r (hspan r hr) (hbound r hr))
  rw [this]

theorem occupiedSlots_nonneg (row : TableRow)
    (h : ∀ column ∈ row.GetColumns, 1 ≤ column.cell.colspan) : 0 ≤ occupiedSlots row := by
  unfold occupiedSlots
  have : 0 ≤ (row.GetColumns.map (fun column => column.cell.colspan - 1)).sum := by
    apply List.sum_nonneg
    intro x hx
    obtain ⟨c, hc, rfl⟩ := List.mem_map.mp hx
    have := h c hc
    omega
  omega

theorem isMaxOrZero_foldl (l : List Int) (h : ∀ x ∈ l, 0 ≤ x) :
    IsMaxOrZero (l.foldl max 0) l := by
  refine ⟨fun hl => by simp [hl], fun hl => ⟨?_, foldl_max_ge_mem l 0⟩⟩
  rcases foldl_max_mem l 0 with h0 | hm
  · obtain ⟨x, hx⟩ := List.exists_mem_of_ne_nil l hl
    have h1 := foldl_max_ge_mem l 0 x hx
    have h2 := h x hx
    have : x = 0 := by omega
    rw [h0, ← this]; exact hx
  · exact hm

theorem rangeInt_empty (a b : Int) (h : b < a) : RangeInt a b = [] := by
  unfold RangeInt
  have : (b + 1 - a).toNat = 0 := by omega
  simp [this]

theorem completeTableSeparator_of_zero (t : TableRender) (data : TableData)
    (h0 : t.numberOfColumns = 0) : t.completeTableSeparator data = data := by
  unfold TableRender.completeTableSeparator
  rw [rangeInt_empty 1 (t.numberOfColumns - 1) (by omega)]
  rfl

theorem buildTableRows_nil (t : TableRender) :
    t.buildTableRows { rows := [] } = .ok ({ rows := [] }, NewTableData) := by
  rfl

theorem calculateColumnsWidth_of_zero (t : TableRender) (data : TableData)
    (h0 : t.numberOfColumns = 0) : t.calculateColumnsWidth data = .ok (t, data) := by
  unfold TableRender.calculateColumnsWidth
  rw [rangeInt_empty 0 (t.numberOfColumns - 1) (by omega)]
  rfl

theorem getRowSeparator_of_zero (t : TableRender) (direction : rowType)
    (h0 : t.numberOfColumns = 0) : t.getRowSeparator direction = .ok [] := by
  unfold TableRender.getRowSeparator
  simp [h0]
  rfl

theorem renderRowTitleSeparator_of_zero (t : TableRender) (title : Str) (direction : rowType)
    (h0 : t.numberOfColumns = 0) : t.renderRowTitleSeparator title direction = .ok t := by
  unfold TableRender.renderRowTitleSeparator
  by_cases ht : title.length = 0
  · simp only [ht, beq_self_eq_true, if_true]
    unfold TableRender.renderRowSeparator
    rw [getRowSeparator_of_zero t direction h0]
    rfl
  · have : (title.length == 0) = false := by simpa using ht
    simp [this, h0]
    rfl

/-- C2: on a table with no header row and no body row, whatever its titles
and style, `Render` (from the idle state `numberOfColumns = 0`) computes a
column count of 0, returns, and has written no line to the sink. -/
theorem Render_empty_table (t : TableRender) (fuel : Nat)
    (hh : t.content.headers.rows = []) (hr : t.content.rows.rows = [])
    (h0 : t.numberOfColumns = 0) :
    (t.calculateNumberOfColumns (MergeData t.content.headers t.content.rows)).numberOfColumns = 0
      ∧ ∃ t', t.Render fuel = .ok t' ∧ t'.output = t.output := by
  have hcalc : t.calculateNumberOfColumns (MergeData t.content.headers t.content.rows)
      = t := by
    unfold TableRender.calculateNumberOfColumns
    cases t
    simp_all [MergeData, MaxInt, TableData.GetRowsAsList]
  refine ⟨by rw [hcalc]; exact h0, ?_⟩
  unfold TableRender.Render
  simp only [hcalc, completeTableSeparator_of_zero t _ h0]
  simp only [MergeData, hh, hr, List.append_nil, List.drop_nil, List.take_nil, buildTableRows_nil]
  simp only [bind, Except.bind, List.append_nil]
  rw [calculateColumnsWidth_of_zero t _ h0]
  simp [renderRowTitleSeparator_of_zero, h0, NewTableData, TableData.GetRowsSortedKeys, pure,
    Except.pure, TableRender.cleanup]

/-- Witness of C2: an empty table carrying both titles, under the ASCII
style. -/
theorem Render_empty_table_witness :
    (renderOf asciiStyle
        { tableOf [] [] with headerTitle := ['T'], footerTitle := ['F'] }).content.headers.rows = []
      ∧ (renderOf asciiStyle
        { tableOf [] [] with headerTitle := ['T'], footerTitle := ['F'] }).content.rows.rows = []
      ∧ (renderOf asciiStyle
        { tableOf [] [] with headerTitle := ['T'], footerTitle := ['F'] }).numberOfColumns = 0
      ∧ ∃ t', (renderOf asciiStyle
          { tableOf [] [] with headerTitle := ['T'], footerTitle := ['F'] }).Render 0 = .ok t'
        ∧ t'.output = [] :=
  ⟨rfl, rfl, rfl,
    (Render_empty_table
      (renderOf asciiStyle { tableOf [] [] with headerTitle := ['T'], footerTitle := ['F'] })
      0 rfl rfl rfl).2⟩

theorem spannedWidth_eq (t : TableRender) (cell : TableCell) (c : Int) (hk : 1 ≤ cell.colspan) :
    TableRender.spannedWidth t cell c = t.getEffectiveColumnWidth c
      + ((List.range (cell.colspan - 1).toNat).map
        (fun (j : Nat) => t.getColumnSeparatorWidth + t.getEffectiveColumnWidth (c + 1 + (j : Int)))).sum := by
  unfold TableRender.spannedWidth
  by_cases h : cell.colspan > 1
  · simp only [h, if_true]
    rw [foldl_add_eq_sum (fun nextColumn => t.getColumnSeparatorWidth + t.getEffectiveColumnWidth nextColumn)]
    unfold RangeInt
    have : (c + cell.colspan - 1 + 1 - (c + 1)).toNat = (cell.colspan - 1).toNat := by
      congr 1; ring
    rw [this, List.map_map]
    rfl
  · have h1 : cell.colspan = 1 := by omega
    simp [h1]

/-- C8: for a non-separator cell stored at column `c` with colspan `k >= 1`,
`renderCell` pads the formatted content to the width
`effectiveWidth[c] + sum over j in 1..k-1 of (separator width + effectiveWidth[c+j])
+ (decorated length - undecorated length)`; for colspan 2 this is
`effectiveWidth[c] + separator + effectiveWidth[c+1]` plus the decoration
allowance. -/
theorem renderCell_pad_width (t : TableRender) (row : TableRow) (c : Int) (cellFormat : Str)
    (column : TableColumn) (hcol : row.GetColumn c = some column)
    (hsep : column.cell.separator = false) (hk : 1 ≤ column.cell.colspan) :
    (∃ pad, t.renderCell row c cellFormat
        = .ok (Sprintf cellFormat ((t.GetColumnStyle c).Pad
            (Sprintf (t.GetColumnStyle c).cellRowContentFormat column.cell.value)
            (specPadWidth t column.cell c) (t.GetColumnStyle c).paddingChar pad)))
      ∧ (column.cell.colspan = 2 →
          specPadWidth t column.cell c
            = t.getEffectiveColumnWidth c + t.getColumnSeparatorWidth
              + t.getEffectiveColumnWidth (c + 1)
              + (Strlen column.cell.value - StrlenWithoutDecoration t.formatter column.cell.value)) := by
  constructor
  · have hw : TableRender.padWidth t column.cell c = specPadWidth t column.cell c := by
      unfold TableRender.padWidth specPadWidth
      rw [spannedWidth_eq t column.cell c hk]
    unfold TableRender.renderCell
    simp only [TableRender.cellAt, hcol, hsep, Bool.false_eq_true, if_false, hw]
    exact ⟨_, rfl⟩
  · intro h2
    have h1 : (column.cell.colspan - 1).toNat = 1 := by rw [h2]; rfl
    unfold specPadWidth
    rw [h1]
    show _ + (t.getColumnSeparatorWidth + t.getEffectiveColumnWidth (c + 1 + ((0 : Nat) : Int)) + 0)
      + _ = _
    simp only [Nat.cast_zero, add_zero]
    ring

/-- Witness of C8: a colspan-2 cell stored at column 1 of a three-column
table whose columns 1 and 2 are 7 and 8 wide. -/
theorem renderCell_pad_width_witness :
    spanningRow.GetColumn 1
        = some (NewTableColumn ((NewTableCell "Divine Comedy / Dante".toList).SetColspan 2))
      ∧ ((NewTableCell "Divine Comedy / Dante".toList).SetColspan 2).separator = false
      ∧ 1 ≤ ((NewTableCell "Divine Comedy / Dante".toList).SetColspan 2).colspan
      ∧ specPadWidth (measuredRender 3 [(0, 6), (1, 7), (2, 8)])
            ((NewTableCell "Divine Comedy / Dante".toList).SetColspan 2) 1
          = (measuredRender 3 [(0, 6), (1, 7), (2, 8)]).getEffectiveColumnWidth 1
            + (measuredRender 3 [(0, 6), (1, 7), (2, 8)]).getColumnSeparatorWidth
            + (measuredRender 3 [(0, 6), (1, 7), (2, 8)]).getEffectiveColumnWidth (1 + 1)
            + (Strlen "Divine Comedy / Dante".toList
                - StrlenWithoutDecoration (measuredRender 3 [(0, 6), (1, 7), (2, 8)]).formatter
                    "Divine Comedy / Dante".toList) :=
  ⟨rfl, rfl, by decide,
    (renderCell_pad_width (measuredRender 3 [(0, 6), (1, 7), (2, 8)]) spanningRow 1 ['%', 's']
      (NewTableColumn ((NewTableCell "Divine Comedy / Dante".toList).SetColspan 2))
      rfl rfl (by decide)).2 rfl⟩

theorem getColumn_natCast (row : TableRow) (i : Nat) :
    row.GetColumn (i : Int) = (row.columns.get? i).join := by
  unfold TableRow.GetColumn
  simp

theorem join_eq_some {α : Type} (o : Option (Option α)) (c : α) :
    o.join = some c ↔ o = some (some c) := by
  cases o with
  | none => simp
  | some x => cases x <;> simp

theorem join_isSome {α : Type} (o : Option (Option α)) (h : o.join.isSome) :
    ∃ c, o = some (some c) := by
  cases o with
  | none => simp at h
  | some x =>
    cases x with
    | none => simp at h
    | some c => exact ⟨c, rfl⟩

theorem getColumn_eq_some (row : TableRow) (i : Int) (column : TableColumn)
    (h : row.GetColumn i = some column) :
    0 ≤ i ∧ row.columns.get? i.toNat = some (some column) := by
  unfold TableRow.GetColumn at h
  split at h
  · cases h
  · exact ⟨by omega, (join_eq_some _ _).mp h⟩

theorem getColumn_mem (row : TableRow) (i : Int) (column : TableColumn)
    (h : row.GetColumn i = some column) : column ∈ row.GetColumns := by
  obtain ⟨_, hg⟩ := getColumn_eq_some row i column h
  unfold TableRow.GetColumns
  rw [List.mem_filterMap]
  exact ⟨some column, List.get?_mem hg, rfl⟩

/-- The sum of the colspans of the cells stored below index `m + 1` is the sum
below `m` plus the colspan of the cell stored at `m`, if any. -/
theorem spanSum_succ (slots : List (Option TableColumn)) (m : Nat) :
    (((slots.take (m + 1)).filterMap id).map (fun c => c.cell.colspan)).sum
      = (((slots.take m).filterMap id).map (fun c => c.cell.colspan)).sum
        + (match (slots.get? m).join with
            | some c => c.cell.colspan
            | none => 0) := by
  rw [List.take_succ, List.filterMap_append, List.map_append, List.sum_append]
  congr 1
  rw [List.get?_eq_getElem?]
  cases h : slots[m]? with
  | none => simp
  | some slot => cases slot <;> simp

theorem spanSum_mono (slots : List (Option TableColumn))
    (hspan : ∀ c ∈ slots.filterMap id, 1 ≤ c.cell.colspan) (m : Nat) :
    ∀ d : Nat, (((slots.take m).filterMap id).map (fun c => c.cell.colspan)).sum
      ≤ (((slots.take (m + d)).filterMap id).map (fun c => c.cell.colspan)).sum := by
  intro d
  induction d with
  | zero => simp
  | succ d ih =>
      have hs := spanSum_succ slots (m + d)
      have hadd : m + (d + 1) = m + d + 1 := by omega
      rw [hadd, hs]
      cases hj : (slots.get? (m + d)).join with
      | none => simpa using ih
      | some c =>
          have hmem : c ∈ slots.filterMap id := by
            rw [List.mem_filterMap]
            exact ⟨some c, List.get?_mem ((join_eq_some _ _).mp hj), rfl⟩
          have := hspan c hmem
          simp only
          omega

theorem spanSum_ge_index (slots : List (Option TableColumn))
    (hspan : ∀ c ∈ slots.filterMap id, 1 ≤ c.cell.colspan) (i : Nat)
    (hcover : ∀ j : Nat, j < i → ∃ (j' : Nat) (c : TableColumn),
      (slots.get? j').join = some c ∧ j' ≤ j ∧ (j : Int) < (j' : Int) + c.cell.colspan) :
    ∀ m : Nat, m ≤ i →
      (m : Int) ≤ (((slots.take m).filterMap id).map (fun c => c.cell.colspan)).sum := by
  intro m
  induction m using Nat.strong_induction_on with
  | _ m ih =>
      intro hm
      cases m with
      | zero => simp
      | succ j =>
          obtain ⟨j', c, hc, hle, hlt⟩ := hcover j (by omega)
          have h1 := ih j' (by omega) (by omega)
          have h2 := spanSum_succ slots j'
          rw [hc] at h2
          simp only at h2
          have h3 := spanSum_mono slots hspan (j' + 1) (j - j')
          have hidx : j' + 1 + (j - j') = j + 1 := by omega
          rw [hidx] at h3
          push_cast
          omega

theorem occupiedSlots_eq_spanSum (row : TableRow) :
    occupiedSlots row = ((row.GetColumns).map (fun c => c.cell.colspan)).sum := by
  unfold occupiedSlots
  induction row.GetColumns with
  | nil => simp
  | cons c rest ih =>
      simp only [List.length_cons, List.map_cons, List.sum_cons]
      push_cast
      omega

/-- A cell at index `i` below which every index is covered by the span of a
stored cell ends within the occupied-slot count of its row. -/
theorem occupiedSlots_ge_covered_footprint (row : TableRow) (i : Nat) (column : TableColumn)
    (hspan : ∀ c ∈ row.GetColumns, 1 ≤ c.cell.colspan)
    (hcol : row.GetColumn (i : Int) = some column)
    (hcover : ∀ j : Nat, j < i → ∃ (j' : Nat) (c : TableColumn),
      row.GetColumn (j' : Int) = some c ∧ j' ≤ j ∧ (j : Int) < (j' : Int) + c.cell.colspan) :
    (i : Int) + column.cell.colspan ≤ occupiedSlots row := by
  have hcover' : ∀ j : Nat, j < i → ∃ (j' : Nat) (c : TableColumn),
      (row.columns.get? j').join = some c ∧ j' ≤ j ∧ (j : Int) < (j' : Int) + c.cell.colspan := by
    intro j hj
    obtain ⟨j', c, hc, h1, h2⟩ := hcover j hj
    exact ⟨j', c, by rw [← getColumn_natCast]; exact hc, h1, h2⟩
  have h1 := spanSum_ge_index row.columns hspan i hcover' i (le_refl _)
  have h2 := spanSum_succ row.columns i
  rw [← getColumn_natCast, hcol] at h2
  simp only at h2
  have h3 := spanSum_mono row.columns hspan (i + 1) (row.columns.length - (i + 1))
  have hi : i < row.columns.length := by
    by_contra hc
    have := (getColumn_eq_some row _ _ hcol).2
    simp only [Int.toNat_ofNat] at this
    rw [List.get?_eq_none.mpr (by omega)] at this
    cases this
  have hidx : i + 1 + (row.columns.length - (i + 1)) = row.columns.length := by omega
  rw [hidx, List.take_length] at h3
  rw [occupiedSlots_eq_spanSum]
  unfold TableRow.GetColumns
  omega

/-- C9 (amended): on a table whose cells all have colspan at least 1, after
`calculateNumberOfColumns` every cell stored at index `i` with colspan `k`
satisfies `i + k <= numberOfColumns`, provided that every index below `i` of
its row lies in the span of a cell the row stores at or before that index,
and that the row's occupied-slot count is below 2^63 (so that the count
`getNumberOfColumns` sums in a Go `int` does not wrap around). -/
theorem cell_footprint_within_column_count (t : TableRender) (headers body : TableData)
    (h0 : t.numberOfColumns = 0)
    (hspan : ∀ row ∈ headers.rows ++ body.rows, ∀ column ∈ row.GetColumns,
      1 ≤ column.cell.colspan)
    (row : TableRow) (hrow : row ∈ headers.rows ++ body.rows)
    (hbound : occupiedSlots row < 9223372036854775808)
    (i : Nat) (column : TableColumn) (hcol : row.GetColumn (i : Int) = some column)
    (hcover : ∀ j : Nat, j < i → ∃ (j' : Nat) (c : TableColumn),
      row.GetColumn (j' : Int) = some c ∧ j' ≤ j ∧ (j : Int) < (j' : Int) + c.cell.colspan) :
    (i : Int) + column.cell.colspan
      ≤ (t.calculateNumberOfColumns (MergeData headers body)).numberOfColumns := by
  have h1 := occupiedSlots_ge_covered_footprint row i column (hspan row hrow) hcol hcover
  rw [calculateNumberOfColumns_val t _ h0]
  have h2 := foldl_max_ge_mem ((MergeData headers body).rows.map TableRender.getNumberOfColumns) 0
    (TableRender.getNumberOfColumns row) (List.mem_map.mpr ⟨row, hrow, rfl⟩)
  rw [getNumberOfColumns_eq_occupiedSlots row (hspan row hrow) hbound] at h2
  omega

/-- Witness of C9 (amended): the plain cell at index 2 of a row whose index 1
is a gap covered by the colspan-2 cell at index 0. -/
theorem cell_footprint_within_column_count_witness :
    (renderOf asciiStyle (tableOf [] [])).numberOfColumns = 0
      ∧ (∀ row ∈ ([] : List TableRow) ++ [spanThenCellRow], ∀ column ∈ row.GetColumns,
          1 ≤ column.cell.colspan)
      ∧ spanThenCellRow ∈ ([] : List TableRow) ++ [spanThenCellRow]
      ∧ occupiedSlots spanThenCellRow < 9223372036854775808
      ∧ spanThenCellRow.GetColumn ((2 : Nat) : Int) = some (NewTableColumn (NewTableCell ['b']))
      ∧ (∀ j : Nat, j < 2 → ∃ (j' : Nat) (c : TableColumn),
          spanThenCellRow.GetColumn (j' : Int) = some c ∧ j' ≤ j
            ∧ (j : Int) < (j' : Int) + c.cell.colspan)
      ∧ ((2 : Nat) : Int) + (NewTableColumn (NewTableCell ['b'])).cell.colspan
          ≤ ((renderOf asciiStyle (tableOf [] [])).calculateNumberOfColumns
              (MergeData { rows := [] } { rows := [spanThenCellRow] })).numberOfColumns :=
  have hcover : ∀ j : Nat, j < 2 → ∃ (j' : Nat) (c : TableColumn),
      spanThenCellRow.GetColumn (j' : Int) = some c ∧ j' ≤ j
        ∧ (j : Int) < (j' : Int) + c.cell.colspan := fun j hj =>
    ⟨0, NewTableColumn ((NewTableCell ['a']).SetColspan 2), rfl, Nat.zero_le j, by
      show (j : Int) < ((0 : Nat) : Int) + 2
      omega⟩
  ⟨rfl, by decide, by decide, by decide, rfl, hcover,
    cell_footprint_within_column_count (renderOf asciiStyle (tableOf [] []))
      { rows := [] } { rows := [spanThenCellRow] } rfl (by decide)
      spanThenCellRow (by decide) (by decide) 2 (NewTableColumn (NewTableCell ['b'])) rfl hcover⟩

/-- C9 as stated fails in two ways. In a table whose only row stores one plain
colspan-1 cell at index 1 (a gap at index 0 that no span covers), the column
count is 1 while the cell ends at 2. In a table whose only row stores a cell
of colspan 9223372036854775807 at index 0 and a plain cell at index 1, the
count `getNumberOfColumns` sums wraps around to a negative number, the column
count stays 0, and the first cell ends at 9223372036854775807. -/
theorem cell_footprint_sparse_counterexample :
    ((renderOf asciiStyle (tableOf [] [])).numberOfColumns = 0
      ∧ (∀ row ∈ [sparseRow], ∀ column ∈ row.GetColumns, 1 ≤ column.cell.colspan)
      ∧ sparseRow.GetColumn 1 = some (NewTableColumn (NewTableCell ['x']))
      ∧ (NewTableCell ['x']).separator = false
      ∧ ¬ ((1 : Int) + (NewTableCell ['x']).colspan
          ≤ ((renderOf asciiStyle (tableOf [] [])).calculateNumberOfColumns
              (MergeData { rows := [] } { rows := [sparseRow] })).numberOfColumns))
    ∧ ((∀ row ∈ [hugeSpanRow], ∀ column ∈ row.GetColumns, 1 ≤ column.cell.colspan)
      ∧ hugeSpanRow.GetColumn 0
          = some (NewTableColumn ((NewTableCell ['a']).SetColspan 9223372036854775807))
      ∧ ((NewTableCell ['a']).SetColspan 9223372036854775807).separator = false
      ∧ TableRender.getNumberOfColumns hugeSpanRow = -9223372036854775808
      ∧ ((renderOf asciiStyle (tableOf [] [])).calculateNumberOfColumns
            (MergeData { rows := [] } { rows := [hugeSpanRow] })).numberOfColumns = 0
      ∧ ¬ ((0 : Int) + ((NewTableCell ['a']).SetColspan 9223372036854775807).colspan
          ≤ ((renderOf asciiStyle (tableOf [] [])).calculateNumberOfColumns
              (MergeData { rows := [] } { rows := [hugeSpanRow] })).numberOfColumns)) := by
  refine ⟨by decide, by decide, rfl, rfl, ?_, ?_, ?_⟩
  · decide
  · decide
  · decide

theorem setSlot_get {α : Type} : ∀ (l : List (Option α)) (i j : Nat) (a : α),
    ((setSlot l i a).get? j).join = if j = i then some a else (l.get? j).join
  | [], 0, 0, a => by simp [setSlot]
  | [], 0, j + 1, a => by simp [setSlot]
  | [], i + 1, 0, a => by simp [setSlot]
  | [], i + 1, j + 1, a => by
      have := setSlot_get [] i j a
      simp [setSlot] at this ⊢
      exact this
  | x :: xs, 0, 0, a => by simp [setSlot]
  | x :: xs, 0, j + 1, a => by simp [setSlot]
  | x :: xs, i + 1, 0, a => by simp [setSlot]
  | x :: xs, i + 1, j + 1, a => by
      have := setSlot_get xs i j a
      simp [setSlot] at this ⊢
      exact this

theorem getColumn_setColumn (row : TableRow) (i j : Int) (column : TableColumn) (hi : 0 ≤ i) :
    (row.SetColumn i column).GetColumn j = if j = i then some column else row.GetColumn j := by
  unfold TableRow.SetColumn TableRow.GetColumn
  have hi' : ¬ i < 0 := by omega
  simp only [hi', if_false]
  by_cases hj : j < 0
  · have : j ≠ i := by omega
    simp [hj, this]
  · simp only [hj, if_false]
    rw [setSlot_get]
    have : (j.toNat = i.toNat) ↔ j = i := by omega
    by_cases h : j = i
    · simp [h]
    · have h' : ¬ j.toNat = i.toNat := by omega
      simp [h, h']


theorem getRow_natCast (data : TableData) (k : Nat) :
    data.GetRow (Int.ofNat k) = data.rows.get? k := by
  unfold TableData.GetRow
  simp

theorem setRow_natCast (data : TableData) (k : Nat) (row : TableRow) :
    data.setRow (Int.ofNat k) row = { rows := data.rows.set k row } := by
  unfold TableData.setRow
  simp

theorem foldl_modify_rows (g : TableRow → TableRow) (rows : List TableRow) :
    ∀ m, m ≤ rows.length →
      ((List.range m).map Int.ofNat).foldl
          (fun (d : TableData) k =>
            match d.GetRow k with
            | none => d
            | some r => d.setRow k (g r))
          { rows := rows }
        = { rows := (rows.take m).map g ++ rows.drop m }
  | 0, _ => by simp
  | m + 1, hm => by
      rw [List.range_succ, List.map_append, List.foldl_append, foldl_modify_rows g rows m (by omega)]
      simp only [List.map_cons, List.map_nil, List.foldl_cons, List.foldl_nil]
      rw [getRow_natCast]
      have hlt : m < rows.length := by omega
      have hlen : ((rows.take m).map g).length = m := by simp; omega
      have hget : ((rows.take m).map g ++ rows.drop m).get? m = some (rows.get ⟨m, hlt⟩) := by
        rw [List.get?_eq_getElem?, List.getElem?_append_right (by omega), hlen]
        simp [List.getElem?_drop, List.getElem?_eq_getElem hlt]
      simp only [hget]
      rw [setRow_natCast]
      congr 1
      rw [List.take_succ, List.map_append]
      simp only [List.get?_eq_getElem?, List.getElem?_eq_getElem hlt, Option.toList_some, List.map_cons, List.map_nil]
      rw [List.set_append_right _ _ (by omega), hlen]
      simp only [Nat.sub_self]
      rw [List.drop_eq_getElem_cons hlt, List.set_cons_zero]
      simp


theorem set_of_get? {α : Type} : ∀ (l : List α) (i : Nat) (a : α), l.get? i = some a → l.set i a = l
  | [], _, _, h => by simp at h
  | x :: xs, 0, a, h => by simp at h; simp [h]
  | x :: xs, i + 1, a, h => by
      simp at h
      simp [set_of_get? xs i a (by simpa using h)]

theorem setRow_self (data : TableData) (k : Int) (row : TableRow) (h : data.GetRow k = some row) :
    data.setRow k row = data := by
  unfold TableData.GetRow at h
  unfold TableData.setRow
  split at h
  · cases h
  · rename_i hk
    simp only [hk, if_false]
    rw [set_of_get? _ _ _ h]

theorem completeTableSeparator_inner (columnIndex : Int) (data : TableData) (rowKey : Int) :
    (match data.GetRow rowKey with
      | none => data
      | some row =>
          match row.GetColumn 0 with
          | none => data
          | some firstColumn =>
              if firstColumn.cell.separator then
                data.setRow rowKey (row.SetColumn columnIndex (NewTableColumn NewTableSeparator))
              else data)
      = (match data.GetRow rowKey with
          | none => data
          | some r => data.setRow rowKey (sepStep columnIndex r)) := by
  cases hrow : data.GetRow rowKey with
  | none => rfl
  | some row =>
    simp only []
    unfold sepStep
    cases hcol : row.GetColumn 0 with
    | none => simp [setRow_self data rowKey row hrow]
    | some firstColumn =>
      by_cases hs : firstColumn.cell.separator
      · simp [hs]
      · simp [hs, setRow_self data rowKey row hrow]

theorem completeTableSeparator_eq_map (t : TableRender) (data : TableData) :
    t.completeTableSeparator data
      = { rows := data.rows.map (fun row =>
            (RangeInt 1 (t.numberOfColumns - 1)).foldl (fun r c => sepStep c r) row) } := by
  unfold TableRender.completeTableSeparator
  generalize RangeInt 1 (t.numberOfColumns - 1) = cs
  induction cs generalizing data with
  | nil => simp
  | cons c cs ih =>
    simp only [List.foldl_cons]
    have hinner : (data.GetRowsSortedKeys.foldl
        (fun data rowKey =>
          match data.GetRow rowKey with
          | none => data
          | some row =>
              match row.GetColumn 0 with
              | none => data
              | some firstColumn =>
                  if firstColumn.cell.separator then
                    data.setRow rowKey (row.SetColumn c (NewTableColumn NewTableSeparator))
                  else data)
        data) = { rows := data.rows.map (sepStep c) } := by
      have hf : (fun (data : TableData) (rowKey : Int) =>
          match data.GetRow rowKey with
          | none => data
          | some row =>
              match row.GetColumn 0 with
              | none => data
              | some firstColumn =>
                  if firstColumn.cell.separator then
                    data.setRow rowKey (row.SetColumn c (NewTableColumn NewTableSeparator))
                  else data)
          = (fun (d : TableData) k =>
              match d.GetRow k with
              | none => d
              | some r => d.setRow k (sepStep c r)) := by
        funext d k
        exact completeTableSeparator_inner c d k
      rw [hf]
      unfold TableData.GetRowsSortedKeys
      have := foldl_modify_rows (sepStep c) data.rows data.rows.length (le_refl _)
      simpa using this
    rw [hinner, ih]
    simp [List.map_map, Function.comp]


theorem mem_rangeInt (a b c : Int) : c ∈ RangeInt a b ↔ a ≤ c ∧ c ≤ b := by
  unfold RangeInt
  simp only [List.mem_map, List.mem_range]
  constructor
  · rintro ⟨i, hi, rfl⟩
    omega
  · rintro ⟨h1, h2⟩
    exact ⟨(c - a).toNat, by omega, by omega⟩

theorem sepStep_of_plain (c : Int) (row : TableRow)
    (h : row.GetColumn 0 = none ∨ ∃ fc, row.GetColumn 0 = some fc ∧ fc.cell.separator = false) :
    sepStep c row = row := by
  unfold sepStep
  rcases h with h | ⟨fc, h, hs⟩
  · simp [h]
  · simp [h, hs]

theorem foldl_sepStep_of_plain (cs : List Int) (row : TableRow)
    (h : row.GetColumn 0 = none ∨ ∃ fc, row.GetColumn 0 = some fc ∧ fc.cell.separator = false) :
    cs.foldl (fun r c => sepStep c r) row = row := by
  induction cs with
  | nil => rfl
  | cons c cs ih => simp only [List.foldl_cons, sepStep_of_plain c row h, ih]

theorem foldl_sepStep_of_separator (cs : List Int) (hcs : ∀ c ∈ cs, 1 ≤ c) (row : TableRow)
    (fc : TableColumn) (h : row.GetColumn 0 = some fc) (hs : fc.cell.separator = true) :
    (cs.foldl (fun r c => sepStep c r) row).GetColumn 0 = some fc
      ∧ ∀ j, (cs.foldl (fun r c => sepStep c r) row).GetColumn j
          = if j ∈ cs then some (NewTableColumn NewTableSeparator) else row.GetColumn j := by
  induction cs generalizing row with
  | nil => simp [h]
  | cons c cs ih =>
    have hc : 1 ≤ c := hcs c (List.mem_cons_self _ _)
    have hstep : sepStep c row = row.SetColumn c (NewTableColumn NewTableSeparator) := by
      unfold sepStep; simp [h, hs]
    have h0 : (sepStep c row).GetColumn 0 = some fc := by
      rw [hstep, getColumn_setColumn _ _ _ _ (by omega)]
      have : (0 : Int) ≠ c := by omega
      simp [this, h]
    obtain ⟨ih0, ihj⟩ := ih (fun x hx => hcs x (List.mem_cons_of_mem _ hx)) (sepStep c row) h0
    refine ⟨ih0, fun j => ?_⟩
    simp only [List.foldl_cons]
    rw [ihj j, hstep, getColumn_setColumn _ _ _ _ (by omega)]
    by_cases hj : j ∈ cs
    · simp [hj]
    · by_cases hjc : j = c
      · simp [hjc]
      · simp [hj, hjc]

/-- C5: `completeTableSeparator` keeps the number of rows; a row whose
column 0 holds a Separator holds a Separator at every column index in
`[0, numberOfColumns)` afterwards, and a row whose column 0 is absent or
holds a cell that is not a Separator is left unchanged. -/
theorem completeTableSeparator_spec (t : TableRender) (data : TableData) :
    (t.completeTableSeparator data).rows.length = data.rows.length
      ∧ ∀ (k : Nat) (row : TableRow), data.rows.get? k = some row →
          ∃ row', (t.completeTableSeparator data).rows.get? k = some row'
            ∧ ((∃ fc, row.GetColumn 0 = some fc ∧ fc.cell.separator = true) →
                ∀ c : Int, 0 ≤ c → c < t.numberOfColumns →
                  ∃ column, row'.GetColumn c = some column ∧ column.cell.separator = true)
            ∧ ((row.GetColumn 0 = none
                  ∨ ∃ fc, row.GetColumn 0 = some fc ∧ fc.cell.separator = false) →
                row' = row) := by
  rw [completeTableSeparator_eq_map]
  refine ⟨by simp, fun k row hk => ?_⟩
  refine ⟨(RangeInt 1 (t.numberOfColumns - 1)).foldl (fun r c => sepStep c r) row, ?_, ?_, ?_⟩
  · simp only [List.get?_eq_getElem?, List.getElem?_map] at hk ⊢
    rw [hk]; rfl
  · rintro ⟨fc, hfc, hs⟩ c hc0 hcn
    obtain ⟨h0, hj⟩ := foldl_sepStep_of_separator (RangeInt 1 (t.numberOfColumns - 1))
      (fun x hx => ((mem_rangeInt _ _ _).mp hx).1) row fc hfc hs
    by_cases hc : c = 0
    · subst hc; exact ⟨fc, h0, hs⟩
    · refine ⟨NewTableColumn NewTableSeparator, ?_, rfl⟩
      rw [hj c]
      have : c ∈ RangeInt 1 (t.numberOfColumns - 1) := (mem_rangeInt _ _ _).mpr ⟨by omega, by omega⟩
      simp [this]
  · intro hplain
    exact foldl_sepStep_of_plain _ row hplain


/-- Witness of C5: with 3 columns, a row holding a Separator at column 0 and
a plain cell at column 1 ends up with Separators at columns 0, 1 and 2. -/
theorem completeTableSeparator_spec_witness :
    ∃ row', ((measuredRender 3 []).completeTableSeparator
          { rows := [separatorLedRow, rowOf [['a']]] }).rows.get? 0 = some row'
      ∧ ∀ c : Int, 0 ≤ c → c < (measuredRender 3 []).numberOfColumns →
          ∃ column, row'.GetColumn c = some column ∧ column.cell.separator = true :=
  match (completeTableSeparator_spec (measuredRender 3 [])
      { rows := [separatorLedRow, rowOf [['a']]] }).2 0 separatorLedRow rfl with
  | ⟨row', h1, h2, _⟩ => ⟨row', h1, h2 ⟨NewTableColumn NewTableSeparator, rfl, rfl⟩⟩

theorem foldlM_ok_eq_foldl {σ α : Type} (f : σ → α → Run σ) (g : σ → α → σ) (l : List α)
    (h : ∀ s, ∀ a ∈ l, f s a = .ok (g s a)) (s : σ) :
    l.foldlM f s = .ok (l.foldl g s) := by
  induction l generalizing s with
  | nil => rfl
  | cons a l ih =>
    rw [List.foldlM_cons, h s a (List.mem_cons_self _ _)]
    exact ih (fun s b hb => h s b (List.mem_cons_of_mem _ hb)) (g s a)

theorem foldl_append_flatten {α : Type} (f : α → Str) (l : List α) (init : Str) :
    l.foldl (fun m a => m ++ f a) init = init ++ (l.map f).flatten := by
  induction l generalizing init with
  | nil => simp
  | cons a l ih => simp [ih]

theorem strRepeat_of_nonneg (s : Str) (n : Int) (h : 0 ≤ n) :
    strRepeat s n = .ok (List.replicate n.toNat s).flatten := by
  unfold strRepeat
  have : ¬ n < 0 := by omega
  simp [this]
  rfl

theorem getRowSeparator_eq_borderLine (t : TableRender) (direction : rowType)
    (hn : t.numberOfColumns ≠ 0)
    (hstyle : ¬ ((TableRender.horizontalChar t.style direction).length = 0 ∧ t.style.crossingChar.length = 0))
    (hw : ∀ c, 0 ≤ c → c < t.numberOfColumns → 0 ≤ t.getEffectiveColumnWidth c) :
    t.getRowSeparator direction = .ok (borderLine t direction) := by
  unfold TableRender.getRowSeparator
  have h1 : (t.numberOfColumns == 0) = false := by simpa using hn
  have h2 : ((TableRender.horizontalChar t.style direction).length == 0 && t.style.crossingChar.length == 0)
      = false := by
    by_contra hc
    simp at hc
    exact hstyle (by simpa using hc)
  simp only [h1, h2, Bool.false_eq_true, if_false]
  rw [foldlM_ok_eq_foldl _ (fun markup column => markup ++ borderPiece t direction column)]
  · rw [foldl_append_flatten]
    rfl
  · intro s c hc
    obtain ⟨hc0, hc1⟩ := (mem_rangeInt _ _ _).mp hc
    rw [strRepeat_of_nonneg _ _ (hw c hc0 (by omega))]
    unfold borderPiece
    by_cases hlast : c = t.numberOfColumns - 1
    · simp [hlast, bind, Except.bind, pure, Except.pure]
    · simp [hlast, bind, Except.bind, pure, Except.pure]

/-- C4: in a renderer that has its column count (at least 1) and
non-negative effective widths, `renderRow` on a row whose column 0 holds a
Separator, whatever the row stores at its other indices, writes exactly one
line, and that line is what `getRowSeparator(rowSimple)` returns: for a style
with a horizontal or crossing character, the mid-left crossing, then per
column the inside horizontal character over the column's width followed by
the mid crossing, or by the mid-right crossing after the last column. -/
theorem renderRow_separator_row (t : TableRender) (fuel : Nat) (row : TableRow)
    (cellFormat : Str) (column : TableColumn) (hcol : row.GetColumn 0 = some column)
    (hsep : column.cell.separator = true) (hn : 0 < t.numberOfColumns)
    (hw : ∀ c, 0 ≤ c → c < t.numberOfColumns → 0 ≤ t.getEffectiveColumnWidth c) :
    ∃ line, t.getRowSeparator rowType.rowSimple = .ok line
      ∧ (¬ ((TableRender.horizontalChar t.style rowType.rowSimple).length = 0
            ∧ t.style.crossingChar.length = 0) → line = borderLine t rowType.rowSimple)
      ∧ ∃ t', t.renderRow (fuel + 1) row cellFormat = .ok t' ∧ t'.output = t.output ++ [line] := by
  have hline : ∃ line, t.getRowSeparator rowType.rowSimple = .ok line
      ∧ (¬ ((TableRender.horizontalChar t.style rowType.rowSimple).length = 0
            ∧ t.style.crossingChar.length = 0) → line = borderLine t rowType.rowSimple) := by
    by_cases hstyle : (TableRender.horizontalChar t.style rowType.rowSimple).length = 0
        ∧ t.style.crossingChar.length = 0
    · refine ⟨[], ?_, fun h => absurd hstyle h⟩
      unfold TableRender.getRowSeparator
      have h1 : (t.numberOfColumns == 0) = false := by
        have : t.numberOfColumns ≠ 0 := by omega
        simpa using this
      simp only [h1, Bool.false_eq_true, if_false]
      obtain ⟨ha, hb⟩ := hstyle
      have hc : ((TableRender.horizontalChar t.style rowType.rowSimple).length == 0
          && t.style.crossingChar.length == 0) = true := by simp [ha, hb]
      simp only [hc, if_true]
      rfl
    · exact ⟨_, getRowSeparator_eq_borderLine t _ (by omega) hstyle hw, fun _ => rfl⟩
  obtain ⟨line, hline, hshape⟩ := hline
  refine ⟨line, hline, hshape, t.Writeln line, ?_, rfl⟩
  unfold TableRender.renderRow
  have hne : (row.GetColumns.length == 0) = false := by
    have := getColumn_mem row 0 column hcol
    cases hl : row.GetColumns with
    | nil => rw [hl] at this; cases this
    | cons a l => simp
  simp only [hne, Bool.false_eq_true, if_false]
  unfold TableRender.renderRowLoop
  simp [hn, hcol, hsep, hline, bind, Except.bind, pure, Except.pure]

/-- Witness of C4: a row led by a Separator with a plain cell behind it, in
a two-column renderer with widths 3 and 3 under the ASCII style. -/
theorem renderRow_separator_row_witness :
    separatorLedRow.GetColumn 0 = some (NewTableColumn NewTableSeparator)
      ∧ (NewTableColumn NewTableSeparator).cell.separator = true
      ∧ 0 < (measuredRender 2 [(0, 3), (1, 3)]).numberOfColumns
      ∧ ∃ line, (measuredRender 2 [(0, 3), (1, 3)]).getRowSeparator rowType.rowSimple = .ok line
        ∧ (¬ ((TableRender.horizontalChar (measuredRender 2 [(0, 3), (1, 3)]).style
                rowType.rowSimple).length = 0
              ∧ (measuredRender 2 [(0, 3), (1, 3)]).style.crossingChar.length = 0) →
            line = borderLine (measuredRender 2 [(0, 3), (1, 3)]) rowType.rowSimple)
        ∧ ∃ t', (measuredRender 2 [(0, 3), (1, 3)]).renderRow (0 + 1) separatorLedRow ['%', 's']
              = .ok t'
          ∧ t'.output = (measuredRender 2 [(0, 3), (1, 3)]).output ++ [line] :=
  ⟨rfl, rfl, by decide,
    renderRow_separator_row (measuredRender 2 [(0, 3), (1, 3)]) 0 separatorLedRow ['%', 's']
      (NewTableColumn NewTableSeparator) rfl rfl (by decide)
      (fun c hc0 hc2 => by
        have hn : (measuredRender 2 [(0, 3), (1, 3)]).numberOfColumns = 2 := rfl
        have hc : c = 0 ∨ c = 1 := by omega
        rcases hc with rfl | rfl <;> decide)⟩

theorem foldlM_invariant {σ α : Type} (f : σ → α → Run σ) (P : List α → σ → Prop) (l : List α)
    (hstep : ∀ pre a s, a ∈ l → P pre s → ∃ s', f s a = .ok s' ∧ P (pre ++ [a]) s') :
    ∀ pre s, P pre s → ∃ s', l.foldlM f s = .ok s' ∧ P (pre ++ l) s' := by
  induction l with
  | nil => intro pre s h; exact ⟨s, rfl, by simpa using h⟩
  | cons a l ih =>
    intro pre s h
    obtain ⟨s1, h1, hP1⟩ := hstep pre a s (List.mem_cons_self _ _) h
    obtain ⟨s2, h2, hP2⟩ := ih (fun pre b s hb => hstep pre b s (List.mem_cons_of_mem _ hb))
      (pre ++ [a]) s1 hP1
    refine ⟨s2, ?_, by simpa using hP2⟩
    rw [List.foldlM_cons, h1]
    exact h2

theorem find?_filter_ne (m : List (Int × Int)) (k k' : Int) (h : k' ≠ k) :
    List.find? (fun p => p.1 == k') (List.filter (fun p => !(p.1 == k)) m)
      = List.find? (fun p => p.1 == k') m := by
  induction m with
  | nil => rfl
  | cons p m ih =>
    by_cases hp : p.1 = k
    · have hpk : (p.1 == k') = false := by
        rw [beq_eq_false_iff_ne]; omega
      have hf : (!(p.1 == k)) = false := by simp [hp]
      rw [List.filter_cons, hf, List.find?_cons, hpk]
      simpa using ih
    · have hf : (!(p.1 == k)) = true := by simp [hp]
      rw [List.filter_cons, hf]
      simp only [if_true, List.find?_cons, ih]

theorem intMapGet_set (m : List (Int × Int)) (k v k' : Int) :
    intMapGet (intMapSet m k v) k' = if k' = k then v else intMapGet m k' := by
  unfold intMapGet intMapSet
  by_cases h : k' = k
  · subst h; simp
  · have hne : (k == k') = false := by
      rw [beq_eq_false_iff_ne]; omega
    simp only [List.find?_cons, hne, h, if_false]
    rw [find?_filter_ne m k k' h]

theorem maxInt_ge (l : List Int) (m : Int) (hne : l ≠ []) (h : ∀ x ∈ l, m ≤ x) : m ≤ MaxInt l := by
  cases l with
  | nil => exact absurd rfl hne
  | cons x xs =>
    unfold MaxInt
    exact le_trans (h x (List.mem_cons_self _ _)) (foldl_max_ge_init xs x)

theorem mem_getColumns (row : TableRow) (column : TableColumn) (h : column ∈ row.GetColumns) :
    ∃ j : Int, row.GetColumn j = some column := by
  unfold TableRow.GetColumns at h
  rw [List.mem_filterMap] at h
  obtain ⟨o, ho, hid⟩ := h
  simp only [id] at hid
  subst hid
  obtain ⟨n, hn⟩ := List.get?_of_mem ho
  refine ⟨(n : Int), ?_⟩
  rw [getColumn_natCast, hn]
  rfl

theorem spansOK_iff (row : TableRow) :
    SpansOK row ↔ ∀ column ∈ row.GetColumns, 1 ≤ column.cell.colspan := by
  constructor
  · intro h column hc
    obtain ⟨j, hj⟩ := mem_getColumns row column hc
    exact h j column hj
  · intro h j column hj
    exact h column (getColumn_mem row j column hj)

theorem spansOK_setColumn (row : TableRow) (i : Int) (column : TableColumn)
    (h : SpansOK row) (hc : 1 ≤ column.cell.colspan) : SpansOK (row.SetColumn i column) := by
  by_cases hi : i < 0
  · unfold TableRow.SetColumn; simp [hi]; exact h
  · intro j c hj
    rw [getColumn_setColumn _ _ _ _ (by omega)] at hj
    by_cases hji : j = i
    · simp [hji] at hj; subst hj; exact hc
    · simp [hji] at hj; exact h j c hj

theorem splitSpan_ok (t : TableRender) (r : TableRow) (i : Int) (hr : SpansOK r) :
    ∃ r', t.splitSpan r i = .ok r' ∧ SpansOK r' := by
  unfold TableRender.splitSpan
  cases hcol : r.GetColumn i with
  | none => exact ⟨r, rfl, hr⟩
  | some column =>
    simp only []
    by_cases hsep : column.cell.separator
    · simp only [hsep, if_true]; exact ⟨r, rfl, hr⟩
    · simp only [hsep, Bool.false_eq_true, if_false]
      by_cases hlen : ((t.formatter.strip column.cell.value).length : Int) > 0
      · simp only [hlen, if_true]
        have hk := hr i column hcol
        have hk' : ¬ column.cell.colspan < 1 := by omega
        have hchunk : ¬ (((t.formatter.strip column.cell.value).length : Int)
            + column.cell.colspan - 1) / column.cell.colspan < 1 := by
          have : column.cell.colspan ≤ ((t.formatter.strip column.cell.value).length : Int)
              + column.cell.colspan - 1 := by omega
          have h1 := Int.ediv_le_ediv (by omega : (0 : Int) < column.cell.colspan) this
          rw [Int.ediv_self (by omega)] at h1
          omega
        simp only [hk', if_false, StrSplit, hchunk, pure, Except.pure]
        refine ⟨_, rfl, ?_⟩
        generalize (List.toChunks _ (t.formatter.strip column.cell.value)).enum = chunks
        clear hcol
        induction chunks generalizing r with
        | nil => exact hr
        | cons c cs ih =>
          simp only [List.foldl_cons]
          exact ih _ (spansOK_setColumn r _ _ hr (le_refl _))
      · simp only [hlen, if_false]; exact ⟨r, rfl, hr⟩

theorem splitSpans_ok (t : TableRender) (row : TableRow) (h : SpansOK row) :
    ∃ row', t.splitSpans row = .ok row' ∧ SpansOK row' := by
  unfold TableRender.splitSpans
  have := foldlM_invariant (TableRender.splitSpan t) (fun _ r => SpansOK r) row.GetColumnsSortedKeys
    (fun pre i r _ hr => splitSpan_ok t r i hr) [] row h
  simpa using this


theorem getCellWidth_ge_min (t : TableRender) (row : TableRow) (c : Int) :
    t.GetColumnMinWidth c ≤ t.getCellWidth row c := by
  unfold TableRender.getCellWidth
  simp only []
  split <;> omega

theorem foldlM_preserves {σ α : Type} (f : σ → α → Run σ) (P : σ → Prop)
    (hstep : ∀ a s s', f s a = .ok s' → P s → P s') :
    ∀ (l : List α) (s s' : σ), l.foldlM f s = .ok s' → P s → P s' := by
  intro l
  induction l with
  | nil =>
      intro s s' h hs
      simp only [List.foldlM_nil, pure, Except.pure, Except.ok.injEq] at h
      exact h ▸ hs
  | cons a rest ih =>
      intro s s' h hs
      rw [List.foldlM_cons] at h
      cases hf : f s a with
      | error e => rw [hf] at h; cases h
      | ok s1 =>
          rw [hf] at h
          exact ih s1 s' h (hstep a s s1 hf hs)

theorem chunkRange_cons {α : Type} (n : Nat) (hn : 1 ≤ n) (l : List α) (hne : l ≠ []) :
    (List.range ((l.length + n - 1) / n)).map (fun (p : Nat) => (l.drop (p * n)).take n)
      = l.take n :: (List.range (((l.drop n).length + n - 1) / n)).map
          (fun (p : Nat) => ((l.drop n).drop (p * n)).take n) := by
  have hpos : 0 < l.length := List.length_pos.mpr hne
  have hcount : (l.length + n - 1) / n = ((l.drop n).length + n - 1) / n + 1 := by
    rw [List.length_drop]
    by_cases h : n ≤ l.length
    · have : l.length + n - 1 = (l.length - n + n - 1) + n := by omega
      rw [this, Nat.add_div_right _ (by omega)]
    · have h1 : l.length - n = 0 := by omega
      rw [h1, Nat.zero_add, Nat.div_eq_of_lt (by omega : n - 1 < n)]
      have : l.length + n - 1 = (l.length - 1) + n := by omega
      rw [this, Nat.add_div_right _ (by omega), Nat.div_eq_of_lt (by omega)]
  rw [hcount, List.range_succ_eq_map, List.map_cons, List.map_map]
  simp only [Nat.zero_mul, List.drop_zero, List.cons.injEq, true_and]
  apply List.map_congr_left
  intro p _
  simp only [Function.comp, List.drop_drop]
  congr 2
  rw [Nat.succ_mul]; omega

theorem toChunks_go_eq {α : Type} (n : Nat) (hn : 1 ≤ n) :
    ∀ (xs : List α) (acc₁ : Array α) (acc₂ : Array (List α)),
      1 ≤ acc₁.size → acc₁.size ≤ n →
      List.toChunks.go n xs acc₁ acc₂
        = acc₂.toList ++ (acc₁.toList ++ xs.take (n - acc₁.size))
            :: (List.range (((xs.drop (n - acc₁.size)).length + n - 1) / n)).map
                (fun (p : Nat) => ((xs.drop (n - acc₁.size)).drop (p * n)).take n)
  | [], acc₁, acc₂, _, _ => by
      have : (n - 1) / n = 0 := Nat.div_eq_of_lt (by omega)
      simp [List.toChunks.go, this]
  | x :: xs, acc₁, acc₂, h1, h2 => by
      rw [List.toChunks.go]
      by_cases hfull : acc₁.size = n
      · have hb : (acc₁.size == n) = true := by rw [beq_iff_eq]; exact hfull
        simp only [hb, if_true]
        have ih := toChunks_go_eq n hn xs ((Array.mkEmpty n).push x) (acc₂.push acc₁.toList)
          (by simp) (by simpa using hn)
        have hsz : (Array.push (Array.mkEmpty n) x).size = 1 := by simp
        have hl : (Array.push (Array.mkEmpty n) x).toList = [x] := by simp
        have hp : (acc₂.push acc₁.toList).toList = acc₂.toList ++ [acc₁.toList] := by simp
        rw [hsz, hl, hp] at ih
        rw [ih, hfull, Nat.sub_self, List.take_zero, List.append_nil, List.drop_zero,
          chunkRange_cons n hn (x :: xs) (by simp)]
        obtain ⟨m, rfl⟩ : ∃ m, n = m + 1 := ⟨n - 1, by omega⟩
        simp only [Nat.add_sub_cancel, List.take_succ_cons, List.drop_succ_cons,
          List.append_assoc, List.singleton_append, List.cons_append, List.nil_append]
      · have hne : (acc₁.size == n) = false := by
          rw [beq_eq_false_iff_ne]; exact hfull
        simp only [hne, Bool.false_eq_true, if_false]
        rw [toChunks_go_eq n hn xs _ _ (by simp) (by simp; omega)]
        have hs : n - acc₁.size = (n - (acc₁.push x).size) + 1 := by simp; omega
        rw [hs, List.take_succ_cons, List.drop_succ_cons]
        simp

/-- The chunks `toChunks` cuts: chunk `p` is the `n` elements from position
`p * n` on. -/
theorem toChunks_eq_map_range {α : Type} (n : Nat) (hn : 1 ≤ n) (l : List α) :
    l.toChunks n
      = (List.range ((l.length + n - 1) / n)).map (fun (p : Nat) => (l.drop (p * n)).take n) := by
  cases l with
  | nil =>
      cases n with
      | zero => omega
      | succ m =>
          have : m / (m + 1) = 0 := Nat.div_eq_of_lt (by omega)
          simp [List.toChunks, this]
  | cons x xs =>
      cases n with
      | zero => omega
      | succ m =>
          rw [List.toChunks]
          · rw [toChunks_go_eq (m + 1) hn xs #[x] #[] (by simp) (by simp)]
            rw [chunkRange_cons (m + 1) hn (x :: xs) (by simp)]
            simp
          · simp

theorem mem_toChunks_length_le {α : Type} (n : Nat) (hn : 1 ≤ n) (l chunk : List α)
    (h : chunk ∈ l.toChunks n) : chunk.length ≤ l.length := by
  rw [toChunks_eq_map_range n hn] at h
  obtain ⟨p, _, rfl⟩ := List.mem_map.mp h
  simp only [List.length_take, List.length_drop]
  omega

theorem wrapInt_sub_two (a : Int) : wrapInt (wrapInt a - 2) = wrapInt (a - 2) := by
  unfold wrapInt
  omega

theorem short_setColumn (B : Int) (row : TableRow) (i : Int) (column : TableColumn)
    (h : ∀ j c, row.GetColumn j = some c → (c.cell.value.length : Int) ≤ B)
    (hc : (column.cell.value.length : Int) ≤ B) :
    ∀ j c, (row.SetColumn i column).GetColumn j = some c → (c.cell.value.length : Int) ≤ B := by
  by_cases hi : i < 0
  · unfold TableRow.SetColumn; simp [hi]; exact h
  · intro j c hj
    rw [getColumn_setColumn _ _ _ _ (by omega)] at hj
    by_cases hji : j = i
    · simp [hji] at hj; subst hj; exact hc
    · simp [hji] at hj; exact h j c hj

/-- With a text service that never lengthens a text, the pre-split of
`calculateColumnsWidth` stores no text longer than those the row held. -/
theorem splitSpan_short (t : TableRender) (B : Int)
    (hshort : ∀ s, (t.formatter.strip s).length ≤ s.length)
    (i : Int) (r r' : TableRow) (h : t.splitSpan r i = .ok r')
    (hr : ∀ j c, r.GetColumn j = some c → (c.cell.value.length : Int) ≤ B) :
    ∀ j c, r'.GetColumn j = some c → (c.cell.value.length : Int) ≤ B := by
  unfold TableRender.splitSpan at h
  cases hcol : r.GetColumn i with
  | none => simp only [hcol, pure, Except.pure, Except.ok.injEq] at h; rw [← h]; exact hr
  | some column =>
    simp only [hcol] at h
    by_cases hsep : column.cell.separator
    · simp only [hsep, if_true, pure, Except.pure, Except.ok.injEq] at h; rw [← h]; exact hr
    · simp only [hsep, Bool.false_eq_true, if_false] at h
      by_cases hlen : ((t.formatter.strip column.cell.value).length : Int) > 0
      · simp only [hlen, if_true] at h
        by_cases hk : column.cell.colspan < 1
        · simp [hk, throw, throwThe, MonadExceptOf.throw] at h
        · simp only [hk, if_false, StrSplit] at h
          by_cases hchunk : (((t.formatter.strip column.cell.value).length : Int)
              + column.cell.colspan - 1) / column.cell.colspan < 1
          · simp [hchunk, throw, throwThe, MonadExceptOf.throw] at h
          · simp only [hchunk, if_false, pure, Except.pure, Except.ok.injEq] at h
            rw [← h]
            have hmem : ∀ keyed ∈ (List.toChunks ((((t.formatter.strip column.cell.value).length
                : Int) + column.cell.colspan - 1) / column.cell.colspan).toNat
                (t.formatter.strip column.cell.value)).enum, (keyed.2.length : Int) ≤ B := by
              intro keyed hkeyed
              have hq : 1 ≤ ((((t.formatter.strip column.cell.value).length : Int)
                  + column.cell.colspan - 1) / column.cell.colspan).toNat := by
                have hc := hchunk
                generalize (((t.formatter.strip column.cell.value).length : Int)
                  + column.cell.colspan - 1) / column.cell.colspan = q at hc ⊢
                omega
              have h1 := mem_toChunks_length_le _ hq _ _ (List.snd_mem_of_mem_enum hkeyed)
              have h2 := hshort column.cell.value
              have h3 := hr i column hcol
              omega
            revert hmem
            generalize (List.toChunks _ (t.formatter.strip column.cell.value)).enum = chunks
            intro hmem
            clear hcol h
            induction chunks generalizing r with
            | nil => exact hr
            | cons c cs ih =>
              simp only [List.foldl_cons]
              exact ih _ (short_setColumn B r _ _ hr (hmem c (List.mem_cons_self _ _)))
                (fun keyed hk => hmem keyed (List.mem_cons_of_mem _ hk))
      · simp only [hlen, if_false, pure, Except.pure, Except.ok.injEq] at h; rw [← h]; exact hr

theorem splitSpans_short (t : TableRender) (B : Int)
    (hshort : ∀ s, (t.formatter.strip s).length ≤ s.length)
    (row row' : TableRow) (h : t.splitSpans row = .ok row')
    (hr : ∀ j c, row.GetColumn j = some c → (c.cell.value.length : Int) ≤ B) :
    ∀ j c, row'.GetColumn j = some c → (c.cell.value.length : Int) ≤ B := by
  unfold TableRender.splitSpans at h
  exact foldlM_preserves (TableRender.splitSpan t)
    (fun r => ∀ j c, r.GetColumn j = some c → (c.cell.value.length : Int) ≤ B)
    (fun a s s' hs hP => splitSpan_short t B hshort a s s' hs hP) _ _ _ h hr

theorem getCellWidth_le (t : TableRender) (B : Int) (row : TableRow) (c : Int)
    (hshort : ∀ s, (t.formatter.strip s).length ≤ s.length)
    (hr : ∀ j col, row.GetColumn j = some col → (col.cell.value.length : Int) ≤ B)
    (hB : 0 ≤ B) (hmin : t.GetColumnMinWidth c ≤ B) :
    t.getCellWidth row c ≤ B := by
  unfold TableRender.getCellWidth
  simp only []
  have hw : (match row.GetColumn c with
      | some column => StrlenWithoutDecoration t.formatter column.cell.value
      | none => 0) ≤ B := by
    cases hcol : row.GetColumn c with
    | none => exact hB
    | some column =>
        simp only [StrlenWithoutDecoration]
        have h1 := hshort column.cell.value
        have h2 := hr c column hcol
        omega
  split <;> omega

theorem getCellWidth_nonneg (t : TableRender) (row : TableRow) (c : Int) :
    0 ≤ t.getCellWidth row c := by
  unfold TableRender.getCellWidth
  simp only []
  have hw : 0 ≤ (match row.GetColumn c with
      | some column => StrlenWithoutDecoration t.formatter column.cell.value
      | none => 0) := by
    cases row.GetColumn c with
    | none => exact le_refl _
    | some column => exact Int.ofNat_nonneg _
  split <;> omega

theorem measureRow_ok (t : TableRender) (c : Int) (N : Nat) (B : Int) (pre : List Int)
    (rowKey : Int) (acc : TableData × List Int)
    (hshort : ∀ s, (t.formatter.strip s).length ≤ s.length)
    (hB : 0 ≤ B) (hminB : t.GetColumnMinWidth c ≤ B)
    (hkey : rowKey ∈ (List.range N).map Int.ofNat)
    (h : acc.1.rows.length = N ∧ (∀ row ∈ acc.1.rows, SpansOK row)
      ∧ (∀ row ∈ acc.1.rows, ∀ j col, row.GetColumn j = some col →
          (col.cell.value.length : Int) ≤ B)
      ∧ (∀ x ∈ acc.2, t.GetColumnMinWidth c ≤ x ∧ 0 ≤ x ∧ x ≤ B) ∧ (pre ≠ [] → acc.2 ≠ [])) :
    ∃ acc', TableRender.measureRow t c acc rowKey = .ok acc'
      ∧ (acc'.1.rows.length = N ∧ (∀ row ∈ acc'.1.rows, SpansOK row)
        ∧ (∀ row ∈ acc'.1.rows, ∀ j col, row.GetColumn j = some col →
            (col.cell.value.length : Int) ≤ B)
        ∧ (∀ x ∈ acc'.2, t.GetColumnMinWidth c ≤ x ∧ 0 ≤ x ∧ x ≤ B)
        ∧ (pre ++ [rowKey] ≠ [] → acc'.2 ≠ [])) := by
  obtain ⟨hlen, hok, hsh, hmin, _⟩ := h
  obtain ⟨k, hk, rfl⟩ := List.mem_map.mp hkey
  rw [List.mem_range] at hk
  unfold TableRender.measureRow
  rw [getRow_natCast]
  have hlt : k < acc.1.rows.length := by omega
  rw [List.get?_eq_getElem?, List.getElem?_eq_getElem hlt]
  simp only []
  obtain ⟨row', hsplit, hrow'⟩ := splitSpans_ok t acc.1.rows[k] (hok _ (List.getElem_mem _))
  have hsh' := splitSpans_short t B hshort _ _ hsplit (hsh _ (List.getElem_mem _))
  rw [hsplit]
  refine ⟨_, rfl, ?_, ?_, ?_, ?_, ?_⟩
  · rw [setRow_natCast]; simp [hlen]
  · rw [setRow_natCast]
    intro row hrow
    rcases List.mem_or_eq_of_mem_set hrow with hm | he
    · exact hok row hm
    · rw [he]; exact hrow'
  · rw [setRow_natCast]
    intro row hrow
    rcases List.mem_or_eq_of_mem_set hrow with hm | he
    · exact hsh row hm
    · rw [he]; exact hsh'
  · intro x hx
    rcases List.mem_append.mp hx with hx | hx
    · exact hmin x hx
    · simp at hx; rw [hx]
      exact ⟨getCellWidth_ge_min t row' c, getCellWidth_nonneg t row' c,
        getCellWidth_le t B row' c hshort hsh' hB hminB⟩
  · intro _; simp

theorem maxInt_le (l : List Int) (m : Int) (hne : l ≠ []) (h : ∀ x ∈ l, x ≤ m) : MaxInt l ≤ m := by
  cases l with
  | nil => exact absurd rfl hne
  | cons x xs =>
    show List.foldl max x xs ≤ m
    rcases foldl_max_mem xs x with h1 | h1
    · rw [h1]; exact h x (List.mem_cons_self _ _)
    · exact h _ (List.mem_cons_of_mem _ h1)

theorem measureColumn_ok (t : TableRender) (N : Nat) (hN : 0 < N) (B : Int)
    (hshort : ∀ s, (t.formatter.strip s).length ≤ s.length)
    (hfmt : 2 ≤ t.style.cellRowContentFormat.length)
    (hB : 0 ≤ B)
    (hfit : B + (t.style.cellRowContentFormat.length : Int) - 2 < 9223372036854775808)
    (pre : List Int) (c : Int) (hminB : t.GetColumnMinWidth c ≤ B)
    (state : TableRender × TableData)
    (h : state.2.rows.length = N ∧ (∀ row ∈ state.2.rows, SpansOK row)
      ∧ (∀ row ∈ state.2.rows, ∀ j col, row.GetColumn j = some col →
          (col.cell.value.length : Int) ≤ B)
      ∧ state.1.columnsMinWidths = t.columnsMinWidths ∧ state.1.style = t.style
      ∧ state.1.formatter = t.formatter
      ∧ (∀ c' ∈ pre, t.GetColumnMinWidth c' ≤ state.1.getEffectiveColumnWidth c')) :
    ∃ state', TableRender.measureColumn state c = .ok state'
      ∧ (state'.2.rows.length = N ∧ (∀ row ∈ state'.2.rows, SpansOK row)
      ∧ (∀ row ∈ state'.2.rows, ∀ j col, row.GetColumn j = some col →
          (col.cell.value.length : Int) ≤ B)
      ∧ state'.1.columnsMinWidths = t.columnsMinWidths ∧ state'.1.style = t.style
      ∧ state'.1.formatter = t.formatter
      ∧ (∀ c' ∈ pre ++ [c], t.GetColumnMinWidth c' ≤ state'.1.getEffectiveColumnWidth c')) := by
  obtain ⟨hlen, hok, hsh, hminw, hstyle, hform, hpre⟩ := h
  have hmin_eq : ∀ x, state.1.GetColumnMinWidth x = t.GetColumnMinWidth x := by
    intro x; unfold TableRender.GetColumnMinWidth; rw [hminw]
  obtain ⟨acc', hfold, hlen', hok', hsh', hmin', hne'⟩ :=
    foldlM_invariant (TableRender.measureRow state.1 c)
      (fun pre acc => acc.1.rows.length = N ∧ (∀ row ∈ acc.1.rows, SpansOK row)
        ∧ (∀ row ∈ acc.1.rows, ∀ j col, row.GetColumn j = some col →
            (col.cell.value.length : Int) ≤ B)
        ∧ (∀ x ∈ acc.2, state.1.GetColumnMinWidth c ≤ x ∧ 0 ≤ x ∧ x ≤ B)
        ∧ (pre ≠ [] → acc.2 ≠ []))
      state.2.GetRowsSortedKeys
      (fun pre a s ha hs => measureRow_ok state.1 c N B pre a s (by rw [hform]; exact hshort) hB
        (by rw [hmin_eq]; exact hminB)
        (by unfold TableData.GetRowsSortedKeys at ha; rw [hlen] at ha; exact ha) hs)
      [] (state.2, []) ⟨hlen, hok, hsh, by simp, by simp⟩
  unfold TableRender.measureColumn
  rw [hfold]
  refine ⟨_, rfl, hlen', hok', hsh', hminw, hstyle, hform, ?_⟩
  have hkeys : ([] : List Int) ++ state.2.GetRowsSortedKeys ≠ [] := by
    unfold TableData.GetRowsSortedKeys
    rw [hlen]
    cases N with
    | zero => omega
    | succ n => simp [List.range_succ]
  have hmax := maxInt_ge acc'.2 (state.1.GetColumnMinWidth c) (hne' hkeys)
    (fun x hx => (hmin' x hx).1)
  have hmax0 := maxInt_ge acc'.2 0 (hne' hkeys) (fun x hx => (hmin' x hx).2.1)
  have hmaxB := maxInt_le acc'.2 B (hne' hkeys) (fun x hx => (hmin' x hx).2.2)
  rw [hmin_eq] at hmax
  intro c' hc'
  simp only [TableRender.getEffectiveColumnWidth, TableRender.setEffectiveColumnWidth]
  rw [intMapGet_set]
  by_cases hcc : c' = c
  · subst hcc
    simp only [if_true]
    rw [hstyle, wrapInt_sub_two, wrapInt_of_range _ (by omega) (by omega)]
    omega
  · simp only [hcc, if_false]
    rcases List.mem_append.mp hc' with hc' | hc'
    · exact hpre c' hc'
    · simp at hc'; exact absurd hc' hcc

/-- C10 (amended): on a table with at least one row whose cells all have
colspan at least 1, under a style whose cell content format has at least 2
code points (as every format holding the `%s` verb has), with a text service
that never lengthens a text, and when no width overflows a Go `int` (the
length of the cell content format minus 2, alone or added to the length of
any cell value or to the minimum width of any column, stays below 2^63),
`calculateColumnsWidth` returns, and then the effective width of every
column index in `[0, numberOfColumns)` is at least the configured minimum
width of that column. -/
theorem calculateColumnsWidth_ge_min_width (t : TableRender) (data : TableData)
    (hrows : data.rows ≠ [])
    (hspan : ∀ row ∈ data.rows, ∀ column ∈ row.GetColumns, 1 ≤ column.cell.colspan)
    (hfmt : 2 ≤ t.style.cellRowContentFormat.length)
    (hshort : ∀ s, (t.formatter.strip s).length ≤ s.length)
    (hfit : (t.style.cellRowContentFormat.length : Int) - 2 < 9223372036854775808)
    (hval : ∀ row ∈ data.rows, ∀ column ∈ row.GetColumns,
      (column.cell.value.length : Int) + (t.style.cellRowContentFormat.length : Int) - 2
        < 9223372036854775808)
    (hminw : ∀ c, 0 ≤ c → c < t.numberOfColumns →
      t.GetColumnMinWidth c + (t.style.cellRowContentFormat.length : Int) - 2
        < 9223372036854775808) :
    ∃ t' data', t.calculateColumnsWidth data = .ok (t', data')
      ∧ ∀ c, 0 ≤ c → c < t.numberOfColumns →
          t'.GetColumnMinWidth c ≤ t'.getEffectiveColumnWidth c := by
  have hN : 0 < data.rows.length := List.length_pos.mpr hrows
  obtain ⟨s', hfold, _, _, _, hmw, _, _, hall⟩ :=
    foldlM_invariant TableRender.measureColumn
      (fun pre (state : TableRender × TableData) =>
        state.2.rows.length = data.rows.length ∧ (∀ row ∈ state.2.rows, SpansOK row)
        ∧ (∀ row ∈ state.2.rows, ∀ j col, row.GetColumn j = some col →
            (col.cell.value.length : Int)
              ≤ 9223372036854775809 - (t.style.cellRowContentFormat.length : Int))
        ∧ state.1.columnsMinWidths = t.columnsMinWidths ∧ state.1.style = t.style
        ∧ state.1.formatter = t.formatter
        ∧ (∀ c' ∈ pre, t.GetColumnMinWidth c' ≤ state.1.getEffectiveColumnWidth c'))
      (RangeInt 0 (t.numberOfColumns - 1))
      (fun pre a s ha hs => measureColumn_ok t data.rows.length hN
        (9223372036854775809 - (t.style.cellRowContentFormat.length : Int)) hshort hfmt
        (by omega) (by omega) pre a
        (by
          have hr := (mem_rangeInt 0 (t.numberOfColumns - 1) a).mp ha
          have := hminw a hr.1 (by omega)
          omega) s hs)
      [] (t, data)
      ⟨rfl, fun row hr => (spansOK_iff row).mpr (hspan row hr),
        fun row hr j col hj => by
          have := hval row hr col (getColumn_mem row j col hj)
          omega,
        rfl, rfl, rfl, by simp⟩
  refine ⟨s'.1, s'.2, hfold, fun c hc0 hcn => ?_⟩
  have := hall c (by simpa using (mem_rangeInt 0 (t.numberOfColumns - 1) c).mpr ⟨hc0, by omega⟩)
  unfold TableRender.GetColumnMinWidth at this ⊢
  rw [hmw]; exact this

/-- Witness of C10 (amended): one body row of two plain cells, minimum width
5 on column 0, under the ASCII style. -/
theorem calculateColumnsWidth_ge_min_width_witness :
    ({ rows := [rowOf [['a', 'b'], ['c']]] } : TableData).rows ≠ []
      ∧ (∀ row ∈ ({ rows := [rowOf [['a', 'b'], ['c']]] } : TableData).rows,
          ∀ column ∈ row.GetColumns, 1 ≤ column.cell.colspan)
      ∧ 2 ≤ (constrainedRender asciiStyle 2 [(0, 5)]).style.cellRowContentFormat.length
      ∧ (∀ s, ((constrainedRender asciiStyle 2 [(0, 5)]).formatter.strip s).length ≤ s.length)
      ∧ (∀ row ∈ ({ rows := [rowOf [['a', 'b'], ['c']]] } : TableData).rows,
          ∀ column ∈ row.GetColumns,
            (column.cell.value.length : Int)
              + ((constrainedRender asciiStyle 2 [(0, 5)]).style.cellRowContentFormat.length : Int)
              - 2 < 9223372036854775808)
      ∧ ∃ t' data', (constrainedRender asciiStyle 2 [(0, 5)]).calculateColumnsWidth
            { rows := [rowOf [['a', 'b'], ['c']]] } = .ok (t', data')
          ∧ ∀ c, 0 ≤ c → c < (constrainedRender asciiStyle 2 [(0, 5)]).numberOfColumns →
              t'.GetColumnMinWidth c ≤ t'.getEffectiveColumnWidth c :=
  ⟨by decide, by decide, by decide, fun _ => le_refl _, by decide,
    calculateColumnsWidth_ge_min_width (constrainedRender asciiStyle 2 [(0, 5)])
      { rows := [rowOf [['a', 'b'], ['c']]] } (by decide) (by decide) (by decide)
      (fun _ => le_refl _) (by decide) (by decide)
      (fun c h0 h1 => by
        have h2 : c < 2 := h1
        have hc : c = 0 ∨ c = 1 := by omega
        rcases hc with rfl | rfl <;> decide)⟩

/-- C10 as stated fails in two ways. Under a style whose cell content format
is empty, with minimum width 5 on column 0 and one body row holding `ab`, the
effective width of column 0 comes out as 3. Under the ASCII style (cell
content format ` %s `), with minimum width 9223372036854775807 on column 0
and one body row holding `a`, the sum the code computes in a Go `int` wraps
around and the effective width comes out as -9223372036854775807. -/
theorem calculateColumnsWidth_below_min_width_counterexample :
    (({ rows := [rowOf [['a', 'b']]] } : TableData).rows ≠ []
      ∧ (0 : Int) < (constrainedRender formatlessStyle 1 [(0, 5)]).numberOfColumns
      ∧ ∃ t' data', (constrainedRender formatlessStyle 1 [(0, 5)]).calculateColumnsWidth
            { rows := [rowOf [['a', 'b']]] } = .ok (t', data')
          ∧ t'.GetColumnMinWidth 0 = 5 ∧ t'.getEffectiveColumnWidth 0 = 3)
    ∧ (({ rows := [rowOf [['a']]] } : TableData).rows ≠ []
      ∧ (0 : Int) < (constrainedRender asciiStyle 1 [(0, 9223372036854775807)]).numberOfColumns
      ∧ ∃ t' data', (constrainedRender asciiStyle 1 [(0, 9223372036854775807)]).calculateColumnsWidth
            { rows := [rowOf [['a']]] } = .ok (t', data')
          ∧ t'.GetColumnMinWidth 0 = 9223372036854775807
          ∧ t'.getEffectiveColumnWidth 0 = -9223372036854775807) :=
  ⟨⟨by decide, by decide, _, _, rfl, rfl, rfl⟩, ⟨by decide, by decide, _, _, rfl, by decide, by decide⟩⟩

/-- C6 fails on the code: a body row holding a rowspan-3 cell `A\nB\nC` next
to a single-line cell makes `Render` panic, whatever the iteration budget
(`fillNextRows` reads `lines[2]` of a two-element slice). -/
theorem Render_rowspan_multiline_panics (fuel : Nat) :
    (renderOf asciiStyle rowspanTable).Render fuel = .error Fault.panic :=
  rfl

theorem sprintf_verb (arg : Str) : Sprintf ['%', 's'] arg = arg := by
  simp [Sprintf, sprintfAux]

theorem padFill_length (padChar : Str) (n : Nat) (h : padChar ≠ []) :
    (padFill padChar n).length = n := by
  unfold padFill
  rw [List.length_take]
  have h1 : 1 ≤ padChar.length := by
    cases padChar with
    | nil => exact absurd rfl h
    | cons a l => simp
  have : (List.replicate n padChar).flatten.length = n * padChar.length := by
    induction n with
    | zero => simp
    | succ n ih => simp [List.replicate_succ, ih]; ring
  rw [this]
  have : n ≤ n * padChar.length := Nat.le_mul_of_pos_right n h1
  omega

theorem pad_length (style : TableStyle) (content : Str) (width : Int) (padChar : Str)
    (padType : PaddingType) (hpad : padChar ≠ []) (hfit : (content.length : Int) ≤ width) :
    (((style.Pad content width padChar padType).length : Nat) : Int) = width := by
  unfold TableStyle.Pad
  simp only []
  by_cases hm : (width - (content.length : Int)).toNat = 0
  · simp only [hm, true_or, if_true]; omega
  · have hne : ¬ ((width - (content.length : Int)).toNat = 0 ∨ padChar = []) := by
      rintro (h | h)
      · exact hm h
      · exact hpad h
    simp only [hne, if_false]
    cases padType <;> simp only [List.length_append, padFill_length _ _ hpad] <;> omega

theorem widthFrom_add (t : TableRender) (i : Int) (a b : Nat) :
    widthFrom t i (a + b) = widthFrom t i a + widthFrom t (i + a) b := by
  induction a generalizing i with
  | zero => simp [widthFrom]
  | succ a ih =>
    have : a + 1 + b = (a + b) + 1 := by omega
    rw [this]
    simp only [widthFrom]
    rw [ih (i + 1)]
    have : i + 1 + (a : Int) = i + ((a + 1 : Nat) : Int) := by push_cast; ring
    rw [this]; ring

theorem widthFrom_eq_sum (t : TableRender) (i : Int) (k : Nat) :
    widthFrom t i k = ((List.range k).map
      (fun (j : Nat) => t.getEffectiveColumnWidth (i + (j : Int)) + t.getColumnSeparatorWidth)).sum := by
  induction k generalizing i with
  | zero => simp [widthFrom]
  | succ k ih =>
    simp only [widthFrom]
    rw [ih (i + 1), List.range_succ_eq_map, List.map_cons, List.sum_cons, List.map_map]
    simp only [Nat.cast_zero, add_zero]
    congr 2
    apply List.map_congr_left
    intro j _
    simp only [Function.comp, Nat.cast_succ]
    congr 2; ring

theorem lineWidth_eq (t : TableRender) (hn : 1 ≤ t.numberOfColumns) :
    lineWidth t = 1 + widthFrom t 0 t.numberOfColumns.toNat - t.getColumnSeparatorWidth + 1 := by
  unfold lineWidth
  rw [widthFrom_eq_sum]
  have hsum : ∀ (k : Nat), ((List.range k).map
      (fun (j : Nat) => t.getEffectiveColumnWidth (0 + (j : Int)) + t.getColumnSeparatorWidth)).sum
      = ((List.range k).map (fun (c : Nat) => t.getEffectiveColumnWidth (c : Int))).sum
        + (k : Int) * t.getColumnSeparatorWidth := by
    intro k
    induction k with
    | zero => simp
    | succ k ih =>
      rw [List.range_succ, List.map_append, List.sum_append, ih, List.map_append, List.sum_append]
      simp only [List.map_cons, List.map_nil, List.sum_cons, List.sum_nil, zero_add, add_zero]
      push_cast
      ring
  rw [hsum]
  have : ((t.numberOfColumns.toNat : Nat) : Int) = t.numberOfColumns := by omega
  rw [this]; ring

theorem spannedWidth_eq_widthFrom (t : TableRender) (cell : TableCell) (i : Int)
    (hk : 1 ≤ cell.colspan) :
    TableRender.spannedWidth t cell i = widthFrom t i cell.colspan.toNat - t.getColumnSeparatorWidth := by
  rw [spannedWidth_eq t cell i hk]
  have hk' : cell.colspan.toNat = (cell.colspan - 1).toNat + 1 := by omega
  rw [hk']
  simp only [widthFrom]
  rw [widthFrom_eq_sum]
  have : ((List.range (cell.colspan - 1).toNat).map
      (fun (j : Nat) => t.getColumnSeparatorWidth + t.getEffectiveColumnWidth (i + 1 + (j : Int)))).sum
      = ((List.range (cell.colspan - 1).toNat).map
      (fun (j : Nat) => t.getEffectiveColumnWidth (i + 1 + (j : Int)) + t.getColumnSeparatorWidth)).sum := by
    congr 1
    apply List.map_congr_left
    intro j _
    ring
  rw [this]; ring

theorem renderCell_length_stored (t : TableRender) (row : TableRow) (i : Int)
    (column : TableColumn) (hfit : RowFits t row) (hcol : row.GetColumn i = some column) :
    ∃ s, t.renderCell row i ['%', 's'] = .ok s
      ∧ (s.length : Int) = widthFrom t i column.cell.colspan.toNat - t.getColumnSeparatorWidth := by
  obtain ⟨hsep, hk, _, hdec, hlen, hpad⟩ := hfit.1 i column hcol
  unfold TableRender.renderCell
  simp only [TableRender.cellAt, hcol, hsep, Bool.false_eq_true, if_false]
  refine ⟨_, rfl, ?_⟩
  rw [sprintf_verb]
  have hw : TableRender.padWidth t column.cell i = TableRender.spannedWidth t column.cell i := by
    unfold TableRender.padWidth; rw [hdec]; ring
  rw [hw, pad_length _ _ _ _ _ hpad hlen, spannedWidth_eq_widthFrom t column.cell i hk]

theorem renderCell_length_gap (t : TableRender) (row : TableRow) (i : Int)
    (hfit : RowFits t row) (hi0 : 0 ≤ i) (hin : i < t.numberOfColumns)
    (hcol : row.GetColumn i = none) :
    ∃ s, t.renderCell row i ['%', 's'] = .ok s
      ∧ (s.length : Int) = t.getEffectiveColumnWidth i := by
  obtain ⟨hdec, hlen, hpad⟩ := hfit.2 i hi0 hin hcol
  unfold TableRender.renderCell
  simp only [TableRender.cellAt, hcol]
  have hs : (NewTableCell []).separator = false := rfl
  simp only [hs, Bool.false_eq_true, if_false]
  refine ⟨_, rfl, ?_⟩
  rw [sprintf_verb]
  have hw : TableRender.padWidth t (NewTableCell []) i = t.getEffectiveColumnWidth i := by
    unfold TableRender.padWidth TableRender.spannedWidth
    have : ¬ (NewTableCell []).colspan > 1 := by decide
    simp only [this, if_false]
    have hv : (NewTableCell []).value = [] := rfl
    rw [hv, hdec]
    simp [Strlen]
  rw [hw]
  exact pad_length _ _ _ _ _ hpad hlen

theorem separator_lengths (t : TableRender) (hb : RegularBorders t) :
    ((t.renderColumnSeparator columnType.columnOutside).length : Int) = 1
      ∧ ((t.renderColumnSeparator columnType.columnInside).length : Int)
          = t.getColumnSeparatorWidth := by
  constructor
  · unfold TableRender.renderColumnSeparator
    simp only [hb.1, sprintf_verb, hb.2.1]
    rfl
  · rfl

theorem renderRowLoop_length (t : TableRender) (row : TableRow) (hb : RegularBorders t)
    (hfit : RowFits t row) :
    ∀ (fuel : Nat) (index : Int) (rowContent : Str),
      0 ≤ index → index < t.numberOfColumns → (t.numberOfColumns - index).toNat ≤ fuel →
      (rowContent.length : Int) = 1 + widthFrom t 0 index.toNat →
      ∃ s, TableRender.renderRowLoop t row ['%', 's'] fuel index rowContent = .ok s
        ∧ (s.length : Int) = lineWidth t := by
  obtain ⟨hout, hin⟩ := separator_lengths t hb
  have hdone : ∀ (fuel : Nat) (rowContent : Str),
      TableRender.renderRowLoop t row ['%', 's'] fuel t.numberOfColumns rowContent = .ok rowContent := by
    intro fuel rowContent
    cases fuel <;> simp [TableRender.renderRowLoop] <;> rfl
  -- what one rendered cell of `k` columns followed by its separator adds
  have hstep : ∀ (fuel : Nat) (index : Int) (k : Nat) (rowContent rendered : Str),
      (∀ (fuel' : Nat) (index' : Int) (rowContent' : Str),
        0 ≤ index' → index' < t.numberOfColumns → (t.numberOfColumns - index').toNat ≤ fuel' →
        fuel' ≤ fuel →
        (rowContent'.length : Int) = 1 + widthFrom t 0 index'.toNat →
        ∃ s, TableRender.renderRowLoop t row ['%', 's'] fuel' index' rowContent' = .ok s
          ∧ (s.length : Int) = lineWidth t) →
      0 ≤ index → index < t.numberOfColumns → 1 ≤ k → index + k ≤ t.numberOfColumns →
      (t.numberOfColumns - (index + k)).toNat ≤ fuel →
      (rowContent.length : Int) = 1 + widthFrom t 0 index.toNat →
      (rendered.length : Int) = widthFrom t index k - t.getColumnSeparatorWidth →
      ∃ s, TableRender.renderRowLoop t row ['%', 's'] fuel (index + k)
          (rowContent ++ rendered ++
            (if index + ((k : Int) - 1) == t.numberOfColumns - 1 then
              t.renderColumnSeparator columnType.columnOutside
            else t.renderColumnSeparator columnType.columnInside)) = .ok s
        ∧ (s.length : Int) = lineWidth t := by
    intro fuel index k rowContent rendered ih h0 hlt hk hle hfuel hlen hrend
    have hsplit : widthFrom t 0 (index + k).toNat
        = widthFrom t 0 index.toNat + widthFrom t index k := by
      have : (index + k).toNat = index.toNat + k := by omega
      rw [this, widthFrom_add]
      have : (0 : Int) + (index.toNat : Int) = index := by omega
      rw [this]
    by_cases hlast : index + (k : Int) = t.numberOfColumns
    · have hc : (index + ((k : Int) - 1) == t.numberOfColumns - 1) = true := by
        rw [beq_iff_eq]; omega
      simp only [hc, if_true]
      rw [hlast, hdone]
      refine ⟨_, rfl, ?_⟩
      rw [lineWidth_eq t (by omega)]
      simp only [List.length_append, Nat.cast_add]
      rw [hlen, hrend, hout, ← hlast, hsplit]
      ring
    · have hc : (index + ((k : Int) - 1) == t.numberOfColumns - 1) = false := by
        rw [beq_eq_false_iff_ne]; omega
      simp only [hc, Bool.false_eq_true, if_false]
      apply ih fuel (index + k) _ (by omega) (by omega) hfuel (le_refl _)
      simp only [List.length_append, Nat.cast_add]
      rw [hlen, hrend, hin, hsplit]
      ring
  intro fuel
  induction fuel using Nat.strong_induction_on with
  | _ fuel ih =>
    intro index rowContent h0 hlt hfuel hlen
    cases fuel with
    | zero => omega
    | succ fuel =>
      have ih' : ∀ (fuel' : Nat) (index' : Int) (rowContent' : Str),
          0 ≤ index' → index' < t.numberOfColumns → (t.numberOfColumns - index').toNat ≤ fuel' →
          fuel' ≤ fuel →
          (rowContent'.length : Int) = 1 + widthFrom t 0 index'.toNat →
          ∃ s, TableRender.renderRowLoop t row ['%', 's'] fuel' index' rowContent' = .ok s
            ∧ (s.length : Int) = lineWidth t :=
        fun fuel' index' rowContent' a b c d e => ih fuel' (by omega) index' rowContent' a b c e
      unfold TableRender.renderRowLoop
      simp only [hlt, if_true]
      cases hcol : row.GetColumn index with
      | none =>
        obtain ⟨s, hs, hslen⟩ := renderCell_length_gap t row index hfit h0 hlt hcol
        simp only [hs, bind, Except.bind]
        have := hstep fuel index 1 rowContent s ih' h0 hlt (le_refl _) (by omega) (by omega) hlen
          (by simp [widthFrom, hslen])
        simpa using this
      | some column =>
        obtain ⟨hsep, hk, hend, _⟩ := hfit.1 index column hcol
        obtain ⟨s, hs, hslen⟩ := renderCell_length_stored t row index column hfit hcol
        simp only [hsep, Bool.false_eq_true, if_false, hs, bind, Except.bind]
        have := hstep fuel index column.cell.colspan.toNat rowContent s ih' h0 hlt (by omega)
          (by omega) (by omega) hlen hslen
        have hcast : ((column.cell.colspan.toNat : Nat) : Int) = column.cell.colspan := by omega
        rw [hcast] at this
        exact this

theorem rangeInt_zero (n : Int) :
    RangeInt 0 (n - 1) = (List.range n.toNat).map (fun (c : Nat) => (c : Int)) := by
  unfold RangeInt
  have : (n - 1 + 1 - 0).toNat = n.toNat := by congr 1; ring
  rw [this]
  apply List.map_congr_left
  intro c _
  simp

theorem flatten_replicate_length (s : Str) (n : Nat) :
    (List.replicate n s).flatten.length = n * s.length := by
  induction n with
  | zero => simp
  | succ n ih => simp [List.replicate_succ, ih]; ring

theorem borderPiece_length (t : TableRender) (direction : rowType) (hb : RegularBorders t)
    (c : Int) (hw : 0 ≤ t.getEffectiveColumnWidth c) :
    ((borderPiece t direction c).length : Int)
      = t.getEffectiveColumnWidth c
        + (if c = t.numberOfColumns - 1 then 1 else t.getColumnSeparatorWidth) := by
  obtain ⟨hh, _, hr, hm⟩ := hb.2.2 direction
  unfold borderPiece
  rw [List.length_append, flatten_replicate_length, hh]
  by_cases hc : c = t.numberOfColumns - 1
  · simp only [hc, if_true] at hw ⊢
    rw [hr]; push_cast; omega
  · simp only [hc, if_false]
    push_cast
    rw [hm]; omega

theorem pieces_length (t : TableRender) (direction : rowType) (hb : RegularBorders t)
    (hw : ∀ c, 0 ≤ c → c < t.numberOfColumns → 0 ≤ t.getEffectiveColumnWidth c) :
    ∀ k : Nat, (k : Int) ≤ t.numberOfColumns →
      ((((List.range k).map (fun (c : Nat) => borderPiece t direction (c : Int))).flatten.length
          : Nat) : Int)
        = widthFrom t 0 k
          + (if (k : Int) = t.numberOfColumns ∧ 0 < k then 1 - t.getColumnSeparatorWidth else 0) := by
  intro k
  induction k with
  | zero => intro _; simp [widthFrom]
  | succ k ih =>
    intro hk
    have hk' : (k : Int) ≤ t.numberOfColumns := by push_cast at hk; omega
    have hkn : ¬ ((k : Int) = t.numberOfColumns ∧ 0 < k) := by push_cast at hk; omega
    have ih' := ih hk'
    simp only [hkn, if_false, add_zero] at ih'
    rw [List.range_succ, List.map_append, List.flatten_append, List.length_append]
    push_cast
    rw [ih']
    simp only [List.map_cons, List.map_nil, List.flatten_cons, List.flatten_nil, List.append_nil]
    rw [borderPiece_length t direction hb k (hw k (by omega) (by push_cast at hk; omega))]
    have hsplit : widthFrom t 0 (k + 1)
        = widthFrom t 0 k + (t.getEffectiveColumnWidth (k : Int) + t.getColumnSeparatorWidth) := by
      rw [widthFrom_add]
      simp only [widthFrom, zero_add, add_zero]
    rw [hsplit]
    by_cases hlast : ((k : Int) + 1) = t.numberOfColumns
    · have h1 : (k : Int) = t.numberOfColumns - 1 := by omega
      simp only [h1, if_true]
      rw [if_pos (by constructor <;> omega)]
      rw [← h1]; ring
    · have h1 : ¬ (k : Int) = t.numberOfColumns - 1 := by omega
      simp only [h1, if_false]
      rw [if_neg (by omega)]
      ring

theorem borderLine_length (t : TableRender) (direction : rowType) (hb : RegularBorders t)
    (hn : 1 ≤ t.numberOfColumns)
    (hw : ∀ c, 0 ≤ c → c < t.numberOfColumns → 0 ≤ t.getEffectiveColumnWidth c) :
    ((borderLine t direction).length : Int) = lineWidth t := by
  unfold borderLine
  rw [hb.1, sprintf_verb, List.length_append, rangeInt_zero, List.map_map]
  have := pieces_length t direction hb hw t.numberOfColumns.toNat (by omega)
  have hcomp : (borderPiece t direction ∘ fun (c : Nat) => (c : Int))
      = fun (c : Nat) => borderPiece t direction (c : Int) := rfl
  rw [hcomp]
  push_cast
  rw [this, lineWidth_eq t hn, (hb.2.2 direction).2.1]
  rw [if_pos (by constructor <;> omega)]
  push_cast
  ring

theorem lineWidth_ge_two (t : TableRender) (hn : 1 ≤ t.numberOfColumns)
    (hw : ∀ c, 0 ≤ c → c < t.numberOfColumns → 0 ≤ t.getEffectiveColumnWidth c) :
    2 ≤ lineWidth t := by
  unfold lineWidth
  have h1 : 0 ≤ ((List.range t.numberOfColumns.toNat).map
      (fun (c : Nat) => t.getEffectiveColumnWidth (c : Int))).sum := by
    apply List.sum_nonneg
    intro x hx
    obtain ⟨c, hc, rfl⟩ := List.mem_map.mp hx
    rw [List.mem_range] at hc
    exact hw c (by omega) (by omega)
  have h2 : 0 ≤ t.getColumnSeparatorWidth := by
    unfold TableRender.getColumnSeparatorWidth; omega
  have h3 : 0 ≤ (t.numberOfColumns - 1) * t.getColumnSeparatorWidth :=
    mul_nonneg (by omega) h2
  omega

theorem titleTail_eq (bound : Int) : ∀ (separator : Str) (index : Int) (acc : Str),
    TableRender.titleTail bound separator index acc = acc ++ separator.drop (bound - index).toNat
  | [], _, acc => by simp [TableRender.titleTail]
  | char :: rest, index, acc => by
      unfold TableRender.titleTail
      by_cases h : index < bound
      · simp only [h, if_true]
        rw [titleTail_eq bound rest (index + 1) acc]
        have : (bound - index).toNat = (bound - (index + 1)).toNat + 1 := by omega
        rw [this, List.drop_succ_cons]
      · simp only [h, if_false]
        rw [titleTail_eq bound rest (index + 1) (acc ++ [char])]
        have h1 : (bound - index).toNat = 0 := by omega
        have h2 : (bound - (index + 1)).toNat = 0 := by omega
        rw [h1, h2]
        simp

theorem titleHead_eq (crop : Int) (paddedTitle : Str) :
    ∀ (separator : Str) (index : Int) (acc : Str),
      index ≤ crop → crop - index < separator.length →
      TableRender.titleHead crop paddedTitle separator index acc
        = acc ++ separator.take (crop - index).toNat ++ paddedTitle
  | [], index, acc => by intro h1 h2; simp at h2; omega
  | char :: rest, index, acc => by
      intro h1 h2
      unfold TableRender.titleHead
      by_cases h : index = crop
      · subst h
        simp
      · have hb : (index == crop) = false := by rw [beq_eq_false_iff_ne]; exact h
        simp only [hb, Bool.false_eq_true, if_false]
        rw [titleHead_eq crop paddedTitle rest (index + 1) (acc ++ [char]) (by omega)
          (by simp at h2; omega)]
        have : (crop - index).toNat = (crop - (index + 1)).toNat + 1 := by omega
        rw [this, List.take_succ_cons]
        simp

theorem renderRowSeparator_length (t : TableRender) (direction : rowType)
    (hb : RegularBorders t) (hn : 1 ≤ t.numberOfColumns)
    (hw : ∀ c, 0 ≤ c → c < t.numberOfColumns → 0 ≤ t.getEffectiveColumnWidth c) :
    t.getRowSeparator direction = .ok (borderLine t direction)
      ∧ t.renderRowSeparator direction = .ok (t.Writeln (borderLine t direction))
      ∧ ((borderLine t direction).length : Int) = lineWidth t := by
  have hsep := getRowSeparator_eq_borderLine t direction (by omega)
    (by rw [(hb.2.2 direction).1]; simp) hw
  have hlen := borderLine_length t direction hb hn hw
  refine ⟨hsep, ?_, hlen⟩
  unfold TableRender.renderRowSeparator
  rw [hsep]
  have h2 := lineWidth_ge_two t hn hw
  have : ((borderLine t direction).length == 0) = false := by
    rw [beq_eq_false_iff_ne]; omega
  simp [bind, Except.bind, this, pure, Except.pure]

theorem renderRowTitleSeparator_length (t : TableRender) (title : Str) (direction : rowType)
    (hb : RegularBorders t) (hn : 1 ≤ t.numberOfColumns)
    (hw : ∀ c, 0 ≤ c → c < t.numberOfColumns → 0 ≤ t.getEffectiveColumnWidth c)
    (htitle : (title.length : Int) + 2 ≤ lineWidth t) :
    ∃ line, t.renderRowTitleSeparator title direction = .ok (t.Writeln line)
      ∧ (line.length : Int) = lineWidth t := by
  obtain ⟨hsep, hrs, hlen⟩ := renderRowSeparator_length t direction hb hn hw
  unfold TableRender.renderRowTitleSeparator
  by_cases ht : title.length = 0
  · simp only [ht, beq_self_eq_true, if_true]
    exact ⟨_, hrs, hlen⟩
  · have ht' : (title.length == 0) = false := by rw [beq_eq_false_iff_ne]; exact ht
    have hn' : (t.numberOfColumns == 0) = false := by rw [beq_eq_false_iff_ne]; omega
    have hstyle : (t.style.horizontalOutsideBorderChar.length == 0
        && t.style.crossingChar.length == 0) = false := by
      have := (hb.2.2 rowType.rowTop).1
      simp only [TableRender.horizontalChar] at this
      simp [this]
    simp only [ht', hn', hstyle, Bool.false_eq_true, if_false, hsep, bind, Except.bind, pure,
      Except.pure]
    refine ⟨_, rfl, ?_⟩
    have hpad : (Sprintf " %s ".toList title).length = title.length + 2 := by
      simp [Sprintf, sprintfAux]
    rw [titleTail_eq]
    have hnonneg : (0 : Int) ≤ ((borderLine t direction).length : Int)
        - ((Sprintf " %s ".toList title).length : Int) := by
      rw [hlen, hpad]; push_cast; omega
    have hdiv := Int.tdiv_eq_ediv hnonneg (by decide : (0 : Int) ≤ 2)
    rw [titleHead_eq _ _ _ _ _ (by rw [hdiv]; omega) (by rw [hdiv]; omega)]
    simp only [List.length_append, List.length_take, List.length_drop, List.append_nil,
      List.nil_append, hdiv]
    rw [hpad] at *
    push_cast at *
    omega
theorem renderRow_length (t : TableRender) (fuel : Nat) (row : TableRow)
    (hb : RegularBorders t) (hn : 1 ≤ t.numberOfColumns) (hfit : RowFits t row)
    (hne : row.GetColumns ≠ []) (hfuel : t.numberOfColumns.toNat ≤ fuel) :
    ∃ line, t.renderRow fuel row ['%', 's'] = .ok (t.Writeln line)
      ∧ (line.length : Int) = lineWidth t := by
  unfold TableRender.renderRow
  have hlen0 : (row.GetColumns.length == 0) = false := by
    rw [beq_eq_false_iff_ne]
    intro h
    exact hne (List.length_eq_zero.mp h)
  simp only [hlen0, Bool.false_eq_true, if_false]
  obtain ⟨s, hs, hslen⟩ := renderRowLoop_length t row hb hfit fuel 0
    (t.renderColumnSeparator columnType.columnOutside) (le_refl _) (by omega) (by simpa using hfuel)
    (by rw [(separator_lengths t hb).1]; simp [widthFrom])
  exact ⟨s, by simp [hs, bind, Except.bind, pure, Except.pure], hslen⟩

/-- The line renderers in a measured state: in a renderer with at least one
column and non-negative effective widths, under a style with regular borders, every border line
written by `TableRender.renderRowSeparator`, every title-bearing border line written by
`TableRender.renderRowTitleSeparator` for a title whose padded form is no longer than
the border line, and every data row line written by `TableRender.renderRow` with the
plain cell format for a non-empty row that fits the measured columns, is one
line of exactly `2 + sum of the effective widths + (numberOfColumns - 1) x
vertical separator width` code points. -/
theorem rendered_line_width (t : TableRender) (hb : RegularBorders t)
    (hn : 1 ≤ t.numberOfColumns)
    (hw : ∀ c, 0 ≤ c → c < t.numberOfColumns → 0 ≤ t.getEffectiveColumnWidth c) :
    (∀ direction, ∃ line, t.renderRowSeparator direction = .ok (t.Writeln line)
        ∧ (line.length : Int) = lineWidth t)
      ∧ (∀ title direction, (title.length : Int) + 2 ≤ lineWidth t →
          ∃ line, t.renderRowTitleSeparator title direction = .ok (t.Writeln line)
            ∧ (line.length : Int) = lineWidth t)
      ∧ (∀ fuel row, RowFits t row → row.GetColumns ≠ [] → t.numberOfColumns.toNat ≤ fuel →
          ∃ line, t.renderRow fuel row ['%', 's'] = .ok (t.Writeln line)
            ∧ (line.length : Int) = lineWidth t) :=
  ⟨fun direction =>
      ⟨_, (renderRowSeparator_length t direction hb hn hw).2.1,
        (renderRowSeparator_length t direction hb hn hw).2.2⟩,
    fun title direction htitle => renderRowTitleSeparator_length t title direction hb hn hw htitle,
    fun fuel row hfit hne hfuel => renderRow_length t fuel row hb hn hfit hne hfuel⟩

theorem insertNthAux_segments (n : Int) (sep : Char) :
    ∀ (s : Str) (run : Int), 0 ≤ run → run < n →
      ∃ seg : Str, ∃ segs : List Str,
        insertNthAux n sep s run = [sep].intercalate (seg :: segs)
          ∧ (seg :: segs).flatten = s
          ∧ (seg.length : Int) ≤ n - run
          ∧ (∀ x ∈ segs, (x.length : Int) ≤ n)
          ∧ (s ≠ [] → ∀ x ∈ seg :: segs, x ≠ [])
  | [], run, h0, h1 => ⟨[], [], by simp [insertNthAux, List.intercalate], by simp, by simp; omega,
      by simp, by simp⟩
  | [c], run, h0, h1 => ⟨[c], [], by simp [insertNthAux, List.intercalate], by simp,
      by simp; omega, by simp, by simp⟩
  | c :: d :: rest, run, h0, h1 => by
      unfold insertNthAux
      by_cases hr : run + 1 = n
      · obtain ⟨seg, segs, heq, hflat, hlen, hall, hne⟩ :=
          insertNthAux_segments n sep (d :: rest) 0 (le_refl _) (by omega)
        have hb : (run + 1 == n) = true := by rw [beq_iff_eq]; exact hr
        simp only [hb, if_true]
        refine ⟨[c], seg :: segs, ?_, ?_, ?_, ?_, ?_⟩
        · rw [heq]; simp [List.intercalate]
        · rw [List.flatten_cons, hflat]; rfl
        · simp; omega
        · intro x hx
          rcases List.mem_cons.mp hx with rfl | hx
          · omega
          · exact hall x hx
        · intro _ x hx
          rcases List.mem_cons.mp hx with rfl | hx
          · simp
          · exact hne (by simp) x hx
      · obtain ⟨seg, segs, heq, hflat, hlen, hall, hne⟩ :=
          insertNthAux_segments n sep (d :: rest) (run + 1) (by omega) (by omega)
        have hb : (run + 1 == n) = false := by rw [beq_eq_false_iff_ne]; exact hr
        simp only [hb, Bool.false_eq_true, if_false]
        refine ⟨c :: seg, segs, ?_, ?_, ?_, hall, ?_⟩
        · rw [heq]; cases segs <;> simp [List.intercalate]
        · rw [List.flatten_cons, List.cons_append, ← List.flatten_cons, hflat]
        · simp; omega
        · intro _ x hx
          rcases List.mem_cons.mp hx with rfl | hx
          · simp
          · exact hne (by simp) x (List.mem_cons_of_mem _ hx)

theorem insertNth_segments (s : Str) (n : Int) (hn : 0 < n) :
    ∃ segments : List Str,
      segments ≠ [] ∧ InsertNth s n '\n' = ['\n'].intercalate segments
        ∧ segments.flatten = s ∧ (∀ x ∈ segments, (x.length : Int) ≤ n) := by
  obtain ⟨seg, segs, heq, hflat, hlen, hall, _⟩ :=
    insertNthAux_segments n '\n' s 0 (le_refl _) hn
  refine ⟨seg :: segs, by simp, heq, hflat, ?_⟩
  intro x hx
  rcases List.mem_cons.mp hx with rfl | hx
  · omega
  · exact hall x hx

theorem replaceAllAux_newline (new : Str) : ∀ s : Str,
    replaceAllAux ['\n'] new 0 s = s.flatMap (fun c => if c = '\n' then new else [c])
  | [] => rfl
  | c :: rest => by
      unfold replaceAllAux
      by_cases hc : c = '\n'
      · subst hc
        simp [List.isPrefixOf, replaceAllAux_newline new rest]
      · have : (['\n'].isPrefixOf (c :: rest)) = false := by
          simp [List.isPrefixOf]
          exact fun h => hc h.symm
        simp [this, hc, replaceAllAux_newline new rest]

theorem flatMap_no_newline (new : Str) (s : Str) (h : '\n' ∉ s) :
    s.flatMap (fun c => if c = '\n' then new else [c]) = s := by
  induction s with
  | nil => rfl
  | cons c rest ih =>
    have hc : c ≠ '\n' := fun hc => h (by simp [hc])
    have hr : '\n' ∉ rest := fun hr => h (List.mem_cons_of_mem _ hr)
    simp [List.flatMap_cons, hc, ih hr]

theorem markSegments_ne_nil (first : Bool) : ∀ (segments : List Str),
    segments ≠ [] → markSegments first segments ≠ []
  | [], h => absurd rfl h
  | [s], _ => by simp [markSegments]
  | s :: next :: rest, _ => by simp [markSegments]

theorem replace_intercalate (first : Bool) : ∀ (segments : List Str),
    (∀ x ∈ segments, '\n' ∉ x) → segments ≠ [] →
    (if first then [] else reopenMarkup)
        ++ (['\n'].intercalate segments).flatMap
            (fun c => if c = '\n' then lineBreakMarkup else [c])
      = ['\n'].intercalate (markSegments first segments)
  | [], _, h => absurd rfl h
  | [s], hs, _ => by
      simp [markSegments, List.intercalate, flatMap_no_newline _ s (hs s (by simp))]
  | s :: next :: rest, hs, _ => by
      have ih := replace_intercalate false (next :: rest)
        (fun x hx => hs x (List.mem_cons_of_mem _ hx)) (by simp)
      have hsplit : lineBreakMarkup = closeMarkup ++ '\n' :: reopenMarkup := by decide
      obtain ⟨m, ms, hm⟩ : ∃ m ms, markSegments false (next :: rest) = m :: ms := by
        cases h : markSegments false (next :: rest) with
        | nil => exact absurd h (markSegments_ne_nil false _ (by simp))
        | cons m ms => exact ⟨m, ms, rfl⟩
      simp only [Bool.false_eq_true, if_false] at ih
      simp only [markSegments, List.intercalate, hm, List.intersperse_cons_cons, List.flatten_cons,
        List.flatMap_append, flatMap_no_newline _ s (hs s (by simp))] at ih ⊢
      rw [← ih]
      simp [List.flatMap_cons, hsplit, List.append_assoc]

theorem markSegments_no_newline (first : Bool) : ∀ (segments : List Str),
    (∀ x ∈ segments, '\n' ∉ x) → ∀ x ∈ markSegments first segments, '\n' ∉ x
  | [], _ => by simp [markSegments]
  | [s], hs => by
      intro x hx
      simp only [markSegments, List.mem_singleton] at hx
      subst hx
      have := hs s (by simp)
      cases first <;> simp [reopenMarkup, this]
  | s :: next :: rest, hs => by
      intro x hx
      simp only [markSegments, List.mem_cons] at hx
      rcases hx with rfl | hx
      · have := hs s (by simp)
        cases first <;> simp [reopenMarkup, closeMarkup, this]
      · exact markSegments_no_newline false (next :: rest)
          (fun y hy => hs y (List.mem_cons_of_mem _ hy)) x (by simpa [markSegments] using hx)

theorem cellLines_intercalate (segments : List Str) (hs : ∀ x ∈ segments, '\n' ∉ x)
    (hne : segments ≠ []) :
    TableRender.cellLines (['\n'].intercalate segments) = markSegments true segments := by
  unfold TableRender.cellLines replaceAll splitLines
  have h1 : "\n".toList = ['\n'] := rfl
  rw [h1, replaceAllAux_newline]
  have := replace_intercalate true segments hs hne
  simp only [if_true, List.nil_append] at this
  rw [this]
  exact List.splitOn_intercalate _ '\n' (markSegments_no_newline true segments hs)
    (markSegments_ne_nil true segments hne)

theorem foldl_setMin_maxWidths (widths : List (Int × Int)) (t : TableRender) :
    (widths.foldl (fun (t : TableRender) binding => t.SetColumnMinWidth binding.1 binding.2)
      t).columnsMaxWidths = t.columnsMaxWidths := by
  induction widths generalizing t with
  | nil => rfl
  | cons binding rest ih =>
    rw [List.foldl_cons, ih]
    rfl

/-- C19 fails on the code: whatever map is passed, after
`SetColumnsMaxWidths(widths)` every `GetColumnMaxWidth(c)` is 0, because the
bindings are stored with `SetColumnMinWidth`; for the map `{0: 5}` the
maximum width of column 0 reads 0 and its minimum width reads 5. -/
theorem SetColumnsMaxWidths_stores_no_max_width (t : TableRender) (widths : List (Int × Int))
    (c : Int) :
    (t.SetColumnsMaxWidths widths).GetColumnMaxWidth c = 0
      ∧ intMapGet [(0, 5)] 0 = 5
      ∧ (t.SetColumnsMaxWidths [(0, 5)]).GetColumnMaxWidth 0 = 0
      ∧ (t.SetColumnsMaxWidths [(0, 5)]).GetColumnMinWidth 0 = 5 := by
  refine ⟨?_, rfl, rfl, ?_⟩
  · unfold TableRender.SetColumnsMaxWidths TableRender.GetColumnMaxWidth
    rw [foldl_setMin_maxWidths]
    rfl
  · simp [TableRender.SetColumnsMaxWidths, TableRender.GetColumnMinWidth,
      TableRender.SetColumnMinWidth, intMapGet, intMapSet]

/-- C20 fails on the code: for a cell with colspan above 1 the threshold
`buildTableRows` compares against is the specified sum (maximum widths of
the spanned columns plus `k - 1` separators) plus the maximum width of the
cell's own column once more and two more separators. -/
theorem wrapThreshold_counts_first_column_twice (t : TableRender) (cell : TableCell) (c : Int)
    (hk : 1 < cell.colspan) :
    TableRender.wrapThreshold t cell c
      = specWrapThreshold t cell c + t.GetColumnMaxWidth c + 2 * t.getColumnSeparatorWidth := by
  unfold TableRender.wrapThreshold specWrapThreshold
  have hgt : cell.colspan > 1 := hk
  simp only [hgt, if_true]
  rw [foldl_add_eq_sum
    (fun i => t.GetColumnMaxWidth (c + i) + t.getColumnSeparatorWidth), rangeInt_zero, List.map_map]
  have hsum : ∀ k : Nat, ((List.range k).map
      ((fun i => t.GetColumnMaxWidth (c + i) + t.getColumnSeparatorWidth)
        ∘ fun (j : Nat) => (j : Int))).sum
      = ((List.range k).map (fun (j : Nat) => t.GetColumnMaxWidth (c + (j : Int)))).sum
        + (k : Int) * t.getColumnSeparatorWidth := by
    intro k
    induction k with
    | zero => simp
    | succ k ih =>
      rw [List.range_succ, List.map_append, List.sum_append, ih, List.map_append, List.sum_append]
      simp only [List.map_cons, List.map_nil, List.sum_cons, List.sum_nil, add_zero,
        Function.comp]
      push_cast
      ring
  rw [hsum]
  have : ((cell.colspan.toNat : Nat) : Int) = cell.colspan := by omega
  rw [this]
  ring

/-- Witness of C20's divergence: a colspan-2 cell at column 0 with maximum
widths 5 and 7 under the ASCII style (separator width 1) is compared against
20, where the specified sum is 13. -/
theorem wrapThreshold_counts_first_column_twice_witness :
    1 < ((NewTableCell ['x']).SetColspan 2).colspan
      ∧ TableRender.wrapThreshold (wrappingRender [(0, 5), (1, 7)])
          ((NewTableCell ['x']).SetColspan 2) 0 = 20
      ∧ specWrapThreshold (wrappingRender [(0, 5), (1, 7)])
          ((NewTableCell ['x']).SetColspan 2) 0 = 13
      ∧ TableRender.wrapThreshold (wrappingRender [(0, 5), (1, 7)])
          ((NewTableCell ['x']).SetColspan 2) 0
        = specWrapThreshold (wrappingRender [(0, 5), (1, 7)])
            ((NewTableCell ['x']).SetColspan 2) 0
          + (wrappingRender [(0, 5), (1, 7)]).GetColumnMaxWidth 0
          + 2 * (wrappingRender [(0, 5), (1, 7)]).getColumnSeparatorWidth :=
  ⟨by decide, by decide, by decide,
    wrapThreshold_counts_first_column_twice (wrappingRender [(0, 5), (1, 7)])
      ((NewTableCell ['x']).SetColspan 2) 0 (by decide)⟩

theorem styleMap_find?_filter_ne (m : StyleMap) (name other : Str) (h : other ≠ name) :
    List.find? (fun binding => binding.1 == other)
        (List.filter (fun binding => !(binding.1 == name)) m)
      = List.find? (fun binding => binding.1 == other) m := by
  induction m with
  | nil => rfl
  | cons p m ih =>
    by_cases hp : p.1 = name
    · have hpk : (p.1 == other) = false := by
        rw [beq_eq_false_iff_ne]; rw [hp]; exact fun h' => h h'.symm
      have hf : (!(p.1 == name)) = false := by simp [hp]
      rw [List.filter_cons, hf, List.find?_cons, hpk]
      simpa using ih
    · have hf : (!(p.1 == name)) = true := by simp [hp]
      rw [List.filter_cons, hf]
      simp only [if_true, List.find?_cons, ih]

theorem styleMapGet_set (m : StyleMap) (name : Str) (style : TableStyle) (other : Str) :
    styleMapGet (styleMapSet m name style) other
      = if other = name then some style else styleMapGet m other := by
  unfold styleMapGet styleMapSet
  by_cases h : other = name
  · subst h; simp
  · have hne : (name == other) = false := by
      rw [beq_eq_false_iff_ne]; exact fun h' => h h'.symm
    simp only [List.find?_cons, hne, h, if_false]
    rw [styleMap_find?_filter_ne m name other h]

theorem styleMapGet_eq_none (m : StyleMap) (name : Str) :
    styleMapGet m name = none ↔ name ∉ m.map Prod.fst := by
  unfold styleMapGet
  rw [Option.map_eq_none', List.find?_eq_none]
  constructor
  · intro h hmem
    obtain ⟨p, hp, hname⟩ := List.mem_map.mp hmem
    exact h p hp (by rw [beq_iff_eq]; exact hname)
  · intro h p hp hname
    rw [beq_iff_eq] at hname
    exact h (List.mem_map.mpr ⟨p, hp, hname⟩)

theorem initStyles_names (newTableStyle : TableStyle) :
    (initStyles newTableStyle).map Prod.fst = builtinNames.reverse := by
  rfl

theorem ensure_runCalls (newTableStyle : TableStyle) :
    ∀ (calls : List RegistryCall) (styles : Option StyleMap) (name : Str),
      styleMapGet (ensureStyles newTableStyle (runCalls newTableStyle styles calls)) name
        = lastSet name calls (styleMapGet (ensureStyles newTableStyle styles) name)
  | [], styles, name => rfl
  | RegistryCall.set n style :: rest, styles, name => by
      simp only [runCalls, lastSet]
      rw [ensure_runCalls newTableStyle rest]
      congr 1
      simp only [SetStyleDefinition, ensureStyles]
      rw [styleMapGet_set]
      by_cases h : n = name
      · simp [h]
      · have : ¬ name = n := fun h' => h h'.symm
        simp [h, this]
  | RegistryCall.get n :: rest, styles, name => by
      simp only [runCalls, lastSet]
      rw [ensure_runCalls newTableStyle rest]
      rfl

theorem lastSet_eq_none (name : Str) :
    ∀ (calls : List RegistryCall) (start : Option TableStyle),
      lastSet name calls start = none ↔ start = none ∧ name ∉ namesSet calls
  | [], start => by simp [lastSet, namesSet]
  | RegistryCall.set n style :: rest, start => by
      simp only [lastSet, namesSet, List.mem_cons]
      rw [lastSet_eq_none name rest]
      by_cases h : n = name
      · simp [h]
      · have : ¬ name = n := fun h' => h h'.symm
        simp [h, this]
  | RegistryCall.get _ :: rest, start => by
      simp only [lastSet, namesSet]
      exact lastSet_eq_none name rest start

/-- C12: after any sequence of registry calls made on the uninitialised
registry, `GetStyleDefinition(name)` panics if and only if `name` is neither
one of the six built-in names nor a name passed to `SetStyleDefinition`;
otherwise it returns the style registered under `name`, that is the style
last set under it, or the built-in one when none was set.  The built-ins
are constructed by the first call that needs them. -/
theorem GetStyleDefinition_panics_iff_unregistered (newTableStyle : TableStyle)
    (calls : List RegistryCall) (name : Str) :
    ((GetStyleDefinition newTableStyle (runCalls newTableStyle none calls) name).1
        = .error Fault.panic
      ↔ name ∉ builtinNames ∧ name ∉ namesSet calls)
    ∧ (∀ style, lastSet name calls (styleMapGet (initStyles newTableStyle) name) = some style →
        (GetStyleDefinition newTableStyle (runCalls newTableStyle none calls) name).1
          = .ok style)
    ∧ (GetStyleDefinition newTableStyle none name).2 = some (initStyles newTableStyle)
    ∧ (initStyles newTableStyle).map Prod.fst = builtinNames.reverse := by
  have hget := ensure_runCalls newTableStyle calls none name
  have hinit : ensureStyles newTableStyle none = initStyles newTableStyle := rfl
  rw [hinit] at hget
  refine ⟨?_, ?_, rfl, rfl⟩
  · unfold GetStyleDefinition
    simp only [hget]
    have hb : styleMapGet (initStyles newTableStyle) name = none ↔ name ∉ builtinNames := by
      rw [styleMapGet_eq_none, initStyles_names]
      simp
    cases hl : lastSet name calls (styleMapGet (initStyles newTableStyle) name) with
    | none =>
      have := (lastSet_eq_none name calls _).mp hl
      exact ⟨fun _ => ⟨hb.mp this.1, this.2⟩, fun _ => rfl⟩
    | some style =>
      constructor
      · intro h; cases h
      · rintro ⟨h1, h2⟩
        have := (lastSet_eq_none name calls _).mpr ⟨hb.mpr h1, h2⟩
        rw [hl] at this
        cases this
  · intro style hs
    unfold GetStyleDefinition
    simp only [hget, hs]
    rfl

/-- Witness of C12: after `SetStyleDefinition("mine", s)` on the uninitialised
registry, `mine` resolves to `s`, `box` still resolves, and `nope` panics. -/
theorem GetStyleDefinition_panics_iff_unregistered_witness :
    (GetStyleDefinition asciiStyle
        (runCalls asciiStyle none [RegistryCall.set "mine".toList formatlessStyle])
        "nope".toList).1 = .error Fault.panic
      ∧ (GetStyleDefinition asciiStyle
        (runCalls asciiStyle none [RegistryCall.set "mine".toList formatlessStyle])
        "mine".toList).1 = .ok formatlessStyle
      ∧ ¬ ((GetStyleDefinition asciiStyle
        (runCalls asciiStyle none [RegistryCall.set "mine".toList formatlessStyle])
        "box".toList).1 = .error Fault.panic) :=
  ⟨(GetStyleDefinition_panics_iff_unregistered asciiStyle
      [RegistryCall.set "mine".toList formatlessStyle] "nope".toList).1.mpr
      ⟨by decide, by decide⟩,
    (GetStyleDefinition_panics_iff_unregistered asciiStyle
      [RegistryCall.set "mine".toList formatlessStyle] "mine".toList).2.1 formatlessStyle rfl,
    fun h => ((GetStyleDefinition_panics_iff_unregistered asciiStyle
      [RegistryCall.set "mine".toList formatlessStyle] "box".toList).1.mp h).1 (by decide)⟩

/-- C13: whatever the value of `Styles` (also `nil`, also with `name` already
registered), after `SetStyleDefinition(name, style)` the call
`GetStyleDefinition(name)` returns `style`, and for every other name
`GetStyleDefinition` returns or panics exactly as it did before, a `nil`
registry counting as the map of the six built-ins. -/
theorem SetStyleDefinition_then_get (newTableStyle : TableStyle) (styles : Option StyleMap) (name : Str)
    (style : TableStyle) :
    (GetStyleDefinition newTableStyle (SetStyleDefinition newTableStyle styles name style) name).1
        = .ok style
      ∧ ∀ other, other ≠ name →
          (GetStyleDefinition newTableStyle
              (SetStyleDefinition newTableStyle styles name style) other).1
            = (GetStyleDefinition newTableStyle styles other).1 := by
  constructor
  · unfold GetStyleDefinition SetStyleDefinition
    simp only [ensureStyles, styleMapGet_set, if_true]
    rfl
  · intro other hne
    unfold GetStyleDefinition SetStyleDefinition
    simp only [ensureStyles, styleMapGet_set, hne, if_false]

/-- Witness of C13: registering `default` again on the uninitialised
registry replaces it and leaves `compact` as it was. -/
theorem SetStyleDefinition_then_get_witness :
    (GetStyleDefinition asciiStyle
        (SetStyleDefinition asciiStyle none "default".toList formatlessStyle)
        "default".toList).1 = .ok formatlessStyle
      ∧ (GetStyleDefinition asciiStyle
          (SetStyleDefinition asciiStyle none "default".toList formatlessStyle)
          "compact".toList).1
        = (GetStyleDefinition asciiStyle none "compact".toList).1 :=
  ⟨(SetStyleDefinition_then_get asciiStyle none "default".toList formatlessStyle).1,
    (SetStyleDefinition_then_get asciiStyle none "default".toList formatlessStyle).2
      "compact".toList (by decide)⟩

/-- C15: under a style whose horizontal border characters and twelve crossing
glyphs are all empty, `renderRowSeparator` returns for every direction with
the renderer unchanged: nothing is written to the sink. -/
theorem renderRowSeparator_borderless (t : TableRender) (hb : Borderless t.style)
    (direction : rowType) :
    t.renderRowSeparator direction = .ok t := by
  have hsep : t.getRowSeparator direction = .ok [] := by
    unfold TableRender.getRowSeparator
    by_cases hn : t.numberOfColumns = 0
    · simp [hn]; rfl
    · have h1 : (t.numberOfColumns == 0) = false := by simpa using hn
      have hh : TableRender.horizontalChar t.style direction = [] := by
        cases direction
        · exact hb.2.1
        · exact hb.1
        · exact hb.1
        · exact hb.1
      simp only [h1, Bool.false_eq_true, if_false, hh, hb.2.2.1, List.length_nil,
        beq_self_eq_true, Bool.and_self, if_true]
      rfl
  unfold TableRender.renderRowSeparator
  rw [hsep]
  rfl

/-- Witness of C15: the compact style, three columns, every direction. -/
theorem renderRowSeparator_borderless_witness :
    Borderless (styledRender compactStyle 3 [(0, 4), (1, 4), (2, 4)]).style
      ∧ ∀ direction,
          (styledRender compactStyle 3 [(0, 4), (1, 4), (2, 4)]).renderRowSeparator direction
            = .ok (styledRender compactStyle 3 [(0, 4), (1, 4), (2, 4)]) :=
  ⟨by unfold Borderless; decide,
    renderRowSeparator_borderless (styledRender compactStyle 3 [(0, 4), (1, 4), (2, 4)])
      (by unfold Borderless; decide)⟩

/-- The loop of `getRowSeparator`, read off its helpers: left glyph, then for
each column the bar and the mid or right glyph. -/
theorem getRowSeparator_eq_glyphs (t : TableRender) (direction : rowType)
    (hn : 0 < t.numberOfColumns)
    (hh : TableRender.horizontalChar t.style direction ≠ [])
    (hw : ∀ c, 0 ≤ c → c < t.numberOfColumns → 0 ≤ t.getEffectiveColumnWidth c) :
    t.getRowSeparator direction
        = .ok (Sprintf t.style.borderFormat
            (TableRender.crossingLeft t.style direction
              ++ ((List.range t.numberOfColumns.toNat).map (fun (c : Nat) =>
                    (List.replicate (t.getEffectiveColumnWidth (c : Int)).toNat
                        (TableRender.horizontalChar t.style direction)).flatten
                      ++ (if (c : Int) < t.numberOfColumns - 1 then
                            TableRender.crossingMid t.style direction
                          else TableRender.crossingRight t.style direction))).flatten)) := by
  rw [getRowSeparator_eq_borderLine t direction (by omega)
    (fun h => hh (List.length_eq_zero.mp h.1)) hw]
  unfold borderLine
  rw [rangeInt_zero, List.map_map]
  congr 4
  apply List.map_congr_left
  intro c hc
  rw [List.mem_range] at hc
  simp only [Function.comp, borderPiece]
  congr 1
  by_cases hlast : (c : Int) = t.numberOfColumns - 1
  · have : ¬ (c : Int) < t.numberOfColumns - 1 := by omega
    simp [hlast]
  · have : (c : Int) < t.numberOfColumns - 1 := by omega
    simp [hlast, this]

theorem sprintf_title (title : Str) : Sprintf " %s ".toList title = paddedTitle title := by
  simp [Sprintf, sprintfAux, paddedTitle]

/-- C16 (amended): for a non-empty title whose padded form ` <title> ` is no
longer than the border line, a positive column count, a non-empty outside
horizontal character and non-negative effective widths, the top or bottom
line written by `renderRowTitleSeparator` is the plain border line of that
direction with the padded title spliced in at the character offset
`floor((line length - padded title length) / 2)`: the plain line up to that
offset, the padded title, then the plain line from the end of the title on;
it has the character count of the plain border line. -/
theorem renderRowTitleSeparator_splices_title (t : TableRender) (title : Str)
    (direction : rowType) (hdir : direction = rowType.rowTop ∨ direction = rowType.rowBottom)
    (htitle : title ≠ []) (hn : 0 < t.numberOfColumns)
    (hh : t.style.horizontalOutsideBorderChar ≠ [])
    (hw : ∀ c, 0 ≤ c → c < t.numberOfColumns → 0 ≤ t.getEffectiveColumnWidth c)
    (hfit : (paddedTitle title).length ≤ (borderLine t direction).length) :
    t.getRowSeparator direction = .ok (borderLine t direction)
      ∧ t.renderRowTitleSeparator title direction
          = .ok (t.Writeln (splicedLine (borderLine t direction) title))
      ∧ (splicedLine (borderLine t direction) title).length = (borderLine t direction).length := by
  have hhc : TableRender.horizontalChar t.style direction = t.style.horizontalOutsideBorderChar := by
    rcases hdir with rfl | rfl <;> rfl
  have hsep := getRowSeparator_eq_borderLine t direction (by omega)
    (fun h => hh (List.length_eq_zero.mp (hhc ▸ h.1))) hw
  have hpl : (paddedTitle title).length = title.length + 2 := by simp [paddedTitle]
  have hlen : (splicedLine (borderLine t direction) title).length
      = (borderLine t direction).length := by
    unfold splicedLine
    simp only [List.length_append, List.length_take, List.length_drop]
    omega
  refine ⟨hsep, ?_, hlen⟩
  unfold TableRender.renderRowTitleSeparator
  have ht' : (title.length == 0) = false := by
    rw [beq_eq_false_iff_ne]
    exact fun h => htitle (List.length_eq_zero.mp h)
  have hn' : (t.numberOfColumns == 0) = false := by rw [beq_eq_false_iff_ne]; omega
  have hstyle : (t.style.horizontalOutsideBorderChar.length == 0
      && t.style.crossingChar.length == 0) = false := by
    have : ¬ t.style.horizontalOutsideBorderChar.length = 0 :=
      fun h => hh (List.length_eq_zero.mp h)
    simp [this]
  simp only [ht', hn', hstyle, Bool.false_eq_true, if_false, hsep, bind, Except.bind, pure,
    Except.pure, sprintf_title]
  congr 2
  rw [titleTail_eq]
  have hnonneg : (0 : Int) ≤ ((borderLine t direction).length : Int)
      - ((paddedTitle title).length : Int) := by omega
  have hdiv := Int.tdiv_eq_ediv hnonneg (by decide : (0 : Int) ≤ 2)
  have hcrop : ((borderLine t direction).length : Int) - ((paddedTitle title).length : Int)
      = (((borderLine t direction).length - (paddedTitle title).length : Nat) : Int) := by
    omega
  rw [titleHead_eq _ _ _ _ _ (by rw [hdiv]; omega) (by rw [hdiv]; omega)]
  unfold splicedLine
  simp only [hdiv, List.nil_append, sub_zero]
  have h1 : ((((borderLine t direction).length : Int) - ((paddedTitle title).length : Int)) / 2).toNat
      = ((borderLine t direction).length - (paddedTitle title).length) / 2 := by
    rw [hcrop]; omega
  have h2 : ((((borderLine t direction).length : Int) - ((paddedTitle title).length : Int)) / 2
        + ((paddedTitle title).length : Int)).toNat
      = ((borderLine t direction).length - (paddedTitle title).length) / 2
        + (paddedTitle title).length := by
    rw [hcrop]; omega
  rw [h1, h2]

/-- Witness of C16 (amended): the title `T` on the top line of two columns of
widths 3 and 4 gives `+-- T ---+`. -/
theorem renderRowTitleSeparator_splices_title_witness :
    (rowType.rowTop = rowType.rowTop ∨ rowType.rowTop = rowType.rowBottom)
      ∧ ['T'] ≠ ([] : Str)
      ∧ 0 < (measuredRender 2 [(0, 3), (1, 4)]).numberOfColumns
      ∧ (measuredRender 2 [(0, 3), (1, 4)]).style.horizontalOutsideBorderChar ≠ []
      ∧ (paddedTitle ['T']).length
          ≤ (borderLine (measuredRender 2 [(0, 3), (1, 4)]) rowType.rowTop).length
      ∧ (measuredRender 2 [(0, 3), (1, 4)]).renderRowTitleSeparator ['T'] rowType.rowTop
          = .ok ((measuredRender 2 [(0, 3), (1, 4)]).Writeln
              (splicedLine (borderLine (measuredRender 2 [(0, 3), (1, 4)]) rowType.rowTop) ['T']))
      ∧ splicedLine (borderLine (measuredRender 2 [(0, 3), (1, 4)]) rowType.rowTop) ['T']
          = "+-- T ---+".toList :=
  ⟨Or.inl rfl, by decide, by decide, by decide, by decide,
    (renderRowTitleSeparator_splices_title (measuredRender 2 [(0, 3), (1, 4)]) ['T']
      rowType.rowTop (Or.inl rfl) (by decide) (by decide) (by decide)
      (fun c hc0 hc2 => by
        have hn : (measuredRender 2 [(0, 3), (1, 4)]).numberOfColumns = 2 := rfl
        have hc : c = 0 ∨ c = 1 := by omega
        rcases hc with rfl | rfl <;> decide)
      (by decide)).2.1,
    by decide⟩

/-- C16 as stated fails: on one column of width 3 under the ASCII style the
plain top line is `+---+`, and for the title `Tabl` the line written is the
padded title alone, ` Tabl `, which has 6 characters, not 5. -/
theorem renderRowTitleSeparator_long_title_counterexample :
    "Tabl".toList ≠ ([] : Str)
      ∧ 0 < (measuredRender 1 [(0, 3)]).numberOfColumns
      ∧ (measuredRender 1 [(0, 3)]).getRowSeparator rowType.rowTop = .ok "+---+".toList
      ∧ (measuredRender 1 [(0, 3)]).renderRowTitleSeparator "Tabl".toList rowType.rowTop
          = .ok ((measuredRender 1 [(0, 3)]).Writeln " Tabl ".toList)
      ∧ " Tabl ".toList.length ≠ "+---+".toList.length :=
  ⟨by decide, by decide, rfl, rfl, by decide⟩

theorem toChunks_go_single {α : Type} (n : Nat) :
    ∀ (xs : List α) (acc₁ : Array α) (acc₂ : Array (List α)),
      acc₁.size + xs.length ≤ n →
      List.toChunks.go n xs acc₁ acc₂ = acc₂.toList ++ [acc₁.toList ++ xs]
  | [], acc₁, acc₂, _ => by simp [List.toChunks.go]
  | x :: xs, acc₁, acc₂, h => by
      have hne : (acc₁.size == n) = false := by
        rw [beq_eq_false_iff_ne]; simp at h; omega
      rw [List.toChunks.go]
      simp only [hne, Bool.false_eq_true, if_false]
      rw [toChunks_go_single n xs (acc₁.push x) acc₂ (by simp at h ⊢; omega)]
      simp

theorem toChunks_single {α : Type} (n : Nat) (l : List α) (hne : l ≠ []) (hlen : l.length ≤ n) :
    l.toChunks n = [l] := by
  cases l with
  | nil => exact absurd rfl hne
  | cons x xs =>
    cases n with
    | zero => simp at hlen
    | succ n =>
      rw [List.toChunks]
      · rw [toChunks_go_single (n + 1) xs #[x] #[] (by simp at hlen ⊢; omega)]
        simp
      · omega

theorem getCellWidth_eq_max (s : TableRender) (row : TableRow) (c : Int) :
    s.getCellWidth row c = max (observedWidth s.formatter row c) (s.GetColumnMinWidth c) := by
  unfold TableRender.getCellWidth observedWidth
  cases row.GetColumn c with
  | none =>
    simp only []
    split
    · rw [max_eq_left]; omega
    · rw [max_eq_right]; omega
  | some column =>
    simp only []
    split
    · rw [max_eq_left]; omega
    · rw [max_eq_right]; omega

theorem foldlM_invariant_simple {σ α : Type} (f : σ → α → Run σ) (P : σ → Prop) (l : List α)
    (hstep : ∀ a s, P s → ∃ s', f s a = .ok s' ∧ P s') (s : σ) (hs : P s) :
    ∃ s', l.foldlM f s = .ok s' ∧ P s' := by
  have := foldlM_invariant f (fun _ s => P s) l (fun _ a s _ h => hstep a s h) [] s hs
  simpa using this

theorem foldl_max_map_max (f : TableRow → Int) (m : Int) :
    ∀ (l : List TableRow) (a : Int),
      (l.map (fun row => max (f row) m)).foldl max (max a m) = max ((l.map f).foldl max a) m
  | [], a => rfl
  | x :: xs, a => by
      simp only [List.map_cons, List.foldl_cons]
      have : max (max a m) (max (f x) m) = max (max a (f x)) m := by
        rw [max_max_max_comm, max_self]
      rw [this]
      exact foldl_max_map_max f m xs (max a (f x))

theorem maxInt_map_max (f : TableRow → Int) (m : Int) (l : List TableRow) (hne : l ≠ []) :
    MaxInt (l.map (fun row => max (f row) m)) = max (MaxInt (l.map f)) m := by
  cases l with
  | nil => exact absurd rfl hne
  | cons x xs =>
    simp only [List.map_cons, MaxInt]
    exact foldl_max_map_max f m xs (f x)

theorem keys_map_rows (data0 : TableData) (g : Option TableRow → Int) :
    data0.GetRowsSortedKeys.map (fun key => g (data0.GetRow key))
      = data0.rows.map (fun row => g (some row)) := by
  unfold TableData.GetRowsSortedKeys
  rw [List.map_map]
  apply List.ext_getElem
  · simp
  · intro n h1 h2
    simp only [List.length_map, List.length_range] at h1
    simp only [List.getElem_map, List.getElem_range, Function.comp]
    rw [getRow_natCast, List.get?_eq_getElem?, List.getElem?_eq_getElem h1]

theorem writeLines_nil (t : TableRender) : t.writeLines [] = t := by
  cases t; simp [TableRender.writeLines]

theorem writeLines_append (t : TableRender) (a b : List Str) :
    (t.writeLines a).writeLines b = t.writeLines (a ++ b) := by
  simp [TableRender.writeLines]

theorem getRowSeparator_writeLines (t : TableRender) (ls : List Str) (d : rowType) :
    (t.writeLines ls).getRowSeparator d = t.getRowSeparator d := rfl

theorem renderCell_writeLines (t : TableRender) (ls : List Str) (row : TableRow) (c : Int)
    (fmt : Str) : (t.writeLines ls).renderCell row c fmt = t.renderCell row c fmt := rfl

theorem renderRowLoop_writeLines (t : TableRender) (ls : List Str) (row : TableRow) (fmt : Str)
    (fuel : Nat) : ∀ (index : Int) (acc : Str),
    TableRender.renderRowLoop (t.writeLines ls) row fmt fuel index acc = TableRender.renderRowLoop t row fmt fuel index acc := by
  induction fuel with
  | zero => intro index acc; rfl
  | succ n ih =>
      intro index acc
      simp only [TableRender.renderRowLoop, renderCell_writeLines, getRowSeparator_writeLines, ih]
      rfl

theorem separatorLines_writeLines (t : TableRender) (ls : List Str) (d : rowType) :
    (t.writeLines ls).separatorLines d = t.separatorLines d := rfl

theorem titleLines_writeLines (t : TableRender) (ls : List Str) (title : Str) (d : rowType) :
    (t.writeLines ls).titleLines title d = t.titleLines title d := rfl

theorem rowLines_writeLines (t : TableRender) (ls : List Str) (fuel : Nat) (row : TableRow)
    (fmt : Str) : (t.writeLines ls).rowLines fuel row fmt = t.rowLines fuel row fmt := by
  simp only [TableRender.rowLines, renderRowLoop_writeLines]
  rfl

theorem renderRowSeparator_eq_lines (t : TableRender) (d : rowType) :
    t.renderRowSeparator d = (t.separatorLines d).map t.writeLines := by
  unfold TableRender.renderRowSeparator TableRender.separatorLines
  cases h : t.getRowSeparator d with
  | error e => rfl
  | ok sep =>
      by_cases hz : sep.length = 0
      · simp [hz, Except.map, bind, Except.bind, pure, Except.pure, writeLines_nil]
      · simp [hz, Except.map, bind, Except.bind, pure, Except.pure, TableRender.writeLines,
          TableRender.Writeln]


theorem renderRowTitleSeparator_eq_lines (t : TableRender) (title : Str) (d : rowType) :
    t.renderRowTitleSeparator title d = (t.titleLines title d).map t.writeLines := by
  unfold TableRender.renderRowTitleSeparator TableRender.titleLines
  by_cases ht : title.length = 0
  · simp only [ht, beq_self_eq_true, if_true]
    exact renderRowSeparator_eq_lines t d
  · by_cases hn : t.numberOfColumns = 0
    · simp [ht, hn, Except.map, pure, Except.pure, writeLines_nil]
    · by_cases hb : (t.style.horizontalOutsideBorderChar.length == 0
          && t.style.crossingChar.length == 0) = true
      · simp [ht, hn, hb, Except.map, pure, Except.pure, TableRender.writeLines,
          TableRender.Writeln]
      · cases h : t.getRowSeparator d with
        | error e => simp [ht, hn, hb, h, Except.map, bind, Except.bind]
        | ok sep =>
            simp [ht, hn, hb, h, Except.map, bind, Except.bind, pure, Except.pure,
              TableRender.writeLines, TableRender.Writeln]

theorem renderRow_eq_lines (t : TableRender) (fuel : Nat) (row : TableRow) (fmt : Str) :
    t.renderRow fuel row fmt = (t.rowLines fuel row fmt).map t.writeLines := by
  unfold TableRender.renderRow TableRender.rowLines
  by_cases hz : row.GetColumns.length = 0
  · simp [hz, Except.map, pure, Except.pure, writeLines_nil]
  · cases h : TableRender.renderRowLoop t row fmt fuel 0 (t.renderColumnSeparator columnType.columnOutside) with
    | error e => simp [hz, h, Except.map, bind, Except.bind]
    | ok line =>
        simp [hz, h, Except.map, bind, Except.bind, pure, Except.pure,
          TableRender.writeLines, TableRender.Writeln]

theorem foldlM_writes {α : Type} (step : TableRender → α → Run TableRender)
    (lines : TableRender → α → Run (List Str))
    (hstep : ∀ t a, step t a = (lines t a).map t.writeLines)
    (hinv : ∀ t ls a, lines (t.writeLines ls) a = lines t a) :
    ∀ (l : List α) (t : TableRender),
      l.foldlM step t = (collectLines (lines t) l).map t.writeLines := by
  intro l
  induction l with
  | nil => intro t; simp [collectLines, Except.map, pure, Except.pure, writeLines_nil]
  | cons a rest ih =>
      intro t
      rw [List.foldlM_cons, hstep]
      simp only [collectLines]
      cases h : lines t a with
      | error e => rfl
      | ok first =>
          simp only [Except.map, bind, Except.bind]
          rw [ih]
          have hfun : lines (t.writeLines first) = lines t := by
            funext a; exact hinv t first a
          rw [hfun]
          cases h2 : collectLines (lines t) rest with
          | error e => rfl
          | ok others =>
              simp [Except.map, pure, Except.pure, writeLines_append]


theorem headerLines_writeLines (t : TableRender) (ls : List Str) (fuel : Nat)
    (hd rd : TableData) (index : Int) :
    headerLines (t.writeLines ls) fuel hd rd index = headerLines t fuel hd rd index := by
  simp only [headerLines, rowLines_writeLines]
  rfl

theorem bodyLines_writeLines (t : TableRender) (ls : List Str) (fuel : Nat)
    (rd : TableData) (index : Int) :
    bodyLines (t.writeLines ls) fuel rd index = bodyLines t fuel rd index := by
  simp only [bodyLines, rowLines_writeLines]
  rfl

theorem getRowsSortedKeys_of_length_zero (data : TableData) (h : data.rows.length = 0) :
    data.GetRowsSortedKeys = [] := by
  have : data.rows = [] := List.length_eq_zero.mp h
  simp [TableData.GetRowsSortedKeys, this]

/-- The writing stage of `Render` on a laid-out renderer. -/
theorem emit_eq (t : TableRender) (fuel : Nat) (headersData rowsData : TableData) :
    (do
      let t ← t.renderRowTitleSeparator t.content.headerTitle rowType.rowTop
      let t ←
        if headersData.rows.length > 0 then
          headersData.GetRowsSortedKeys.foldlM
            (fun (t : TableRender) index =>
              match headersData.GetRow index with
              | none => throw Fault.panic
              | some header => do
                  let t ← t.renderRow fuel header t.style.cellHeaderFormat
                  if rowsData.rows.length != 0 then t.renderRowSeparator rowType.rowDouble
                  else t.renderRowTitleSeparator t.content.footerTitle rowType.rowBottom)
            t
        else pure t
      let t ← rowsData.GetRowsSortedKeys.foldlM
        (fun (t : TableRender) index =>
          match rowsData.GetRow index with
          | none => throw Fault.panic
          | some row => t.renderRow fuel row t.style.cellRowFormat)
        t
      let t ←
        if rowsData.rows.length > 0 then
          t.renderRowTitleSeparator t.content.footerTitle rowType.rowBottom
        else pure t
      pure t.cleanup : Run TableRender)
      = (emitLines t fuel headersData rowsData).map
          (fun lines => (t.writeLines lines).cleanup) := by
  have hH : ∀ (t : TableRender) (index : Int),
      (match headersData.GetRow index with
        | none => (throw Fault.panic : Run TableRender)
        | some header => do
            let t ← t.renderRow fuel header t.style.cellHeaderFormat
            if rowsData.rows.length != 0 then t.renderRowSeparator rowType.rowDouble
            else t.renderRowTitleSeparator t.content.footerTitle rowType.rowBottom)
        = (headerLines t fuel headersData rowsData index).map t.writeLines := by
    intro t index
    unfold headerLines rowAt
    cases headersData.GetRow index with
    | none => rfl
    | some header =>
        simp only [renderRow_eq_lines, renderRowSeparator_eq_lines,
          renderRowTitleSeparator_eq_lines, pure_bind]
        cases h1 : t.rowLines fuel header t.style.cellHeaderFormat with
        | error e => rfl
        | ok line =>
            simp only [Except.map, bind, Except.bind, pure, Except.pure]
            by_cases hr : (rowsData.rows.length != 0) = true
            · simp only [hr, if_true]
              have : (t.writeLines line).separatorLines rowType.rowDouble
                  = t.separatorLines rowType.rowDouble := rfl
              rw [this]
              cases h2 : t.separatorLines rowType.rowDouble with
              | error e => rfl
              | ok border => simp [writeLines_append]
            · simp only [hr]
              have : (t.writeLines line).titleLines (t.writeLines line).content.footerTitle
                    rowType.rowBottom
                  = t.titleLines t.content.footerTitle rowType.rowBottom := rfl
              rw [this]
              cases h2 : t.titleLines t.content.footerTitle rowType.rowBottom with
              | error e => rfl
              | ok border => simp [writeLines_append]
  have hB : ∀ (t : TableRender) (index : Int),
      (match rowsData.GetRow index with
        | none => (throw Fault.panic : Run TableRender)
        | some row => t.renderRow fuel row t.style.cellRowFormat)
        = (bodyLines t fuel rowsData index).map t.writeLines := by
    intro t index
    unfold bodyLines rowAt
    cases rowsData.GetRow index with
    | none => rfl
    | some row =>
        simp only [renderRow_eq_lines]
        rfl
  have hHfold := foldlM_writes _ (fun t index => headerLines t fuel headersData rowsData index)
    hH (fun t ls a => headerLines_writeLines t ls fuel headersData rowsData a)
  have hBfold := foldlM_writes _ (fun t index => bodyLines t fuel rowsData index)
    hB (fun t ls a => bodyLines_writeLines t ls fuel rowsData a)
  have hnil : headersData.rows.length = 0 →
      collectLines (headerLines t fuel headersData rowsData) headersData.GetRowsSortedKeys
        = pure [] := by
    intro hz
    rw [getRowsSortedKeys_of_length_zero _ hz]; rfl
  have hfoot : ∀ ls : List Str,
      (t.writeLines ls).titleLines (t.writeLines ls).content.footerTitle rowType.rowBottom
        = t.titleLines t.content.footerTitle rowType.rowBottom := fun _ => rfl
  unfold emitLines
  by_cases hl : headersData.rows.length > 0 <;> by_cases hr : rowsData.rows.length > 0
  · simp only [hl, hr, if_true]
    simp only [hHfold, hBfold]
    simp only [renderRowTitleSeparator_eq_lines]
    cases h0 : t.titleLines t.content.headerTitle rowType.rowTop with
    | error e => rfl
    | ok top =>
        simp only [Except.map, bind, Except.bind, headerLines_writeLines]
        cases h1 : collectLines (fun index => headerLines t fuel headersData rowsData index)
            headersData.GetRowsSortedKeys with
        | error e => rfl
        | ok head =>
            simp only [writeLines_append, bodyLines_writeLines]
            cases h2 : collectLines (fun index => bodyLines t fuel rowsData index)
                rowsData.GetRowsSortedKeys with
            | error e => rfl
            | ok body =>
                simp only [writeLines_append, hfoot]
                cases h3 : t.titleLines t.content.footerTitle rowType.rowBottom with
                | error e => rfl
                | ok bottom => simp [writeLines_append, pure, Except.pure]
  · simp only [hl, hr, if_true, if_false]
    simp only [hHfold, hBfold]
    simp only [renderRowTitleSeparator_eq_lines]
    cases h0 : t.titleLines t.content.headerTitle rowType.rowTop with
    | error e => rfl
    | ok top =>
        simp only [Except.map, bind, Except.bind, headerLines_writeLines]
        cases h1 : collectLines (fun index => headerLines t fuel headersData rowsData index)
            headersData.GetRowsSortedKeys with
        | error e => rfl
        | ok head =>
            simp only [writeLines_append, bodyLines_writeLines]
            cases h2 : collectLines (fun index => bodyLines t fuel rowsData index)
                rowsData.GetRowsSortedKeys with
            | error e => rfl
            | ok body => simp [writeLines_append, pure, Except.pure]
  · simp only [hl, hr, if_true, if_false]
    rw [hnil (by omega)]
    simp only [hBfold]
    simp only [renderRowTitleSeparator_eq_lines]
    cases h0 : t.titleLines t.content.headerTitle rowType.rowTop with
    | error e => rfl
    | ok top =>
        simp only [Except.map, bind, Except.bind, pure, Except.pure, bodyLines_writeLines]
        cases h2 : collectLines (fun index => bodyLines t fuel rowsData index)
            rowsData.GetRowsSortedKeys with
        | error e => rfl
        | ok body =>
            simp only [writeLines_append, hfoot]
            cases h3 : t.titleLines t.content.footerTitle rowType.rowBottom with
            | error e => rfl
            | ok bottom => simp [writeLines_append]
  · simp only [hl, hr, if_true, if_false]
    rw [hnil (by omega)]
    simp only [hBfold]
    simp only [renderRowTitleSeparator_eq_lines]
    cases h0 : t.titleLines t.content.headerTitle rowType.rowTop with
    | error e => rfl
    | ok top =>
        simp only [Except.map, bind, Except.bind, pure, Except.pure, bodyLines_writeLines]
        cases h2 : collectLines (fun index => bodyLines t fuel rowsData index)
            rowsData.GetRowsSortedKeys with
        | error e => rfl
        | ok body => simp [writeLines_append]


/-- `Render` is its layout stage followed by the writing of the lines of
`emitLines` and the reset of the transient state. -/
theorem Render_eq_layout_emit (t : TableRender) (fuel : Nat) :
    t.Render fuel
      = layoutStage t >>= fun s =>
          (emitLines s.1 fuel s.2.1 s.2.2).map (fun lines => (s.1.writeLines lines).cleanup) := by
  unfold TableRender.Render layoutStage
  simp only [bind_assoc, pure_bind]
  apply bind_congr; intro builtRows
  apply bind_congr; intro builtHeaders
  apply bind_congr; intro measured
  exact emit_eq _ fuel builtHeaders.2 builtRows.2

theorem measureColumn_frame (state state' : TableRender × TableData) (c : Int)
    (h : TableRender.measureColumn state c = .ok state') :
    { state'.1 with effectiveColumnWidths := [] } = { state.1 with effectiveColumnWidths := [] } := by
  unfold TableRender.measureColumn at h
  split at h
  · cases h
  · simp only [pure, Except.pure, Except.ok.injEq] at h
    rw [← h]
    rfl

theorem calculateColumnsWidth_frame (t t' : TableRender) (data data' : TableData)
    (h : t.calculateColumnsWidth data = .ok (t', data')) :
    { t' with effectiveColumnWidths := [] } = { t with effectiveColumnWidths := [] } := by
  unfold TableRender.calculateColumnsWidth at h
  exact foldlM_preserves TableRender.measureColumn
    (fun s => ({ s.1 with effectiveColumnWidths := [] } : TableRender)
      = { t with effectiveColumnWidths := [] })
    (fun a s s' hs hP => (measureColumn_frame s s' a hs).trans hP) _ _ _ h rfl

theorem calculateNumberOfColumns_frame (t : TableRender) (data : TableData) :
    { t.calculateNumberOfColumns data with numberOfColumns := 0 }
      = { t with numberOfColumns := 0 } := by
  unfold TableRender.calculateNumberOfColumns
  split <;> rfl

theorem layoutStage_frame (t : TableRender) (s : TableRender × TableData × TableData)
    (h : layoutStage t = .ok s) :
    s.1.style = t.style ∧ s.1.columnsStyles = t.columnsStyles
      ∧ s.1.columnsMinWidths = t.columnsMinWidths ∧ s.1.columnsMaxWidths = t.columnsMaxWidths
      ∧ s.1.output = t.output ∧ s.1.formatter = t.formatter := by
  unfold layoutStage at h
  simp only [bind, Except.bind] at h
  split at h
  · cases h
  · split at h
    · cases h
    · split at h
      · cases h
      · rename_i measured hm
        simp only [pure, Except.pure, Except.ok.injEq] at h
        have hf := calculateColumnsWidth_frame _ _ _ _ hm
        have hn := calculateNumberOfColumns_frame t (MergeData t.content.headers t.content.rows)
        rw [← h]
        refine ⟨?_, ?_, ?_, ?_, ?_, ?_⟩
        · exact (congrArg TableRender.style hf :).trans (congrArg TableRender.style hn :)
        · exact (congrArg TableRender.columnsStyles hf :).trans
            (congrArg TableRender.columnsStyles hn :)
        · exact (congrArg TableRender.columnsMinWidths hf :).trans
            (congrArg TableRender.columnsMinWidths hn :)
        · exact (congrArg TableRender.columnsMaxWidths hf :).trans
            (congrArg TableRender.columnsMaxWidths hn :)
        · exact (congrArg TableRender.output hf :).trans (congrArg TableRender.output hn :)
        · exact (congrArg TableRender.formatter hf :).trans (congrArg TableRender.formatter hn :)


theorem rowLines_of_no_column (t : TableRender) (fuel : Nat) (row : TableRow) (fmt : Str)
    (h : row.GetColumns = []) : t.rowLines fuel row fmt = .ok [] := by
  simp [TableRender.rowLines, h, pure, Except.pure]

theorem rowLines_length (t : TableRender) (fuel : Nat) (row : TableRow) (fmt : Str)
    (lines : List Str) (h : row.GetColumns ≠ []) (hl : t.rowLines fuel row fmt = .ok lines) :
    lines.length = 1 := by
  unfold TableRender.rowLines at hl
  have hz : ¬ row.GetColumns.length = 0 := fun hz => h (List.length_eq_zero.mp hz)
  simp only [beq_iff_eq, hz, if_false, bind, Except.bind] at hl
  split at hl
  · cases hl
  · simp only [pure, Except.pure, Except.ok.injEq] at hl
    rw [← hl]; rfl

theorem separatorLines_length (t : TableRender) (d : rowType) (lines : List Str)
    (hl : t.separatorLines d = .ok lines) : lines.length ≤ 1 := by
  unfold TableRender.separatorLines at hl
  simp only [bind, Except.bind] at hl
  split at hl
  · cases hl
  · simp only [pure, Except.pure, Except.ok.injEq] at hl
    rw [← hl]; split <;> simp

theorem titleLines_length (t : TableRender) (title : Str) (d : rowType) (lines : List Str)
    (hl : t.titleLines title d = .ok lines) : lines.length ≤ 1 := by
  unfold TableRender.titleLines at hl
  split at hl
  · exact separatorLines_length t d lines hl
  · split at hl
    · simp only [pure, Except.pure, Except.ok.injEq] at hl
      rw [← hl]; simp
    · simp only [] at hl
      split at hl
      · simp only [pure, Except.pure, Except.ok.injEq] at hl
        rw [← hl]; simp
      · simp only [bind, Except.bind] at hl
        split at hl
        · cases hl
        · simp only [pure, Except.pure, Except.ok.injEq] at hl
          rw [← hl]; simp

theorem Render_output (t : TableRender) (fuel : Nat) (t' : TableRender)
    (h : t.Render fuel = .ok t') :
    ∃ s lines, layoutStage t = .ok s ∧ emitLines s.1 fuel s.2.1 s.2.2 = .ok lines
      ∧ t' = (s.1.writeLines lines).cleanup ∧ t'.output = t.output ++ lines := by
  rw [Render_eq_layout_emit] at h
  cases hs : layoutStage t with
  | error e => rw [hs] at h; cases h
  | ok s =>
      rw [hs] at h
      cases hl : emitLines s.1 fuel s.2.1 s.2.2 with
      | error e =>
          simp only [bind, Except.bind, hl, Except.map] at h
          cases h
      | ok lines =>
          simp only [bind, Except.bind, hl, Except.map, Except.ok.injEq] at h
          refine ⟨s, lines, rfl, hl, h.symm, ?_⟩
          rw [← h]
          show s.1.output ++ lines = t.output ++ lines
          rw [(layoutStage_frame t s hs).2.2.2.2.1]

/-- C17, amended: `Render` is its layout stage, which writes no line, followed
by the writing of the lines of `emitLines` for the laid-out renderer and the
expanded header and body data, and the reset: the lines of the top border with
the header title, then for each header row in ascending key order its row line
followed by the lines of the double separator when there is a body row and of
the bottom border with the footer title otherwise, then the row line of each
body row in ascending key order, then the lines of the bottom border with the
footer title exactly when there is a body row. A row storing no column has no
row line, any other row has exactly one, and a border has at most one line. -/
theorem Render_writes_emitLines (t : TableRender) (fuel : Nat) :
    (t.Render fuel
        = layoutStage t >>= fun s =>
            (emitLines s.1 fuel s.2.1 s.2.2).map (fun lines => (s.1.writeLines lines).cleanup))
      ∧ (∀ t', t.Render fuel = .ok t' →
          ∃ s lines, layoutStage t = .ok s ∧ emitLines s.1 fuel s.2.1 s.2.2 = .ok lines
            ∧ t'.output = t.output ++ lines)
      ∧ (∀ (t1 : TableRender) (headersData rowsData : TableData),
          emitLines t1 fuel headersData rowsData
            = (do
                let top ← t1.titleLines t1.content.headerTitle rowType.rowTop
                let head ← collectLines
                  (fun index => do
                    let header ← rowAt headersData index
                    let line ← t1.rowLines fuel header t1.style.cellHeaderFormat
                    let border ←
                      if rowsData.rows.length != 0 then t1.separatorLines rowType.rowDouble
                      else t1.titleLines t1.content.footerTitle rowType.rowBottom
                    pure (line ++ border))
                  headersData.GetRowsSortedKeys
                let body ← collectLines
                  (fun index => do
                    let row ← rowAt rowsData index
                    t1.rowLines fuel row t1.style.cellRowFormat)
                  rowsData.GetRowsSortedKeys
                let bottom ←
                  if rowsData.rows.length > 0 then
                    t1.titleLines t1.content.footerTitle rowType.rowBottom
                  else pure []
                pure (top ++ head ++ body ++ bottom)))
      ∧ (∀ (t1 : TableRender) (row : TableRow) (cellFormat : Str),
          row.GetColumns = [] → t1.rowLines fuel row cellFormat = .ok [])
      ∧ (∀ (t1 : TableRender) (row : TableRow) (cellFormat : Str) (lines : List Str),
          row.GetColumns ≠ [] → t1.rowLines fuel row cellFormat = .ok lines → lines.length = 1)
      ∧ (∀ (t1 : TableRender) (title : Str) (direction : rowType) (lines : List Str),
          t1.titleLines title direction = .ok lines → lines.length ≤ 1)
      ∧ (∀ (t1 : TableRender) (direction : rowType) (lines : List Str),
          t1.separatorLines direction = .ok lines → lines.length ≤ 1) :=
  ⟨Render_eq_layout_emit t fuel,
    fun t' h => by
      obtain ⟨s, lines, hs, hl, _, ho⟩ := Render_output t fuel t' h
      exact ⟨s, lines, hs, hl, ho⟩,
    fun _ _ _ => rfl,
    fun t1 row fmt h => rowLines_of_no_column t1 fuel row fmt h,
    fun t1 row fmt lines h hl => rowLines_length t1 fuel row fmt lines h hl,
    fun t1 title d lines hl => titleLines_length t1 title d lines hl,
    fun t1 d lines hl => separatorLines_length t1 d lines hl⟩

theorem Render_writes_emitLines_witness :
    ∃ t', (renderOf asciiStyle mixedRowsTable).Render 1 = .ok t'
      ∧ t'.output = ["+---+".toList, "| h |".toList, "+---+".toList, "| a |".toList,
          "| b |".toList, "+---+".toList] :=
  ⟨_, (Render_writes_emitLines (renderOf asciiStyle mixedRowsTable) 1).1.trans rfl, rfl⟩

/-- C17 as stated fails: for the body of a row storing no column followed by
the row `a`, under the ASCII style and without header, the expanded body data
has two rows, while `Render` writes three lines, the top border, one row line
and the bottom border, not one row line per expanded body row. -/
theorem Render_columnless_row_counterexample :
    ∃ s t', layoutStage (renderOf asciiStyle columnlessRowTable) = .ok s
      ∧ s.2.1.rows.length = 0 ∧ s.2.2.rows.length = 2
      ∧ (renderOf asciiStyle columnlessRowTable).Render 1 = .ok t'
      ∧ t'.output = ["+---+".toList, "| a |".toList, "+---+".toList] :=
  ⟨_, _, rfl, rfl, rfl, rfl, rfl⟩


/-- C18: when `Render` returns, the column count is 0 and the effective
column widths are empty, while the selected style, the per-column styles and
the configured minimum and maximum widths are those before the call; and the
column count a following render computes, over whatever table is attached to
the returned renderer, is the largest of the counts `getNumberOfColumns`
gives the rows of that table, 0 for a table without rows; this is the largest
occupied-slot count of the rows whenever every colspan is at least 1 and every
row's occupied-slot count is below 2^63, the range in which the Go `int` sum
does not wrap around. -/
theorem Render_resets_transient_state (t : TableRender) (fuel : Nat) (t' : TableRender)
    (h : t.Render fuel = .ok t') :
    t'.numberOfColumns = 0 ∧ t'.effectiveColumnWidths = []
      ∧ t'.style = t.style ∧ t'.columnsStyles = t.columnsStyles
      ∧ t'.columnsMinWidths = t.columnsMinWidths ∧ t'.columnsMaxWidths = t.columnsMaxWidths
      ∧ (t'.calculateNumberOfColumns (MergeData t'.content.headers t'.content.rows)).numberOfColumns
          = ((MergeData t'.content.headers t'.content.rows).rows.map
              TableRender.getNumberOfColumns).foldl max 0
      ∧ (∀ content : Table,
          ((t'.SetContent content).calculateNumberOfColumns
              (MergeData content.headers content.rows)).numberOfColumns
            = ((MergeData content.headers content.rows).rows.map
                TableRender.getNumberOfColumns).foldl max 0)
      ∧ ∀ content : Table,
          (∀ row ∈ (MergeData content.headers content.rows).rows,
              ∀ column ∈ row.GetColumns, 1 ≤ column.cell.colspan) →
          (∀ row ∈ (MergeData content.headers content.rows).rows,
              occupiedSlots row < 9223372036854775808) →
          ((t'.SetContent content).calculateNumberOfColumns
              (MergeData content.headers content.rows)).numberOfColumns
            = ((MergeData content.headers content.rows).rows.map occupiedSlots).foldl max 0 := by
  obtain ⟨s, lines, hs, _, ht, _⟩ := Render_output t fuel t' h
  obtain ⟨h1, h2, h3, h4, _, _⟩ := layoutStage_frame t s hs
  have hn : t'.numberOfColumns = 0 := by rw [ht]; rfl
  refine ⟨hn, by rw [ht]; rfl, ?_, ?_, ?_, ?_, ?_, ?_, ?_⟩
  · rw [ht]; exact h1
  · rw [ht]; exact h2
  · rw [ht]; exact h3
  · rw [ht]; exact h4
  · exact calculateNumberOfColumns_val t' _ hn
  · intro content
    exact calculateNumberOfColumns_val (t'.SetContent content) _ hn
  · intro content hspan hbound
    exact calculateNumberOfColumns_val_spec (t'.SetContent content) _ hn hspan hbound

theorem Render_resets_transient_state_witness :
    ∃ t', (renderOf asciiStyle mixedRowsTable).Render 1 = .ok t'
      ∧ t'.numberOfColumns = 0 ∧ t'.effectiveColumnWidths = [] ∧ t'.style = asciiStyle
      ∧ ((t'.SetContent (tableOf [] [rowOf [['a'], ['b']]])).calculateNumberOfColumns
            (MergeData (tableOf [] [rowOf [['a'], ['b']]]).headers
              (tableOf [] [rowOf [['a'], ['b']]]).rows)).numberOfColumns = 2 :=
  ⟨_, rfl, (Render_resets_transient_state (renderOf asciiStyle mixedRowsTable) 1 _ rfl).1,
    (Render_resets_transient_state (renderOf asciiStyle mixedRowsTable) 1 _ rfl).2.1,
    (Render_resets_transient_state (renderOf asciiStyle mixedRowsTable) 1 _ rfl).2.2.1,
    ((Render_resets_transient_state (renderOf asciiStyle mixedRowsTable) 1 _ rfl).2.2.2.2.2.2.2.2
      (tableOf [] [rowOf [['a'], ['b']]]) (by decide) (by decide)).trans (by decide)⟩

/-- C24 fails in the code: `Render` rewrites the attached table in place, so
a second `Render` on the returned renderer writes other lines. For the body
cell `a\nb` the first call writes the rows `a` and `b`, the second only the
row `a`; for a colspan-2 cell `abcd` over the row `x`, `y` the first call
writes the cell across both columns, the second writes `ab` and `cd` in
separate columns. -/
theorem Render_twice_writes_other_lines :
    (∃ t1 t2, twoLineRender.Render 1 = .ok t1 ∧ t1.Render 1 = .ok t2
        ∧ t1.output = ["+---+".toList, "| a<fg=default;bg=default> |".toList,
            "| </>b |".toList, "+---+".toList]
        ∧ t2.output = t1.output ++ ["+---+".toList, "| a |".toList, "+---+".toList])
      ∧ ∃ t1 t2, spanRender.Render 2 = .ok t1 ∧ t1.Render 2 = .ok t2
        ∧ t1.output = ["+----+----+".toList, "| abcd    |".toList, "| x  | y  |".toList,
            "+----+----+".toList]
        ∧ t2.output = t1.output ++ ["+----+----+".toList, "| ab | cd |".toList,
            "| x  | y  |".toList, "+----+----+".toList] :=
  ⟨⟨_, _, rfl, rfl, rfl, rfl⟩, ⟨_, _, rfl, rfl, rfl, rfl⟩⟩

theorem foldlM_error {σ α : Type} (f : σ → α → Run σ) (e0 : Fault)
    (hstep : ∀ a s e, f s a = .error e → e = e0) :
    ∀ (l : List α) (s : σ) (e : Fault), l.foldlM f s = .error e → e = e0 := by
  intro l
  induction l with
  | nil => intro s e h; simp [List.foldlM_nil, pure, Except.pure] at h
  | cons a rest ih =>
      intro s e h
      rw [List.foldlM_cons] at h
      cases hf : f s a with
      | error e1 =>
          rw [hf] at h
          simp only [bind, Except.bind, Except.error.injEq] at h
          rw [← h]; exact hstep a s e1 hf
      | ok s1 => rw [hf] at h; exact ih s1 e h

theorem strRepeat_error (s : Str) (count : Int) (e : Fault)
    (h : strRepeat s count = .error e) : e = Fault.panic := by
  unfold strRepeat at h
  split at h
  · simp only [throw, throwThe, MonadExceptOf.throw, Except.error.injEq] at h
    exact h.symm
  · simp [pure, Except.pure] at h

theorem getRowSeparator_error (t : TableRender) (direction : rowType) (e : Fault)
    (h : t.getRowSeparator direction = .error e) : e = Fault.panic := by
  unfold TableRender.getRowSeparator at h
  simp only [] at h
  split at h
  · simp [pure, Except.pure] at h
  · split at h
    · simp [pure, Except.pure] at h
    · simp only [bind, Except.bind] at h
      split at h
      · rename_i e1 hf
        simp only [Except.error.injEq] at h
        rw [← h]
        refine foldlM_error _ Fault.panic ?_ _ _ _ hf
        intro a s e2 hs
        cases hr : strRepeat (TableRender.horizontalChar t.style direction)
            (t.getEffectiveColumnWidth a) with
        | error e3 =>
            rw [hr] at hs
            simp only [Except.error.injEq] at hs
            rw [← hs]; exact strRepeat_error _ _ _ hr
        | ok bar =>
            rw [hr] at hs
            simp only [] at hs
            split at hs <;> simp [pure, Except.pure] at hs
      · simp [pure, Except.pure] at h


theorem renderCell_plain (t : TableRender) (row : TableRow) (index : Int) (fmt : Str)
    (h : (TableRender.cellAt row index).separator = false) :
    ∃ rendered, t.renderCell row index fmt = .ok rendered := by
  unfold TableRender.renderCell
  simp only [h, Bool.false_eq_true, if_false]
  exact ⟨_, rfl⟩

theorem renderCell_gap (t : TableRender) (row : TableRow) (index : Int) (fmt : Str)
    (h : row.GetColumn index = none) :
    ∃ rendered, t.renderCell row index fmt = .ok rendered :=
  renderCell_plain t row index fmt (by simp [TableRender.cellAt, h, NewTableCell])

theorem renderCell_stored (t : TableRender) (row : TableRow) (index : Int) (fmt : Str)
    (column : TableColumn) (h : row.GetColumn index = some column)
    (hs : column.cell.separator = false) :
    ∃ rendered, t.renderCell row index fmt = .ok rendered :=
  renderCell_plain t row index fmt (by simp [TableRender.cellAt, h, hs])

/-- With every stored colspan at least 1, a budget of `numberOfColumns - index`
iterations lets the loop of `renderRow` finish: it yields a line, or stops on
a stored Separator with the outcome of `getRowSeparator(rowSimple)`. -/
theorem renderRowLoop_finishes (t : TableRender) (row : TableRow) (fmt : Str)
    (hspan : ∀ column ∈ row.GetColumns, 1 ≤ column.cell.colspan) :
    ∀ (fuel : Nat) (index : Int) (acc : Str), (t.numberOfColumns - index).toNat ≤ fuel →
      (∃ line, TableRender.renderRowLoop t row fmt fuel index acc = .ok line)
        ∨ ((∃ column ∈ row.GetColumns, column.cell.separator = true)
          ∧ TableRender.renderRowLoop t row fmt fuel index acc
            = t.getRowSeparator rowType.rowSimple) := by
  intro fuel
  induction fuel with
  | zero =>
      intro index acc hm
      have : ¬ index < t.numberOfColumns := by omega
      exact Or.inl ⟨acc, by simp [TableRender.renderRowLoop, this, pure, Except.pure]⟩
  | succ n ih =>
      intro index acc hm
      by_cases hlt : index < t.numberOfColumns
      · cases hc : row.GetColumn index with
        | none =>
            obtain ⟨rendered, hr⟩ := renderCell_gap t row index fmt hc
            simp only [TableRender.renderRowLoop, hlt, if_true, hc, hr, bind, Except.bind]
            exact ih _ _ (by omega)
        | some column =>
            by_cases hs : column.cell.separator = true
            · refine Or.inr ⟨⟨column, getColumn_mem row index column hc, hs⟩, ?_⟩
              simp [TableRender.renderRowLoop, hlt, hc, hs]
            · have hs' : column.cell.separator = false := by simpa using hs
              obtain ⟨rendered, hr⟩ := renderCell_stored t row index fmt column hc hs'
              have hk := hspan column (getColumn_mem row index column hc)
              simp only [TableRender.renderRowLoop, hlt, if_true, hc, hs', Bool.false_eq_true,
                if_false, hr, bind, Except.bind]
              exact ih _ _ (by omega)
      · exact Or.inl ⟨acc, by simp [TableRender.renderRowLoop, hlt, pure, Except.pure]⟩

/-- Beyond `numberOfColumns - index` iterations the budget does not matter. -/
theorem renderRowLoop_fuel_irrelevant (t : TableRender) (row : TableRow) (fmt : Str)
    (hspan : ∀ column ∈ row.GetColumns, 1 ≤ column.cell.colspan) :
    ∀ (fuel1 fuel2 : Nat) (index : Int) (acc : Str),
      (t.numberOfColumns - index).toNat ≤ fuel1 → (t.numberOfColumns - index).toNat ≤ fuel2 →
      TableRender.renderRowLoop t row fmt fuel1 index acc
        = TableRender.renderRowLoop t row fmt fuel2 index acc := by
  intro fuel1
  induction fuel1 with
  | zero =>
      intro fuel2 index acc h1 _
      have : ¬ index < t.numberOfColumns := by omega
      cases fuel2 <;> simp [TableRender.renderRowLoop, this]
  | succ n ih =>
      intro fuel2 index acc h1 h2
      by_cases hlt : index < t.numberOfColumns
      · cases fuel2 with
        | zero => omega
        | succ m =>
            cases hc : row.GetColumn index with
            | none =>
                simp only [TableRender.renderRowLoop, hlt, if_true, hc]
                cases hr : t.renderCell row index fmt with
                | error e => rfl
                | ok rendered =>
                    simp only [bind, Except.bind]
                    exact ih _ _ _ (by omega) (by omega)
            | some column =>
                have hk := hspan column (getColumn_mem row index column hc)
                simp only [TableRender.renderRowLoop, hlt, if_true, hc]
                split
                · rfl
                · cases hr : t.renderCell row index fmt with
                  | error e => rfl
                  | ok rendered =>
                      simp only [bind, Except.bind]
                      exact ih _ _ _ (by omega) (by omega)
      · cases fuel2 <;> simp [TableRender.renderRowLoop, hlt]


theorem getRowSeparator_ok (t : TableRender) (direction : rowType)
    (hw : ∀ c, 0 ≤ c → c < t.numberOfColumns → 0 ≤ t.getEffectiveColumnWidth c) :
    ∃ line, t.getRowSeparator direction = .ok line := by
  by_cases hn : t.numberOfColumns = 0
  · exact ⟨[], by simp [TableRender.getRowSeparator, hn, pure, Except.pure]⟩
  · by_cases hstyle : (TableRender.horizontalChar t.style direction).length = 0
        ∧ t.style.crossingChar.length = 0
    · refine ⟨[], ?_⟩
      unfold TableRender.getRowSeparator
      simp [hn, hstyle.1, hstyle.2, pure, Except.pure]
    · exact ⟨_, getRowSeparator_eq_borderLine t direction hn hstyle hw⟩

/-- C23: for a row storing at least one column whose cells all have colspan
at least 1, the loop of `renderRow` moves its index forward at every stored
cell (by the colspan) and `renderRow` finishes within `numberOfColumns`
iterations, a larger budget changing nothing; it then has written exactly one
line, the only other outcome being the panic of `strings.Repeat` inside
`getRowSeparator`, which takes a stored Separator. With non-negative
effective widths, or without a stored Separator, it writes exactly one line. -/
theorem renderRow_terminates (t : TableRender) (row : TableRow) (cellFormat : Str)
    (hcols : row.GetColumns ≠ [])
    (hspan : ∀ column ∈ row.GetColumns, 1 ≤ column.cell.colspan) :
    (∀ index column, row.GetColumn index = some column → index < index + column.cell.colspan)
      ∧ (∀ fuel, t.numberOfColumns.toNat ≤ fuel →
          t.renderRow fuel row cellFormat = t.renderRow t.numberOfColumns.toNat row cellFormat)
      ∧ t.renderRow t.numberOfColumns.toNat row cellFormat ≠ .error Fault.fuel
      ∧ ((∃ line, t.renderRow t.numberOfColumns.toNat row cellFormat = .ok (t.Writeln line))
          ∨ (t.renderRow t.numberOfColumns.toNat row cellFormat = .error Fault.panic
            ∧ t.getRowSeparator rowType.rowSimple = .error Fault.panic
            ∧ ∃ column ∈ row.GetColumns, column.cell.separator = true))
      ∧ (((∀ c, 0 ≤ c → c < t.numberOfColumns → 0 ≤ t.getEffectiveColumnWidth c)
            ∨ ∀ column ∈ row.GetColumns, column.cell.separator = false) →
          ∃ line, t.renderRow t.numberOfColumns.toNat row cellFormat = .ok (t.Writeln line)) := by
  have hz : ¬ row.GetColumns.length = 0 := fun h => hcols (List.length_eq_zero.mp h)
  have hrow : ∀ fuel, t.renderRow fuel row cellFormat
      = (TableRender.renderRowLoop t row cellFormat fuel 0
          (t.renderColumnSeparator columnType.columnOutside)) >>= fun line =>
            pure (t.Writeln line) := by
    intro fuel
    simp [TableRender.renderRow, hz]
  have hfin := renderRowLoop_finishes t row cellFormat hspan t.numberOfColumns.toNat 0
    (t.renderColumnSeparator columnType.columnOutside) (by omega)
  have hcases : (∃ line, t.renderRow t.numberOfColumns.toNat row cellFormat = .ok (t.Writeln line))
      ∨ (t.renderRow t.numberOfColumns.toNat row cellFormat = .error Fault.panic
        ∧ t.getRowSeparator rowType.rowSimple = .error Fault.panic
        ∧ ∃ column ∈ row.GetColumns, column.cell.separator = true) := by
    rcases hfin with ⟨line, hl⟩ | ⟨hsep, hl⟩
    · exact Or.inl ⟨line, by rw [hrow, hl]; rfl⟩
    · cases hg : t.getRowSeparator rowType.rowSimple with
      | ok line => exact Or.inl ⟨line, by rw [hrow, hl, hg]; rfl⟩
      | error e =>
          have he := getRowSeparator_error t _ e hg
          subst he
          exact Or.inr ⟨by rw [hrow, hl, hg]; rfl, rfl, hsep⟩
  refine ⟨fun index column hc => ?_, fun fuel hf => ?_, ?_, hcases, ?_⟩
  · have := hspan column (getColumn_mem row index column hc)
    omega
  · rw [hrow, hrow, renderRowLoop_fuel_irrelevant t row cellFormat hspan fuel
      t.numberOfColumns.toNat 0 _ (by omega) (by omega)]
  · rcases hcases with ⟨line, hl⟩ | ⟨hp, _, _⟩
    · rw [hl]; exact fun h => by cases h
    · rw [hp]; exact fun h => by cases h
  · intro h
    rcases hcases with hl | ⟨_, hg, column, hmem, hs⟩
    · exact hl
    · rcases h with hw | hns
      · obtain ⟨line, hline⟩ := getRowSeparator_ok t rowType.rowSimple hw
        rw [hline] at hg; cases hg
      · rw [hns column hmem] at hs; cases hs

theorem renderRow_terminates_witness :
    ∃ line, (measuredRender 2 [(0, 3), (1, 3)]).renderRow 2 (rowOf [['a'], ['b']]) ['%', 's']
      = .ok ((measuredRender 2 [(0, 3), (1, 3)]).Writeln line) :=
  (renderRow_terminates (measuredRender 2 [(0, 3), (1, 3)]) (rowOf [['a'], ['b']]) ['%', 's']
    (by decide) (by decide)).2.2.2.2 (Or.inr (by decide))

theorem replaceAll_newline_subject (value : Str) :
    replaceAll "\n".toList lineBreakMarkup value = ['\n'] := rfl

theorem splitLines_newline : splitLines ['\n'] = [[], []] := by decide

theorem rangeInt_cons (a b : Int) (h : a ≤ b) : RangeInt a b = a :: RangeInt (a + 1) b := by
  unfold RangeInt
  have h1 : (b + 1 - a).toNat = (b + 1 - (a + 1)).toNat + 1 := by omega
  rw [h1, List.range_succ_eq_map, List.map_cons, List.map_map]
  simp only [Nat.cast_zero, add_zero, List.cons.injEq, true_and]
  apply List.map_congr_left
  intro i _
  simp only [Function.comp, Nat.cast_succ]
  ring

theorem splitLines_ne_nil (s : Str) : splitLines s ≠ [] := by
  unfold splitLines List.splitOn
  exact List.splitOnP_ne_nil _ _


theorem fillReserved_out_of_range (line nbLines columnIndex colspan : Int) (lines : List Str)
    (key : Int) (cells : List (Int × TableCell)) (rest um : List (Int × List (Int × TableCell)))
    (h0 : 0 ≤ key - line) (h : lines.length ≤ (key - line).toNat) :
    TableRender.fillReserved line nbLines columnIndex colspan lines ((key, cells) :: rest) um
      = .error Fault.panic := by
  have hnone : lines.get? (key - line).toNat = none := List.get?_eq_none.mpr h
  have hneg : ¬ key - line < 0 := by omega
  simp only [TableRender.fillReserved, hneg, if_false, hnone]
  rfl

theorem rowMapFill_cons (start count : Int) (h : 1 ≤ count) :
    RowMapFill start count
      = (start, []) :: (RangeInt (start + 1) (start + count - 1)).map (fun k => (k, [])) := by
  unfold RowMapFill
  rw [rangeInt_cons start (start + count - 1) (by omega), List.map_cons]

/-- A cell with rowspan above 1 and a line break makes the first loop of
`fillNextRows` read past the end of `lines`. -/
theorem reserveRows_ok (data : TableData) (line : Int) (row : TableRow) (columnIndex : Int)
    (s : TableData × List (Int × List (Int × TableCell)))
    (h : TableRender.reserveRows data line row (data, []) columnIndex = .ok s) :
    s = (data, []) := by
  unfold TableRender.reserveRows at h
  split at h
  · simpa [pure, Except.pure] using h.symm
  · rename_i column hc
    simp only [] at h
    split at h
    · simpa [pure, Except.pure] using h.symm
    · split at h
      · rename_i hrow
        split at h
        · exfalso
          rw [replaceAll_newline_subject, splitLines_newline] at h
          simp only [RowMapReplaceRecursive, List.foldl_nil] at h
          by_cases hg : column.cell.rowspan - 1 < 2
          · have hgrown : decide ((([[], []] : List Str).length : Int) > column.cell.rowspan - 1)
                = true := by
              simp only [List.length_cons, List.length_nil, decide_eq_true_eq]
              push_cast; omega
            simp only [hgrown, if_true, List.tail_cons] at h
            have hlen : 1 ≤ ((splitLines column.cell.value).length : Int) := by
              have := splitLines_ne_nil column.cell.value
              have : 0 < (splitLines column.cell.value).length := List.length_pos.mpr this
              omega
            rw [rowMapFill_cons _ _ hlen,
              fillReserved_out_of_range _ _ _ _ _ _ _ _ _ (by omega) (by simp)] at h
            simp [bind, Except.bind] at h
          · have hgrown : decide ((([[], []] : List Str).length : Int) > column.cell.rowspan - 1)
                = false := by
              simp only [List.length_cons, List.length_nil, decide_eq_false_iff_not]
              push_cast; omega
            simp only [hgrown, Bool.false_eq_true, if_false] at h
            rw [rowMapFill_cons _ _ (by omega),
              rangeInt_cons (line + 1 + 1) _ (by omega), List.map_cons] at h
            simp only [TableRender.fillReserved] at h
            have h1 : ¬ line + 1 - line < 0 := by omega
            have h2 : (line + 1 - line).toNat = 1 := by omega
            have h3 : (column.cell.rowspan - 1 == line + 1 - line) = false := by
              rw [beq_eq_false_iff_ne]; omega
            simp only [h1, if_false, h2, List.get?_cons_succ, List.get?_cons_zero, h3,
              Bool.false_eq_true] at h
            have h4 : ¬ line + 1 + 1 - line < 0 := by omega
            have h5 : (line + 1 + 1 - line).toNat = 2 := by omega
            simp [h4, h5, bind, Except.bind, throw, throwThe, MonadExceptOf.throw] at h
        · simpa [pure, Except.pure] using h.symm
      · simpa [pure, Except.pure] using h.symm


theorem fillNextRowsScan_ok (data : TableData) (line : Int) (row : TableRow)
    (s : TableData × List (Int × List (Int × TableCell)))
    (h : TableRender.fillNextRowsScan data line row = .ok s) : s = (data, []) := by
  unfold TableRender.fillNextRowsScan at h
  exact foldlM_preserves (TableRender.reserveRows data line row) (fun s => s = (data, []))
    (fun a s s' hs hP => by
      subst hP
      exact reserveRows_ok data line row a s' hs) _ _ _ h rfl

/-- Whenever `fillNextRows` returns, it has reserved no row and returns the
data it was given. -/
theorem fillNextRows_ok (t : TableRender) (data : TableData) (line : Int)
    (r : TableData × TableData) (h : t.fillNextRows data line = .ok r) : r = (data, data) := by
  unfold TableRender.fillNextRows at h
  split at h
  · cases h
  · simp only [bind, Except.bind] at h
    split at h
    · cases h
    · rename_i scanned hs
      have := fillNextRowsScan_ok data line _ scanned hs
      subst this
      simpa [pure, Except.pure] using h.symm

theorem reserveRows_of_rowspan_le_one (data : TableData) (line : Int) (row : TableRow)
    (hspan : ∀ column ∈ row.GetColumns, column.cell.rowspan ≤ 1)
    (state : TableData × List (Int × List (Int × TableCell))) (columnIndex : Int) :
    TableRender.reserveRows data line row state columnIndex = .ok state := by
  unfold TableRender.reserveRows
  split
  · rfl
  · rename_i column hc
    have := hspan column (getColumn_mem row columnIndex column hc)
    have hr : ¬ column.cell.rowspan > 1 := by omega
    simp only [hr, if_false]
    split <;> rfl

theorem fillNextRows_of_rowspan_le_one (t : TableRender) (data : TableData) (line : Int)
    (row : TableRow) (hrow : data.GetRow line = some row)
    (hspan : ∀ column ∈ row.GetColumns, column.cell.rowspan ≤ 1) :
    t.fillNextRows data line = .ok (data, data) := by
  have hscan : TableRender.fillNextRowsScan data line row = .ok (data, []) := by
    unfold TableRender.fillNextRowsScan
    obtain ⟨s, hs, hP⟩ := foldlM_invariant_simple (TableRender.reserveRows data line row)
      (fun s => s = (data, [])) row.GetColumnsSortedKeys
      (fun a s hP => ⟨s, reserveRows_of_rowspan_le_one data line row hspan s a, hP⟩)
      (data, []) rfl
    rw [hs, hP]
  unfold TableRender.fillNextRows
  simp only [hrow, hscan, bind, Except.bind]
  rfl


theorem setRow_length (data : TableData) (key : Int) (row : TableRow) :
    (data.setRow key row).rows.length = data.rows.length := by
  unfold TableData.setRow
  split <;> simp

theorem modifyRow_length (data : TableData) (key : Int) (f : TableRow → TableRow) :
    (data.modifyRow key f).rows.length = data.rows.length := by
  unfold TableData.modifyRow
  split
  · exact setRow_length _ _ _
  · rfl

theorem mapRowSplice_length (rows : List TableRow) (key : Int) (row : TableRow) :
    (MapRowSplice rows key row).length = rows.length + 1 := by
  unfold MapRowSplice
  simp only [List.length_append, List.length_cons, List.length_take, List.length_drop]
  omega

theorem boundKeys_mem {α : Type} : ∀ (l : List (Option α)) (start i : Nat) (a : α),
    l.get? i = some (some a) → ((start + i : Nat) : Int) ∈ boundKeys l start
  | [], _, i, a, h => by simp at h
  | none :: xs, start, 0, a, h => by simp at h
  | some b :: xs, start, 0, a, h => by simp [boundKeys]
  | x :: xs, start, i + 1, a, h => by
      have ih := boundKeys_mem xs (start + 1) i a (by simpa using h)
      have hidx : start + 1 + i = start + (i + 1) := by omega
      rw [hidx] at ih
      cases x with
      | none => simpa [boundKeys] using ih
      | some b => simp only [boundKeys, List.mem_cons]; exact Or.inr ih

theorem getColumn_sortedKey (row : TableRow) (i : Int) (column : TableColumn)
    (h : row.GetColumn i = some column) : i ∈ row.GetColumnsSortedKeys := by
  obtain ⟨h0, hg⟩ := getColumn_eq_some row i column h
  have := boundKeys_mem row.columns 0 i.toNat column hg
  unfold TableRow.GetColumnsSortedKeys
  have hi : ((0 + i.toNat : Nat) : Int) = i := by omega
  rw [hi] at this
  exact this

theorem fillReserved_error (line nbLines columnIndex colspan : Int) (lines : List Str) :
    ∀ (keys um : List (Int × List (Int × TableCell))) (e : Fault),
      TableRender.fillReserved line nbLines columnIndex colspan lines keys um = .error e →
      e = Fault.panic := by
  intro keys
  induction keys with
  | nil => intro um e h; simp [TableRender.fillReserved, pure, Except.pure] at h
  | cons entry rest ih =>
      intro um e h
      obtain ⟨key, cells⟩ := entry
      simp only [TableRender.fillReserved] at h
      split at h
      · simp only [throw, throwThe, MonadExceptOf.throw, Except.error.injEq] at h
        exact h.symm
      · split at h
        · simp only [throw, throwThe, MonadExceptOf.throw, Except.error.injEq] at h
          exact h.symm
        · split at h
          · simp [pure, Except.pure] at h
          · exact ih _ e h

theorem reserveRows_error (data : TableData) (line : Int) (row : TableRow)
    (state : TableData × List (Int × List (Int × TableCell))) (columnIndex : Int) (e : Fault)
    (h : TableRender.reserveRows data line row state columnIndex = .error e) :
    e = Fault.panic := by
  unfold TableRender.reserveRows at h
  split at h
  · simp [pure, Except.pure] at h
  · simp only [] at h
    split at h
    · simp [pure, Except.pure] at h
    · split at h
      · split at h
        · simp only [bind, Except.bind] at h
          split at h
          · rename_i e1 he
            simp only [Except.error.injEq] at h
            rw [← h]
            exact fillReserved_error _ _ _ _ _ _ _ _ he
          · simp [pure, Except.pure] at h
        · simp [pure, Except.pure] at h
      · simp [pure, Except.pure] at h

/-- A cell with rowspan above 1 and a line break makes the first loop of
`fillNextRows` fail on a state that has reserved nothing. -/
theorem reserveRows_fails (data : TableData) (line : Int) (row : TableRow) (columnIndex : Int)
    (column : TableColumn) (hcol : row.GetColumn columnIndex = some column)
    (hsep : column.cell.separator = false) (hspan : column.cell.rowspan > 1)
    (hbreak : '\n' ∈ column.cell.value) :
    TableRender.reserveRows data line row (data, []) columnIndex = .error Fault.panic := by
  cases h : TableRender.reserveRows data line row (data, []) columnIndex with
  | error e => rw [reserveRows_error data line row _ columnIndex e h]
  | ok s =>
      exfalso
      unfold TableRender.reserveRows at h
      simp only [hcol, hsep, Bool.false_eq_true, if_false, hspan, if_true, hbreak] at h
      rw [replaceAll_newline_subject, splitLines_newline] at h
      simp only [RowMapReplaceRecursive, List.foldl_nil] at h
      by_cases hg : column.cell.rowspan - 1 < 2
      · have hgrown : decide ((([[], []] : List Str).length : Int) > column.cell.rowspan - 1)
            = true := by
          simp only [List.length_cons, List.length_nil, decide_eq_true_eq]
          push_cast; omega
        simp only [hgrown, if_true, List.tail_cons] at h
        have hlen : 1 ≤ ((splitLines column.cell.value).length : Int) := by
          have := splitLines_ne_nil column.cell.value
          have : 0 < (splitLines column.cell.value).length := List.length_pos.mpr this
          omega
        rw [rowMapFill_cons _ _ hlen,
          fillReserved_out_of_range _ _ _ _ _ _ _ _ _ (by omega) (by simp)] at h
        simp [bind, Except.bind] at h
      · have hgrown : decide ((([[], []] : List Str).length : Int) > column.cell.rowspan - 1)
            = false := by
          simp only [List.length_cons, List.length_nil, decide_eq_false_iff_not]
          push_cast; omega
        simp only [hgrown, Bool.false_eq_true, if_false] at h
        rw [rowMapFill_cons _ _ (by omega),
          rangeInt_cons (line + 1 + 1) _ (by omega), List.map_cons] at h
        simp only [TableRender.fillReserved] at h
        have h1 : ¬ line + 1 - line < 0 := by omega
        have h2 : (line + 1 - line).toNat = 1 := by omega
        have h3 : (column.cell.rowspan - 1 == line + 1 - line) = false := by
          rw [beq_eq_false_iff_ne]; omega
        simp only [h1, if_false, h2, List.get?_cons_succ, List.get?_cons_zero, h3,
          Bool.false_eq_true] at h
        have h4 : ¬ line + 1 + 1 - line < 0 := by omega
        have h5 : (line + 1 + 1 - line).toNat = 2 := by omega
        simp [h4, h5, bind, Except.bind, throw, throwThe, MonadExceptOf.throw] at h

theorem foldlM_fails {σ α : Type} (f : σ → α → Run σ) (P : σ → Prop) (e0 : Fault) (a0 : α)
    (hkeep : ∀ a s s', f s a = .ok s' → P s → P s')
    (hfail : ∀ s, P s → f s a0 = .error e0)
    (herr : ∀ a s e, f s a = .error e → e = e0) :
    ∀ (l : List α) (s : σ), a0 ∈ l → P s → l.foldlM f s = .error e0 := by
  intro l
  induction l with
  | nil => intro s h; cases h
  | cons a rest ih =>
      intro s hmem hs
      rw [List.foldlM_cons]
      cases hf : f s a with
      | error e => rw [herr a s e hf]; rfl
      | ok s1 =>
          rcases List.mem_cons.mp hmem with heq | hin
          · subst heq
            rw [hfail s hs] at hf
            cases hf
          · exact ih s1 hin (hkeep a s s1 hf hs)

/-- Whatever else the row holds, a cell with rowspan above 1 whose value has
a line break makes `fillNextRows` fail. -/
theorem fillNextRows_fails (t : TableRender) (data : TableData) (line : Int) (row : TableRow)
    (hrow : data.GetRow line = some row) (columnIndex : Int) (column : TableColumn)
    (hcol : row.GetColumn columnIndex = some column)
    (hsep : column.cell.separator = false) (hspan : column.cell.rowspan > 1)
    (hbreak : '\n' ∈ column.cell.value) :
    t.fillNextRows data line = .error Fault.panic := by
  have hscan : TableRender.fillNextRowsScan data line row = .error Fault.panic := by
    unfold TableRender.fillNextRowsScan
    exact foldlM_fails (TableRender.reserveRows data line row) (fun s => s = (data, []))
      Fault.panic columnIndex
      (fun a s s' hs hP => by subst hP; exact reserveRows_ok data line row a s' hs)
      (fun s hP => by subst hP; exact reserveRows_fails data line row columnIndex column hcol hsep hspan hbreak)
      (fun a s e he => reserveRows_error data line row s a e he)
      _ _ (getColumn_sortedKey row columnIndex column hcol) rfl
  unfold TableRender.fillNextRows
  simp only [hrow, hscan, bind, Except.bind]

/-- C22 fails in the code: `fillNextRows` never places a reserved row.
Whenever it returns, it returns the data it was given; and a row holding a
cell that is no Separator, has rowspan above 1 and a line break in its value,
the only cell for which rows are reserved, makes it fail before the placing
loop is reached. For the body `A\nB` (rowspan 2), `x` over the row `y`, where
the reserved row and the existing row fill the 2 columns and are to be
merged, and over the row `y`, `z`, where they do not and a blanked copy is to
be spliced in, `Render` fails whatever the iteration budget. -/
theorem fillNextRows_places_no_reserved_row :
    (∀ (t : TableRender) (data : TableData) (line : Int) (r : TableData × TableData),
        t.fillNextRows data line = .ok r → r = (data, data))
      ∧ (∀ (t : TableRender) (data : TableData) (line : Int) (row : TableRow)
          (columnIndex : Int) (column : TableColumn),
          data.GetRow line = some row → row.GetColumn columnIndex = some column →
          column.cell.separator = false → column.cell.rowspan > 1 →
          '\n' ∈ column.cell.value →
          t.fillNextRows data line = .error Fault.panic)
      ∧ (mergeFits (measuredRender 2 []) (rowOf [['y']]) [(0, NewTableCell ['B'])] = true
          ∧ ∀ fuel : Nat,
              (renderOf asciiStyle rowspanMergeTable).Render fuel = .error Fault.panic)
      ∧ (mergeFits (measuredRender 2 []) (rowOf [['y'], ['z']]) [(0, NewTableCell ['B'])] = false
          ∧ ∀ fuel : Nat,
              (renderOf asciiStyle rowspanSpliceTable).Render fuel = .error Fault.panic) :=
  ⟨fun t data line r h => fillNextRows_ok t data line r h,
    fun t data line row columnIndex column hrow hcol hsep hspan hbreak =>
      fillNextRows_fails t data line row hrow columnIndex column hcol hsep hspan hbreak,
    ⟨by decide, fun _ => rfl⟩, ⟨by decide, fun _ => rfl⟩⟩

theorem fillNextRows_places_no_reserved_row_witness :
    (measuredRender 2 []).fillNextRows rowspanMergeTable.rows 0 = .error Fault.panic :=
  fillNextRows_places_no_reserved_row.2.1 (measuredRender 2 []) rowspanMergeTable.rows 0
    { columns :=
        [some (NewTableColumn { NewTableCell "A\nB".toList with rowspan := 2 }),
         some (NewTableColumn (NewTableCell ['x']))] }
    0 (NewTableColumn { NewTableCell "A\nB".toList with rowspan := 2 })
    rfl rfl rfl (by decide) (by decide)

theorem assocGet_assocSet_self {β : Type} (m : List (Int × β)) (k : Int) (v : β) :
    assocGet (assocSet m k v) k = some v := by
  induction m with
  | nil => simp [assocSet, assocGet]
  | cons p rest ih =>
      obtain ⟨k', v'⟩ := p
      unfold assocSet
      by_cases h1 : k < k'
      · simp [h1, assocGet]
      · by_cases h2 : k = k'
        · simp [h1, h2, assocGet]
        · have h3 : (k' == k) = false := by
            rw [beq_eq_false_iff_ne]; exact fun h => h2 h.symm
          simp only [h1, h2, if_false]
          unfold assocGet at ih ⊢
          rw [List.find?_cons]
          simp only [h3]
          exact ih

theorem assocGet_assocSet_ne {β : Type} (m : List (Int × β)) (k k' : Int) (v : β)
    (h : k' ≠ k) : assocGet (assocSet m k v) k' = assocGet m k' := by
  have hk : (k == k') = false := by rw [beq_eq_false_iff_ne]; exact fun e => h e.symm
  induction m with
  | nil => simp [assocSet, assocGet, hk]
  | cons p rest ih =>
      obtain ⟨k0, v0⟩ := p
      unfold assocSet
      by_cases h1 : k < k0
      · simp only [h1, if_true]
        unfold assocGet
        rw [List.find?_cons]
        simp only [hk]
      · by_cases h2 : k = k0
        · subst h2
          simp only [h1, if_false, if_true]
          unfold assocGet
          rw [List.find?_cons, List.find?_cons]
          simp only [hk]
        · simp only [h1, h2, if_false]
          unfold assocGet at ih ⊢
          rw [List.find?_cons, List.find?_cons]
          cases (k0, v0).1 == k'
          · exact ih
          · rfl

theorem assocSet_append {β : Type} (m : List (Int × β)) (k : Int) (v : β)
    (h : ∀ p ∈ m, p.1 < k) : assocSet m k v = m ++ [(k, v)] := by
  induction m with
  | nil => rfl
  | cons p rest ih =>
      obtain ⟨k0, v0⟩ := p
      have h0 : k0 < k := h (k0, v0) (List.mem_cons_self _ _)
      have h1 : ¬ k < k0 := by omega
      have h2 : ¬ k = k0 := by omega
      unfold assocSet
      simp only [h1, h2, if_false, List.cons_append]
      rw [ih (fun p hp => h p (List.mem_cons_of_mem _ hp))]

/-- Keys `a, a + 1, ...` stay consecutive when a key within them, or the next
one, is set. -/
theorem assocSet_keys {β : Type} (m : List (Int × β)) (a : Int) (n : Nat) (v : β)
    (hkeys : m.map Prod.fst = (List.range m.length).map (fun (i : Nat) => a + (i : Int)))
    (hn : n ≤ m.length) :
    (assocSet m (a + n) v).map Prod.fst
        = (List.range (max m.length (n + 1))).map (fun (i : Nat) => a + (i : Int))
      ∧ (assocSet m (a + n) v).length = max m.length (n + 1) := by
  induction m generalizing a n with
  | nil =>
      have : n = 0 := by simpa using hn
      subst this
      simp [assocSet, List.range_succ]
  | cons p rest ih =>
      obtain ⟨k0, v0⟩ := p
      have hk0 : k0 = a := by
        have := congrArg List.head? hkeys
        simpa [List.range_succ_eq_map] using this
      subst hk0
      have hrest : rest.map Prod.fst
          = (List.range rest.length).map (fun (i : Nat) => (k0 + 1) + (i : Int)) := by
        have := congrArg List.tail hkeys
        simp only [List.map_cons, List.tail_cons, List.length_cons, List.range_succ_eq_map,
          List.map_map] at this
        rw [this]
        apply List.map_congr_left
        intro i _
        simp only [Function.comp, Nat.cast_succ]
        ring
      unfold assocSet
      cases n with
      | zero =>
          have h1 : ¬ k0 + ((0 : Nat) : Int) < k0 := by simp
          have h2 : k0 + ((0 : Nat) : Int) = k0 := by simp
          simp only [Nat.cast_zero, add_zero, lt_self_iff_false, if_false, if_true,
            List.map_cons, List.length_cons]
          have hmax : max (rest.length + 1) (0 + 1) = rest.length + 1 := by omega
          rw [hmax]
          exact ⟨by simpa using hkeys, rfl⟩
      | succ n' =>
          have h1 : ¬ k0 + ((n' + 1 : Nat) : Int) < k0 := by push_cast; omega
          have h2 : ¬ k0 + ((n' + 1 : Nat) : Int) = k0 := by push_cast; omega
          simp only [h1, h2, if_false, List.map_cons, List.length_cons]
          have hadd : k0 + ((n' + 1 : Nat) : Int) = (k0 + 1) + (n' : Int) := by push_cast; ring
          rw [hadd]
          have hn' : n' ≤ rest.length := by simpa using hn
          obtain ⟨ih1, ih2⟩ := ih (k0 + 1) n' hrest hn'
          have hmax : max (rest.length + 1) (n' + 1 + 1) = max rest.length (n' + 1) + 1 := by
            omega
          rw [ih1, ih2, hmax]
          refine ⟨?_, rfl⟩
          rw [List.range_succ_eq_map, List.map_cons, List.map_map]
          simp only [Nat.cast_zero, add_zero, List.cons.injEq, true_and]
          apply List.map_congr_left
          intro i _
          simp only [Function.comp, Nat.cast_succ]
          ring


theorem getRow_setRow (data : TableData) (k : Int) (row r : TableRow)
    (h : data.GetRow k = some row) : (data.setRow k r).GetRow k = some r := by
  unfold TableData.GetRow at h ⊢
  unfold TableData.setRow
  split at h
  · cases h
  · rename_i hk
    simp only [hk, if_false]
    have hlt : k.toNat < data.rows.length := by
      by_contra hc
      rw [List.get?_eq_none.mpr (by omega)] at h
      cases h
    simp [List.getElem?_set, hlt]

theorem setRow_setRow (data : TableData) (k : Int) (r1 r2 : TableRow) :
    (data.setRow k r1).setRow k r2 = data.setRow k r2 := by
  unfold TableData.setRow
  split
  · rfl
  · simp

theorem modifyRow_of_getRow (data : TableData) (k : Int) (row : TableRow)
    (f : TableRow → TableRow) (h : data.GetRow k = some row) :
    data.modifyRow k f = data.setRow k (f row) := by
  unfold TableData.modifyRow
  rw [h]

theorem setCell_of_getColumn (row : TableRow) (c : Int) (column : TableColumn) (x : TableCell)
    (h : row.GetColumn c = some column) : row.setCell c x = row.SetColumn c (NewTableColumn x) := by
  unfold TableRow.setCell
  rw [h]

theorem setSlot_setSlot {α : Type} : ∀ (l : List (Option α)) (i : Nat) (a b : α),
    setSlot (setSlot l i a) i b = setSlot l i b
  | [], 0, a, b => rfl
  | [], i + 1, a, b => by
      simp only [setSlot]
      have := setSlot_setSlot [] i a b
      cases i <;> simp_all [setSlot]
  | x :: xs, 0, a, b => rfl
  | x :: xs, i + 1, a, b => by
      simp only [setSlot]
      rw [setSlot_setSlot xs i a b]

theorem setColumn_setColumn (row : TableRow) (c : Int) (a b : TableColumn) :
    (row.SetColumn c a).SetColumn c b = row.SetColumn c b := by
  unfold TableRow.SetColumn
  split
  · rfl
  · simp [setSlot_setSlot]


theorem unmerged_fold (rowKey c : Int) (newCell : Str → TableCell) :
    ∀ (L : List (Nat × Str)) (um : List (Int × List (Int × List (Int × TableCell)))),
      (assocGet
          (L.foldl
            (fun (unmergedRows : List (Int × List (Int × List (Int × TableCell)))) keyed =>
              let lineKey : Int := (keyed.1 : Int) + 1
              let byLine := (assocGet unmergedRows rowKey).getD []
              let byColumn := (assocGet byLine lineKey).getD []
              assocSet unmergedRows rowKey
                (assocSet byLine lineKey (assocSet byColumn c (newCell keyed.2))))
            um) rowKey).getD []
        = L.foldl
            (fun (byLine : List (Int × List (Int × TableCell))) keyed =>
              assocSet byLine ((keyed.1 : Int) + 1)
                (assocSet ((assocGet byLine ((keyed.1 : Int) + 1)).getD []) c (newCell keyed.2)))
            ((assocGet um rowKey).getD [])
      ∧ ∀ k', k' ≠ rowKey →
          assocGet
            (L.foldl
              (fun (unmergedRows : List (Int × List (Int × List (Int × TableCell)))) keyed =>
                let lineKey : Int := (keyed.1 : Int) + 1
                let byLine := (assocGet unmergedRows rowKey).getD []
                let byColumn := (assocGet byLine lineKey).getD []
                assocSet unmergedRows rowKey
                  (assocSet byLine lineKey (assocSet byColumn c (newCell keyed.2))))
              um) k'
            = assocGet um k' := by
  intro L
  induction L with
  | nil => intro um; exact ⟨rfl, fun _ _ => rfl⟩
  | cons keyed rest ih =>
      intro um
      simp only [List.foldl_cons]
      obtain ⟨h1, h2⟩ := ih (assocSet um rowKey
        (assocSet ((assocGet um rowKey).getD []) ((keyed.1 : Int) + 1)
          (assocSet ((assocGet ((assocGet um rowKey).getD []) ((keyed.1 : Int) + 1)).getD []) c
            (newCell keyed.2))))
      refine ⟨?_, fun k' hk => ?_⟩
      · rw [h1, assocGet_assocSet_self]
        rfl
      · rw [h2 k' hk, assocGet_assocSet_ne _ _ _ _ hk]

/-- One pass of the per-column body of `buildTableRows` over a stored cell. -/
theorem buildColumn_stored (t : TableRender) (rowKey c : Int) (data : TableData)
    (um : List (Int × List (Int × List (Int × TableCell)))) (row : TableRow)
    (column : TableColumn) (hrow : data.GetRow rowKey = some row)
    (hcol : row.GetColumn c = some column) :
    ∃ um1, TableRender.buildColumn t rowKey c (data, um)
        = (data.setRow rowKey
            (row.SetColumn c (NewTableColumn (TableRender.firstCell t column.cell c))), um1)
      ∧ (assocGet um1 rowKey).getD []
          = TableRender.addLines t c column.cell ((assocGet um rowKey).getD [])
      ∧ ∀ k', k' ≠ rowKey → assocGet um1 k' = assocGet um k' := by
  have hc0 : 0 ≤ c := (getColumn_eq_some row c column hcol).1
  have hget : (row.SetColumn c (NewTableColumn (TableRender.wrapCell t column.cell c))).GetColumn c
      = some (NewTableColumn (TableRender.wrapCell t column.cell c)) := by
    rw [getColumn_setColumn _ _ _ _ hc0]; simp
  have hb : (data.GetRow rowKey).bind (fun row => row.GetColumn c) = some column := by
    rw [hrow]; exact hcol
  unfold TableRender.buildColumn
  simp only [hb]
  rw [modifyRow_of_getRow data rowKey row _ hrow, setCell_of_getColumn row c column _ hcol]
  by_cases hnl : '\n' ∈ (TableRender.wrapCell t column.cell c).value
  · simp only [hnl, if_true]
    rw [modifyRow_of_getRow _ rowKey _ _ (getRow_setRow data rowKey row _ hrow),
      setCell_of_getColumn _ c _ _ hget, setColumn_setColumn, setRow_setRow]
    have hfc : TableRender.firstCell t column.cell c
        = TableRender.lineCell (TableRender.wrapCell t column.cell c)
            ((TableRender.cellLines (TableRender.wrapCell t column.cell c).value).headD []) := by
      simp [TableRender.firstCell, hnl]
    rw [hfc]
    refine ⟨_, rfl, ?_, ?_⟩
    · have := (unmerged_fold rowKey c (TableRender.lineCell (TableRender.wrapCell t column.cell c))
        (TableRender.cellLines (TableRender.wrapCell t column.cell c).value).tail.enum um).1
      simp only [TableRender.addLines, hnl, if_true]
      exact this
    · exact (unmerged_fold rowKey c (TableRender.lineCell (TableRender.wrapCell t column.cell c))
        (TableRender.cellLines (TableRender.wrapCell t column.cell c).value).tail.enum um).2
  · simp only [hnl, if_false]
    have hfc : TableRender.firstCell t column.cell c = TableRender.wrapCell t column.cell c := by
      simp [TableRender.firstCell, hnl]
    rw [hfc]
    refine ⟨um, rfl, ?_, fun _ _ => rfl⟩
    simp [TableRender.addLines, hnl]


theorem setSlot_append {α : Type} (y : Option α) (rest : List (Option α)) (a : α) :
    ∀ (pre : List (Option α)), setSlot (pre ++ y :: rest) pre.length a = pre ++ some a :: rest
  | [] => by simp [setSlot]
  | x :: pre => by
      have := setSlot_append y rest a pre
      show x :: setSlot (pre ++ y :: rest) pre.length a = x :: (pre ++ some a :: rest)
      rw [this]

theorem firstSlots_cons (t : TableRender) (slot : Option TableColumn)
    (rest : List (Option TableColumn)) (start : Nat) :
    TableRender.firstSlots t (slot :: rest) start
      = slot.map (fun column => NewTableColumn (TableRender.firstCell t column.cell (start : Int)))
          :: TableRender.firstSlots t rest (start + 1) := by
  simp [TableRender.firstSlots, List.enumFrom_cons]

theorem furtherSlots_none (t : TableRender) (rest : List (Option TableColumn)) (start : Nat)
    (b : List (Int × List (Int × TableCell))) :
    TableRender.furtherSlots t (none :: rest) start b
      = TableRender.furtherSlots t rest (start + 1) b := by
  simp [TableRender.furtherSlots, List.enumFrom_cons]

theorem furtherSlots_some (t : TableRender) (column : TableColumn)
    (rest : List (Option TableColumn)) (start : Nat) (b : List (Int × List (Int × TableCell))) :
    TableRender.furtherSlots t (some column :: rest) start b
      = TableRender.furtherSlots t rest (start + 1)
          (TableRender.addLines t (start : Int) column.cell b) := by
  simp [TableRender.furtherSlots, List.enumFrom_cons]

/-- The per-column loop of `buildTableRows` over the slots `xs` of the row
`pre ++ xs` stored under `rowKey`. -/
theorem buildRow_slots (t : TableRender) (rowKey : Int) :
    ∀ (xs pre : List (Option TableColumn)) (data : TableData)
      (um : List (Int × List (Int × List (Int × TableCell)))),
      data.GetRow rowKey = some { columns := pre ++ xs } →
      ∃ um', (boundKeys xs pre.length).foldl
            (fun state columnIndex => TableRender.buildColumn t rowKey columnIndex state) (data, um)
          = (data.setRow rowKey { columns := pre ++ TableRender.firstSlots t xs pre.length }, um')
        ∧ (assocGet um' rowKey).getD []
            = TableRender.furtherSlots t xs pre.length ((assocGet um rowKey).getD [])
        ∧ ∀ k', k' ≠ rowKey → assocGet um' k' = assocGet um k' := by
  intro xs
  induction xs with
  | nil =>
      intro pre data um hrow
      refine ⟨um, ?_, rfl, fun _ _ => rfl⟩
      simp only [boundKeys, List.foldl_nil, TableRender.firstSlots, List.enumFrom_nil, List.map_nil]
      rw [setRow_self data rowKey _ hrow]
  | cons slot rest ih =>
      intro pre data um hrow
      cases slot with
      | none =>
          have hrow' : data.GetRow rowKey = some { columns := (pre ++ [none]) ++ rest } := by
            rw [hrow]; simp
          obtain ⟨um', h1, h2, h3⟩ := ih (pre ++ [none]) data um hrow'
          refine ⟨um', ?_, ?_, h3⟩
          · simp only [boundKeys]
            simp only [List.length_append, List.length_singleton] at h1
            rw [h1, firstSlots_cons]
            simp
          · rw [furtherSlots_none]
            simpa using h2
      | some column =>
          have hcol : ({ columns := pre ++ some column :: rest } : TableRow).GetColumn
              (pre.length : Int) = some column := by
            rw [getColumn_natCast, List.get?_eq_getElem?,
              List.getElem?_append_right (le_refl _)]
            simp
          obtain ⟨um1, hb1, hb2, hb3⟩ := buildColumn_stored t rowKey (pre.length : Int) data um
            { columns := pre ++ some column :: rest } column hrow hcol
          have hset : ({ columns := pre ++ some column :: rest } : TableRow).SetColumn
              (pre.length : Int)
                (NewTableColumn (TableRender.firstCell t column.cell (pre.length : Int)))
              = { columns := (pre ++ [some (NewTableColumn
                    (TableRender.firstCell t column.cell (pre.length : Int)))]) ++ rest } := by
            unfold TableRow.SetColumn
            have : ¬ ((pre.length : Int) < 0) := by omega
            simp only [this, if_false, Int.toNat_ofNat]
            rw [setSlot_append]
            simp
          rw [hset] at hb1
          obtain ⟨um', h1, h2, h3⟩ := ih
            (pre ++ [some (NewTableColumn (TableRender.firstCell t column.cell (pre.length : Int)))])
            _ um1 (getRow_setRow data rowKey _ _ hrow)
          refine ⟨um', ?_, ?_, fun k' hk => by rw [h3 k' hk, hb3 k' hk]⟩
          · simp only [boundKeys, List.foldl_cons]
            rw [hb1]
            simp only [List.length_append, List.length_singleton] at h1
            rw [h1, setRow_setRow, firstSlots_cons]
            simp
          · rw [furtherSlots_some, h2, hb2]
            simp

theorem foldlM_indexed {σ α : Type} (f : σ → α → Run σ) :
    ∀ (l : List α) (P : Nat → σ → Prop),
      (∀ (i : Nat) (h : i < l.length) (s : σ), P i s →
        ∃ s', f s (l.get ⟨i, h⟩) = .ok s' ∧ P (i + 1) s') →
      ∀ s, P 0 s → ∃ s', l.foldlM f s = .ok s' ∧ P l.length s' := by
  intro l
  induction l with
  | nil => intro P _ s h; exact ⟨s, rfl, h⟩
  | cons a rest ih =>
      intro P hstep s h
      obtain ⟨s1, h1, hP1⟩ := hstep 0 (by simp) s h
      obtain ⟨s2, h2, hP2⟩ := ih (fun i s => P (i + 1) s)
        (fun i hi s hs => hstep (i + 1) (by simpa using hi) s hs) s1 hP1
      refine ⟨s2, ?_, hP2⟩
      rw [List.foldlM_cons]
      simp only [List.get_eq_getElem, List.getElem_cons_zero] at h1
      rw [h1]
      exact h2

theorem set_take_drop {α : Type} (f : α → α) (l : List α) (i : Nat) (a : α)
    (h : l.get? i = some a) :
    ((l.take i).map f ++ l.drop i).set i (f a) = (l.take (i + 1)).map f ++ l.drop (i + 1) := by
  have hlt : i < l.length := by
    by_contra hc
    rw [List.get?_eq_none.mpr (by omega)] at h
    cases h
  have hlen : ((l.take i).map f).length = i := by simp; omega
  have hdrop : l.drop i = a :: l.drop (i + 1) := by
    rw [List.drop_eq_getElem_cons hlt]
    congr 1
    rw [List.get?_eq_getElem?, List.getElem?_eq_getElem hlt] at h
    exact Option.some.inj h
  have htake : l.take (i + 1) = l.take i ++ [a] := by
    rw [List.take_succ]
    rw [List.get?_eq_getElem?] at h
    rw [h]
    rfl
  rw [hdrop, htake]
  rw [List.set_append_right _ _ (by omega)]
  have hmin : i - min i l.length = 0 := by omega
  simp [hmin]


/-- The body of the first loop of `buildTableRows` on a row whose cells have
rowspan at most 1. -/
theorem buildRow_of_rowspan_le_one (t : TableRender) (rowKey : Int) (data : TableData)
    (um : List (Int × List (Int × List (Int × TableCell)))) (row : TableRow)
    (hrow : data.GetRow rowKey = some row)
    (hspan : ∀ column ∈ row.GetColumns, column.cell.rowspan ≤ 1) :
    ∃ um', TableRender.buildRow t (data, um) rowKey
        = .ok (data.setRow rowKey (TableRender.firstLines t row), um')
      ∧ (assocGet um' rowKey).getD []
          = TableRender.furtherSlots t row.columns 0 ((assocGet um rowKey).getD [])
      ∧ ∀ k', k' ≠ rowKey → assocGet um' k' = assocGet um k' := by
  have hrow' : data.GetRow rowKey = some { columns := [] ++ row.columns } := by
    rw [hrow]; rfl
  obtain ⟨um', h1, h2, h3⟩ := buildRow_slots t rowKey row.columns [] data um hrow'
  refine ⟨um', ?_, h2, h3⟩
  unfold TableRender.buildRow
  simp only [fillNextRows_of_rowspan_le_one t data rowKey row hrow hspan, bind, Except.bind, hrow]
  simp only [TableRow.GetColumnsSortedKeys]
  simp only [List.length_nil, List.nil_append] at h1
  rw [h1]
  rfl

theorem get?_take_map_drop {α : Type} (f : α → α) (l : List α) (i : Nat) :
    ((l.take i).map f ++ l.drop i).get? i = l.get? i := by
  by_cases hlt : i ≤ l.length
  · have hlen : ((l.take i).map f).length = i := by simp; omega
    rw [List.get?_eq_getElem?, List.getElem?_append_right (by omega), hlen]
    simp
  · have h1 : l.get? i = none := List.get?_eq_none.mpr (by omega)
    rw [h1]
    apply List.get?_eq_none.mpr
    simp
    omega

/-- The first loop of `buildTableRows` on a table whose cells have rowspan at
most 1: every row becomes the row of its first lines, and the further lines
of each row are collected under its key. -/
theorem buildTableRows_first_loop (t : TableRender) (data : TableData)
    (hspan : ∀ row ∈ data.rows, ∀ column ∈ row.GetColumns, column.cell.rowspan ≤ 1) :
    ∃ um, data.GetRowsSortedKeys.foldlM (TableRender.buildRow t) (data, [])
        = .ok ({ rows := data.rows.map (TableRender.firstLines t) }, um)
      ∧ ∀ (k : Nat) (row : TableRow), data.rows.get? k = some row →
          (assocGet um (Int.ofNat k)).getD [] = TableRender.furtherLines t row := by
  have key := foldlM_indexed (TableRender.buildRow t) data.GetRowsSortedKeys
    (fun i state =>
      state.1 = { rows := (data.rows.take i).map (TableRender.firstLines t) ++ data.rows.drop i }
      ∧ (∀ (k : Nat) (row : TableRow), k < i → data.rows.get? k = some row →
          (assocGet state.2 (Int.ofNat k)).getD [] = TableRender.furtherLines t row)
      ∧ ∀ k : Int, (k < 0 ∨ (i : Int) ≤ k) → assocGet state.2 k = none)
    (by
      intro i hi state ⟨hrows, hdone, hfresh⟩
      have hN : i < data.rows.length := by
        simpa [TableData.GetRowsSortedKeys] using hi
      have hkey : data.GetRowsSortedKeys.get ⟨i, hi⟩ = Int.ofNat i := by
        simp [TableData.GetRowsSortedKeys]
      rw [hkey]
      obtain ⟨row, hr⟩ : ∃ row, data.rows.get? i = some row :=
        ⟨data.rows.get ⟨i, hN⟩, List.get?_eq_get hN⟩
      have hget : state.1.GetRow (Int.ofNat i) = some row := by
        rw [getRow_natCast, hrows, get?_take_map_drop, hr]
      have hmem : row ∈ data.rows := List.get?_mem hr
      obtain ⟨um', h1, h2, h3⟩ := buildRow_of_rowspan_le_one t (Int.ofNat i) state.1 state.2 row
        hget (hspan row hmem)
      refine ⟨_, h1, ?_, ?_, ?_⟩
      · rw [setRow_natCast, hrows]
        simp only
        rw [set_take_drop _ _ _ _ hr]
      · intro k r hk hkr
        by_cases hki : k = i
        · subst hki
          rw [hr] at hkr
          cases hkr
          rw [h2, hfresh (Int.ofNat k) (Or.inr (by simp))]
          rfl
        · have hne : Int.ofNat k ≠ Int.ofNat i := by
            intro h; exact hki (Int.ofNat.inj h)
          rw [h3 _ hne]
          exact hdone k r (by omega) hkr
      · intro k hk
        have hof : Int.ofNat i = (i : Int) := rfl
        have hne : k ≠ Int.ofNat i := by
          rw [hof]
          rcases hk with hk | hk
          · omega
          · push_cast at hk; omega
        rw [h3 k hne]
        exact hfresh k (by
          rcases hk with hk | hk
          · exact Or.inl hk
          · exact Or.inr (by push_cast at hk; omega)))
    (data, []) ⟨by simp, fun k row hk => absurd hk (Nat.not_lt_zero k), fun _ _ => rfl⟩
  obtain ⟨s', hs, hrows, hdone, _⟩ := key
  have hlen : data.GetRowsSortedKeys.length = data.rows.length := by
    simp [TableData.GetRowsSortedKeys]
  rw [hlen] at hrows hdone
  refine ⟨s'.2, ?_, fun k row hk => ?_⟩
  · rw [hs]
    congr 1
    have : s' = (s'.1, s'.2) := rfl
    rw [this, hrows]
    simp
  · have hlt : k < data.rows.length := by
      by_contra hc
      rw [List.get?_eq_none.mpr (by omega)] at hk
      cases hk
    exact hdone k row hlt hk


theorem foldl_addRow {α : Type} (g : α → TableRow) :
    ∀ (l : List α) (tableRows : TableData),
      l.foldl (fun (tableRows : TableData) entry => tableRows.AddRow (g entry)) tableRows
        = { rows := tableRows.rows ++ l.map g } := by
  intro l
  induction l with
  | nil => intro tr; simp
  | cons a rest ih =>
      intro tr
      rw [List.foldl_cons, ih]
      simp [TableData.AddRow]

/-- The body of the second loop of `buildTableRows` appends the expansion of
the row. -/
theorem addExpanded_eq (t : TableRender) (data' : TableData)
    (um : List (Int × List (Int × List (Int × TableCell)))) (tableRows : TableData)
    (rowKey : Int) (row : TableRow)
    (hrow : data'.GetRow rowKey = some (TableRender.firstLines t row))
    (hum : (assocGet um rowKey).getD [] = TableRender.furtherLines t row) :
    TableRender.addExpanded data' um tableRows rowKey
      = { rows := tableRows.rows ++ TableRender.expandRow t row } := by
  unfold TableRender.addExpanded TableRender.expandRow
  simp only [hrow]
  cases hg : assocGet um rowKey with
  | none =>
      rw [hg] at hum
      have hum' : ([] : List (Int × List (Int × TableCell))) = TableRender.furtherLines t row := hum
      rw [← hum']
      simp [TableData.AddRow]
  | some byLine =>
      rw [hg] at hum
      have hum' : byLine = TableRender.furtherLines t row := hum
      rw [← hum']
      have := foldl_addRow (fun (entry : Int × List (Int × TableCell)) =>
        TableRender.syntheticRow entry.2) byLine
          (tableRows.AddRow (TableRender.fillCells (TableRender.firstLines t row)))
      unfold TableRender.syntheticRow at this ⊢
      dsimp only
      rw [this]
      simp [TableData.AddRow]

theorem buildTableRows_second_loop (t : TableRender) (data : TableData)
    (um : List (Int × List (Int × List (Int × TableCell))))
    (hum : ∀ (k : Nat) (row : TableRow), data.rows.get? k = some row →
      (assocGet um (Int.ofNat k)).getD [] = TableRender.furtherLines t row) :
    ({ rows := data.rows.map (TableRender.firstLines t) } : TableData).GetRowsSortedKeys.foldl
        (TableRender.addExpanded { rows := data.rows.map (TableRender.firstLines t) } um)
        NewTableData
      = { rows := (data.rows.map (TableRender.expandRow t)).flatten } := by
  have key : ∀ m, m ≤ data.rows.length →
      ((List.range m).map Int.ofNat).foldl
          (TableRender.addExpanded { rows := data.rows.map (TableRender.firstLines t) } um)
          NewTableData
        = { rows := ((data.rows.take m).map (TableRender.expandRow t)).flatten } := by
    intro m
    induction m with
    | zero => intro _; rfl
    | succ m ih =>
        intro hm
        have hlt : m < data.rows.length := by omega
        have hr : data.rows.get? m = some (data.rows.get ⟨m, hlt⟩) := List.get?_eq_get hlt
        rw [List.range_succ, List.map_append, List.foldl_append, ih (by omega)]
        simp only [List.map_cons, List.map_nil, List.foldl_cons, List.foldl_nil]
        rw [addExpanded_eq t _ um _ (Int.ofNat m) (data.rows.get ⟨m, hlt⟩)
          (by rw [getRow_natCast]; simp [List.get?_eq_getElem?, List.getElem?_map, hlt])
          (hum m _ hr)]
        have htake : data.rows.take (m + 1) = data.rows.take m ++ [data.rows.get ⟨m, hlt⟩] := by
          rw [List.take_succ]
          rw [List.get?_eq_getElem?] at hr
          rw [hr]
          rfl
        rw [htake, List.map_append, List.flatten_append]
        simp
  have := key data.rows.length (le_refl _)
  simpa [TableData.GetRowsSortedKeys] using this

/-- On a table whose cells have rowspan at most 1, `buildTableRows` returns
the expansion of each source row, in order. -/
theorem buildTableRows_eq_expand (t : TableRender) (data : TableData)
    (hspan : ∀ row ∈ data.rows, ∀ column ∈ row.GetColumns, column.cell.rowspan ≤ 1) :
    t.buildTableRows data
      = .ok ({ rows := data.rows.map (TableRender.firstLines t) },
          { rows := (data.rows.map (TableRender.expandRow t)).flatten }) := by
  obtain ⟨um, h1, h2⟩ := buildTableRows_first_loop t data hspan
  unfold TableRender.buildTableRows
  simp only [h1, bind, Except.bind]
  rw [buildTableRows_second_loop t data um h2]
  rfl

theorem wrapCell_separator (t : TableRender) (cell : TableCell) (c : Int) :
    (TableRender.wrapCell t cell c).separator = cell.separator := by
  unfold TableRender.wrapCell
  split
  · simp only []
    split <;> rfl
  · rfl

theorem wrapCell_colspan (t : TableRender) (cell : TableCell) (c : Int) :
    (TableRender.wrapCell t cell c).colspan = cell.colspan := by
  unfold TableRender.wrapCell
  split
  · simp only []
    split <;> rfl
  · rfl

theorem lineCell_wrapCell (t : TableRender) (cell : TableCell) (c : Int) (line : Str) :
    TableRender.lineCell (TableRender.wrapCell t cell c) line = TableRender.lineCell cell line := by
  unfold TableRender.lineCell
  rw [wrapCell_separator, wrapCell_colspan]

theorem splitOnP_no_sep {α : Type} (p : α → Bool) :
    ∀ (xs : List α), ∀ l ∈ xs.splitOnP p, ∀ x ∈ l, p x = false := by
  intro xs
  induction xs with
  | nil => intro l hl x hx; simp [List.splitOnP_nil] at hl; subst hl; cases hx
  | cons a rest ih =>
      intro l hl x hx
      rw [List.splitOnP_cons] at hl
      by_cases hp : p a = true
      · simp only [hp, if_true, List.mem_cons] at hl
        rcases hl with rfl | hl
        · cases hx
        · exact ih l hl x hx
      · simp only [hp, Bool.false_eq_true, if_false] at hl
        cases hs : List.splitOnP p rest with
        | nil => exact absurd hs (List.splitOnP_ne_nil p rest)
        | cons first others =>
            rw [hs] at hl ih
            simp only [List.modifyHead_cons, List.mem_cons] at hl
            rcases hl with rfl | hl
            · rcases List.mem_cons.mp hx with rfl | hx
              · simpa using hp
              · exact ih first (List.mem_cons_self _ _) x hx
            · exact ih l (List.mem_cons_of_mem _ hl) x hx

theorem splitLines_no_newline (s : Str) : ∀ l ∈ splitLines s, '\n' ∉ l := by
  intro l hl hx
  have := splitOnP_no_sep (fun c => c == '\n') s l hl '\n' hx
  simp at this

theorem markSegments_length (first : Bool) : ∀ (segments : List Str),
    (markSegments first segments).length = segments.length
  | [] => rfl
  | [s] => rfl
  | s :: next :: rest => by
      simp only [markSegments, List.length_cons]
      rw [markSegments_length false (next :: rest)]
      rfl

/-- The lines `buildTableRows` cuts a value into are its newline-separated
lines, each but the last closed by the closing marker and each but the first
opened by the reopening marker. -/
theorem cellLines_eq_markSegments (value : Str) :
    TableRender.cellLines value = markSegments true (splitLines value) := by
  have h := cellLines_intercalate (splitLines value) (splitLines_no_newline value)
    (splitLines_ne_nil value)
  have hv : ['\n'].intercalate (splitLines value) = value := List.intercalate_splitOn value '\n'
  rw [hv] at h
  exact h

theorem cellLines_length (value : Str) :
    (TableRender.cellLines value).length = (splitLines value).length := by
  rw [cellLines_eq_markSegments, markSegments_length]

theorem splitLines_of_no_newline (value : Str) (h : '\n' ∉ value) : splitLines value = [value] := by
  unfold splitLines List.splitOn
  apply List.splitOnP_eq_single
  intro x hx hp
  simp only [beq_iff_eq] at hp
  subst hp
  exact h hx

theorem syntheticRow_append (inner : List (Int × TableCell)) (c : Int) (x : TableCell) :
    TableRender.syntheticRow (inner ++ [(c, x)])
      = (TableRender.syntheticRow inner).SetColumn c (NewTableColumn x) := by
  unfold TableRender.syntheticRow
  rw [List.foldl_append]
  rfl

theorem assocGet_consecutive {β : Type} :
    ∀ (m : List (Int × β)) (a : Int) (n : Nat) (h : n < m.length),
      m.map Prod.fst = (List.range m.length).map (fun (i : Nat) => a + (i : Int)) →
      assocGet m (a + n) = some (m.get ⟨n, h⟩).2 := by
  intro m
  induction m with
  | nil => intro a n h; simp at h
  | cons p rest ih =>
      intro a n h hkeys
      obtain ⟨k0, v0⟩ := p
      have hk0 : k0 = a := by
        have := congrArg List.head? hkeys
        simpa [List.range_succ_eq_map] using this
      subst hk0
      have hrest : rest.map Prod.fst
          = (List.range rest.length).map (fun (i : Nat) => (k0 + 1) + (i : Int)) := by
        have := congrArg List.tail hkeys
        simp only [List.map_cons, List.tail_cons, List.length_cons, List.range_succ_eq_map,
          List.map_map] at this
        rw [this]
        apply List.map_congr_left
        intro i _
        simp only [Function.comp, Nat.cast_succ]
        ring
      cases n with
      | zero => simp [assocGet]
      | succ n' =>
          have hne : (k0 == k0 + ((n' + 1 : Nat) : Int)) = false := by
            rw [beq_eq_false_iff_ne]; push_cast; omega
          have hadd : k0 + ((n' + 1 : Nat) : Int) = (k0 + 1) + (n' : Int) := by push_cast; ring
          have := ih (k0 + 1) n' (by simpa using h) hrest
          unfold assocGet at this ⊢
          rw [List.find?_cons]
          simp only [hne]
          rw [hadd, this]
          rfl


theorem lineColumn_stored (t : TableRender) (row : TableRow) (s : Int) (column : TableColumn)
    (hcol : row.GetColumn s = some column)
    (hnl : '\n' ∈ (TableRender.wrapCell t column.cell s).value) (j : Nat) :
    TableRender.lineColumn t row s j
      = ((TableRender.cellLines (TableRender.wrapCell t column.cell s).value).get? j).map
          (fun line => NewTableColumn (TableRender.lineCell column.cell line)) := by
  simp [TableRender.lineColumn, hcol, hnl]

/-- Entering one further line of the cell at column `s`. -/
theorem collected_step (t : TableRender) (row : TableRow) (s : Nat) (column : TableColumn)
    (hcol : row.GetColumn (s : Int) = some column)
    (hnl : '\n' ∈ (TableRender.wrapCell t column.cell (s : Int)).value)
    (q M : Nat) (b : List (Int × List (Int × TableCell))) (l : Str)
    (hl : (TableRender.cellLines (TableRender.wrapCell t column.cell (s : Int)).value).get? (q + 1)
      = some l)
    (hq : q ≤ M) (h : TableRender.Collected t row s q M b) :
    TableRender.Collected t row s (q + 1) (max M (q + 1))
      (assocSet b ((q : Int) + 1)
        (assocSet ((assocGet b ((q : Int) + 1)).getD []) (s : Int)
          (TableRender.lineCell (TableRender.wrapCell t column.cell (s : Int)) l))) := by
  obtain ⟨hlen, hkeys, hbound, hcols⟩ := h
  have hkey : (q : Int) + 1 = 1 + (q : Int) := by ring
  have hinner : ∀ p ∈ (assocGet b ((q : Int) + 1)).getD [], p.1 < (s : Int) := by
    intro p hp
    cases hg : assocGet b ((q : Int) + 1) with
    | none => rw [hg] at hp; cases hp
    | some inner =>
        rw [hg] at hp
        have := hbound _ inner hg p hp
        have hnot : ¬ ((q : Int) + 1 ≤ (q : Int)) := by omega
        simpa [hnot] using this
  have happ := assocSet_append ((assocGet b ((q : Int) + 1)).getD []) (s : Int)
    (TableRender.lineCell (TableRender.wrapCell t column.cell (s : Int)) l) hinner
  obtain ⟨hk1, hk2⟩ := assocSet_keys b 1 q
    (assocSet ((assocGet b ((q : Int) + 1)).getD []) (s : Int)
      (TableRender.lineCell (TableRender.wrapCell t column.cell (s : Int)) l)) hkeys
    (by omega)
  rw [← hkey] at hk1 hk2
  refine ⟨by rw [hk2, hlen], by rw [hk1, hk2], ?_, ?_⟩
  · intro j inner hj p hp
    by_cases hjq : j = (q : Int) + 1
    · subst hjq
      rw [assocGet_assocSet_self] at hj
      cases hj
      rw [happ] at hp
      have hle : ((q : Int) + 1 ≤ ((q + 1 : Nat) : Int)) := by push_cast; omega
      simp only [hle, if_true]
      rcases List.mem_append.mp hp with hp | hp
      · have := hinner p hp; omega
      · simp only [List.mem_singleton] at hp
        subst hp
        simp
    · rw [assocGet_assocSet_ne _ _ _ _ hjq] at hj
      have := hbound j inner hj p hp
      by_cases hle : j ≤ (q : Int)
      · have hle' : j ≤ ((q + 1 : Nat) : Int) := by push_cast; omega
        simp only [hle, if_true] at this
        simp only [hle', if_true]
        exact this
      · have hle' : ¬ j ≤ ((q + 1 : Nat) : Int) := by push_cast; omega
        simp only [hle, if_false] at this
        simp only [hle', if_false]
        exact this
  · intro j hj c
    by_cases hjq : j = q + 1
    · subst hjq
      have hcast : (((q + 1 : Nat) : Int)) = (q : Int) + 1 := by push_cast; rfl
      rw [hcast, assocGet_assocSet_self]
      simp only [Option.getD_some]
      rw [happ, syntheticRow_append, getColumn_setColumn _ _ _ _ (by omega)]
      have hold := hcols (q + 1) (by omega) c
      rw [hcast] at hold
      rw [hold]
      by_cases hcs : c = (s : Int)
      · subst hcs
        simp only [if_true, lt_self_iff_false, le_refl, and_self, or_true, false_or]
        rw [lineColumn_stored t row (s : Int) column hcol hnl, hl, lineCell_wrapCell]
        rfl
      · have h1 : ¬ (c = (s : Int) ∧ q + 1 ≤ q) := fun h => hcs h.1
        have h2 : ¬ (c = (s : Int) ∧ q + 1 ≤ q + 1) := fun h => hcs h.1
        simp only [hcs, if_false, false_and, or_false]
    · have hne : ((j : Nat) : Int) ≠ (q : Int) + 1 := by
        intro h; apply hjq; omega
      rw [assocGet_assocSet_ne _ _ _ _ hne, hcols j hj c]
      have hiff : (j ≤ q + 1) ↔ (j ≤ q) := by omega
      simp only [hiff]


/-- Entering the further lines `rest` of the cell at column `s`, the lines
`done` having been entered. -/
theorem collected_lines (t : TableRender) (row : TableRow) (s : Nat) (column : TableColumn)
    (hcol : row.GetColumn (s : Int) = some column)
    (hnl : '\n' ∈ (TableRender.wrapCell t column.cell (s : Int)).value) :
    ∀ (rest done : List Str) (b : List (Int × List (Int × TableCell))) (M : Nat),
      (TableRender.cellLines (TableRender.wrapCell t column.cell (s : Int)).value).tail
        = done ++ rest →
      done.length ≤ M → TableRender.Collected t row s done.length M b →
      TableRender.Collected t row s (done.length + rest.length) (max M (done.length + rest.length))
        ((rest.enumFrom done.length).foldl
          (fun (byLine : List (Int × List (Int × TableCell))) keyed =>
            assocSet byLine ((keyed.1 : Int) + 1)
              (assocSet ((assocGet byLine ((keyed.1 : Int) + 1)).getD []) (s : Int)
                (TableRender.lineCell (TableRender.wrapCell t column.cell (s : Int)) keyed.2)))
          b) := by
  intro rest
  induction rest with
  | nil =>
      intro done b M _ hM h
      have hmax : max M (done.length + ([] : List Str).length) = M := by
        simp only [List.length_nil]; omega
      have hq : done.length + ([] : List Str).length = done.length := by simp
      rw [hmax, hq]
      exact h
  | cons l rest ih =>
      intro done b M htail hM h
      have hl : (TableRender.cellLines (TableRender.wrapCell t column.cell (s : Int)).value).get?
          (done.length + 1) = some l := by
        cases hlines : TableRender.cellLines (TableRender.wrapCell t column.cell (s : Int)).value with
        | nil => rw [hlines] at htail; simp at htail
        | cons x xs =>
            rw [hlines] at htail
            simp only [List.tail_cons] at htail
            rw [List.get?_cons_succ, htail, List.get?_eq_getElem?,
              List.getElem?_append_right (le_refl _)]
            simp
      have hstep := collected_step t row s column hcol hnl done.length M b l hl hM h
      have := ih (done ++ [l]) _ (max M (done.length + 1)) (by rw [htail]; simp)
        (by simp) (by simpa using hstep)
      simp only [List.enumFrom_cons, List.foldl_cons]
      have hlen : (done ++ [l]).length + rest.length = done.length + (l :: rest).length := by
        simp; omega
      have hmax : max (max M (done.length + 1)) (done.length + (l :: rest).length)
          = max M (done.length + (l :: rest).length) := by
        simp only [List.length_cons]; omega
      rw [hlen, hmax] at this
      simpa using this

/-- Moving on to the next column once the cell at column `s` has no further
line to enter. -/
theorem collected_next (t : TableRender) (row : TableRow) (s q M : Nat)
    (b : List (Int × List (Int × TableCell)))
    (hnone : ∀ j : Nat, q < j → TableRender.lineColumn t row (s : Int) j = none)
    (h : TableRender.Collected t row s q M b) : TableRender.Collected t row (s + 1) 0 M b := by
  obtain ⟨hlen, hkeys, hbound, hcols⟩ := h
  refine ⟨hlen, hkeys, ?_, ?_⟩
  · intro j inner hj p hp
    have := hbound j inner hj p hp
    have h1 : p.1 < (s : Int) + 1 := by
      split at this <;> omega
    split <;> push_cast <;> omega
  · intro j hj c
    rw [hcols j hj c]
    have hj0 : ¬ j ≤ 0 := by omega
    by_cases hcs : c = (s : Int)
    · subst hcs
      by_cases hjq : j ≤ q
      · simp [hjq]
      · rw [hnone j (by omega)]
        simp
    · have hiff : (c < ((s + 1 : Nat) : Int)) ↔ (c < (s : Int)) := by push_cast; omega
      simp only [hcs, false_and, or_false, hiff, hj0, and_false]

theorem lineColumn_of_gap (t : TableRender) (row : TableRow) (c : Int) (j : Nat)
    (h : row.GetColumn c = none) : TableRender.lineColumn t row c j = none := by
  simp [TableRender.lineColumn, h]

/-- Entering all the further lines of the cell stored at column `s`. -/
theorem collected_addLines (t : TableRender) (row : TableRow) (s M : Nat)
    (b : List (Int × List (Int × TableCell))) (column : TableColumn)
    (hcol : row.GetColumn (s : Int) = some column)
    (h : TableRender.Collected t row s 0 M b) :
    TableRender.Collected t row (s + 1) 0
      (max M ((splitLines (TableRender.wrapCell t column.cell (s : Int)).value).length - 1))
      (TableRender.addLines t (s : Int) column.cell b) := by
  by_cases hnl : '\n' ∈ (TableRender.wrapCell t column.cell (s : Int)).value
  · have hfold := collected_lines t row s column hcol hnl
      (TableRender.cellLines (TableRender.wrapCell t column.cell (s : Int)).value).tail [] b M
      rfl (Nat.zero_le _) h
    simp only [List.length_nil, Nat.zero_add, List.length_tail, cellLines_length] at hfold
    have hadd : TableRender.addLines t (s : Int) column.cell b
        = ((TableRender.cellLines (TableRender.wrapCell t column.cell (s : Int)).value).tail.enumFrom
            0).foldl
          (fun (byLine : List (Int × List (Int × TableCell))) keyed =>
            assocSet byLine ((keyed.1 : Int) + 1)
              (assocSet ((assocGet byLine ((keyed.1 : Int) + 1)).getD []) (s : Int)
                (TableRender.lineCell (TableRender.wrapCell t column.cell (s : Int)) keyed.2)))
          b := by
      simp only [TableRender.addLines, hnl, if_true]
      rfl
    rw [hadd]
    refine collected_next t row s _ _ _ (fun j hj => ?_) hfold
    rw [lineColumn_stored t row (s : Int) column hcol hnl]
    have : (TableRender.cellLines (TableRender.wrapCell t column.cell (s : Int)).value).get? j
        = none := by
      apply List.get?_eq_none.mpr
      rw [cellLines_length]
      omega
    rw [this]
    rfl
  · have hadd : TableRender.addLines t (s : Int) column.cell b = b := by
      simp [TableRender.addLines, hnl]
    have hone : (splitLines (TableRender.wrapCell t column.cell (s : Int)).value).length - 1 = 0 := by
      rw [splitLines_of_no_newline _ hnl]
      rfl
    have hmax : max M 0 = M := by omega
    rw [hadd, hone, hmax]
    refine collected_next t row s 0 M b (fun j _ => ?_) h
    simp [TableRender.lineColumn, hcol, hnl]

theorem getColumn_append_slot (pre rest : List (Option TableColumn)) (slot : Option TableColumn) :
    ({ columns := pre ++ slot :: rest } : TableRow).GetColumn (pre.length : Int) = slot := by
  rw [getColumn_natCast, List.get?_eq_getElem?, List.getElem?_append_right (le_refl _)]
  simp

/-- Entering the further lines of the cells stored in the slots `xs` of the
row `pre ++ xs`. -/
theorem collected_slots (t : TableRender) (row : TableRow) :
    ∀ (xs pre : List (Option TableColumn)) (b : List (Int × List (Int × TableCell))) (M : Nat),
      row.columns = pre ++ xs → TableRender.Collected t row pre.length 0 M b →
      ∃ M', TableRender.Collected t row row.columns.length 0 M'
            (TableRender.furtherSlots t xs pre.length b)
        ∧ M' + 1 = ((xs.enumFrom pre.length).filterMap
            (fun p => p.2.map (fun column =>
              (splitLines (TableRender.wrapCell t column.cell (p.1 : Int)).value).length))).foldl
            max (M + 1) := by
  intro xs
  induction xs with
  | nil =>
      intro pre b M hcols h
      refine ⟨M, ?_, by simp⟩
      have : row.columns.length = pre.length := by rw [hcols]; simp
      rw [this]
      simpa [TableRender.furtherSlots] using h
  | cons slot rest ih =>
      intro pre b M hcols h
      have hrow : row = { columns := pre ++ slot :: rest } := by
        cases row; simp only at hcols; rw [hcols]
      have hget : row.GetColumn (pre.length : Int) = slot := by
        rw [hrow]; exact getColumn_append_slot pre rest slot
      cases slot with
      | none =>
          have hnext := collected_next t row pre.length 0 M b
            (fun j _ => lineColumn_of_gap t row _ j hget) h
          obtain ⟨M', h1, h2⟩ := ih (pre ++ [none]) b M (by rw [hcols]; simp)
            (by simpa using hnext)
          refine ⟨M', ?_, ?_⟩
          · rw [furtherSlots_none]
            simpa using h1
          · rw [h2]
            simp [List.enumFrom_cons]
      | some column =>
          have hadd := collected_addLines t row pre.length M b column hget h
          obtain ⟨M', h1, h2⟩ := ih (pre ++ [some column]) _ _ (by rw [hcols]; simp)
            (by simpa using hadd)
          refine ⟨M', ?_, ?_⟩
          · rw [furtherSlots_some]
            simpa using h1
          · rw [h2]
            have hpos : 0 < (splitLines
                (TableRender.wrapCell t column.cell (pre.length : Int)).value).length :=
              List.length_pos.mpr (splitLines_ne_nil _)
            have hmax : max M ((splitLines
                (TableRender.wrapCell t column.cell (pre.length : Int)).value).length - 1) + 1
                = max (M + 1) (splitLines
                    (TableRender.wrapCell t column.cell (pre.length : Int)).value).length := by
              omega
            rw [hmax]
            simp [List.enumFrom_cons]

theorem lineColumn_of_neg (t : TableRender) (row : TableRow) (c : Int) (j : Nat) (h : c < 0) :
    TableRender.lineColumn t row c j = none := by
  apply lineColumn_of_gap
  unfold TableRow.GetColumn
  simp [h]

theorem collected_nil (t : TableRender) (row : TableRow) : TableRender.Collected t row 0 0 0 [] := by
  refine ⟨rfl, rfl, ?_, ?_⟩
  · intro j inner hj
    simp [assocGet] at hj
  · intro j hj c
    have hsyn : (TableRender.syntheticRow ((assocGet ([] : List (Int × List (Int × TableCell)))
        (j : Int)).getD [])).GetColumn c = none := by
      simp [assocGet, TableRender.syntheticRow, NewTableRow, TableRow.GetColumn]
    rw [hsyn]
    have hj0 : ¬ j ≤ 0 := by omega
    by_cases hc : c < ((0 : Nat) : Int)
    · simp only [hc, true_or, if_true]
      exact (lineColumn_of_neg t row c j (by simpa using hc)).symm
    · simp only [hc, hj0, and_false, or_false, if_false]

/-- The further lines of a row: line numbers `1 .. m - 1`, each holding at
every column the `lineColumn` of that line. -/
theorem furtherLines_spec (t : TableRender) (row : TableRow) :
    (TableRender.furtherLines t row).length + 1 = TableRender.lineCount t row
      ∧ ∀ (n : Nat) (entry : Int × List (Int × TableCell)),
          (TableRender.furtherLines t row).get? n = some entry →
          ∀ c : Int, (TableRender.syntheticRow entry.2).GetColumn c
            = TableRender.lineColumn t row c (n + 1) := by
  obtain ⟨M, hcol, hM⟩ := collected_slots t row row.columns [] [] 0 rfl (collected_nil t row)
  simp only [List.length_nil] at hcol hM
  obtain ⟨hlen, hkeys, _, hcols⟩ := hcol
  refine ⟨?_, ?_⟩
  · show (TableRender.furtherSlots t row.columns 0 []).length + 1 = _
    rw [hlen, hM]
    rfl
  · intro n entry hn c
    have hlt : n < (TableRender.furtherSlots t row.columns 0 []).length := by
      by_contra hc
      have : (TableRender.furtherLines t row).get? n = none :=
        List.get?_eq_none.mpr (by unfold TableRender.furtherLines; omega)
      rw [this] at hn; cases hn
    have hentry : (TableRender.furtherSlots t row.columns 0 []).get ⟨n, hlt⟩ = entry := by
      have := List.get?_eq_get hlt
      unfold TableRender.furtherLines at hn
      rw [hn] at this
      exact (Option.some.inj this).symm
    have hget := assocGet_consecutive _ 1 n hlt hkeys
    rw [hentry] at hget
    have := hcols (n + 1) (by omega) c
    have hcast : (((n + 1 : Nat) : Int)) = 1 + (n : Int) := by push_cast; ring
    rw [hcast, hget] at this
    simp only [Option.getD_some] at this
    rw [this]
    have hj0 : ¬ n + 1 ≤ 0 := by omega
    by_cases hc : c < (row.columns.length : Int)
    · simp [hc]
    · simp only [hc, hj0, and_false, or_false, if_false]
      symm
      apply lineColumn_of_gap
      by_cases hneg : c < 0
      · unfold TableRow.GetColumn; simp [hneg]
      · unfold TableRow.GetColumn
        simp only [hneg, if_false]
        rw [List.get?_eq_none.mpr (by omega)]
        rfl


/-- The row of the first lines holds, at every index, the first-line cell of
the cell the source row stores there. -/
theorem firstLines_getColumn (t : TableRender) (row : TableRow) (c : Int) :
    (TableRender.firstLines t row).GetColumn c
      = (row.GetColumn c).map
          (fun column => NewTableColumn (TableRender.firstCell t column.cell c)) := by
  unfold TableRow.GetColumn
  by_cases hc : c < 0
  · simp [hc]
  · simp only [hc, if_false]
    have hcn : ((c.toNat : Nat) : Int) = c := by omega
    unfold TableRender.firstLines TableRender.firstSlots
    simp only [List.get?_eq_getElem?, List.getElem?_map, List.getElem?_enumFrom]
    cases h : row.columns[c.toNat]? with
    | none => rfl
    | some slot =>
        cases slot with
        | none => rfl
        | some column => simp [hcn]

theorem setSlot_length_append {α : Type} (a : α) :
    ∀ (l : List (Option α)), setSlot l l.length a = l ++ [some a]
  | [] => rfl
  | x :: xs => by
      show x :: setSlot xs xs.length a = x :: (xs ++ [some a])
      rw [setSlot_length_append a xs]

theorem getColumns_length_of_dense (l : List (Option TableColumn))
    (h : ∀ slot ∈ l, slot ≠ none) : (l.filterMap id).length = l.length := by
  induction l with
  | nil => rfl
  | cons x xs ih =>
      cases x with
      | none => exact absurd rfl (h none (List.mem_cons_self _ _))
      | some column =>
          simp only [List.filterMap_cons, id, List.length_cons]
          rw [ih (fun slot hs => h slot (List.mem_cons_of_mem _ hs))]

theorem fillCells_fold_dense (row : TableRow) :
    ∀ (xs pre : List (Option TableColumn)), row.columns = pre ++ xs →
      (∀ slot ∈ pre ++ xs, slot ≠ none) →
      (boundKeys xs pre.length).foldl
          (fun (newRow : TableRow) columnIndex =>
            match row.GetColumn columnIndex with
            | none => newRow
            | some column => newRow.AddColumn (NewTableColumn column.cell))
          { columns := pre }
        = { columns := pre ++ xs } := by
  intro xs
  induction xs with
  | nil => intro pre _ _; simp [boundKeys]
  | cons slot rest ih =>
      intro pre hcols hdense
      cases slot with
      | none => exact absurd rfl (hdense none (by simp))
      | some column =>
          have hrow : row = { columns := pre ++ some column :: rest } := by
            cases row; simp only at hcols; rw [hcols]
          have hget : row.GetColumn (pre.length : Int) = some column := by
            rw [hrow]; exact getColumn_append_slot pre rest (some column)
          have hadd : ({ columns := pre } : TableRow).AddColumn (NewTableColumn column.cell)
              = { columns := pre ++ [some column] } := by
            unfold TableRow.AddColumn TableRow.SetColumn TableRow.GetColumns
            have hlen := getColumns_length_of_dense pre
              (fun slot hs => hdense slot (List.mem_append_left _ hs))
            simp only [hlen]
            have : ¬ ((pre.length : Int) < 0) := by omega
            simp only [this, if_false, Int.toNat_ofNat]
            rw [setSlot_length_append]
            rfl
          simp only [boundKeys, List.foldl_cons, hget, hadd]
          have := ih (pre ++ [some column]) (by rw [hcols]; simp)
            (by simpa using hdense)
          simp only [List.length_append, List.length_singleton, List.append_assoc,
            List.singleton_append] at this
          exact this

/-- A row without gaps passes through `fillCells` unchanged. -/
theorem fillCells_of_dense (row : TableRow) (h : ∀ slot ∈ row.columns, slot ≠ none) :
    TableRender.fillCells row = row := by
  unfold TableRender.fillCells
  have := fillCells_fold_dense row row.columns [] rfl (by simpa using h)
  simp only [List.length_nil, List.nil_append] at this
  have hnew : (NewTableRow : TableRow) = { columns := [] } := rfl
  simp only [TableRow.GetColumnsSortedKeys, hnew, this]
  split <;> rfl

theorem firstLines_dense (t : TableRender) (row : TableRow)
    (h : ∀ slot ∈ row.columns, slot ≠ none) :
    ∀ slot ∈ (TableRender.firstLines t row).columns, slot ≠ none := by
  intro slot hs
  unfold TableRender.firstLines TableRender.firstSlots at hs
  simp only [List.mem_map] at hs
  obtain ⟨p, hp, rfl⟩ := hs
  have hp2 : p.2 ∈ row.columns := by
    have := List.mem_enumFrom hp
    rw [this.2.2]
    exact List.getElem_mem _
  cases hp' : p.2 with
  | none => exact absurd hp' (h p.2 hp2)
  | some column => simp

theorem cellLines_of_no_newline (value : Str) (h : '\n' ∉ value) :
    TableRender.cellLines value = [value] := by
  rw [cellLines_eq_markSegments, splitLines_of_no_newline value h]
  simp [markSegments]

theorem firstCell_value (t : TableRender) (cell : TableCell) (c : Int) :
    (TableRender.firstCell t cell c).value
      = (TableRender.cellLines (TableRender.wrapCell t cell c).value).headD [] := by
  unfold TableRender.firstCell
  by_cases hnl : '\n' ∈ (TableRender.wrapCell t cell c).value
  · simp only [hnl, if_true, TableRender.lineCell]
    split <;> rfl
  · simp only [hnl, if_false]
    rw [cellLines_of_no_newline _ hnl]
    rfl

theorem firstCell_colspan (t : TableRender) (cell : TableCell) (c : Int)
    (h : cell.separator = false) : (TableRender.firstCell t cell c).colspan = cell.colspan := by
  unfold TableRender.firstCell
  by_cases hnl : '\n' ∈ (TableRender.wrapCell t cell c).value
  · simp only [hnl, if_true, TableRender.lineCell, wrapCell_separator, h, Bool.false_eq_true,
      if_false, wrapCell_colspan]
    rfl
  · simp only [hnl, if_false, wrapCell_colspan]

/-- C1 fails in the code: the guard of `calculateNumberOfColumns` that is to
skip separator rows is asserted on the row object, which is never a
Separator, so no row is skipped. Starting from 0 the column count is the
largest count of any row, separator rows included: a table whose only row
holds a Separator gets 1 column where the specification gives 0, and a
separator row of three cells over the row `a` gets 3 where the specification
gives 1. On a table without separator rows whose cells have colspan at least
1, with counts within the `int` range, the code gives the specified count. -/
theorem calculateNumberOfColumns_counts_separator_rows :
    (∀ (t : TableRender) (data : TableData), t.numberOfColumns = 0 →
        (t.calculateNumberOfColumns data).numberOfColumns
          = (data.rows.map TableRender.getNumberOfColumns).foldl max 0)
      ∧ (specColumnCount [separatorOnlyRow] = 0
          ∧ ((renderOf asciiStyle (tableOf [] [])).calculateNumberOfColumns
              (MergeData { rows := [] } { rows := [separatorOnlyRow] })).numberOfColumns = 1)
      ∧ (specColumnCount [separatorLedWideRow, rowOf [['a']]] = 1
          ∧ ((renderOf asciiStyle (tableOf [] [])).calculateNumberOfColumns
              (MergeData { rows := [separatorLedWideRow] }
                { rows := [rowOf [['a']]] })).numberOfColumns = 3)
      ∧ ∀ (t : TableRender) (headers body : TableData), t.numberOfColumns = 0 →
          (∀ row ∈ headers.rows ++ body.rows, separatorRow row = false) →
          (∀ row ∈ headers.rows ++ body.rows, ∀ column ∈ row.GetColumns,
            1 ≤ column.cell.colspan) →
          (∀ row ∈ headers.rows ++ body.rows, occupiedSlots row < 9223372036854775808) →
          (t.calculateNumberOfColumns (MergeData headers body)).numberOfColumns
            = specColumnCount (headers.rows ++ body.rows) := by
  refine ⟨fun t data h0 => calculateNumberOfColumns_val t data h0, ⟨by decide, by decide⟩,
    ⟨by decide, by decide⟩, fun t headers body h0 hsep hspan hbound => ?_⟩
  rw [calculateNumberOfColumns_val_spec t (MergeData headers body) h0 hspan hbound]
  unfold specColumnCount
  have : (headers.rows ++ body.rows).filter (fun row => !separatorRow row)
      = headers.rows ++ body.rows := by
    apply List.filter_eq_self.mpr
    intro row hrow
    simp [hsep row hrow]
  rw [this]
  rfl

theorem calculateNumberOfColumns_counts_separator_rows_witness :
    ((renderOf asciiStyle (tableOf [] [])).calculateNumberOfColumns
        (MergeData { rows := [rowOf [['a'], ['b'], ['c']]] }
          { rows := [{ columns :=
              [some (NewTableColumn ((NewTableCell ['x']).SetColspan 2))] }] })).numberOfColumns
      = specColumnCount ([rowOf [['a'], ['b'], ['c']]]
          ++ [{ columns := [some (NewTableColumn ((NewTableCell ['x']).SetColspan 2))] }]) :=
  calculateNumberOfColumns_counts_separator_rows.2.2.2 (renderOf asciiStyle (tableOf [] []))
    { rows := [rowOf [['a'], ['b'], ['c']]] }
    { rows := [{ columns := [some (NewTableColumn ((NewTableCell ['x']).SetColspan 2))] }] }
    rfl (by decide) (by decide) (by decide)

theorem splitSpan_settled (s : TableRender) (r : TableRow) (i : Int)
    (hr : Settled s.formatter r) :
    ∃ r', s.splitSpan r i = .ok r' ∧ Settled s.formatter r'
      ∧ ∀ c, observedWidth s.formatter r' c = observedWidth s.formatter r c := by
  unfold TableRender.splitSpan
  cases hcol : r.GetColumn i with
  | none => exact ⟨r, rfl, hr, fun _ => rfl⟩
  | some column =>
    simp only []
    by_cases hsep : column.cell.separator
    · simp only [hsep, if_true]; exact ⟨r, rfl, hr, fun _ => rfl⟩
    · simp only [hsep, Bool.false_eq_true, if_false]
      by_cases hlen : ((s.formatter.strip column.cell.value).length : Int) > 0
      · simp only [hlen, if_true]
        have hne : s.formatter.strip column.cell.value ≠ [] := by
          intro h; rw [h] at hlen; simp at hlen
        obtain ⟨hk, hid⟩ : column.cell.colspan = 1
            ∧ s.formatter.strip column.cell.value = column.cell.value := by
          rcases hr i column hcol with h | h | h
          · exact absurd h hsep
          · exact absurd h hne
          · exact h
        have hi0 : 0 ≤ i := (getColumn_eq_some r i column hcol).1
        have hk' : ¬ column.cell.colspan < 1 := by omega
        have hchunk : (((s.formatter.strip column.cell.value).length : Int)
            + column.cell.colspan - 1) / column.cell.colspan
            = ((s.formatter.strip column.cell.value).length : Int) := by
          rw [hk]; simp
        have hsplit : StrSplit (s.formatter.strip column.cell.value)
            ((s.formatter.strip column.cell.value).length : Int)
            = .ok [s.formatter.strip column.cell.value] := by
          unfold StrSplit
          have : ¬ ((s.formatter.strip column.cell.value).length : Int) < 1 := by omega
          simp only [this, if_false]
          rw [Int.toNat_ofNat, toChunks_single _ _ hne (le_refl _)]
          rfl
        have henum : ([s.formatter.strip column.cell.value].enum.foldl
            (fun (row : TableRow) keyed =>
              row.SetColumn (i + (keyed.1 : Int)) (MakeColumnFromString keyed.2)) r)
            = r.SetColumn i (MakeColumnFromString (s.formatter.strip column.cell.value)) := by
          simp [List.enum, List.enumFrom]
        simp only [hk', if_false, hchunk, hsplit, henum]
        refine ⟨_, rfl, ?_, ?_⟩
        · intro j c hj
          rw [getColumn_setColumn _ _ _ _ hi0] at hj
          by_cases hji : j = i
          · simp only [hji, if_true] at hj
            rw [← Option.some.inj hj]
            refine Or.inr (Or.inr ⟨rfl, ?_⟩)
            show s.formatter.strip (s.formatter.strip column.cell.value)
              = s.formatter.strip column.cell.value
            rw [hid, hid]
          · simp only [hji, if_false] at hj
            exact hr j c hj
        · intro c
          unfold observedWidth
          rw [getColumn_setColumn _ _ _ _ hi0]
          by_cases hci : c = i
          · subst hci
            simp only [if_true, hcol]
            unfold StrlenWithoutDecoration MakeColumnFromString NewTableColumn NewTableCell
            simp only [hid]
          · simp only [hci, if_false]
      · simp only [hlen, if_false]; exact ⟨r, rfl, hr, fun _ => rfl⟩

theorem splitSpans_settled (s : TableRender) (row : TableRow)
    (hr : Settled s.formatter row) :
    ∃ row', s.splitSpans row = .ok row' ∧ Settled s.formatter row'
      ∧ ∀ c, observedWidth s.formatter row' c = observedWidth s.formatter row c := by
  unfold TableRender.splitSpans
  exact foldlM_invariant_simple (TableRender.splitSpan s)
    (fun r => Settled s.formatter r
      ∧ ∀ c, observedWidth s.formatter r c = observedWidth s.formatter row c)
    row.GetColumnsSortedKeys
    (fun i r hrr => by
      obtain ⟨r', h1, h2, h3⟩ := splitSpan_settled s r i hrr.1
      exact ⟨r', h1, h2, fun c => by rw [h3 c, hrr.2 c]⟩)
    row ⟨hr, fun _ => rfl⟩

theorem boundKeys_mem_get {α : Type} : ∀ (l : List (Option α)) (start : Nat) (x : Int),
    x ∈ boundKeys l start → ∃ (i : Nat) (a : α), x = ((start + i : Nat) : Int) ∧ l.get? i = some (some a)
  | [], _, x, h => by simp [boundKeys] at h
  | none :: xs, start, x, h => by
      simp only [boundKeys] at h
      obtain ⟨i, a, hx, hg⟩ := boundKeys_mem_get xs (start + 1) x h
      exact ⟨i + 1, a, by rw [hx]; congr 1; omega, by simpa using hg⟩
  | some b :: xs, start, x, h => by
      simp only [boundKeys, List.mem_cons] at h
      rcases h with h | h
      · exact ⟨0, b, by simpa using h, rfl⟩
      · obtain ⟨i, a, hx, hg⟩ := boundKeys_mem_get xs (start + 1) x h
        exact ⟨i + 1, a, by rw [hx]; congr 1; omega, by simpa using hg⟩

theorem sortedKey_getColumn (row : TableRow) (a : Int) (h : a ∈ row.GetColumnsSortedKeys) :
    0 ≤ a ∧ ∃ column, row.GetColumn a = some column := by
  unfold TableRow.GetColumnsSortedKeys at h
  obtain ⟨i, c, hx, hg⟩ := boundKeys_mem_get row.columns 0 a h
  rw [Nat.zero_add] at hx
  subst hx
  refine ⟨by omega, c, ?_⟩
  rw [getColumn_natCast, hg]
  rfl

theorem boundKeys_pairwise {α : Type} : ∀ (l : List (Option α)) (start : Nat),
    (boundKeys l start).Pairwise (fun x y => x < y)
  | [], _ => by simp [boundKeys]
  | none :: xs, start => by
      simp only [boundKeys]
      exact boundKeys_pairwise xs (start + 1)
  | some b :: xs, start => by
      simp only [boundKeys, List.pairwise_cons]
      refine ⟨fun y hy => ?_, boundKeys_pairwise xs (start + 1)⟩
      obtain ⟨i, a, hx, _⟩ := boundKeys_mem_get xs (start + 1) y hy
      rw [hx]; push_cast; omega

theorem pairwise_get_not_mem_take (l : List Int) (h : l.Pairwise (fun x y => x < y))
    (k : Nat) (hk : k < l.length) : l.get ⟨k, hk⟩ ∉ l.take k := by
  intro hmem
  obtain ⟨m, hm, heq⟩ := List.getElem_of_mem hmem
  have hm' : m < k := by
    rw [List.length_take] at hm; omega
  rw [List.getElem_take] at heq
  have := List.pairwise_iff_getElem.mp h m k (by omega) hk hm'
  rw [List.get_eq_getElem] at heq
  simp only at heq
  rw [heq] at this
  exact lt_irrefl _ this

theorem foldl_setColumn_enumFrom (a : Int) (ha : 0 ≤ a) :
    ∀ (cs : List Str) (m : Nat) (r : TableRow) (j : Int),
      ((cs.enumFrom m).foldl
          (fun (row : TableRow) keyed =>
            row.SetColumn (a + (keyed.1 : Int)) (MakeColumnFromString keyed.2)) r).GetColumn j
        = match (if a + (m : Int) ≤ j then cs.get? (j - a - (m : Int)).toNat else none) with
          | some chunk => some (MakeColumnFromString chunk)
          | none => r.GetColumn j
  | [], m, r, j => by
      simp only [List.enumFrom_nil, List.foldl_nil, List.get?_nil, ite_self]
  | c :: cs, m, r, j => by
      simp only [List.enumFrom_cons, List.foldl_cons]
      rw [foldl_setColumn_enumFrom a ha cs (m + 1) _ j, getColumn_setColumn _ _ _ _ (by omega)]
      by_cases h1 : a + ((m + 1 : Nat) : Int) ≤ j
      · have h2 : a + (m : Int) ≤ j := by push_cast at h1; omega
        have h3 : (j - a - (m : Int)).toNat = (j - a - ((m + 1 : Nat) : Int)).toNat + 1 := by
          push_cast at h1 ⊢; omega
        have h4 : j ≠ a + (m : Int) := by push_cast at h1; omega
        simp only [h1, h2, if_true, h3, List.get?_cons_succ, h4, if_false]
      · simp only [h1, if_false]
        by_cases h5 : j = a + (m : Int)
        · have h6 : (j - a - (m : Int)).toNat = 0 := by omega
          simp only [h5, if_true, le_refl, h6, List.get?_cons_zero]
          rw [h5] at h6
          simp only [h6, List.get?_cons_zero]
        · have h7 : ¬ a + (m : Int) ≤ j := by push_cast at h1; omega
          simp only [h5, if_false, h7]

theorem chunkSize_pos (n : Nat) (k : Int) (hn : 0 < n) (hk : 1 ≤ k) :
    1 ≤ ((n : Int) + k - 1) / k ∧ (n : Int) ≤ k * (((n : Int) + k - 1) / k) := by
  have h1 := Int.emod_add_ediv ((n : Int) + k - 1) k
  have h2 := Int.emod_lt_of_pos ((n : Int) + k - 1) (by omega : (0 : Int) < k)
  have h3 := Int.emod_nonneg ((n : Int) + k - 1) (by omega : k ≠ 0)
  constructor
  · by_contra hc
    have hq : ((n : Int) + k - 1) / k ≤ 0 := by omega
    have : k * (((n : Int) + k - 1) / k) ≤ 0 :=
      Int.mul_nonpos_of_nonneg_of_nonpos (by omega) hq
    omega
  · omega

theorem spanChunk_ne_nil_iff (f : Formatter) (column : TableColumn) (p : Nat)
    (hk : 1 ≤ column.cell.colspan) (hne : f.strip column.cell.value ≠ []) :
    spanChunk f column p ≠ []
      ↔ p * (((((f.strip column.cell.value).length : Int) + column.cell.colspan - 1)
            / column.cell.colspan).toNat) < (f.strip column.cell.value).length := by
  have hpos : 0 < (f.strip column.cell.value).length := List.length_pos.mpr hne
  have hs := (chunkSize_pos _ _ hpos hk).1
  unfold spanChunk
  simp only []
  generalize ((((f.strip column.cell.value).length : Int) + column.cell.colspan - 1)
    / column.cell.colspan) = S at hs ⊢
  rw [← List.length_pos, List.length_take, List.length_drop]
  have : 1 ≤ S.toNat := by omega
  omega

theorem spanChunk_within_span (f : Formatter) (column : TableColumn) (p : Nat)
    (hk : 1 ≤ column.cell.colspan) (hne : f.strip column.cell.value ≠ [])
    (h : spanChunk f column p ≠ []) : (p : Int) < column.cell.colspan := by
  have hpos : 0 < (f.strip column.cell.value).length := List.length_pos.mpr hne
  obtain ⟨hs, hle⟩ := chunkSize_pos _ _ hpos hk
  rw [spanChunk_ne_nil_iff f column p hk hne] at h
  generalize ((((f.strip column.cell.value).length : Int) + column.cell.colspan - 1)
    / column.cell.colspan) = S at hs hle h
  by_contra hc
  have h1 : column.cell.colspan ≤ (p : Int) := by omega
  have h2 : column.cell.colspan * S ≤ (p : Int) * S :=
    Int.mul_le_mul_of_nonneg_right h1 (by omega)
  have h3 : ((p * S.toNat : Nat) : Int) = (p : Int) * S := by
    push_cast
    rw [Int.toNat_of_nonneg (by omega)]
  have h4 : ((p * S.toNat : Nat) : Int) < ((f.strip column.cell.value).length : Int) := by
    exact_mod_cast h
  omega

theorem toChunks_get (f : Formatter) (column : TableColumn) (p : Nat)
    (hk : 1 ≤ column.cell.colspan) (hne : f.strip column.cell.value ≠ []) :
    (List.toChunks ((((f.strip column.cell.value).length : Int) + column.cell.colspan - 1)
        / column.cell.colspan).toNat (f.strip column.cell.value)).get? p
      = if spanChunk f column p = [] then none else some (spanChunk f column p) := by
  have hpos : 0 < (f.strip column.cell.value).length := List.length_pos.mpr hne
  have hs := (chunkSize_pos _ _ hpos hk).1
  have hiff := spanChunk_ne_nil_iff f column p hk hne
  unfold spanChunk at hiff ⊢
  simp only [] at hiff ⊢
  generalize ((((f.strip column.cell.value).length : Int) + column.cell.colspan - 1)
    / column.cell.colspan) = S at hs hiff ⊢
  have hs1 : 1 ≤ S.toNat := by omega
  rw [toChunks_eq_map_range _ hs1, List.get?_eq_getElem?, List.getElem?_map]
  have hcount : p < ((f.strip column.cell.value).length + S.toNat - 1) / S.toNat
      ↔ p * S.toNat < (f.strip column.cell.value).length := by
    rw [Nat.lt_iff_add_one_le, Nat.le_div_iff_mul_le (by omega), Nat.add_mul]
    omega
  by_cases hp : p * S.toNat < (f.strip column.cell.value).length
  · have h1 := hiff.mpr hp
    rw [List.getElem?_range (hcount.mpr hp)]
    simp only [Option.map_some', h1, if_false]
  · have h1 : List.take S.toNat (List.drop (p * S.toNat) (f.strip column.cell.value)) = [] := by
      by_contra hc
      exact hp (hiff.mp hc)
    have h2 : ¬ p < ((f.strip column.cell.value).length + S.toNat - 1) / S.toNat :=
      fun hc => hp (hcount.mp hc)
    rw [List.getElem?_eq_none (by simpa using h2)]
    simp only [Option.map_none', h1, if_true]

theorem chunkAt_some (f : Formatter) (row : TableRow) (i j : Int) (cell : TableColumn)
    (h : chunkAt f row i j = some cell) :
    ∃ column, row.GetColumn i = some column ∧ column.cell.separator = false
      ∧ f.strip column.cell.value ≠ [] ∧ i ≤ j
      ∧ spanChunk f column (j - i).toNat ≠ []
      ∧ cell = MakeColumnFromString (spanChunk f column (j - i).toNat) := by
  unfold chunkAt at h
  cases hcol : row.GetColumn i with
  | none => simp [hcol] at h
  | some column =>
      simp only [hcol] at h
      split at h
      · cases h
      · rename_i hsplit
        split at h
        · cases h
        · split at h
          · cases h
          · rename_i hji hchunk
            refine ⟨column, rfl, ?_, ?_, by omega, hchunk, (Option.some.inj h).symm⟩
            · cases hs : column.cell.separator
              · rfl
              · exact absurd (Or.inl hs) hsplit
            · exact fun hc => hsplit (Or.inr hc)

/-- A chunk stored at index `j` for the cell at index `i` lies within the
span of that cell, so the row stores no cell between `i` and `j`. -/
theorem chunkAt_apart (f : Formatter) (row : TableRow)
    (hspan : ∀ column ∈ row.GetColumns, 1 ≤ column.cell.colspan)
    (hapart : ∀ i column, row.GetColumn i = some column →
      ∀ p : Int, 1 ≤ p → p < column.cell.colspan → row.GetColumn (i + p) = none)
    (i j : Int) (cell : TableColumn) (h : chunkAt f row i j = some cell)
    (i' : Int) (h1 : i < i') (h2 : i' ≤ j) : row.GetColumn i' = none := by
  obtain ⟨column, hcol, _, hne, hij, hchunk, _⟩ := chunkAt_some f row i j cell h
  have hk := hspan column (getColumn_mem row i column hcol)
  have hp := spanChunk_within_span f column _ hk hne hchunk
  have := hapart i column hcol (i' - i) (by omega) (by omega)
  rw [← this]; congr 1; omega

theorem chunkAt_unique (f : Formatter) (row : TableRow)
    (hspan : ∀ column ∈ row.GetColumns, 1 ≤ column.cell.colspan)
    (hapart : ∀ i column, row.GetColumn i = some column →
      ∀ p : Int, 1 ≤ p → p < column.cell.colspan → row.GetColumn (i + p) = none)
    (i i' j : Int) (cell : TableColumn) (h : chunkAt f row i j = some cell)
    (hne : i' ≠ i) : chunkAt f row i' j = none := by
  cases h' : chunkAt f row i' j with
  | none => rfl
  | some cell' =>
      exfalso
      obtain ⟨column, hcol, _, _, hij, _, _⟩ := chunkAt_some f row i j cell h
      obtain ⟨column', hcol', _, _, hij', _, _⟩ := chunkAt_some f row i' j cell' h'
      rcases lt_or_gt_of_ne hne with hlt | hgt
      · have := chunkAt_apart f row hspan hapart i' j cell' h' i hlt hij
        rw [hcol] at this; cases this
      · have := chunkAt_apart f row hspan hapart i j cell h i' hgt hij'
        rw [hcol'] at this; cases this

theorem chunkAt_of_stored (f : Formatter) (row : TableRow)
    (hspan : ∀ column ∈ row.GetColumns, 1 ≤ column.cell.colspan)
    (hapart : ∀ i column, row.GetColumn i = some column →
      ∀ p : Int, 1 ≤ p → p < column.cell.colspan → row.GetColumn (i + p) = none)
    (i j : Int) (hne : i ≠ j) (hstored : (row.GetColumn j).isSome) :
    chunkAt f row i j = none := by
  cases h : chunkAt f row i j with
  | none => rfl
  | some cell =>
      exfalso
      obtain ⟨column, hcol, _, _, hij, _, _⟩ := chunkAt_some f row i j cell h
      have := chunkAt_apart f row hspan hapart i j cell h j (by omega) (le_refl _)
      rw [this] at hstored
      cases hstored

/-- The pre-split of the cell at index `a`, read where the row still holds
that cell: every index gets the chunk stored for it, if any. -/
theorem splitSpan_chunks (t : TableRender) (row0 r : TableRow) (a : Int) (column : TableColumn)
    (h0 : row0.GetColumn a = some column) (hr : r.GetColumn a = some column)
    (hk : 1 ≤ column.cell.colspan) :
    ∃ r', t.splitSpan r a = .ok r'
      ∧ ∀ j, r'.GetColumn j
          = match chunkAt t.formatter row0 a j with
            | some cell => some cell
            | none => r.GetColumn j := by
  have ha : 0 ≤ a := (getColumn_eq_some row0 a column h0).1
  unfold TableRender.splitSpan
  rw [hr]
  simp only []
  by_cases hsep : column.cell.separator
  · simp only [hsep, if_true]
    refine ⟨r, rfl, fun j => ?_⟩
    simp only [chunkAt, h0, hsep, true_or, if_true]
  · simp only [hsep, Bool.false_eq_true, if_false]
    by_cases hlen : ((t.formatter.strip column.cell.value).length : Int) > 0
    · have hne : t.formatter.strip column.cell.value ≠ [] := by
        intro h; rw [h] at hlen; simp at hlen
      have hpos : 0 < (t.formatter.strip column.cell.value).length := List.length_pos.mpr hne
      have hs := (chunkSize_pos _ _ hpos hk).1
      have hk' : ¬ column.cell.colspan < 1 := by omega
      have hs' : ¬ (((t.formatter.strip column.cell.value).length : Int)
          + column.cell.colspan - 1) / column.cell.colspan < 1 := by omega
      simp only [hlen, if_true, hk', if_false, StrSplit, hs', pure, Except.pure]
      refine ⟨_, rfl, fun j => ?_⟩
      have hfold := foldl_setColumn_enumFrom a ha
        (List.toChunks ((((t.formatter.strip column.cell.value).length : Int)
          + column.cell.colspan - 1) / column.cell.colspan).toNat
          (t.formatter.strip column.cell.value)) 0 r j
      simp only [Nat.cast_zero, add_zero, sub_zero] at hfold
      unfold List.enum
      rw [hfold, toChunks_get t.formatter column _ hk hne]
      simp only [chunkAt, h0, hsep, Bool.false_eq_true, false_or, hne, if_false]
      by_cases hja : a ≤ j
      · have : ¬ j < a := by omega
        simp only [hja, if_true, this, if_false]
        by_cases hchunk : spanChunk t.formatter column (j - a).toNat = []
        · simp only [hchunk, if_true]
        · simp only [hchunk, if_false]
      · have : j < a := by omega
        simp only [hja, if_false, this, if_true]
    · have hnil : t.formatter.strip column.cell.value = [] := by
        cases hv : t.formatter.strip column.cell.value with
        | nil => rfl
        | cons x xs => rw [hv] at hlen; simp at hlen
      simp only [hlen, if_false]
      refine ⟨r, rfl, fun j => ?_⟩
      simp only [chunkAt, h0, hnil, or_true, if_true]

theorem foldl_max_eq_of_mem (l : List Int) (v : Int) (hv : 0 ≤ v) (hle : ∀ x ∈ l, x ≤ v)
    (hmem : v = 0 ∨ v ∈ l) : l.foldl max 0 = v := by
  apply le_antisymm
  · rcases foldl_max_mem l 0 with h | h
    · rw [h]; exact hv
    · exact hle _ h
  · rcases hmem with h | h
    · rw [h]; exact foldl_max_ge_init l 0
    · exact foldl_max_ge_mem l 0 v h

theorem chunkAt_self (f : Formatter) (row : TableRow) (i : Int) (column : TableColumn)
    (hcol : row.GetColumn i = some column) (hk : 1 ≤ column.cell.colspan)
    (hsep : column.cell.separator = false) (hne : f.strip column.cell.value ≠ []) :
    chunkAt f row i i = some (MakeColumnFromString (spanChunk f column 0)) := by
  have hchunk : spanChunk f column 0 ≠ [] := by
    rw [spanChunk_ne_nil_iff f column 0 hk hne, Nat.zero_mul]
    exact List.length_pos.mpr hne
  simp [chunkAt, hcol, hsep, hne, hchunk]

/-- The pre-split of a row whose cells do not reach into one another stores,
at every index, the chunk of the cell reaching that index, and leaves the
other indices as they were. -/
theorem splitSpans_chunks (t : TableRender) (row0 : TableRow)
    (hspan : ∀ column ∈ row0.GetColumns, 1 ≤ column.cell.colspan)
    (hapart : ∀ i column, row0.GetColumn i = some column →
      ∀ p : Int, 1 ≤ p → p < column.cell.colspan → row0.GetColumn (i + p) = none) :
    ∃ row', t.splitSpans row0 = .ok row'
      ∧ ∀ j, (∀ i ∈ row0.GetColumnsSortedKeys, ∀ cell,
            chunkAt t.formatter row0 i j = some cell → row'.GetColumn j = some cell)
          ∧ ((∀ i ∈ row0.GetColumnsSortedKeys, chunkAt t.formatter row0 i j = none) →
            row'.GetColumn j = row0.GetColumn j) := by
  unfold TableRender.splitSpans
  have hpair : row0.GetColumnsSortedKeys.Pairwise (fun x y => x < y) :=
    boundKeys_pairwise row0.columns 0
  obtain ⟨row', hfold, hP⟩ := foldlM_indexed (TableRender.splitSpan t) row0.GetColumnsSortedKeys
    (fun k r => ∀ j, (∀ i ∈ row0.GetColumnsSortedKeys.take k, ∀ cell,
            chunkAt t.formatter row0 i j = some cell → r.GetColumn j = some cell)
          ∧ ((∀ i ∈ row0.GetColumnsSortedKeys.take k, chunkAt t.formatter row0 i j = none) →
            r.GetColumn j = row0.GetColumn j))
    (fun k hk r hr => by
      have hmem : row0.GetColumnsSortedKeys.get ⟨k, hk⟩ ∈ row0.GetColumnsSortedKeys :=
        List.get_mem _ _ _
      have hnot := pairwise_get_not_mem_take _ hpair k hk
      have htake : row0.GetColumnsSortedKeys.take (k + 1)
          = row0.GetColumnsSortedKeys.take k ++ [row0.GetColumnsSortedKeys.get ⟨k, hk⟩] := by
        rw [List.take_succ, List.getElem?_eq_getElem hk]
        rfl
      simp only [htake]
      generalize row0.GetColumnsSortedKeys.get ⟨k, hk⟩ = a at hmem hnot ⊢
      obtain ⟨_, column, hcol⟩ := sortedKey_getColumn row0 a hmem
      have hstored : (row0.GetColumn a).isSome := by rw [hcol]; rfl
      have hra : r.GetColumn a = some column := by
        rw [← hcol]
        exact (hr a).2 (fun i hi =>
          chunkAt_of_stored t.formatter row0 hspan hapart i a
            (fun h => hnot (h ▸ hi)) hstored)
      obtain ⟨r', hsplit, hget⟩ := splitSpan_chunks t row0 r a column hcol hra
        (hspan column (getColumn_mem row0 a column hcol))
      refine ⟨r', hsplit, fun j => ⟨fun i hi cell hc => ?_, fun hnone => ?_⟩⟩
      · rcases List.mem_append.mp hi with hi | hi
        · have hnone : chunkAt t.formatter row0 a j = none :=
            chunkAt_unique t.formatter row0 hspan hapart i a j cell hc
              (fun h => hnot (h ▸ hi))
          rw [hget j, hnone]
          exact (hr j).1 i hi cell hc
        · have hia : i = a := by simpa using hi
          subst hia
          rw [hget j, hc]
      · have ha : chunkAt t.formatter row0 a j = none :=
          hnone a (List.mem_append_right _ (List.mem_singleton_self a))
        rw [hget j, ha]
        exact (hr j).2 (fun i hi => hnone i (List.mem_append_left _ hi)))
    row0 (fun j => ⟨fun i hi => by simp at hi, fun _ => rfl⟩)
  refine ⟨row', hfold, fun j => ?_⟩
  have := hP j
  rw [List.take_length] at this
  exact this

theorem countedLength_of_chunkAt_none (f : Formatter) (row : TableRow) (i c : Int)
    (column : TableColumn) (hcol : row.GetColumn i = some column)
    (h : chunkAt f row i c = none) (hci : c ≠ i) : countedLength f column i c = 0 := by
  unfold countedLength
  unfold chunkAt at h
  simp only [hcol] at h
  split
  · simp only [hci, if_false]
  · rename_i hsplit
    simp only [hsplit, if_false] at h
    split
    · rfl
    · rename_i hlt
      simp only [hlt, if_false] at h
      split at h
      · rename_i hnil
        rw [hnil]; rfl
      · cases h

theorem countedLength_of_chunkAt_some (f : Formatter) (row : TableRow) (i c : Int)
    (column cell : TableColumn) (hcol : row.GetColumn i = some column)
    (h : chunkAt f row i c = some cell) :
    countedLength f column i c = (cell.cell.value.length : Int) := by
  obtain ⟨column', hcol', hsep, hne, hic, _, hcell⟩ := chunkAt_some f row i c cell h
  rw [hcol] at hcol'
  have := Option.some.inj hcol'
  subst this
  unfold countedLength
  have h1 : ¬ (column.cell.separator = true ∨ f.strip column.cell.value = []) := by
    rw [hsep]; simp [hne]
  have h2 : ¬ c < i := by omega
  simp only [h1, if_false, h2, hcell]
  rfl

theorem unsplit_of_chunkAt_self_none (f : Formatter) (row : TableRow) (i : Int)
    (column : TableColumn) (hcol : row.GetColumn i = some column)
    (hk : 1 ≤ column.cell.colspan) (h : chunkAt f row i i = none) :
    column.cell.separator = true ∨ f.strip column.cell.value = [] := by
  by_contra hc
  have hsep : column.cell.separator = false := by
    cases hs : column.cell.separator
    · rfl
    · exact absurd (Or.inl hs) hc
  have := chunkAt_self f row i column hcol hk hsep (fun hn => hc (Or.inr hn))
  rw [h] at this
  cases this

/-- The pre-split of a row whose cells do not reach into one another: the
row becomes settled, and the undecorated length of the cell it then stores at
an index is the length the cells of the original row count with there. -/
theorem splitSpans_presplit (t : TableRender) (row0 : TableRow)
    (hspan : ∀ column ∈ row0.GetColumns, 1 ≤ column.cell.colspan)
    (hapart : ∀ i column, row0.GetColumn i = some column →
      ∀ p : Int, 1 ≤ p → p < column.cell.colspan → row0.GetColumn (i + p) = none)
    (hchunk : ∀ column ∈ row0.GetColumns, ∀ p : Nat, spanChunk t.formatter column p ≠ [] →
      t.formatter.strip (spanChunk t.formatter column p) = spanChunk t.formatter column p) :
    ∃ row', t.splitSpans row0 = .ok row' ∧ Settled t.formatter row'
      ∧ ∀ c, observedWidth t.formatter row' c = observedSpanWidth t.formatter row0 c := by
  obtain ⟨row', hsplit, hget⟩ := splitSpans_chunks t row0 hspan hapart
  refine ⟨row', hsplit, ?_, ?_⟩
  · intro j column' hj
    by_cases hex : ∃ i ∈ row0.GetColumnsSortedKeys, ∃ cell,
        chunkAt t.formatter row0 i j = some cell
    · obtain ⟨i, hi, cell, hc⟩ := hex
      have h1 := (hget j).1 i hi cell hc
      rw [hj] at h1
      have h2 := Option.some.inj h1
      subst h2
      obtain ⟨column, hcol, _, _, _, hne, hcell⟩ := chunkAt_some t.formatter row0 i j _ hc
      refine Or.inr (Or.inr ?_)
      rw [hcell]
      exact ⟨rfl, hchunk column (getColumn_mem row0 i column hcol) _ hne⟩
    · have hnone : ∀ i ∈ row0.GetColumnsSortedKeys, chunkAt t.formatter row0 i j = none := by
        intro i hi
        cases h : chunkAt t.formatter row0 i j with
        | none => rfl
        | some cell => exact absurd ⟨i, hi, cell, h⟩ hex
      have h1 := (hget j).2 hnone
      rw [hj] at h1
      have hkey := getColumn_sortedKey row0 j column' h1.symm
      rcases unsplit_of_chunkAt_self_none t.formatter row0 j column' h1.symm
          (hspan column' (getColumn_mem row0 j column' h1.symm)) (hnone j hkey) with h | h
      · exact Or.inl h
      · exact Or.inr (Or.inl h)
  · intro c
    unfold observedSpanWidth
    by_cases hex : ∃ i ∈ row0.GetColumnsSortedKeys, ∃ cell,
        chunkAt t.formatter row0 i c = some cell
    · obtain ⟨i0, hi0, cell, hc⟩ := hex
      have h1 := (hget c).1 i0 hi0 cell hc
      obtain ⟨column0, hcol0, _, _, _, hne0, hcell⟩ := chunkAt_some t.formatter row0 i0 c _ hc
      have hobs : observedWidth t.formatter row' c = (cell.cell.value.length : Int) := by
        unfold observedWidth StrlenWithoutDecoration
        rw [h1]
        simp only []
        rw [hcell]
        show ((t.formatter.strip (spanChunk t.formatter column0 (c - i0).toNat)).length : Int) = _
        rw [hchunk column0 (getColumn_mem row0 i0 column0 hcol0) _ hne0]
        rfl
      rw [hobs]
      symm
      apply foldl_max_eq_of_mem _ _ (Int.ofNat_nonneg _)
      · intro x hx
        obtain ⟨i, hi, rfl⟩ := List.mem_map.mp hx
        obtain ⟨_, column, hcol⟩ := sortedKey_getColumn row0 i hi
        simp only [hcol]
        by_cases hii : i = i0
        · subst hii
          rw [countedLength_of_chunkAt_some t.formatter row0 i c column cell hcol hc]
        · have hn := chunkAt_unique t.formatter row0 hspan hapart i0 i c cell hc hii
          have hci : c ≠ i := by
            intro h
            subst h
            have := chunkAt_of_stored t.formatter row0 hspan hapart i0 c
              (fun h => hii h.symm) (by rw [hcol]; rfl)
            rw [this] at hc
            cases hc
          rw [countedLength_of_chunkAt_none t.formatter row0 i c column hcol hn hci]
          exact Int.ofNat_nonneg _
      · right
        refine List.mem_map.mpr ⟨i0, hi0, ?_⟩
        simp only [hcol0]
        exact countedLength_of_chunkAt_some t.formatter row0 i0 c column0 cell hcol0 hc
    · have hnone : ∀ i ∈ row0.GetColumnsSortedKeys, chunkAt t.formatter row0 i c = none := by
        intro i hi
        cases h : chunkAt t.formatter row0 i c with
        | none => rfl
        | some cell => exact absurd ⟨i, hi, cell, h⟩ hex
      have h1 := (hget c).2 hnone
      have hobs : observedWidth t.formatter row' c = observedWidth t.formatter row0 c := by
        unfold observedWidth
        rw [h1]
      rw [hobs]
      symm
      have hnn : 0 ≤ observedWidth t.formatter row0 c := by
        unfold observedWidth
        cases row0.GetColumn c with
        | none => exact le_refl _
        | some column => exact Int.ofNat_nonneg _
      apply foldl_max_eq_of_mem _ _ hnn
      · intro x hx
        obtain ⟨i, hi, rfl⟩ := List.mem_map.mp hx
        obtain ⟨_, column, hcol⟩ := sortedKey_getColumn row0 i hi
        simp only [hcol]
        by_cases hci : c = i
        · subst hci
          unfold observedWidth
          rw [hcol]
          simp only []
          unfold countedLength
          have := unsplit_of_chunkAt_self_none t.formatter row0 c column hcol
            (hspan column (getColumn_mem row0 c column hcol)) (hnone c hi)
          simp only [this, if_true, le_refl]
        · rw [countedLength_of_chunkAt_none t.formatter row0 i c column hcol (hnone i hi) hci]
          exact hnn
      · cases hcol : row0.GetColumn c with
        | none => left; unfold observedWidth; rw [hcol]
        | some column =>
            right
            have hkey := getColumn_sortedKey row0 c column hcol
            refine List.mem_map.mpr ⟨c, hkey, ?_⟩
            simp only [hcol]
            unfold observedWidth
            rw [hcol]
            simp only []
            unfold countedLength
            have := unsplit_of_chunkAt_self_none t.formatter row0 c column hcol
              (hspan column (getColumn_mem row0 c column hcol)) (hnone c hkey)
            simp only [this, if_true]

theorem observedSpanWidth_nonneg (f : Formatter) (row : TableRow) (c : Int) :
    0 ≤ observedSpanWidth f row c := by
  unfold observedSpanWidth
  exact foldl_max_ge_init _ 0

theorem measureRow_agree (s : TableRender) (data0 : TableData) (c : Int) (pre : List Int)
    (rowKey : Int) (acc : TableData × List Int)
    (hspan : ∀ row ∈ data0.rows, ∀ column ∈ row.GetColumns, 1 ≤ column.cell.colspan)
    (hapart : ∀ row ∈ data0.rows, ∀ i column, row.GetColumn i = some column →
      ∀ p : Int, 1 ≤ p → p < column.cell.colspan → row.GetColumn (i + p) = none)
    (hchunk : ∀ row ∈ data0.rows, ∀ column ∈ row.GetColumns, ∀ p : Nat,
      spanChunk s.formatter column p ≠ [] →
      s.formatter.strip (spanChunk s.formatter column p) = spanChunk s.formatter column p)
    (hkey : rowKey ∈ (List.range data0.rows.length).map Int.ofNat)
    (h : (acc.1.rows.length = data0.rows.length
        ∧ ∀ (k : Nat) (row row0 : TableRow), acc.1.rows.get? k = some row →
            data0.rows.get? k = some row0 →
            row = row0 ∨ (Settled s.formatter row ∧ ∀ c', observedWidth s.formatter row c'
              = observedSpanWidth s.formatter row0 c'))
      ∧ acc.2 = pre.map (fun key =>
          max (match data0.GetRow key with
                | some row0 => observedSpanWidth s.formatter row0 c
                | none => 0) (s.GetColumnMinWidth c))) :
    ∃ acc', TableRender.measureRow s c acc rowKey = .ok acc'
      ∧ ((acc'.1.rows.length = data0.rows.length
        ∧ ∀ (k : Nat) (row row0 : TableRow), acc'.1.rows.get? k = some row →
            data0.rows.get? k = some row0 →
            row = row0 ∨ (Settled s.formatter row ∧ ∀ c', observedWidth s.formatter row c'
              = observedSpanWidth s.formatter row0 c'))
      ∧ acc'.2 = (pre ++ [rowKey]).map (fun key =>
          max (match data0.GetRow key with
                | some row0 => observedSpanWidth s.formatter row0 c
                | none => 0) (s.GetColumnMinWidth c))) := by
  obtain ⟨⟨hlen, hagree⟩, hlens⟩ := h
  obtain ⟨k, hk, rfl⟩ := List.mem_map.mp hkey
  rw [List.mem_range] at hk
  have hlt : k < acc.1.rows.length := by omega
  have hget : acc.1.rows.get? k = some acc.1.rows[k] := by
    rw [List.get?_eq_getElem?, List.getElem?_eq_getElem hlt]
  have hget0 : data0.rows.get? k = some data0.rows[k] := by
    rw [List.get?_eq_getElem?, List.getElem?_eq_getElem hk]
  have hmem0 : data0.rows[k] ∈ data0.rows := List.getElem_mem _
  obtain ⟨row', hsplit, hun', hobs'⟩ : ∃ row', s.splitSpans acc.1.rows[k] = .ok row'
      ∧ Settled s.formatter row'
      ∧ ∀ c', observedWidth s.formatter row' c'
          = observedSpanWidth s.formatter data0.rows[k] c' := by
    rcases hagree k _ _ hget hget0 with heq | ⟨hset, hobs⟩
    · rw [heq]
      exact splitSpans_presplit s data0.rows[k] (hspan _ hmem0) (hapart _ hmem0)
        (hchunk _ hmem0)
    · obtain ⟨row', h1, h2, h3⟩ := splitSpans_settled s acc.1.rows[k] hset
      exact ⟨row', h1, h2, fun c' => by rw [h3 c', hobs c']⟩
  unfold TableRender.measureRow
  rw [getRow_natCast, hget]
  simp only [hsplit]
  refine ⟨_, rfl, ⟨?_, ?_⟩, ?_⟩
  · rw [setRow_natCast]; simp [hlen]
  · intro j row row0 hj hj0
    rw [setRow_natCast] at hj
    simp only [List.get?_eq_getElem?] at hj hj0
    rw [List.getElem?_set] at hj
    by_cases hkj : k = j
    · subst hkj
      simp only [if_true, hlt] at hj
      have h1 : row = row' := (Option.some.inj hj).symm
      have h2 : row0 = data0.rows[k] := by
        rw [List.getElem?_eq_getElem hk] at hj0
        exact (Option.some.inj hj0).symm
      subst h1 h2
      exact Or.inr ⟨hun', hobs'⟩
    · simp only [hkj, if_false] at hj
      exact hagree j row row0 (by rw [List.get?_eq_getElem?]; exact hj)
        (by rw [List.get?_eq_getElem?]; exact hj0)
  · simp only [List.map_append, List.map_cons, List.map_nil, hlens]
    congr 2
    rw [getRow_natCast, hget0, getCellWidth_eq_max, hobs' c]

theorem measureColumn_agree (t : TableRender) (data0 : TableData) (hrows : data0.rows ≠ [])
    (hspan : ∀ row ∈ data0.rows, ∀ column ∈ row.GetColumns, 1 ≤ column.cell.colspan)
    (hapart : ∀ row ∈ data0.rows, ∀ i column, row.GetColumn i = some column →
      ∀ p : Int, 1 ≤ p → p < column.cell.colspan → row.GetColumn (i + p) = none)
    (hchunk : ∀ row ∈ data0.rows, ∀ column ∈ row.GetColumns, ∀ p : Nat,
      spanChunk t.formatter column p ≠ [] →
      t.formatter.strip (spanChunk t.formatter column p) = spanChunk t.formatter column p)
    (pre : List Int) (c : Int)
    (hfit : max (MaxInt (data0.rows.map (fun row => observedSpanWidth t.formatter row c)))
        (t.GetColumnMinWidth c) + ((t.style.cellRowContentFormat.length : Int) - 2)
      < 9223372036854775808)
    (state : TableRender × TableData)
    (h : (state.2.rows.length = data0.rows.length
        ∧ ∀ (k : Nat) (row row0 : TableRow), state.2.rows.get? k = some row →
            data0.rows.get? k = some row0 →
            row = row0 ∨ (Settled t.formatter row ∧ ∀ c', observedWidth t.formatter row c'
              = observedSpanWidth t.formatter row0 c'))
      ∧ state.1.columnsMinWidths = t.columnsMinWidths ∧ state.1.style = t.style
      ∧ state.1.formatter = t.formatter
      ∧ ∀ c' ∈ pre, state.1.getEffectiveColumnWidth c'
          = max (MaxInt (data0.rows.map (fun row => observedSpanWidth t.formatter row c')))
              (t.GetColumnMinWidth c') + ((t.style.cellRowContentFormat.length : Int) - 2)) :
    ∃ state', TableRender.measureColumn state c = .ok state'
      ∧ ((state'.2.rows.length = data0.rows.length
        ∧ ∀ (k : Nat) (row row0 : TableRow), state'.2.rows.get? k = some row →
            data0.rows.get? k = some row0 →
            row = row0 ∨ (Settled t.formatter row ∧ ∀ c', observedWidth t.formatter row c'
              = observedSpanWidth t.formatter row0 c'))
      ∧ state'.1.columnsMinWidths = t.columnsMinWidths ∧ state'.1.style = t.style
      ∧ state'.1.formatter = t.formatter
      ∧ ∀ c' ∈ pre ++ [c], state'.1.getEffectiveColumnWidth c'
          = max (MaxInt (data0.rows.map (fun row => observedSpanWidth t.formatter row c')))
              (t.GetColumnMinWidth c') + ((t.style.cellRowContentFormat.length : Int) - 2)) := by
  obtain ⟨hagree, hminw, hstyle, hfmt, hpre⟩ := h
  have hmin_eq : ∀ x, state.1.GetColumnMinWidth x = t.GetColumnMinWidth x := by
    intro x; unfold TableRender.GetColumnMinWidth; rw [hminw]
  have hkeys : state.2.GetRowsSortedKeys = data0.GetRowsSortedKeys := by
    unfold TableData.GetRowsSortedKeys; rw [hagree.1]
  obtain ⟨acc', hfold, hagree', hlens⟩ :=
    foldlM_invariant (TableRender.measureRow state.1 c)
      (fun pre acc => (acc.1.rows.length = data0.rows.length
        ∧ ∀ (k : Nat) (row row0 : TableRow), acc.1.rows.get? k = some row →
            data0.rows.get? k = some row0 →
            row = row0 ∨ (Settled state.1.formatter row
              ∧ ∀ c', observedWidth state.1.formatter row c'
                = observedSpanWidth state.1.formatter row0 c'))
        ∧ acc.2 = pre.map (fun key =>
          max (match data0.GetRow key with
                | some row0 => observedSpanWidth state.1.formatter row0 c
                | none => 0) (state.1.GetColumnMinWidth c)))
      state.2.GetRowsSortedKeys
      (fun pre a s ha hs => measureRow_agree state.1 data0 c pre a s hspan hapart
        (by rw [hfmt]; exact hchunk)
        (by rw [hkeys] at ha; exact ha) hs)
      [] (state.2, []) ⟨by rw [hfmt]; exact hagree, rfl⟩
  unfold TableRender.measureColumn
  rw [hfold]
  rw [hfmt] at hagree'
  refine ⟨_, rfl, hagree', hminw, hstyle, hfmt, ?_⟩
  have hmax : MaxInt acc'.2
      = max (MaxInt (data0.rows.map (fun row => observedSpanWidth t.formatter row c)))
          (t.GetColumnMinWidth c) := by
    rw [hlens, List.nil_append, hkeys, hfmt, hmin_eq]
    have := keys_map_rows data0 (fun o => max (match o with
      | some row0 => observedSpanWidth t.formatter row0 c
      | none => 0) (t.GetColumnMinWidth c))
    simp only [] at this
    rw [this]
    exact maxInt_map_max (fun row => observedSpanWidth t.formatter row c) _ _ hrows
  have hnn : 0 ≤ MaxInt (data0.rows.map (fun row => observedSpanWidth t.formatter row c)) :=
    maxInt_ge _ 0 (by simpa using hrows) (fun x hx => by
      obtain ⟨row, _, rfl⟩ := List.mem_map.mp hx
      exact observedSpanWidth_nonneg _ _ _)
  intro c' hc'
  simp only [TableRender.getEffectiveColumnWidth, TableRender.setEffectiveColumnWidth]
  rw [intMapGet_set]
  by_cases hcc : c' = c
  · subst hcc
    simp only [if_true]
    rw [hmax, hstyle, wrapInt_sub_two]
    have hle := le_max_left
      (MaxInt (data0.rows.map (fun row => observedSpanWidth t.formatter row c')))
      (t.GetColumnMinWidth c')
    rw [wrapInt_of_range _ (by omega) (by omega)]
    ring
  · simp only [hcc, if_false]
    rcases List.mem_append.mp hc' with hc' | hc'
    · exact hpre c' hc'
    · simp at hc'; exact absurd hc' hcc

/-- C11 (amended): on a table with at least one row, whose cells all have
colspan at least 1 and in whose rows no cell is stored within the span of
another (at one of the indices `i + 1 .. i + k - 1` of a cell of colspan `k`
stored at `i`), with a text service that leaves the chunks cut from
undecorated text unchanged when it strips them again, `calculateColumnsWidth`
returns, and then the effective width of every column index `c` in
`[0, numberOfColumns)` is `max(largest undecorated length observed at c in
any row, configured minimum width of c)` plus the length of the cell content
format minus 2, provided this value is below 2^63. The length observed at `c`
in a row is the one its cells count with there: a cell of undecorated length
`n >= 1` and colspan `k` stored at `i` that is no Separator counts at
`i + p` with the length of chunk `p` of the chunks of `ceil(n / k)` code
points of its text (with its whole length at `i` when `k = 1`), a Separator
or a cell without undecorated text at `i` with the length of its undecorated
text, and a row counting nothing at `c` has length 0 there. -/
theorem calculateColumnsWidth_effective_width (t : TableRender) (data : TableData)
    (hrows : data.rows ≠ [])
    (hspan : ∀ row ∈ data.rows, ∀ column ∈ row.GetColumns, 1 ≤ column.cell.colspan)
    (hapart : ∀ row ∈ data.rows, ∀ i column, row.GetColumn i = some column →
      ∀ p : Int, 1 ≤ p → p < column.cell.colspan → row.GetColumn (i + p) = none)
    (hchunk : ∀ row ∈ data.rows, ∀ column ∈ row.GetColumns, ∀ p : Nat,
      spanChunk t.formatter column p ≠ [] →
      t.formatter.strip (spanChunk t.formatter column p) = spanChunk t.formatter column p)
    (hfit : ∀ c, 0 ≤ c → c < t.numberOfColumns →
      max (MaxInt (data.rows.map (fun row => observedSpanWidth t.formatter row c)))
          (t.GetColumnMinWidth c)
        + ((t.style.cellRowContentFormat.length : Int) - 2) < 9223372036854775808) :
    ∃ t' data', t.calculateColumnsWidth data = .ok (t', data')
      ∧ ∀ c, 0 ≤ c → c < t.numberOfColumns →
          t'.getEffectiveColumnWidth c
            = max (MaxInt (data.rows.map (fun row => observedSpanWidth t.formatter row c)))
                (t.GetColumnMinWidth c)
              + ((t.style.cellRowContentFormat.length : Int) - 2) := by
  obtain ⟨s', hfold, _, _, _, _, hall⟩ :=
    foldlM_invariant TableRender.measureColumn
      (fun pre (state : TableRender × TableData) =>
        (state.2.rows.length = data.rows.length
          ∧ ∀ (k : Nat) (row row0 : TableRow), state.2.rows.get? k = some row →
              data.rows.get? k = some row0 →
              row = row0 ∨ (Settled t.formatter row ∧ ∀ c', observedWidth t.formatter row c'
                = observedSpanWidth t.formatter row0 c'))
        ∧ state.1.columnsMinWidths = t.columnsMinWidths ∧ state.1.style = t.style
        ∧ state.1.formatter = t.formatter
        ∧ ∀ c' ∈ pre, state.1.getEffectiveColumnWidth c'
            = max (MaxInt (data.rows.map (fun row => observedSpanWidth t.formatter row c')))
                (t.GetColumnMinWidth c') + ((t.style.cellRowContentFormat.length : Int) - 2))
      (RangeInt 0 (t.numberOfColumns - 1))
      (fun pre a s ha hs => measureColumn_agree t data hrows hspan hapart hchunk pre a
        (by
          have hr := (mem_rangeInt 0 (t.numberOfColumns - 1) a).mp ha
          exact hfit a hr.1 (by omega)) s hs)
      [] (t, data)
      ⟨⟨rfl, fun k row row0 hk hk0 => by
          rw [hk] at hk0
          exact Or.inl (Option.some.inj hk0)⟩,
        rfl, rfl, rfl, by simp⟩
  refine ⟨s'.1, s'.2, hfold, fun c hc0 hcn => ?_⟩
  exact hall c (by simpa using (mem_rangeInt 0 (t.numberOfColumns - 1) c).mpr ⟨hc0, by omega⟩)

/-- Witness of C11 (amended): the body rows `abcdef` (colspan 2) and `x`,
`yz` with minimum width 5 on column 0 under the ASCII style: the effective
widths are 7 and 5. -/
theorem calculateColumnsWidth_effective_width_witness :
    ∃ t' data', (constrainedRender asciiStyle 2 [(0, 5)]).calculateColumnsWidth
          { rows := [spanSixRow, rowOf [['x'], ['y', 'z']]] } = .ok (t', data')
      ∧ t'.getEffectiveColumnWidth 0 = 7 ∧ t'.getEffectiveColumnWidth 1 = 5
      ∧ ∀ c, 0 ≤ c → c < (constrainedRender asciiStyle 2 [(0, 5)]).numberOfColumns →
          t'.getEffectiveColumnWidth c
            = max (MaxInt (({ rows := [spanSixRow, rowOf [['x'], ['y', 'z']]] }
                    : TableData).rows.map
                  (fun row => observedSpanWidth
                    (constrainedRender asciiStyle 2 [(0, 5)]).formatter row c)))
                ((constrainedRender asciiStyle 2 [(0, 5)]).GetColumnMinWidth c)
              + (((constrainedRender asciiStyle 2 [(0, 5)]).style.cellRowContentFormat.length
                  : Int) - 2) :=
  have h := calculateColumnsWidth_effective_width (constrainedRender asciiStyle 2 [(0, 5)])
    { rows := [spanSixRow, rowOf [['x'], ['y', 'z']]] } (by decide) (by decide)
    (by
      intro row hrow i column hcol p h1 h2
      have hi := getColumn_eq_some row i column hcol
      simp only [List.mem_cons, List.mem_singleton, List.not_mem_nil, or_false] at hrow
      rcases hrow with rfl | rfl
      · have h3 : i.toNat < 1 := by
          by_contra hc
          have := hi.2
          rw [List.get?_eq_none.mpr (by simp [spanSixRow]; omega)] at this
          cases this
        have hi0 : i = 0 := by omega
        subst hi0
        have hc : column = NewTableColumn ((NewTableCell "abcdef".toList).SetColspan 2) := by
          have := hi.2
          simp [spanSixRow] at this
          exact this.symm
        subst hc
        have hp : p = 1 := by
          have : p < 2 := h2
          omega
        subst hp
        rfl
      · have h3 : i.toNat < 2 := by
          by_contra hc
          have := hi.2
          rw [List.get?_eq_none.mpr (by simp [rowOf]; omega)] at this
          cases this
        have hk : column.cell.colspan = 1 := by
          have h4 : i = 0 ∨ i = 1 := by omega
          have := hi.2
          rcases h4 with rfl | rfl
          · simp [rowOf] at this; rw [← this]; rfl
          · simp [rowOf] at this; rw [← this]; rfl
        omega)
    (fun _ _ _ _ _ _ => rfl)
    (by
      intro c h0 h1
      have h2 : c < 2 := h1
      have hc : c = 0 ∨ c = 1 := by omega
      rcases hc with rfl | rfl <;> decide)
  ⟨_, _, rfl, by decide, by decide, by
    obtain ⟨t', data', heq, hall⟩ := h
    have h1 : (constrainedRender asciiStyle 2 [(0, 5)]).calculateColumnsWidth
        { rows := [spanSixRow, rowOf [['x'], ['y', 'z']]] } = .ok (_, _) := rfl
    rw [h1] at heq
    injection heq with heq
    injection heq with ht hd
    subst ht
    exact hall⟩

/-- C11 as stated fails in five ways. (1) For one body row `ab`, no minimum
width and the ASCII style (cell content format ` %s `), the effective width
of column 0 is 4, while the largest undecorated cell length and the minimum
width give 2. (2) Under the bare cell content format `%s`, for one body row
holding `abcdef` with colspan 2, the cell occupying index 0 has 6 code
points, while the effective width of column 0 is 3, the length of its first
chunk. (3) For the row holding `abcdef` with colspan 2 at index 0 and
`uvwxyz` at index 1, the effective width of column 1 is 3: the second chunk
of the first cell has replaced the cell of 6 code points stored there. (4)
With a text service that removes the first code point, for one body row
`abc` the undecorated text has 2 code points, while the effective width of
column 0 is 1. (5) Under the ASCII style, with minimum width
9223372036854775807 on column 0 and one body row `a`, the sum the code
computes in a Go `int` wraps around and the effective width is
-9223372036854775807. -/
theorem calculateColumnsWidth_adds_format_width_counterexample :
    ((0 : Int) < (constrainedRender asciiStyle 1 []).numberOfColumns
      ∧ max (MaxInt ([rowOf [['a', 'b']]].map
            (fun row => observedWidth (constrainedRender asciiStyle 1 []).formatter row 0)))
          ((constrainedRender asciiStyle 1 []).GetColumnMinWidth 0) = 2
      ∧ ∃ t' data', (constrainedRender asciiStyle 1 []).calculateColumnsWidth
            { rows := [rowOf [['a', 'b']]] } = .ok (t', data')
          ∧ t'.getEffectiveColumnWidth 0 = 4)
    ∧ (observedWidth (constrainedRender bareStyle 2 []).formatter spanSixRow 0 = 6
      ∧ ∃ t' data', (constrainedRender bareStyle 2 []).calculateColumnsWidth
            { rows := [spanSixRow] } = .ok (t', data')
          ∧ t'.getEffectiveColumnWidth 0 = 3 ∧ t'.getEffectiveColumnWidth 1 = 3)
    ∧ (observedWidth (constrainedRender bareStyle 3 []).formatter overlapRow 1 = 6
      ∧ observedSpanWidth (constrainedRender bareStyle 3 []).formatter overlapRow 1 = 6
      ∧ ∃ t' data', (constrainedRender bareStyle 3 []).calculateColumnsWidth
            { rows := [overlapRow] } = .ok (t', data')
          ∧ t'.getEffectiveColumnWidth 1 = 3)
    ∧ (observedWidth dropFirstFormatter (rowOf [['a', 'b', 'c']]) 0 = 2
      ∧ ∃ t' data',
          ({ constrainedRender bareStyle 1 [] with formatter := dropFirstFormatter }
            : TableRender).calculateColumnsWidth { rows := [rowOf [['a', 'b', 'c']]] }
            = .ok (t', data')
          ∧ t'.getEffectiveColumnWidth 0 = 1)
    ∧ (∃ t' data',
          (constrainedRender asciiStyle 1 [(0, 9223372036854775807)]).calculateColumnsWidth
            { rows := [rowOf [['a']]] } = .ok (t', data')
          ∧ t'.GetColumnMinWidth 0 = 9223372036854775807
          ∧ t'.getEffectiveColumnWidth 0 = -9223372036854775807) :=
  ⟨⟨by decide, by decide, _, _, rfl, rfl⟩,
    ⟨by decide, _, _, rfl, by decide, by decide⟩,
    ⟨by decide, by decide, _, _, rfl, by decide⟩,
    ⟨by decide, _, _, rfl, by decide⟩,
    ⟨_, _, rfl, by decide, by decide⟩⟩

/-- C21 fails in the code: `fillCells` re-adds the columns of the row of first
lines at the indices 0, 1, 2, ..., while the further lines are stored at the
index of their cell. For the row with a gap at index 0 and the cell `a\nb` at
index 1, of rowspan 1, the first row `buildTableRows` returns holds the first
line at index 0 and nothing at index 1, and the synthetic row holds the
second line at index 1. Under the header `h`, `k` the two lines of the cell
are written in different columns; without header the table has one column
and the second line is not written at all. -/
theorem buildTableRows_reindexes_first_line :
    ((∀ column ∈ sparseTwoLineRow.GetColumns, column.cell.rowspan = 1)
      ∧ sparseTwoLineRow.GetColumn 0 = none
      ∧ ∃ data' first second,
          (renderOf asciiStyle (tableOf [] [])).buildTableRows { rows := [sparseTwoLineRow] }
              = .ok (data', { rows := [first, second] })
            ∧ first.GetColumn 0
                = some (NewTableColumn (NewTableCell "a<fg=default;bg=default>".toList))
            ∧ first.GetColumn 1 = none
            ∧ second.GetColumn 0 = none
            ∧ second.GetColumn 1 = some (NewTableColumn (NewTableCell "</>b".toList)))
      ∧ (∃ t', headedSparseTwoLineRender.Render 2 = .ok t'
          ∧ t'.output = ["+---+---+".toList, "| h | k |".toList, "+---+---+".toList,
              "| a<fg=default;bg=default> |   |".toList, "|   | </>b |".toList,
              "+---+---+".toList])
      ∧ ∃ t', sparseTwoLineRender.Render 1 = .ok t'
          ∧ t'.output = ["+--+".toList, "| a<fg=default;bg=default> |".toList, "|  |".toList,
              "+--+".toList] :=
  ⟨⟨by decide, rfl, _, _, _, rfl, rfl, rfl, rfl, rfl⟩, ⟨_, rfl, rfl⟩, ⟨_, rfl, rfl⟩⟩

/-- C3 fails in the code: `Render` measures the column widths on the merged
source rows, not on the rows `buildTableRows` returns, so the synthetic rows
of the further lines of a cell are never measured. For a body of the single
cell `a\nbbbbbb` under the ASCII style, with a text service that strips the
markers, the layout gives one column of effective width 3, so a line width
of 5, and the four lines `Render` writes have 5, 5, 10 and 5 undecorated code
points. Nor is a title cut to the border line: for a header row `a` under
the header title `Tabl` the line width is 5 and the title line written has 6
code points. -/
theorem Render_synthetic_row_overflows :
    ((∃ s, layoutStage longSecondLineRender = .ok s
        ∧ s.1.numberOfColumns = 1 ∧ s.1.getEffectiveColumnWidth 0 = 3 ∧ lineWidth s.1 = 5)
      ∧ ∃ t', longSecondLineRender.Render 1 = .ok t'
        ∧ t'.output = ["+---+".toList, "| a<fg=default;bg=default> |".toList,
            "| </>bbbbbb |".toList, "+---+".toList]
        ∧ t'.output.map (fun line => (markerFormatter.strip line).length) = [5, 5, 10, 5])
    ∧ ((∃ s, layoutStage (renderOf asciiStyle longTitleTable) = .ok s ∧ lineWidth s.1 = 5)
      ∧ ∃ t', (renderOf asciiStyle longTitleTable).Render 1 = .ok t'
        ∧ t'.output = [" Tabl ".toList, "| a |".toList, "+---+".toList]
        ∧ t'.output.map (fun line => line.length) = [6, 5, 5]) :=
  ⟨⟨⟨_, rfl, rfl, by decide, by decide⟩, _, rfl, rfl, by decide⟩,
    ⟨⟨_, rfl, by decide⟩, _, rfl, rfl, by decide⟩⟩

/-- C14: with a positive column count, a non-empty horizontal character for
the direction and non-negative effective widths, `getRowSeparator(direction)`
is the border format applied to the direction's left crossing glyph followed,
for each column in turn, by the horizontal character repeated over the
column's effective width and then the direction's mid crossing glyph, or its
right crossing glyph after the last column. The glyphs are the fields of the
style: top-left, top-mid and top-right for top; bottom-left, bottom-mid and
bottom-right for bottom; mid-left, the plain crossing and mid-right for
simple; top-left-bottom, top-mid-bottom and top-right-bottom for double. The
horizontal character is the outside one for top, bottom and double and the
inside one for simple. -/
theorem getRowSeparator_builds_border_line (t : TableRender)
    (hn : 0 < t.numberOfColumns)
    (hw : ∀ c, 0 ≤ c → c < t.numberOfColumns → 0 ≤ t.getEffectiveColumnWidth c) :
    (t.style.horizontalOutsideBorderChar ≠ [] →
        t.getRowSeparator rowType.rowTop
          = .ok (Sprintf t.style.borderFormat
              (t.style.crossingTopLeftChar
                ++ ((List.range t.numberOfColumns.toNat).map (fun (c : Nat) =>
                      (List.replicate (t.getEffectiveColumnWidth (c : Int)).toNat
                          t.style.horizontalOutsideBorderChar).flatten
                        ++ (if (c : Int) < t.numberOfColumns - 1 then t.style.crossingTopMidChar
                            else t.style.crossingTopRightChar))).flatten)))
      ∧ (t.style.horizontalOutsideBorderChar ≠ [] →
        t.getRowSeparator rowType.rowBottom
          = .ok (Sprintf t.style.borderFormat
              (t.style.crossingBottomLeftChar
                ++ ((List.range t.numberOfColumns.toNat).map (fun (c : Nat) =>
                      (List.replicate (t.getEffectiveColumnWidth (c : Int)).toNat
                          t.style.horizontalOutsideBorderChar).flatten
                        ++ (if (c : Int) < t.numberOfColumns - 1 then t.style.crossingBottomMidChar
                            else t.style.crossingBottomRightChar))).flatten)))
      ∧ (t.style.horizontalInsideBorderChar ≠ [] →
        t.getRowSeparator rowType.rowSimple
          = .ok (Sprintf t.style.borderFormat
              (t.style.crossingMidLeftChar
                ++ ((List.range t.numberOfColumns.toNat).map (fun (c : Nat) =>
                      (List.replicate (t.getEffectiveColumnWidth (c : Int)).toNat
                          t.style.horizontalInsideBorderChar).flatten
                        ++ (if (c : Int) < t.numberOfColumns - 1 then t.style.crossingChar
                            else t.style.crossingMidRightChar))).flatten)))
      ∧ (t.style.horizontalOutsideBorderChar ≠ [] →
        t.getRowSeparator rowType.rowDouble
          = .ok (Sprintf t.style.borderFormat
              (t.style.crossingTopLeftBottomChar
                ++ ((List.range t.numberOfColumns.toNat).map (fun (c : Nat) =>
                      (List.replicate (t.getEffectiveColumnWidth (c : Int)).toNat
                          t.style.horizontalOutsideBorderChar).flatten
                        ++ (if (c : Int) < t.numberOfColumns - 1 then t.style.crossingTopMidBottomChar
                            else t.style.crossingTopRightBottomChar))).flatten))) :=
  ⟨fun hh => getRowSeparator_eq_glyphs t rowType.rowTop hn hh hw,
    fun hh => getRowSeparator_eq_glyphs t rowType.rowBottom hn hh hw,
    fun hh => getRowSeparator_eq_glyphs t rowType.rowSimple hn hh hw,
    fun hh => getRowSeparator_eq_glyphs t rowType.rowDouble hn hh hw⟩

/-- Witness of C14: two columns of widths 3 and 4 under a style whose glyphs
are pairwise different give the four border lines `a===b====c`,
`g===f====e`, `h---+----d` and `i===j====k`. -/
theorem getRowSeparator_builds_border_line_witness :
    (styledRender glyphStyle 2 [(0, 3), (1, 4)]).getRowSeparator rowType.rowTop
        = .ok "a===b====c".toList
      ∧ (styledRender glyphStyle 2 [(0, 3), (1, 4)]).getRowSeparator rowType.rowBottom
        = .ok "g===f====e".toList
      ∧ (styledRender glyphStyle 2 [(0, 3), (1, 4)]).getRowSeparator rowType.rowSimple
        = .ok "h---+----d".toList
      ∧ (styledRender glyphStyle 2 [(0, 3), (1, 4)]).getRowSeparator rowType.rowDouble
        = .ok "i===j====k".toList :=
  have h := getRowSeparator_builds_border_line (styledRender glyphStyle 2 [(0, 3), (1, 4)])
    (by decide)
    (fun c hc0 hc2 => by
      have hn : (styledRender glyphStyle 2 [(0, 3), (1, 4)]).numberOfColumns = 2 := rfl
      have hc : c = 0 ∨ c = 1 := by omega
      rcases hc with rfl | rfl <;> decide)
  ⟨(h.1 (by decide)).trans rfl, (h.2.1 (by decide)).trans rfl,
    (h.2.2.1 (by decide)).trans rfl, (h.2.2.2 (by decide)).trans rfl⟩

theorem woven_refl (marks : Str → Prop) : ∀ raw : Str, Woven marks raw raw
  | [] => Woven.nil
  | c :: rest => Woven.char c (woven_refl marks rest)

theorem woven_append (marks : Str → Prop) {a b c d : Str}
    (h1 : Woven marks a b) (h2 : Woven marks c d) : Woven marks (a ++ c) (b ++ d) := by
  induction h1 with
  | nil => exact h2
  | char x _ ih => exact Woven.char x ih
  | mark m hm _ ih =>
      rw [List.append_assoc]
      exact Woven.mark m hm ih

theorem woven_mark (marks : Str → Prop) (m : Str) (hm : marks m) : Woven marks [] m := by
  have := Woven.mark m hm (Woven.nil : Woven marks [] [])
  rwa [List.append_nil] at this

theorem woven_marks (marks : Str → Prop) :
    ∀ ms : List Str, (∀ m ∈ ms, marks m) → Woven marks [] ms.flatten
  | [], _ => Woven.nil
  | m :: rest, h => by
      rw [List.flatten_cons]
      exact Woven.mark m (h m (List.mem_cons_self _ _))
        (woven_marks marks rest (fun x hx => h x (List.mem_cons_of_mem _ hx)))

theorem woven_no_newline (marks : Str → Prop) (hm : ∀ m, marks m → '\n' ∉ m) {raw out : Str}
    (h : Woven marks raw out) (hraw : '\n' ∉ raw) : '\n' ∉ out := by
  induction h with
  | nil => simp
  | char x _ ih =>
      simp only [List.mem_cons, not_or] at hraw ⊢
      exact ⟨hraw.1, ih hraw.2⟩
  | mark m hmm _ ih =>
      simp only [List.mem_append, not_or]
      exact ⟨hm m hmm, ih hraw⟩

/-- The markers `flushTags` emits are leading markers of the list, the ones
it leaves are the rest. -/
theorem flushTags_spec : ∀ (tags : List (Nat × Str)) (pos : Nat),
    ∃ emitted : List (Nat × Str),
      tags = emitted ++ (flushTags tags pos).2.1
        ∧ (flushTags tags pos).1 = (emitted.map Prod.snd).flatten
  | [], pos => ⟨[], rfl, rfl⟩
  | (p, tag) :: tags, pos => by
      unfold flushTags
      by_cases h : p ≤ pos
      · simp only [h, if_true]
        obtain ⟨emitted, h1, h2⟩ := flushTags_spec tags (pos + tag.length)
        refine ⟨(p, tag) :: emitted, ?_, ?_⟩
        · simp only [List.cons_append]; rw [← h1]
        · simp only [List.map_cons, List.flatten_cons]; rw [← h2]
      · simp only [h, if_false]
        exact ⟨[], rfl, rfl⟩

/-- Walking one line of the wrapped text: the markers are woven into the
line, and the walk goes on with the markers left. -/
theorem insertTagsAux_line (marks : Str → Prop) :
    ∀ (w : Str), '\n' ∉ w → ∀ (tags : List (Nat × Str)) (pos : Nat),
      (∀ tag ∈ tags, marks tag.2) →
      ∃ (D : Str) (tags' : List (Nat × Str)) (pos' : Nat),
        (∀ rest, insertTagsAux (w ++ rest) tags pos = D ++ insertTagsAux rest tags' pos')
          ∧ Woven marks w D ∧ (∀ tag ∈ tags', marks tag.2)
  | [], _, tags, pos, ht => ⟨[], tags, pos, fun _ => rfl, Woven.nil, ht⟩
  | c :: w, hw, tags, pos, ht => by
      simp only [List.mem_cons, not_or] at hw
      have hc : ¬ c = '\n' := fun h => hw.1 h.symm
      obtain ⟨emitted, h1, h2⟩ := flushTags_spec tags pos
      have hleft : ∀ tag ∈ (flushTags tags pos).2.1, marks tag.2 := by
        intro tag htag
        apply ht
        rw [h1]
        exact List.mem_append_right _ htag
      have hem : ∀ m ∈ emitted.map Prod.snd, marks m := by
        intro m hm
        obtain ⟨tag, htag, rfl⟩ := List.mem_map.mp hm
        apply ht
        rw [h1]
        exact List.mem_append_left _ htag
      obtain ⟨D, tags', pos', hD, hwov, ht'⟩ :=
        insertTagsAux_line marks w hw.2 (flushTags tags pos).2.1 ((flushTags tags pos).2.2 + 1) hleft
      refine ⟨(flushTags tags pos).1 ++ c :: D, tags', pos', ?_, ?_, ht'⟩
      · intro rest
        simp only [List.cons_append, insertTagsAux, hc, if_false, List.append_eq]
        rw [hD rest]
        simp
      · rw [h2]
        have := woven_append marks (woven_marks marks _ hem) (Woven.char c hwov)
        simpa using this

theorem intercalate_cons_cons (sep x y : Str) (l : List Str) :
    sep.intercalate (x :: y :: l) = x ++ sep ++ sep.intercalate (y :: l) := by
  simp [List.intercalate, List.intersperse]

theorem intercalate_singleton (sep x : Str) : sep.intercalate [x] = x := by
  simp [List.intercalate, List.intersperse]

/-- Walking the wrapped text: every line gets the markers woven in, the
markers left at the end follow the last line. -/
theorem insertTagsAux_intercalate (marks : Str → Prop) :
    ∀ (segments : List Str), segments ≠ [] → (∀ x ∈ segments, '\n' ∉ x) →
      ∀ (tags : List (Nat × Str)) (pos : Nat), (∀ tag ∈ tags, marks tag.2) →
      ∃ woven : List Str,
        insertTagsAux (['\n'].intercalate segments) tags pos = ['\n'].intercalate woven
          ∧ List.Forall₂ (Woven marks) segments woven
  | [], h, _, _, _, _ => absurd rfl h
  | [s], _, hs, tags, pos, ht => by
      obtain ⟨D, tags', pos', hD, hwov, ht'⟩ :=
        insertTagsAux_line marks s (hs s (by simp)) tags pos ht
      refine ⟨[D ++ (tags'.map Prod.snd).flatten], ?_, ?_⟩
      · rw [intercalate_singleton, intercalate_singleton]
        have := hD []
        rw [List.append_nil] at this
        rw [this]
        rfl
      · refine List.Forall₂.cons ?_ List.Forall₂.nil
        have := woven_append marks hwov (woven_marks marks (tags'.map Prod.snd) (fun m hm => by
          obtain ⟨tag, htag, rfl⟩ := List.mem_map.mp hm
          exact ht' tag htag))
        rwa [List.append_nil] at this
  | s :: next :: rest, _, hs, tags, pos, ht => by
      obtain ⟨D, tags', pos', hD, hwov, ht'⟩ :=
        insertTagsAux_line marks s (hs s (by simp)) tags pos ht
      obtain ⟨woven, heq, hall⟩ := insertTagsAux_intercalate marks (next :: rest) (by simp)
        (fun x hx => hs x (List.mem_cons_of_mem _ hx)) tags' pos' ht'
      have hne : woven ≠ [] := by
        intro h; rw [h] at hall; cases hall
      obtain ⟨w0, wrest, rfl⟩ := List.exists_cons_of_ne_nil hne
      refine ⟨D :: w0 :: wrest, ?_, List.Forall₂.cons hwov hall⟩
      rw [intercalate_cons_cons, intercalate_cons_cons, List.append_assoc, hD]
      simp only [List.singleton_append, insertTagsAux, if_true, List.append_eq, List.nil_append]
      rw [heq]
      simp

theorem markSegments_woven (marks : Str → Prop) (hclose : marks closeMarkup)
    (hopen : marks reopenMarkup) :
    ∀ (first : Bool) (segments woven : List Str), List.Forall₂ (Woven marks) segments woven →
      List.Forall₂ (Woven marks) segments (markSegments first woven)
  | _, [], [], _ => by simp [markSegments]
  | first, [s], [w], h => by
      cases h with
      | cons h1 _ =>
        simp only [markSegments]
        refine List.Forall₂.cons ?_ List.Forall₂.nil
        cases first
        · have := woven_append marks (woven_mark marks _ hopen) h1
          simpa using this
        · simpa using h1
  | first, s :: s2 :: srest, [w], h => by
      cases h with
      | cons _ h2 => cases h2
  | first, [s], w :: w2 :: wrest, h => by
      cases h with
      | cons _ h2 => cases h2
  | first, s :: s2 :: srest, w :: w2 :: wrest, h => by
      cases h with
      | cons h1 h2 =>
        simp only [markSegments]
        refine List.Forall₂.cons ?_ (markSegments_woven marks hclose hopen false _ _ h2)
        have h3 := woven_append marks h1 (woven_mark marks _ hclose)
        rw [List.append_nil] at h3
        cases first
        · have := woven_append marks (woven_mark marks _ hopen) h3
          simpa using this
        · simpa using h3
  | _, [], _ :: _, h => by cases h
  | _, _ :: _, [], h => by cases h

theorem forall₂_woven_no_newline (marks : Str → Prop) (hm : ∀ m, marks m → '\n' ∉ m)
    {segments woven : List Str} (h : List.Forall₂ (Woven marks) segments woven)
    (hs : ∀ x ∈ segments, '\n' ∉ x) : ∀ x ∈ woven, '\n' ∉ x := by
  induction h with
  | nil => simp
  | cons h1 _ ih =>
      intro x hx
      rcases List.mem_cons.mp hx with rfl | hx
      · exact woven_no_newline marks hm h1 (hs _ (List.mem_cons_self _ _))
      · exact ih (fun y hy => hs y (List.mem_cons_of_mem _ hy)) x hx

theorem forall₂_strip (f : Formatter) (marks : Str → Prop) (raw : Str)
    (hweave : ∀ piece out, piece <:+: raw → Woven marks piece out → f.strip out = piece)
    {segments lines : List Str} (h : List.Forall₂ (Woven marks) segments lines)
    (hs : ∀ x ∈ segments, x <:+: raw) : lines.map f.strip = segments := by
  induction h with
  | nil => rfl
  | cons h1 _ ih =>
      simp only [List.map_cons]
      rw [hweave _ _ (hs _ (List.mem_cons_self _ _)) h1,
        ih (fun y hy => hs y (List.mem_cons_of_mem _ hy))]

theorem forall₂_woven_refl (marks : Str → Prop) :
    ∀ segments : List Str, List.Forall₂ (Woven marks) segments segments
  | [] => List.Forall₂.nil
  | s :: rest => List.Forall₂.cons (woven_refl marks s) (forall₂_woven_refl marks rest)

theorem newline_mem_intercalate (x y : Str) (l : List Str) :
    '\n' ∈ ['\n'].intercalate (x :: y :: l) := by
  rw [intercalate_cons_cons]
  simp

/-- The wrapped value of a cell longer than the maximum width of its column,
cut into lines: the lines are the segments of the wrap with markers woven in,
so a text service that removes woven markers strips each line to its segment. -/
theorem wrapCell_lines (t : TableRender) (cell : TableCell) (c : Int)
    (hk : cell.colspan = 1) (hW : 0 < t.GetColumnMaxWidth c)
    (hlong : t.GetColumnMaxWidth c < ((t.formatter.strip cell.value).length : Int))
    (hraw : '\n' ∉ t.formatter.strip cell.value)
    (htags : ∀ tag ∈ t.formatter.findTags cell.value, '\n' ∉ tag.2)
    (hweave : ∀ piece out, piece <:+: t.formatter.strip cell.value →
      Woven (lineMarks t.formatter cell.value) piece out → t.formatter.strip out = piece) :
    ∃ segments : List Str,
      segments.flatten = t.formatter.strip cell.value
        ∧ (∀ x ∈ segments, (x.length : Int) ≤ t.GetColumnMaxWidth c)
        ∧ 2 ≤ segments.length
        ∧ (TableRender.cellLines (TableRender.wrapCell t cell c).value).map t.formatter.strip
            = segments
        ∧ '\n' ∈ (TableRender.wrapCell t cell c).value := by
  obtain ⟨segments, hne, heq, hflat, hlen⟩ :=
    insertNth_segments (t.formatter.strip cell.value) (t.GetColumnMaxWidth c) hW
  have hsegnl : ∀ x ∈ segments, '\n' ∉ x := by
    intro x hx hnx
    apply hraw
    rw [← hflat]
    exact List.mem_flatten.mpr ⟨x, hx, hnx⟩
  have hpart : ∀ x ∈ segments, x <:+: t.formatter.strip cell.value := by
    intro x hx
    rw [← hflat]
    exact List.infix_of_mem_flatten hx
  have htwo : 2 ≤ segments.length := by
    by_contra hc
    cases segments with
    | nil => exact hne rfl
    | cons x rest =>
        cases rest with
        | nil =>
            have h1 := hlen x (by simp)
            simp only [List.flatten_cons, List.flatten_nil, List.append_nil] at hflat
            rw [hflat] at h1
            omega
        | cons y rest' => simp at hc
  have hmarks : ∀ m, lineMarks t.formatter cell.value m → '\n' ∉ m := by
    intro m hm
    rcases hm with rfl | rfl | hm
    · decide
    · decide
    · obtain ⟨tag, htag, rfl⟩ := List.mem_map.mp hm
      exact htags tag htag
  have hthr : TableRender.wrapThreshold t cell c = t.GetColumnMaxWidth c := by
    unfold TableRender.wrapThreshold
    have : ¬ cell.colspan > 1 := by omega
    simp [this]
  obtain ⟨woven, hval, hall⟩ : ∃ woven : List Str,
      (TableRender.wrapCell t cell c).value = ['\n'].intercalate woven
        ∧ List.Forall₂ (Woven (lineMarks t.formatter cell.value)) segments woven := by
    by_cases hplain : cell.value = t.formatter.strip cell.value
    · refine ⟨segments, ?_, forall₂_woven_refl _ segments⟩
      unfold TableRender.wrapCell
      have hb : (cell.value == t.formatter.strip cell.value) = true := by
        rw [beq_iff_eq]; exact hplain
      simp only [hW, gt_iff_lt, if_true, hthr, hlong, hb, TableCell.SetValue, heq]
    · obtain ⟨woven, h1, h2⟩ := insertTagsAux_intercalate (lineMarks t.formatter cell.value)
        segments hne hsegnl (t.formatter.findTags cell.value) 0
        (fun tag htag => Or.inr (Or.inr (List.mem_map.mpr ⟨tag, htag, rfl⟩)))
      refine ⟨woven, ?_, h2⟩
      unfold TableRender.wrapCell
      have hb : (cell.value == t.formatter.strip cell.value) = false := by
        rw [beq_eq_false_iff_ne]; exact hplain
      simp only [hW, gt_iff_lt, if_true, hthr, hlong, hb, TableCell.SetValue, heq,
        Bool.false_eq_true, if_false, InsertTagsIgnoringNewLines, h1]
  have hwne : woven ≠ [] := by
    intro h; rw [h] at hall
    cases hall
    exact hne rfl
  have hwnl := forall₂_woven_no_newline _ hmarks hall hsegnl
  refine ⟨segments, hflat, hlen, htwo, ?_, ?_⟩
  · rw [hval, cellLines_intercalate woven hwnl hwne]
    exact forall₂_strip t.formatter _ _ hweave
      (markSegments_woven _ (Or.inl rfl) (Or.inr (Or.inl rfl)) true _ _ hall) hpart
  · rw [hval]
    have hlen2 := List.Forall₂.length_eq hall
    cases woven with
    | nil => exact absurd rfl hwne
    | cons x rest =>
        cases rest with
        | nil => simp at hlen2; omega
        | cons y rest' => exact newline_mem_intercalate x y rest'

theorem foldl_max_nat_ge_init : ∀ (l : List Nat) (a : Nat), a ≤ l.foldl max a
  | [], a => le_refl a
  | x :: l, a => le_trans (le_max_left a x) (foldl_max_nat_ge_init l (max a x))

theorem foldl_max_nat_ge_mem : ∀ (l : List Nat) (a : Nat), ∀ x ∈ l, x ≤ l.foldl max a
  | [], _, x, h => by cases h
  | y :: l, a, x, h => by
      rcases List.mem_cons.mp h with rfl | h
      · exact le_trans (le_max_right a x) (foldl_max_nat_ge_init l (max a x))
      · exact foldl_max_nat_ge_mem l (max a y) x h

theorem lineCount_ge (t : TableRender) (row : TableRow) (c : Int) (column : TableColumn)
    (hcol : row.GetColumn c = some column) :
    (splitLines (TableRender.wrapCell t column.cell c).value).length
      ≤ TableRender.lineCount t row := by
  obtain ⟨h0, hget⟩ := getColumn_eq_some row c column hcol
  unfold TableRender.lineCount
  apply foldl_max_nat_ge_mem
  rw [List.mem_filterMap]
  refine ⟨(c.toNat, some column), ?_, ?_⟩
  · rw [List.mk_mem_enum_iff_getElem?, ← List.get?_eq_getElem?]
    exact hget
  · have : ((c.toNat : Nat) : Int) = c := by omega
    simp only [Option.map_some', this]

/-- C7 (amended): for a table whose cells have rowspan at most 1, and a
colspan-1 cell of it in a column with configured maximum width `W > 0` whose
undecorated content is longer than `W` and holds no line break, with a text
service whose markers hold no line break and which strips a piece of that
content with markers woven in (the closing and reopening markers of a line
break and the markers found in the cell) back to the piece:
`buildTableRows` returns, the rows it returns for the source row, in the
place of that row, are the row of first lines, passed through `fillCells`,
followed by the synthetic rows, and the content is rewritten over lines whose undecorated texts are segments
of at most `W` code points each that concatenate to the original undecorated
content; line 0 is in a plain cell at the column of the cell in the row of
first lines and line `n + 1` in a plain cell at that column in the `n`-th
synthetic row. -/
theorem buildTableRows_wraps_long_cell (t : TableRender) (data : TableData)
    (hspan : ∀ row ∈ data.rows, ∀ column ∈ row.GetColumns, column.cell.rowspan ≤ 1)
    (row : TableRow) (hrow : row ∈ data.rows) (c : Int) (column : TableColumn)
    (hcol : row.GetColumn c = some column) (hk : column.cell.colspan = 1)
    (hW : 0 < t.GetColumnMaxWidth c)
    (hlong : t.GetColumnMaxWidth c < ((t.formatter.strip column.cell.value).length : Int))
    (hraw : '\n' ∉ t.formatter.strip column.cell.value)
    (htags : ∀ tag ∈ t.formatter.findTags column.cell.value, '\n' ∉ tag.2)
    (hweave : ∀ piece out, piece <:+: t.formatter.strip column.cell.value →
      Woven (lineMarks t.formatter column.cell.value) piece out →
      t.formatter.strip out = piece) :
    (∃ (data' : TableData) (before after : List TableRow),
        data.rows = before ++ row :: after
          ∧ t.buildTableRows data
            = .ok (data', { rows := (before.map (TableRender.expandRow t)).flatten
                ++ TableRender.expandRow t row
                ++ (after.map (TableRender.expandRow t)).flatten }))
      ∧ ∃ (first : TableRow) (synth : List TableRow) (segments lines : List Str),
          TableRender.expandRow t row = TableRender.fillCells first :: synth
            ∧ segments.flatten = t.formatter.strip column.cell.value
            ∧ (∀ x ∈ segments, (x.length : Int) ≤ t.GetColumnMaxWidth c)
            ∧ lines.map t.formatter.strip = segments
            ∧ first.GetColumn c
                = (lines.get? 0).map (fun line => NewTableColumn (NewTableCell line))
            ∧ ∀ n : Nat, (synth.get? n).bind (fun synthRow => synthRow.GetColumn c)
                = (lines.get? (n + 1)).map (fun line => NewTableColumn (NewTableCell line)) := by
  obtain ⟨segments, hflat, hlen, htwo, hlines, hnl⟩ :=
    wrapCell_lines t column.cell c hk hW hlong hraw htags hweave
  obtain ⟨hcount, hcols⟩ := furtherLines_spec t row
  have hcell : ∀ line, TableRender.lineCell column.cell line = NewTableCell line := by
    intro line
    unfold TableRender.lineCell
    rw [hk]
    split <;> rfl
  have hll : (TableRender.cellLines (TableRender.wrapCell t column.cell c).value).length
      = segments.length := by
    rw [← hlines, List.length_map]
  obtain ⟨before, after, hsplit⟩ := List.append_of_mem hrow
  have hflatten : (data.rows.map (TableRender.expandRow t)).flatten
      = (before.map (TableRender.expandRow t)).flatten ++ TableRender.expandRow t row
          ++ (after.map (TableRender.expandRow t)).flatten := by
    rw [hsplit]
    simp
  refine ⟨⟨{ rows := data.rows.map (TableRender.firstLines t) }, before, after, hsplit, by
      rw [buildTableRows_eq_expand t data hspan, hflatten]⟩,
    TableRender.firstLines t row,
    (TableRender.furtherLines t row).map
      (fun (entry : Int × List (Int × TableCell)) => TableRender.syntheticRow entry.2),
    segments, TableRender.cellLines (TableRender.wrapCell t column.cell c).value,
    rfl, hflat, hlen, hlines, ?_, ?_⟩
  · rw [firstLines_getColumn, hcol]
    simp only [Option.map_some']
    unfold TableRender.firstCell
    simp only [hnl, if_true]
    rw [lineCell_wrapCell, hcell]
    cases hl : TableRender.cellLines (TableRender.wrapCell t column.cell c).value with
    | nil => rw [hl] at hll; simp at hll; omega
    | cons l0 rest => rfl
  · intro n
    rw [List.get?_eq_getElem?, List.getElem?_map]
    cases hentry : (TableRender.furtherLines t row)[n]? with
    | none =>
        simp only [Option.map_none', Option.bind_none]
        have hn : (TableRender.furtherLines t row).length ≤ n := by
          by_contra hc
          rw [List.getElem?_eq_getElem (by omega)] at hentry
          cases hentry
        have hle := lineCount_ge t row c column hcol
        rw [← cellLines_length] at hle
        rw [List.get?_eq_none.mpr (by omega)]
        rfl
    | some entry =>
        simp only [Option.map_some']
        show (TableRender.syntheticRow entry.2).GetColumn c = _
        rw [hcols n entry (by rw [List.get?_eq_getElem?]; exact hentry) c]
        unfold TableRender.lineColumn
        rw [hcol]
        show (if '\n' ∈ (TableRender.wrapCell t column.cell c).value then
            Option.map (fun line => NewTableColumn (TableRender.lineCell column.cell line))
              ((TableRender.cellLines (TableRender.wrapCell t column.cell c).value).get? (n + 1))
          else none) = _
        simp only [hnl, if_true, hcell]

theorem stripMarkers_no_open : ∀ (s : Str) (inside : Bool), '<' ∉ stripMarkers s inside
  | [], _ => by simp [stripMarkers]
  | c :: rest, true => by
      unfold stripMarkers
      split
      · exact stripMarkers_no_open rest false
      · exact stripMarkers_no_open rest true
  | c :: rest, false => by
      unfold stripMarkers
      split
      · exact stripMarkers_no_open rest true
      · rename_i hc
        simp only [List.mem_cons, not_or]
        exact ⟨fun h => hc h.symm, stripMarkers_no_open rest false⟩

theorem stripMarkers_close (out : Str) :
    stripMarkers (closeMarkup ++ out) false = stripMarkers out false := by
  simp [closeMarkup, stripMarkers]

theorem stripMarkers_reopen (out : Str) :
    stripMarkers (reopenMarkup ++ out) false = stripMarkers out false := by
  simp [reopenMarkup, stripMarkers]

theorem stripMarkers_woven {piece out : Str}
    (h : Woven (fun m => m = closeMarkup ∨ m = reopenMarkup) piece out) (hp : '<' ∉ piece) :
    stripMarkers out false = piece := by
  induction h with
  | nil => rfl
  | char c _ ih =>
      simp only [List.mem_cons, not_or] at hp
      have hc : ¬ c = '<' := fun h => hp.1 h.symm
      simp only [stripMarkers, hc, if_false]
      rw [ih hp.2]
  | mark m hm _ ih =>
      rcases hm with rfl | rfl
      · rw [stripMarkers_close]; exact ih hp
      · rw [stripMarkers_reopen]; exact ih hp

/-- The marker-stripping text service strips a piece of undecorated text with
line-break markers woven in back to the piece. -/
theorem markerFormatter_weave (value : Str) :
    ∀ piece out, piece <:+: markerFormatter.strip value →
      Woven (lineMarks markerFormatter value) piece out → markerFormatter.strip out = piece := by
  intro piece out hpart hw
  have hp : '<' ∉ piece := by
    intro h
    exact stripMarkers_no_open value false (hpart.subset h)
  have hmarks : lineMarks markerFormatter value = (fun m => m = closeMarkup ∨ m = reopenMarkup) := by
    funext m
    simp [lineMarks, markerFormatter]
  rw [hmarks] at hw
  exact stripMarkers_woven hw hp

/-- Witness of C7 (amended): the cell `abcdefgh` in a column of maximum width
3, with the marker-stripping text service, is rewritten over the three lines
`abc<fg=default;bg=default>`, `</>def<fg=default;bg=default>` and `</>gh`,
whose undecorated texts `abc`, `def` and `gh` have at most 3 code points. -/
theorem buildTableRows_wraps_long_cell_witness :
    (∃ data', markerWrappingRender.buildTableRows { rows := [rowOf ["abcdefgh".toList]] }
        = .ok (data', { rows := [rowOf ["abc<fg=default;bg=default>".toList],
            rowOf ["</>def<fg=default;bg=default>".toList], rowOf ["</>gh".toList]] }))
      ∧ ∃ segments lines : List Str,
          segments.flatten = "abcdefgh".toList
            ∧ (∀ x ∈ segments, (x.length : Int) ≤ 3)
            ∧ lines.map markerFormatter.strip = segments :=
  have h := buildTableRows_wraps_long_cell markerWrappingRender
    { rows := [rowOf ["abcdefgh".toList]] } (by decide) (rowOf ["abcdefgh".toList])
    (List.mem_singleton_self _) 0 (NewTableColumn (NewTableCell "abcdefgh".toList)) rfl rfl
    (by decide) (by decide) (by decide) (by simp [markerWrappingRender, markerFormatter])
    (markerFormatter_weave _)
  ⟨⟨_, rfl⟩, by
    obtain ⟨_, first, synth, segments, lines, _, h1, h2, h3, _, _⟩ := h
    exact ⟨segments, lines, h1, h2, h3⟩⟩

/-- C7 as stated fails in three ways. (1) A cell of rowspan 2 with a line
break elsewhere in the table makes `buildTableRows` fail, so the long cell
`abcdefgh` is not rewritten at all. (2) The undecorated content `ab\ncdef`,
under maximum width 3, is rewritten over the lines `ab`, the empty line,
`cde` and `f`, whose undecorated texts concatenate to `abcdef`, not to the
original. (3) With a text service that strips nothing, the cell `abcdefgh`
is rewritten over three lines of which the first,
`abc<fg=default;bg=default>`, has 26 undecorated code points, more than the
maximum width 3. -/
theorem buildTableRows_wrap_counterexample :
    (markerWrappingRender.buildTableRows
        { rows := [rowOf ["abcdefgh".toList],
            { columns := [some (NewTableColumn { NewTableCell "x\ny".toList with rowspan := 2 })] }] }
        = .error Fault.panic)
      ∧ (∃ data', markerWrappingRender.buildTableRows { rows := [rowOf ["ab\ncdef".toList]] }
            = .ok (data', { rows := [rowOf ["ab<fg=default;bg=default>".toList],
                rowOf ["</><fg=default;bg=default>".toList],
                rowOf ["</>cde<fg=default;bg=default>".toList], rowOf ["</>f".toList]] })
          ∧ markerFormatter.strip "ab\ncdef".toList = "ab\ncdef".toList
          ∧ (["ab<fg=default;bg=default>".toList, "</><fg=default;bg=default>".toList,
                "</>cde<fg=default;bg=default>".toList, "</>f".toList].map
              markerFormatter.strip).flatten = "abcdef".toList)
      ∧ (∃ data', (wrappingRender [(0, 3)]).buildTableRows { rows := [rowOf ["abcdefgh".toList]] }
            = .ok (data', { rows := [rowOf ["abc<fg=default;bg=default>".toList],
                rowOf ["</>def<fg=default;bg=default>".toList], rowOf ["</>gh".toList]] })
          ∧ (wrappingRender [(0, 3)]).GetColumnMaxWidth 0 = 3
          ∧ ((wrappingRender [(0, 3)]).formatter.strip "abc<fg=default;bg=default>".toList).length
              = 26) :=
  ⟨rfl, ⟨_, rfl, by decide, by decide⟩, ⟨_, rfl, by decide, by decide⟩⟩

end GoConsole
